import Mathlib

/-!
Buffer manager, storage manager and record layout of `assign3`

A shallow embedding of `src/storage_mgr.c` and `src/buffer_mgr.c`, and of the
functions of `src/record_mgr.c` that lay the attributes out in a record, with
the properties proved about them.

Modelling conventions.

* C `int` values are modelled as `Int`; the frame-array indices `head`,
  `tail`, `num_entries`, `max_entries` (never negative in the program) are
  `Nat`.  Sums and differences are exact.  The two products that reach
  `2 ^ 31` for page numbers from 524288 on, the byte offset
  `pageNum * PAGE_SIZE` of `readBlock` and `writeBlock` and the buffer size
  `pages_needed * PAGE_SIZE` of `ensureCapacity`, are computed in 32-bit
  two's complement arithmetic (`wrap32`, `blockOffset`).
* The functions that work on the open file (`readBlock`, `writeBlock`,
  `ensureCapacity`, ...) are embedded on `Storage`: the page counters of the
  file-scope variable `File_Handle` and the pages of the file the stream is
  open on.  `createPageFile`, `openPageFile` and `initStorageManager`, which
  deal with file names, are embedded on `StorageManager`, which holds the
  files by name.  The out-parameter `fHandle` appears where the effect of a
  function on it is stated.
* The page file of the pool exists and is a sequence of pages; positioning
  the stream at the byte offset `i * PAGE_SIZE` and transferring `PAGE_SIZE`
  bytes is the access to element `i` of that sequence (`pageAt`).  Library
  calls succeed whenever their arguments are valid (`fopen`, `fseek` to a
  non-negative offset, `fwrite`, `malloc`); `fseek` to a negative offset
  fails, and so does `calloc` of a negative `int` size.
* A page buffer pointer is `Option Page`; `none` is the `NULL` pointer.  Every
  buffer handed to a frame is freshly allocated by `pinPage` and never freed,
  so two frames never share a buffer and buffers are modelled by their
  contents.
* The field `num_hit` of `Page_Frame` is assigned from an uninitialised local
  and never read by any function; it is left out.
* Output written with `printf` is not modelled.
* Of the record manager only the layout arithmetic is embedded
  (`getRecordSize`, `get_attribute_offset`, the lengths that `getAttr` and
  `setAttr` access, the size that `createRecord` allocates); the sizes of
  `int`, `float` and `bool` are parameters (`TypeSizes`).
-/

namespace Assign3

/-! ## Constants and types of the missing headers -/

/-- Modelled from the spec: `PAGE_SIZE` is declared in a header that is not
part of the sources; section 6 of the specification gives the reference
constant 4096. -/
def PAGE_SIZE : Nat := 4096

/-- The bytes of one page buffer. -/
abbrev Page := List Nat

/-- A zero-filled page buffer, as produced by `calloc`. -/
def zeroPage : Page := List.replicate PAGE_SIZE 0

/-- Pointer to a page buffer (`char *`); `none` is `NULL`. -/
abbrev SM_PageHandle := Option Page

/-- Return codes used by the two managers. -/
inductive RC where
  | RC_OK
  | RC_FILE_NOT_FOUND
  | RC_READ_NON_EXISTING_PAGE
  | RC_SEEK_FAIL
  | RC_PAGE_NOT_FOUND
deriving DecidableEq, Repr

/-- Replacement strategies; only `RS_FIFO` and `RS_LRU` are named by the
sources, every other value of the enumeration is `RS_OTHER`. -/
inductive ReplacementStrategy where
  | RS_FIFO
  | RS_LRU
  | RS_OTHER
deriving DecidableEq, Repr

/-! ## Storage manager -/

/-- The fields of `SM_FileHandle` that the functions read or write
(`fileName` and the stream `mgmtInfo` carry no information in this model). -/
structure SM_FileHandle where
  totalNumPages : Int
  curPagePos : Int
deriving DecidableEq, Repr

/-- State of the storage manager as seen by one buffer pool: the file-scope
variable `File_Handle`, the pages of the pool's page file on disk, and two
ghost counters recording how many times `readBlock` and `writeBlock` were
called. -/
structure Storage where
  File_Handle : SM_FileHandle
  file : List Page
  nReadBlock : Nat
  nWriteBlock : Nat
deriving DecidableEq, Repr

/-! ## Byte offsets in 32-bit arithmetic -/

/-- Largest value of a C `int` (32 bits). -/
def INT_MAX : Int := 2147483647

/-- Value of an integer as a 32-bit two's complement `int`. -/
def wrap32 (x : Int) : Int := (x + 2147483648) % 4294967296 - 2147483648

/-- The computation `int offset = pageNum * PAGE_SIZE` of `readBlock` and
`writeBlock` (storage_mgr.c 143, 340), carried out in 32-bit `int`
arithmetic. -/
def blockOffset (pageNum : Int) : Int := wrap32 (pageNum * (PAGE_SIZE : Int))

/-- Index of the page at which the stream stands after `fseek` moved it to
the byte `offset`, a non-negative multiple of `PAGE_SIZE`. -/
def pageAt (offset : Int) : Nat := (offset / (PAGE_SIZE : Int)).toNat

/-- The page of the file that `readBlock` and `writeBlock` reach when they
are called for `pageNum` and their seek succeeds. -/
def pageIndex (pageNum : Int) : Nat := pageAt (blockOffset pageNum)

/-- Number of page numbers whose byte offset is exact in 32-bit arithmetic:
`pageNum * PAGE_SIZE ≤ INT_MAX` exactly when `pageNum < 524288`. -/
def EXACT_PAGES : Int := 524288

/-- What `fwrite` appends in `ensureCapacity` from the buffer that
`calloc (buffer_size, 1)` returned (storage_mgr.c 458-461): `buffer_size`
zero bytes, that is `buffer_size / PAGE_SIZE` pages.  A negative
`buffer_size` converts to a `size_t` that no allocation satisfies: `calloc`
returns `NULL` and nothing is written. -/
def appendedPages (buffer_size : Int) : List Page :=
  if buffer_size < 0 then [] else List.replicate (pageAt buffer_size) zeroPage

/-- Effect of `fwrite` of one page at page index `i`: overwrite the page, or,
past the end of the file, extend the file (the gap reads as zeroes). -/
def writeAt (file : List Page) (i : Nat) (d : Page) : List Page :=
  if i < file.length then file.set i d
  else file ++ List.replicate (i - file.length) zeroPage ++ [d]

/-- Embedding of `ensureCapacity` (storage_mgr.c 430-477).  The product
`buffer_size = pages_needed * PAGE_SIZE` is a 32-bit `int`
(storage_mgr.c 455); `totalNumPages` is raised by `pages_needed` whatever
was written. -/
def ensureCapacity (numberOfPages : Int) (s : Storage) : RC × Storage :=
  if numberOfPages ≤ s.File_Handle.totalNumPages then (RC.RC_OK, s)
  else
    let pages_needed := numberOfPages - s.File_Handle.totalNumPages
    let buffer_size := wrap32 (pages_needed * (PAGE_SIZE : Int))
    (RC.RC_OK,
      { s with
        file := s.file ++ appendedPages buffer_size
        File_Handle :=
          { s.File_Handle with
            totalNumPages := s.File_Handle.totalNumPages + pages_needed } })

/-- Embedding of `readBlock` (storage_mgr.c 140-177).  The byte offset is the
32-bit product `blockOffset pageNum`; `fseek` rejects a negative offset, and
`fread` delivers a whole page exactly when the file has a page at the
offset.  The third component is what was stored into `memPage`: the page on
success, nothing usable otherwise. -/
def readBlock (pageNum : Int) (s : Storage) : RC × Storage × SM_PageHandle :=
  let offset := blockOffset pageNum
  let s1 : Storage := { s with nReadBlock := s.nReadBlock + 1 }
  if pageNum + 1 > s1.File_Handle.totalNumPages ∨ pageNum < 0 then
    (RC.RC_READ_NON_EXISTING_PAGE, s1, none)
  else if offset < 0 then (RC.RC_SEEK_FAIL, s1, none)
  else
    match s1.file[pageAt offset]? with
    | some d =>
      (RC.RC_OK,
        { s1 with File_Handle := { s1.File_Handle with curPagePos := pageNum } },
        some d)
    | none => (RC.RC_READ_NON_EXISTING_PAGE, s1, none)

/-- Embedding of `writeBlock` (storage_mgr.c 337-363).  The byte offset is
the 32-bit product `blockOffset pageNum`; `fseek` rejects a negative offset.
Writing from a `NULL` buffer is undefined in C; the model leaves the file as
it is in that case. -/
def writeBlock (pageNum : Int) (s : Storage) (memPage : SM_PageHandle) :
    RC × Storage :=
  let offset := blockOffset pageNum
  let s1 : Storage := { s with nWriteBlock := s.nWriteBlock + 1 }
  if pageNum + 1 > s1.File_Handle.totalNumPages then (RC.RC_PAGE_NOT_FOUND, s1)
  else if offset < 0 then (RC.RC_SEEK_FAIL, s1)
  else
    match memPage with
    | some d => (RC.RC_OK, { s1 with file := writeAt s1.file (pageAt offset) d })
    | none => (RC.RC_OK, s1)

/-! ## Buffer manager: data -/

/-- Embedding of `struct Page_Frame` (buffer_mgr.c 10-16). -/
structure Page_Frame where
  page_num : Int
  page_dirty : Int
  fix_count : Int
  contents : SM_PageHandle
deriving DecidableEq, Repr

/-- The frame written by the loop of `initBufferPool`. -/
def emptyFrame : Page_Frame :=
  { page_num := -1, page_dirty := 0, fix_count := 0, contents := none }

/-- Embedding of `struct Queue` (buffer_mgr.c 18-21); the array `Page_Frame`
is a list. -/
structure Queue where
  Page_Frame : List Page_Frame
  head : Nat
  tail : Nat
  num_entries : Nat
  max_entries : Nat
  num_files_written : Int
  num_files_read : Int
deriving DecidableEq, Repr

/-- Array read `q->Page_Frame[i]`. -/
def Queue.frame (q : Queue) (i : Nat) : Assign3.Page_Frame :=
  q.Page_Frame.getD i emptyFrame

/-- Array write `q->Page_Frame[i] = f`. -/
def Queue.setFrame (q : Queue) (i : Nat) (f : Assign3.Page_Frame) : Queue :=
  { q with Page_Frame := q.Page_Frame.set i f }

/-- Embedding of `BM_BufferPool`. -/
structure BM_BufferPool where
  pageFile : String
  numPages : Nat
  strategy : ReplacementStrategy
  mgmtData : Queue
deriving DecidableEq, Repr

/-- Embedding of `BM_PageHandle`. -/
structure BM_PageHandle where
  pageNum : Int
  data : SM_PageHandle
deriving DecidableEq, Repr

/-! ## Buffer manager: operations -/

/-- Embedding of `initBufferPool` (buffer_mgr.c 33-66).  The two I/O counters
are zeroed inside the per-frame loop, so a pool of zero frames keeps whatever
the freshly allocated memory held: `stale_written`, `stale_read`. -/
def initBufferPool (pageFileName : String) (numPages : Nat)
    (strategy : ReplacementStrategy) (stale_written stale_read : Int) :
    BM_BufferPool :=
  { pageFile := pageFileName
    numPages := numPages
    strategy := strategy
    mgmtData :=
      { Page_Frame := List.replicate numPages emptyFrame
        head := 0
        tail := 0
        num_entries := 0
        max_entries := numPages
        num_files_written := if numPages = 0 then stale_written else 0
        num_files_read := if numPages = 0 then stale_read else 0 } }

/-- Embedding of `queue_empty` (buffer_mgr.c 69-71). -/
def queue_empty (q : Queue) : Bool := q.num_entries == 0

/-- Embedding of `dequeue` (buffer_mgr.c 74-104). -/
def dequeue (q : Queue) (s : Storage) : Bool × Queue × Storage :=
  if queue_empty q then (false, q, s)
  else if (q.frame q.head).page_num ≠ -1 ∧ (q.frame q.head).fix_count = 0 then
    let s1 := (writeBlock (q.frame q.head).page_num s (q.frame q.head).contents).2
    let q1 := q.setFrame q.head { q.frame q.head with page_dirty := 0 }
    (true,
      { q1 with
        head := (q.head + 1) % q.max_entries
        num_entries := q.num_entries - 1 },
      s1)
  else
    (false,
      { q with
        tail := (q.tail + 1) % q.max_entries
        head := (q.head + 1) % q.max_entries },
      s)

/-- Embedding of `enqueue` (buffer_mgr.c 107-118). -/
def enqueue (q : Queue) (_pageNum : Int) (new_frame : Page_Frame) : Bool × Queue :=
  let q1 := q.setFrame q.tail new_frame
  let q2 := q1.setFrame q.tail
    { q1.frame q.tail with fix_count := (q1.frame q.tail).fix_count + 1 }
  (true,
    { q2 with
      num_entries := q.num_entries + 1
      tail := (q.tail + 1) % q.max_entries })

/-- Outcome of the `for` loop shared by `FIFO` and `LRU`
(buffer_mgr.c 163-191, 277-297): the first index whose frame either holds
`pageNum` or is empty. -/
def scanFrames (q : Queue) (pageNum : Int) : Option Nat :=
  (List.range q.max_entries).find?
    (fun i => (q.frame i).page_num = pageNum ∨ (q.frame i).page_num = -1)

/-- The `while` loop of `FIFO` (buffer_mgr.c 193-205).  The first argument is
the number of failed `dequeue` calls after which the loop still continues,
`max_entries + 1 - dequeue_attempts`: a failure with `dequeue_attempts >
max_entries` leaves the function with `false`. -/
def FIFO_evict : Nat → Queue → Storage → Bool × Queue × Storage
  | 0, q, s => dequeue q s
  | n + 1, q, s =>
    match dequeue q s with
    | (true, q1, s1) => (true, q1, s1)
    | (false, q1, s1) => FIFO_evict n q1 s1

/-- The part of `FIFO` and `LRU` that runs the `for` loop on a hit or an
empty frame at index `i` (buffer_mgr.c 165-190, 279-296). -/
def scanStep (q : Queue) (page : BM_PageHandle) (pageNum : Int)
    (new_frame : Page_Frame) (i : Nat) : Queue × BM_PageHandle :=
  if (q.frame i).page_num = pageNum then
    (q.setFrame i { q.frame i with fix_count := (q.frame i).fix_count + 1 },
      { page with data := (q.frame i).contents })
  else
    ({ (enqueue q pageNum new_frame).2 with
        num_files_read := q.num_files_read + 1 },
      page)

/-- Embedding of `FIFO` (buffer_mgr.c 127-231). -/
def FIFO (bm : BM_BufferPool) (s : Storage) (page : BM_PageHandle)
    (pageNum : Int) : Bool × BM_BufferPool × Storage × BM_PageHandle :=
  let q := bm.mgmtData
  let pages_needed := pageNum + 1
  let s1 := (ensureCapacity pages_needed s).2
  let r := readBlock pageNum s1
  if r.1 = RC.RC_OK then
    let new_frame : Page_Frame :=
      { page_num := pageNum, contents := r.2.2, fix_count := 0, page_dirty := 0 }
    let page1 : BM_PageHandle := { data := new_frame.contents, pageNum := pageNum }
    match scanFrames q pageNum with
    | some i =>
      let r1 := scanStep q page1 pageNum new_frame i
      (true, { bm with mgmtData := r1.1 }, r.2.1, r1.2)
    | none =>
      let d := FIFO_evict (q.max_entries + 1) q r.2.1
      if d.1 then
        let e := enqueue d.2.1 pageNum new_frame
        if e.1 then
          (true,
            { bm with
              mgmtData :=
                { e.2 with num_files_read := e.2.num_files_read + 1 } },
            d.2.2, page1)
        else (false, { bm with mgmtData := e.2 }, d.2.2, page1)
      else (false, { bm with mgmtData := d.2.1 }, d.2.2, page1)
  else (false, bm, r.2.1, page)

/-- Embedding of `LRU` (buffer_mgr.c 240-302).  When the `for` loop ends
without a hit or an empty frame, control reaches the end of the function
without a `return`: the result is `none`. -/
def LRU (bm : BM_BufferPool) (s : Storage) (page : BM_PageHandle)
    (pageNum : Int) : Option Bool × BM_BufferPool × Storage × BM_PageHandle :=
  let q := bm.mgmtData
  let pages_needed := pageNum + 1
  let s1 := (ensureCapacity pages_needed s).2
  let r := readBlock pageNum s1
  if r.1 = RC.RC_OK then
    let new_frame : Page_Frame :=
      { page_num := pageNum, contents := r.2.2, fix_count := 0, page_dirty := 0 }
    let page1 : BM_PageHandle := { data := new_frame.contents, pageNum := pageNum }
    match scanFrames q pageNum with
    | some i =>
      let r1 := scanStep q page1 pageNum new_frame i
      (some true, { bm with mgmtData := r1.1 }, r.2.1, r1.2)
    | none => (none, bm, r.2.1, page1)
  else (some false, bm, r.2.1, page)

/-- Embedding of `pinPage` (buffer_mgr.c 456-488).  The return code is `none`
when `LRU` handed back no value to test. -/
def pinPage (bm : BM_BufferPool) (s : Storage) (page : BM_PageHandle)
    (pageNum : Int) : Option RC × BM_BufferPool × Storage × BM_PageHandle :=
  if bm.strategy = ReplacementStrategy.RS_FIFO then
    let r := FIFO bm s page pageNum
    if r.1 then (some RC.RC_OK, r.2) else (some RC.RC_FILE_NOT_FOUND, r.2)
  else if bm.strategy = ReplacementStrategy.RS_LRU then
    let r := LRU bm s page pageNum
    match r.1 with
    | some true => (some RC.RC_OK, r.2)
    | some false => (some RC.RC_FILE_NOT_FOUND, r.2)
    | none => (none, r.2)
  else (some RC.RC_FILE_NOT_FOUND, bm, s, page)

/-- Embedding of `unpinPage` (buffer_mgr.c 393-409). -/
def unpinPage (bm : BM_BufferPool) (page : BM_PageHandle) : RC × BM_BufferPool :=
  let q := (List.range bm.mgmtData.max_entries).foldl
    (fun (q : Queue) i =>
      if (q.frame i).fix_count > 0 ∧ (q.frame i).page_num = page.pageNum then
        q.setFrame i { q.frame i with fix_count := (q.frame i).fix_count - 1 }
      else q)
    bm.mgmtData
  (RC.RC_OK, { bm with mgmtData := q })

/-- Embedding of `markDirty` (buffer_mgr.c 367-385). -/
def markDirty (bm : BM_BufferPool) (page : BM_PageHandle) : RC × BM_BufferPool :=
  let q := bm.mgmtData
  match (List.range q.max_entries).find?
      (fun i => (q.frame i).page_num ≠ -1 ∧ (q.frame i).page_num = page.pageNum) with
  | some i =>
    (RC.RC_OK, { bm with mgmtData := q.setFrame i { q.frame i with page_dirty := 1 } })
  | none => (RC.RC_OK, bm)

/-- Embedding of `forcePage` (buffer_mgr.c 417-447). -/
def forcePage (bm : BM_BufferPool) (s : Storage) (page : BM_PageHandle) :
    RC × BM_BufferPool × Storage :=
  let q := bm.mgmtData
  match (List.range q.max_entries).find?
      (fun i => (q.frame i).page_num = page.pageNum) with
  | some i =>
    let s1 := (writeBlock (q.frame i).page_num s (q.frame i).contents).2
    let q1 := q.setFrame i { q.frame i with page_dirty := 0 }
    (RC.RC_OK,
      { bm with
        mgmtData := { q1 with num_files_written := q1.num_files_written + 1 } },
      s1)
  | none => (RC.RC_FILE_NOT_FOUND, bm, s)

/-- Embedding of `forceFlushPool` (buffer_mgr.c 338-359). -/
def forceFlushPool (bm : BM_BufferPool) (s : Storage) :
    RC × BM_BufferPool × Storage :=
  let r := (List.range bm.mgmtData.max_entries).foldl
    (fun (qs : Queue × Storage) i =>
      if (qs.1.frame i).page_dirty ≠ 0 then
        let q1 := qs.1.setFrame i { qs.1.frame i with page_dirty := 0 }
        let s1 := (writeBlock (q1.frame i).page_num qs.2 (q1.frame i).contents).2
        ({ q1 with num_files_written := q1.num_files_written + 1 }, s1)
      else qs)
    (bm.mgmtData, s)
  (RC.RC_OK, { bm with mgmtData := r.1 }, r.2)

/-- Embedding of `shutdownBufferPool` (buffer_mgr.c 309-331).  The second
component is the value of `bm->mgmtData` after the call: the flushed queue
when the function returns early, `none` (the `NULL` pointer) after `free`.
The other fields of `bm` are not written. -/
def shutdownBufferPool (bm : BM_BufferPool) (s : Storage) :
    RC × Option Queue × Storage :=
  let r := forceFlushPool bm s
  let q := r.2.1.mgmtData
  if (List.range q.max_entries).any (fun i => decide ((q.frame i).fix_count > 0)) then
    (RC.RC_PAGE_NOT_FOUND, some q, r.2.2)
  else (RC.RC_OK, none, r.2.2)

/-- Embedding of `getNumReadIO` (buffer_mgr.c 572-575). -/
def getNumReadIO (bm : BM_BufferPool) : Int := bm.mgmtData.num_files_read

/-- Embedding of `getNumWriteIO` (buffer_mgr.c 582-585). -/
def getNumWriteIO (bm : BM_BufferPool) : Int := bm.mgmtData.num_files_written

/-! ## Executions of a pool -/

/-- A buffer pool together with the storage manager it runs on. -/
structure PoolState where
  bm : BM_BufferPool
  sm : Storage
deriving DecidableEq, Repr

/-- A client storing the bytes `b` through the `data` pointer of a page handle
it obtained for page `pageNum`: the buffer is the one of the frame that holds
`pageNum`; a pointer whose frame was reloaded since points to a buffer no
frame owns any more, and the store has no effect on the pool. -/
def storePage (bm : BM_BufferPool) (pageNum : Int) (b : Page) : BM_BufferPool :=
  let q := bm.mgmtData
  match (List.range q.max_entries).find?
      (fun i => (q.frame i).page_num = pageNum ∧ (q.frame i).contents.isSome) with
  | some i => { bm with mgmtData := q.setFrame i { q.frame i with contents := some b } }
  | none => bm

/-- The calls a client can make on a pool; handles are given by their page
number, the only field the callee reads. -/
inductive Op where
  | pin (pageNum : Int)
  | unpin (pageNum : Int)
  | dirty (pageNum : Int)
  | force (pageNum : Int)
  | flush
  | store (pageNum : Int) (b : Page)
deriving DecidableEq, Repr

/-- One call. -/
def step (st : PoolState) : Op → PoolState
  | Op.pin p =>
    let r := pinPage st.bm st.sm { pageNum := p, data := none } p
    { bm := r.2.1, sm := r.2.2.1 }
  | Op.unpin p =>
    { st with bm := (unpinPage st.bm { pageNum := p, data := none }).2 }
  | Op.dirty p =>
    { st with bm := (markDirty st.bm { pageNum := p, data := none }).2 }
  | Op.force p =>
    let r := forcePage st.bm st.sm { pageNum := p, data := none }
    { bm := r.2.1, sm := r.2.2 }
  | Op.flush =>
    let r := forceFlushPool st.bm st.sm
    { bm := r.2.1, sm := r.2.2 }
  | Op.store p b => { st with bm := storePage st.bm p b }

/-- A sequence of calls, in order. -/
def run (st : PoolState) (ops : List Op) : PoolState := ops.foldl step st

/-- Each page of the list pinned and then unpinned, in order. -/
def pinUnpinAll : List Int → List Op
  | [] => []
  | p :: ps => Op.pin p :: Op.unpin p :: pinUnpinAll ps

/-- The pages `0, 1, ..., n - 1`. -/
def firstPages (n : Nat) : List Int := (List.range n).map Int.ofNat

/-- Number (counted from `t + 1`) of the last call of `ops` during which the
page number of frame `i` changed, that is, the call that last loaded frame
`i`; `0` when no call did. -/
def loadTime (st : PoolState) : List Op → Nat → Nat → Nat
  | [], _, _ => 0
  | op :: ops, t, i =>
    if loadTime (step st op) ops (t + 1) i ≠ 0 then loadTime (step st op) ops (t + 1) i
    else if ((step st op).bm.mgmtData.frame i).page_num ≠ (st.bm.mgmtData.frame i).page_num
      then t + 1
    else 0

/-- A history of a three-frame FIFO pool: page 0 stays pinned while page 3
is loaded over page 1, then pages 0 and 3 are unpinned. -/
def skipHistory : List Op :=
  [Op.pin 0, Op.pin 1, Op.unpin 1, Op.pin 2, Op.unpin 2, Op.pin 3, Op.unpin 0, Op.unpin 3]

/-- The state right after `initBufferPool` on a storage manager in state
`s0`. -/
def initState (pageFileName : String) (numPages : Nat) (strategy : ReplacementStrategy)
    (stale_written stale_read : Int) (s0 : Storage) : PoolState :=
  { bm := initBufferPool pageFileName numPages strategy stale_written stale_read
    sm := s0 }

/-- The storage manager right after `createPageFile`: one zero-filled page
on disk and `File_Handle` describing it (storage_mgr.c 29-60). -/
def freshStorage : Storage :=
  { File_Handle := { totalNumPages := 1, curPagePos := 0 }
    file := [zeroPage]
    nReadBlock := 0
    nWriteBlock := 0 }

/-! ## Concrete pools used in examples -/

/-- A FIFO pool of one frame on a freshly created page file. -/
def fifo1 : PoolState :=
  initState "pool.bin" 1 ReplacementStrategy.RS_FIFO 0 0 freshStorage

/-- A FIFO pool of two frames on a freshly created page file. -/
def fifo2 : PoolState :=
  initState "pool.bin" 2 ReplacementStrategy.RS_FIFO 0 0 freshStorage

/-- A FIFO pool of three frames on a freshly created page file. -/
def fifo3 : PoolState :=
  initState "pool.bin" 3 ReplacementStrategy.RS_FIFO 0 0 freshStorage

/-- An LRU pool of two frames on a freshly created page file. -/
def lru2 : PoolState :=
  initState "pool.bin" 2 ReplacementStrategy.RS_LRU 0 0 freshStorage

/-- A page filled with the byte 7. -/
def sevens : Page := List.replicate PAGE_SIZE 7

/-- Return code of the `readBlock` call that `FIFO` and `LRU` make after
`ensureCapacity (pageNum + 1)`. -/
abbrev preludeRC (p : Int) (s : Storage) : RC :=
  (readBlock p (ensureCapacity (p + 1) s).2).1

/-- The storage manager after `ensureCapacity (pageNum + 1)` and
`readBlock pageNum`. -/
abbrev preludeStorage (p : Int) (s : Storage) : Storage :=
  (readBlock p (ensureCapacity (p + 1) s).2).2.1

/-- The bytes `readBlock pageNum` stored into the new buffer. -/
abbrev preludeData (p : Int) (s : Storage) : SM_PageHandle :=
  (readBlock p (ensureCapacity (p + 1) s).2).2.2

/-! ## The invariant of reachable states -/

/-- Invariant of a pool and its storage manager: the first `k` frames are
occupied by pairwise different pages that `readBlock` can read (the page
number is in range, its 32-bit byte offset is not negative and the file has a
page at that offset), the remaining frames are as `initBufferPool` left them,
and the queue indices follow the number of occupied frames. -/
structure Inv (q : Queue) (s : Storage) (k : Nat) : Prop where
  len : q.Page_Frame.length = q.max_entries
  hk : k ≤ q.max_entries
  emp : ∀ i, k ≤ i → q.frame i = emptyFrame
  part : k < q.max_entries → q.head = 0 ∧ q.tail = k ∧ q.num_entries = k
  full : k = q.max_entries → q.head = q.tail ∧ q.num_entries = k ∧ (0 < k → q.head < k)
  nodup : ∀ i j, i < k → j < k → (q.frame i).page_num = (q.frame j).page_num → i = j
  fix : ∀ i, i < k → 0 ≤ (q.frame i).fix_count
  sto : ∀ i, i < k → 0 ≤ (q.frame i).page_num ∧
    (q.frame i).page_num + 1 ≤ s.File_Handle.totalNumPages ∧
    (0 ≤ blockOffset (q.frame i).page_num ∧
      pageIndex (q.frame i).page_num < s.file.length) ∧
    (q.frame i).contents.isSome = true

/-- A FIFO pool of `N` frames whose first `j` frames hold the pages
`0, ..., j - 1`, all unpinned, with the queue head at frame 0 and a page
count that the file backs. -/
structure Filled (N j : Nat) (st : PoolState) : Prop where
  inv : Inv st.bm.mgmtData st.sm j
  head0 : st.bm.mgmtData.head = 0
  pages : ∀ i, i < j → (st.bm.mgmtData.frame i).page_num = (i : Int) ∧
    (st.bm.mgmtData.frame i).fix_count = 0
  coh : st.sm.File_Handle.totalNumPages ≤ st.sm.file.length
  low : (j : Int) ≤ st.sm.File_Handle.totalNumPages
  strat : st.bm.strategy = ReplacementStrategy.RS_FIFO
  max : st.bm.mgmtData.max_entries = N

/-- Page `p` and every page a frame holds lie below page 524288, where byte
offsets are exact in 32-bit arithmetic. -/
def SmallPages (p : Int) (st : PoolState) : Prop :=
  p < 524288 ∧ ∀ i, (st.bm.mgmtData.frame i).page_num < 524288

/-- Page `p` carries the bytes `b` in a FIFO pool whose pages all have exact
byte offsets: a frame holds `p` with contents `b`, or no frame holds `p`,
page `p` of the file is `b`, and a frame is free or unpinned. -/
def Kept (p : Int) (b : Page) (st : PoolState) : Prop :=
  ∃ k, Inv st.bm.mgmtData st.sm k ∧ st.bm.strategy = ReplacementStrategy.RS_FIFO ∧ 0 ≤ p ∧
    SmallPages p st ∧
    ((∃ i, i < k ∧ (st.bm.mgmtData.frame i).page_num = p ∧
        (st.bm.mgmtData.frame i).contents = some b) ∨
     ((∀ i, i < k → (st.bm.mgmtData.frame i).page_num ≠ p) ∧
        st.sm.file[p.toNat]? = some b ∧
        (k < st.bm.mgmtData.max_entries ∨
          ∃ j, j < k ∧ (st.bm.mgmtData.frame j).fix_count = 0)))

/-- The situation between `pinPage q` and the matching `unpinPage q`: as
`Kept`, but the frame that will be unpinned may still carry the one pin of
page `q`. -/
def KeptMid (p : Int) (b : Page) (q : Int) (st : PoolState) : Prop :=
  ∃ k, Inv st.bm.mgmtData st.sm k ∧ st.bm.strategy = ReplacementStrategy.RS_FIFO ∧ 0 ≤ p ∧
    SmallPages p st ∧
    ((∃ i, i < k ∧ (st.bm.mgmtData.frame i).page_num = p ∧
        (st.bm.mgmtData.frame i).contents = some b) ∨
     ((∀ i, i < k → (st.bm.mgmtData.frame i).page_num ≠ p) ∧
        st.sm.file[p.toNat]? = some b ∧
        (k < st.bm.mgmtData.max_entries ∨
          ∃ j, j < k ∧ ((st.bm.mgmtData.frame j).fix_count = 0 ∨
            ((st.bm.mgmtData.frame j).fix_count = 1 ∧
              (st.bm.mgmtData.frame j).page_num = q)))))

/-- The call `pinPage p` in state `st` enters the eviction loop of `FIFO`
(the page was read, the frame scan found neither the page nor an empty
frame) and its first `dequeue` fails: the frame at `head` is pinned. -/
def firstDequeueFails (st : PoolState) (p : Int) : Prop :=
  preludeRC p st.sm = RC.RC_OK ∧ scanFrames st.bm.mgmtData p = none ∧
    (dequeue st.bm.mgmtData (preludeStorage p st.sm)).1 = false

instance (st : PoolState) (p : Int) : Decidable (firstDequeueFails st p) := by
  unfold firstDequeueFails
  exact inferInstance

/-- A history in which no `pinPage` call met a pinned frame at `head`. -/
def noFailedDequeue : PoolState → List Op → Prop
  | _, [] => True
  | st, Op.pin p :: ops => ¬ firstDequeueFails st p ∧ noFailedDequeue (step st (Op.pin p)) ops
  | st, op :: ops => noFailedDequeue (step st op) ops

/-- Whether a history is free of failed `dequeue` calls can be computed. -/
def decNoFailedDequeue : (st : PoolState) → (ops : List Op) →
    Decidable (noFailedDequeue st ops)
  | _, [] => isTrue trivial
  | st, Op.pin p :: ops =>
    @instDecidableAnd _ _ _ (decNoFailedDequeue (step st (Op.pin p)) ops)
  | st, Op.unpin p :: ops => decNoFailedDequeue (step st (Op.unpin p)) ops
  | st, Op.dirty p :: ops => decNoFailedDequeue (step st (Op.dirty p)) ops
  | st, Op.force p :: ops => decNoFailedDequeue (step st (Op.force p)) ops
  | st, Op.flush :: ops => decNoFailedDequeue (step st Op.flush) ops
  | st, Op.store p b :: ops => decNoFailedDequeue (step st (Op.store p b)) ops

instance (st : PoolState) (ops : List Op) : Decidable (noFailedDequeue st ops) :=
  decNoFailedDequeue st ops

/-- A history of a three-frame FIFO pool that keeps page 0 pinned and has
not yet evicted anything. -/
def pinnedHeadHistory : List Op :=
  [Op.pin 0, Op.pin 1, Op.unpin 1, Op.pin 2, Op.unpin 2]

/-- After the history `ops` of a FIFO pool the occupied frames, taken round
the array from `head`, were loaded in that order. -/
structure LoadOrder (st0 : PoolState) (ops : List Op) (k : Nat) : Prop where
  inv : Inv (run st0 ops).bm.mgmtData (run st0 ops).sm k
  strat : (run st0 ops).bm.strategy = ReplacementStrategy.RS_FIFO
  bound : ∀ i, loadTime st0 ops 0 i ≤ ops.length
  order : ∀ u v, u < v → v < k →
    loadTime st0 ops 0
        (((run st0 ops).bm.mgmtData.head + u) % (run st0 ops).bm.mgmtData.max_entries)
      < loadTime st0 ops 0
        (((run st0 ops).bm.mgmtData.head + v) % (run st0 ops).bm.mgmtData.max_entries)

/-- Number of frames of the array whose dirty flag is set. -/
def dirtyCount (q : Queue) : Nat :=
  (List.range q.max_entries).countP (fun i => decide ((q.frame i).page_dirty ≠ 0))

/-- The storage manager knows the size of the page file: `totalNumPages` of
`File_Handle` is the number of pages on disk. -/
def Coherent (s : Storage) : Prop := s.File_Handle.totalNumPages = (s.file.length : Int)

instance (s : Storage) : Decidable (Coherent s) := by
  unfold Coherent
  exact inferInstance

/-- A history that contains neither `pinPage p` nor `unpinPage p`. -/
def avoids (p : Int) (ops : List Op) : Prop :=
  ∀ op, op ∈ ops → op ≠ Op.pin p ∧ op ≠ Op.unpin p

instance (p : Int) (ops : List Op) : Decidable (avoids p ops) := by
  unfold avoids
  exact inferInstance

/-- One iteration of the loop of `forceFlushPool` (buffer_mgr.c 344-356). -/
def flushStep (qs : Queue × Storage) (i : Nat) : Queue × Storage :=
  if (qs.1.frame i).page_dirty ≠ 0 then
    let q1 := qs.1.setFrame i { qs.1.frame i with page_dirty := 0 }
    let s1 := (writeBlock (q1.frame i).page_num qs.2 (q1.frame i).contents).2
    ({ q1 with num_files_written := q1.num_files_written + 1 }, s1)
  else qs

/-- Number of dirty frames among the first `n` frames. -/
def dirtyBelow (q : Queue) (n : Nat) : Nat :=
  (List.range n).countP (fun i => decide ((q.frame i).page_dirty ≠ 0))

/-- The pair `r` is what the loop of `forceFlushPool` has made of the queue
`q` and the storage manager `s` after its first `n` iterations. -/
structure Flushed (q : Queue) (s : Storage) (n : Nat) (r : Queue × Storage) : Prop where
  frame : ∀ j, r.1.frame j = if j < n then { q.frame j with page_dirty := 0 } else q.frame j
  head : r.1.head = q.head
  tail : r.1.tail = q.tail
  num_entries : r.1.num_entries = q.num_entries
  max_entries : r.1.max_entries = q.max_entries
  num_files_read : r.1.num_files_read = q.num_files_read
  len : r.1.Page_Frame.length = q.Page_Frame.length
  num_files_written : r.1.num_files_written = q.num_files_written + (dirtyBelow q n : Int)
  handle : r.2.File_Handle = s.File_Handle
  flen : r.2.file.length = s.file.length
  nRead : r.2.nReadBlock = s.nReadBlock
  nWrite : r.2.nWriteBlock = s.nWriteBlock + dirtyBelow q n
  written : ∀ j, j < n → (q.frame j).page_dirty ≠ 0 →
    (∀ j', j < j' → j' < n → (q.frame j').page_dirty ≠ 0 →
      pageIndex (q.frame j').page_num ≠ pageIndex (q.frame j).page_num) →
    r.2.file[pageIndex (q.frame j).page_num]? = (q.frame j).contents
  others : ∀ x : Nat,
    (∀ j, j < n → (q.frame j).page_dirty ≠ 0 → pageIndex (q.frame j).page_num ≠ x) →
    r.2.file[x]? = s.file[x]?


/-! ## Storage manager: the remaining block functions -/

/-- Embedding of `getBlockPos` (storage_mgr.c 185-187). -/
def getBlockPos (s : Storage) : Int := s.File_Handle.curPagePos

/-- What `readBlock` leaves in the caller's handle `*fHandle`
(storage_mgr.c 163): the position is copied there on success, nothing is
written otherwise. -/
def readBlock_fHandle (pageNum : Int) (fHandle : SM_FileHandle) (s : Storage) :
    SM_FileHandle :=
  if (readBlock pageNum s).1 = RC.RC_OK then
    { fHandle with curPagePos := (readBlock pageNum s).2.1.File_Handle.curPagePos }
  else fHandle

/-- Embedding of `readFirstBlock` (storage_mgr.c 195-222): the stream is
positioned at offset 0 and one page is read; no field of `File_Handle` is
written. -/
def readFirstBlock (s : Storage) : RC × Storage × SM_PageHandle :=
  match s.file[0]? with
  | some d => (RC.RC_OK, s, some d)
  | none => (RC.RC_READ_NON_EXISTING_PAGE, s, none)

/-- Embedding of `readPreviousBlock` (storage_mgr.c 231-244). -/
def readPreviousBlock (s : Storage) : RC × Storage × SM_PageHandle :=
  let pageNum := s.File_Handle.curPagePos - 1
  if pageNum > s.File_Handle.totalNumPages ∨ pageNum < 0 then
    (RC.RC_READ_NON_EXISTING_PAGE, s, none)
  else readBlock pageNum s

/-- Embedding of `readCurrentBlock` (storage_mgr.c 252-266). -/
def readCurrentBlock (s : Storage) : RC × Storage × SM_PageHandle :=
  let pageNum := s.File_Handle.curPagePos
  if pageNum > s.File_Handle.totalNumPages ∨ pageNum < 0 then
    (RC.RC_READ_NON_EXISTING_PAGE, s, none)
  else readBlock pageNum s

/-- Embedding of `readNextBlock` (storage_mgr.c 275-288). -/
def readNextBlock (s : Storage) : RC × Storage × SM_PageHandle :=
  let pageNum := s.File_Handle.curPagePos + 1
  if pageNum > s.File_Handle.totalNumPages ∨ pageNum < 0 then
    (RC.RC_READ_NON_EXISTING_PAGE, s, none)
  else readBlock pageNum s

/-- Embedding of `readLastBlock` (storage_mgr.c 296-324): the stream is
positioned one page before the end of the file, which fails for a file
shorter than a page, and one page is read; no field of `File_Handle` is
written. -/
def readLastBlock (s : Storage) : RC × Storage × SM_PageHandle :=
  if s.file.length = 0 then (RC.RC_SEEK_FAIL, s, none)
  else
    match s.file[s.file.length - 1]? with
    | some d => (RC.RC_OK, s, some d)
    | none => (RC.RC_READ_NON_EXISTING_PAGE, s, none)

/-- Embedding of `writeCurrentBlock` (storage_mgr.c 371-379). -/
def writeCurrentBlock (s : Storage) (memPage : SM_PageHandle) : RC × Storage :=
  let pageNum := s.File_Handle.curPagePos
  writeBlock pageNum s memPage

/-- Embedding of `appendEmptyBlock` (storage_mgr.c 387-418); the third
component is the caller's handle `*fHandle` after the call. -/
def appendEmptyBlock (fHandle : SM_FileHandle) (s : Storage) :
    RC × Storage × SM_FileHandle :=
  let s1 : Storage :=
    { s with
      file := s.file ++ [zeroPage]
      File_Handle :=
        { s.File_Handle with totalNumPages := s.File_Handle.totalNumPages + 1 } }
  (RC.RC_OK, s1, { fHandle with totalNumPages := s1.File_Handle.totalNumPages })

/-- The reading of `readFirstBlock` in the specification: `readBlock` at
position 0. -/
def readFirstBlock_spec (s : Storage) : RC × Storage × SM_PageHandle := readBlock 0 s

/-- The reading of `readLastBlock` in the specification: `readBlock` at
position `totalNumPages - 1`. -/
def readLastBlock_spec (s : Storage) : RC × Storage × SM_PageHandle :=
  readBlock (s.File_Handle.totalNumPages - 1) s

/-- A page filled with the byte 9. -/
def nines : Page := List.replicate PAGE_SIZE 9

/-- A page file of 1048577 pages whose size the storage manager knows: page 0
is filled with 7, every other page with zeroes. -/
def wideFile : Storage :=
  { File_Handle := { totalNumPages := 1048577, curPagePos := 0 }
    file := sevens :: List.replicate 1048576 zeroPage
    nReadBlock := 0
    nWriteBlock := 0 }

/-- A page file of three pages, the first filled with 7, the last with 9,
with the current position at page 1: the storage manager after
`createPageFile`, `ensureCapacity 3`, `writeBlock 0`, `writeBlock 2` and
`readBlock 1`. -/
def threePages : Storage :=
  (readBlock 1
    (writeBlock 2 (writeBlock 0 (ensureCapacity 3 freshStorage).2 (some sevens)).2
      (some nines)).2).2.1

/-! ## Storage manager: files by name -/

/-- A `FILE *` value: `NULL`, a stream that `fopen` opened on the named file,
or a stream that was passed to `fclose`. -/
inductive FilePtr where
  | null
  | opened (name : String)
  | closed (name : String)
deriving DecidableEq, Repr

/-- All four fields of an `SM_FileHandle`: the name, the two page counters
and the stream. -/
structure SM_FileHandle_All where
  fileName : String
  counts : SM_FileHandle
  mgmtInfo : FilePtr
deriving DecidableEq, Repr

/-- The storage manager together with the file system: the file-scope
variable `File_Handle`, the files on disk with their pages, and the names
that `fopen` cannot open for writing. -/
structure StorageManager where
  File_Handle : SM_FileHandle_All
  disk : List (String × List Page)
  locked : List String
deriving DecidableEq, Repr

/-- The pages of the file called `name`, if there is such a file. -/
def getFile (disk : List (String × List Page)) (name : String) : Option (List Page) :=
  (disk.find? (fun e => e.1 = name)).map (fun e => e.2)

/-- The disk after the file called `name` was given the pages `pages`. -/
def putFile (disk : List (String × List Page)) (name : String) (pages : List Page) :
    List (String × List Page) :=
  (name, pages) :: disk.filter (fun e => e.1 ≠ name)

/-- Embedding of `initStorageManager` (storage_mgr.c 14-22). -/
def initStorageManager (m : StorageManager) : StorageManager :=
  { m with
    File_Handle :=
      { fileName := ""
        counts := { totalNumPages := 0, curPagePos := 0 }
        mgmtInfo := FilePtr.null } }

/-- Embedding of `createPageFile` (storage_mgr.c 29-60).  `fopen` with mode
`"wb"` fails for a locked name and otherwise leaves an empty file, to which
one zero-filled page is written. -/
def createPageFile (fileName : String) (m : StorageManager) : RC × StorageManager :=
  if fileName ∈ m.locked then
    (RC.RC_FILE_NOT_FOUND,
      { m with File_Handle := { m.File_Handle with mgmtInfo := FilePtr.null } })
  else
    (RC.RC_OK,
      { m with
        disk := putFile m.disk fileName [zeroPage]
        File_Handle :=
          { fileName := fileName
            counts := { totalNumPages := 1, curPagePos := 0 }
            mgmtInfo := FilePtr.closed fileName } })

/-- Embedding of `openPageFile` (storage_mgr.c 68-89).  `fopen` with mode
`"rb+"` succeeds for an existing file whose name is not locked.  The third
component is the caller's handle `*fHandle` after the call. -/
def openPageFile (fileName : String) (fHandle : SM_FileHandle_All) (m : StorageManager) :
    RC × StorageManager × SM_FileHandle_All :=
  if fileName ∉ m.locked ∧ (getFile m.disk fileName).isSome then
    let m1 : StorageManager :=
      { m with File_Handle := { m.File_Handle with mgmtInfo := FilePtr.opened fileName } }
    (RC.RC_OK, m1,
      { fileName := m1.File_Handle.fileName
        counts :=
          { totalNumPages := m1.File_Handle.counts.totalNumPages
            curPagePos := m1.File_Handle.counts.curPagePos }
        mgmtInfo := m1.File_Handle.mgmtInfo })
  else
    (RC.RC_FILE_NOT_FOUND,
      { m with File_Handle := { m.File_Handle with mgmtInfo := FilePtr.null } }, fHandle)

/-- The storage manager as one buffer pool on the file `name` sees it, with
the two call counters at zero. -/
def poolView (m : StorageManager) (name : String) : Storage :=
  { File_Handle := m.File_Handle.counts
    file := (getFile m.disk name).getD []
    nReadBlock := 0
    nWriteBlock := 0 }

/-- A storage manager before any call, on a disk that holds one file of
three pages. -/
def oldDisk : StorageManager :=
  { File_Handle :=
      { fileName := ""
        counts := { totalNumPages := 0, curPagePos := 0 }
        mgmtInfo := FilePtr.null }
    disk := [("old.bin", [sevens, zeroPage, nines])]
    locked := ["/"] }

/-- A caller's handle that was never written. -/
def blankHandle : SM_FileHandle_All :=
  { fileName := ""
    counts := { totalNumPages := 0, curPagePos := 0 }
    mgmtInfo := FilePtr.null }

/-! ## Record manager: layout of the attributes in a record -/

/-- The values of `DataType` that `record_mgr.c` names; every other value of
the enumeration is `DT_OTHER`. -/
inductive DataType where
  | DT_INT
  | DT_STRING
  | DT_FLOAT
  | DT_BOOL
  | DT_OTHER
deriving DecidableEq, Repr

/-- The fields of `Schema` that the layout functions read; the arrays
`dataTypes` and `typeLength` are lists. -/
structure Schema where
  numAttr : Int
  dataTypes : List DataType
  typeLength : List Int
deriving DecidableEq, Repr

/-- Array read `schema->dataTypes[i]`. -/
def Schema.dataType (schema : Schema) (i : Nat) : DataType :=
  schema.dataTypes.getD i DataType.DT_OTHER

/-- Array read `schema->typeLength[i]`. -/
def Schema.length (schema : Schema) (i : Nat) : Int :=
  schema.typeLength.getD i 0

/-- The values of `sizeof(int)`, `sizeof(float)` and `sizeof(bool)` on the
platform; `bool` is declared in a header that is not part of the sources. -/
structure TypeSizes where
  sizeof_int : Nat
  sizeof_float : Nat
  sizeof_bool : Nat
deriving DecidableEq, Repr

/-- Embedding of `getRecordSize` (record_mgr.c 611-639). -/
def getRecordSize (z : TypeSizes) (schema : Schema) : Int :=
  (List.range schema.numAttr.toNat).foldl
    (fun (record_size : Int) i =>
      if schema.dataType i = DataType.DT_INT then record_size + z.sizeof_int
      else if schema.dataType i = DataType.DT_FLOAT then record_size + z.sizeof_float
      else if schema.dataType i = DataType.DT_BOOL then record_size + z.sizeof_bool
      else if schema.dataType i = DataType.DT_STRING then record_size + schema.length i
      else record_size)
    0

/-- Embedding of `get_attribute_offset` (record_mgr.c 746-779); `none` is
the return of `RC_GET_ATTR_ERROR` from inside the loop. -/
def get_attribute_offset (z : TypeSizes) (schema : Schema) (attrNum : Int) : Option Int :=
  (List.range attrNum.toNat).foldl
    (fun (acc : Option Int) i =>
      match acc with
      | none => none
      | some attr_offset =>
        if schema.dataType i = DataType.DT_STRING then some (attr_offset + schema.length i)
        else if schema.dataType i = DataType.DT_INT then some (attr_offset + z.sizeof_int)
        else if schema.dataType i = DataType.DT_FLOAT then some (attr_offset + z.sizeof_float)
        else if schema.dataType i = DataType.DT_BOOL then some (attr_offset + z.sizeof_bool)
        else none)
    (some 1)

/-- Number of bytes that `getAttr` reads and `setAttr` writes at
`record->data + offset` for attribute `attrNum` (record_mgr.c 804-847,
877-907); `none` is the error return. -/
def attrAccessLength (z : TypeSizes) (schema : Schema) (attrNum : Nat) : Option Int :=
  if schema.dataType attrNum = DataType.DT_STRING then some (schema.length attrNum)
  else if schema.dataType attrNum = DataType.DT_INT then some (z.sizeof_int : Int)
  else if schema.dataType attrNum = DataType.DT_FLOAT then some (z.sizeof_float : Int)
  else if schema.dataType attrNum = DataType.DT_BOOL then some (z.sizeof_bool : Int)
  else none

/-- Number of bytes that `createRecord` allocates for `record->data`
(record_mgr.c 703, 711). -/
def createRecord_dataSize (z : TypeSizes) (schema : Schema) : Int := getRecordSize z schema

/-- Number of bytes attribute `i` takes in both `getRecordSize` and
`get_attribute_offset`, for the four named types. -/
def attrBytes (z : TypeSizes) (schema : Schema) (i : Nat) : Int :=
  match schema.dataType i with
  | DataType.DT_INT => z.sizeof_int
  | DataType.DT_FLOAT => z.sizeof_float
  | DataType.DT_BOOL => z.sizeof_bool
  | DataType.DT_STRING => schema.length i
  | DataType.DT_OTHER => 0

/-- A schema whose arrays have `numAttr` entries, all of a named type, with
non-negative lengths. -/
structure Schema.WellFormed (schema : Schema) : Prop where
  count : 0 ≤ schema.numAttr
  types : schema.dataTypes.length = schema.numAttr.toNat
  lengths : schema.typeLength.length = schema.numAttr.toNat
  named : ∀ i, i < schema.numAttr.toNat → schema.dataType i ≠ DataType.DT_OTHER
  nonneg : ∀ i, i < schema.numAttr.toNat → 0 ≤ schema.length i

/-- Type sizes of a common platform: four-byte `int` and `float`, one-byte
`bool`. -/
def commonSizes : TypeSizes := { sizeof_int := 4, sizeof_float := 4, sizeof_bool := 1 }

/-- A schema with one integer attribute. -/
def oneInt : Schema :=
  { numAttr := 1, dataTypes := [DataType.DT_INT], typeLength := [0] }

/-- A schema with an integer, a string of four bytes and a boolean. -/
def intStringBool : Schema :=
  { numAttr := 3
    dataTypes := [DataType.DT_INT, DataType.DT_STRING, DataType.DT_BOOL]
    typeLength := [0, 4, 0] }

/-- Number of bytes the attributes before attribute `n` take. -/
def prefixBytes (z : TypeSizes) (schema : Schema) (n : Nat) : Int :=
  ((List.range n).map (attrBytes z schema)).sum

/-! ## Frame array lemmas -/

theorem frame_setFrame (q : Queue) (i j : Nat) (f : Page_Frame) :
    (q.setFrame i f).frame j = if i = j ∧ i < q.Page_Frame.length then f else q.frame j := by
  unfold Queue.frame Queue.setFrame
  simp only [List.getD_eq_getElem?_getD, List.getElem?_set]
  by_cases h : i = j
  · subst h
    by_cases h2 : i < q.Page_Frame.length
    · simp [h2]
    · simp [h2]
      rw [List.getElem?_eq_none (by omega)]
      rfl
  · simp [h]

theorem frame_setFrame_self (q : Queue) (i : Nat) (f : Page_Frame)
    (h : i < q.Page_Frame.length) : (q.setFrame i f).frame i = f := by
  simp [frame_setFrame, h]

theorem frame_setFrame_ne (q : Queue) (i j : Nat) (f : Page_Frame) (h : i ≠ j) :
    (q.setFrame i f).frame j = q.frame j := by
  simp [frame_setFrame, h]

theorem frame_of_le (q : Queue) (i : Nat) (h : q.Page_Frame.length ≤ i) :
    q.frame i = emptyFrame := by
  unfold Queue.frame
  rw [List.getD_eq_getElem?_getD, List.getElem?_eq_none h]
  rfl

theorem setFrame_frame_self (q : Queue) (i : Nat) : q.setFrame i (q.frame i) = q := by
  unfold Queue.setFrame Queue.frame
  have : q.Page_Frame.set i (q.Page_Frame.getD i emptyFrame) = q.Page_Frame := by
    by_cases h : i < q.Page_Frame.length
    · rw [List.getD_eq_getElem?_getD, List.getElem?_eq_getElem h]
      simp only [Option.getD_some]
      apply List.ext_getElem (by simp)
      intro n h1 h2
      by_cases hn : i = n
      · subst hn; simp
      · simp [List.getElem_set, hn]
    · rw [List.set_eq_of_length_le (by omega)]
  rw [this]

@[simp] theorem setFrame_head (q : Queue) (i : Nat) (f : Page_Frame) :
    (q.setFrame i f).head = q.head := rfl
@[simp] theorem setFrame_tail (q : Queue) (i : Nat) (f : Page_Frame) :
    (q.setFrame i f).tail = q.tail := rfl
@[simp] theorem setFrame_num_entries (q : Queue) (i : Nat) (f : Page_Frame) :
    (q.setFrame i f).num_entries = q.num_entries := rfl
@[simp] theorem setFrame_max_entries (q : Queue) (i : Nat) (f : Page_Frame) :
    (q.setFrame i f).max_entries = q.max_entries := rfl
@[simp] theorem setFrame_num_files_written (q : Queue) (i : Nat) (f : Page_Frame) :
    (q.setFrame i f).num_files_written = q.num_files_written := rfl
@[simp] theorem setFrame_num_files_read (q : Queue) (i : Nat) (f : Page_Frame) :
    (q.setFrame i f).num_files_read = q.num_files_read := rfl
@[simp] theorem setFrame_length (q : Queue) (i : Nat) (f : Page_Frame) :
    (q.setFrame i f).Page_Frame.length = q.Page_Frame.length := by
  simp [Queue.setFrame]

/-! ## The invariant of reachable states -/

theorem Inv.storage_mono {q : Queue} {s s' : Storage} {k : Nat} (h : Inv q s k)
    (hT : s.File_Handle.totalNumPages ≤ s'.File_Handle.totalNumPages)
    (hL : s.file.length ≤ s'.file.length) : Inv q s' k :=
  { h with
    sto := fun i hi => by
      obtain ⟨a, b, ⟨c1, c2⟩, d⟩ := h.sto i hi
      exact ⟨a, by omega, ⟨c1, by omega⟩, d⟩ }

theorem Inv.congr {q q' : Queue} {s : Storage} {k : Nat} (h : Inv q s k)
    (h1 : q'.Page_Frame = q.Page_Frame) (h2 : q'.head = q.head) (h3 : q'.tail = q.tail)
    (h4 : q'.num_entries = q.num_entries) (h5 : q'.max_entries = q.max_entries) :
    Inv q' s k := by
  have hf : ∀ i, q'.frame i = q.frame i := fun i => by simp [Queue.frame, h1]
  constructor
  · rw [h1, h5]; exact h.len
  · rw [h5]; exact h.hk
  · intro i hi; rw [hf]; exact h.emp i hi
  · rw [h5, h2, h3, h4]; exact h.part
  · rw [h5, h2, h3, h4]; exact h.full
  · intro i j hi hj; rw [hf, hf]; exact h.nodup i j hi hj
  · intro i hi; rw [hf]; exact h.fix i hi
  · intro i hi; rw [hf]; exact h.sto i hi

theorem Inv.occupied {q : Queue} {s : Storage} {k : Nat} (h : Inv q s k) (i : Nat) :
    (q.frame i).page_num ≠ -1 ↔ i < k := by
  constructor
  · intro hne
    by_contra hlt
    exact hne (by rw [h.emp i (by omega)]; rfl)
  · intro hi
    have := (h.sto i hi).1
    omega

/-- Replacing frame `i` by a frame for the same page keeps the invariant. -/
theorem Inv.setFrame_same {q : Queue} {s : Storage} {k : Nat} (h : Inv q s k)
    (i : Nat) (f : Page_Frame) (hi : i < k)
    (hp : f.page_num = (q.frame i).page_num) (hf : 0 ≤ f.fix_count)
    (hc : f.contents.isSome = true) : Inv (q.setFrame i f) s k := by
  have hlen : i < q.Page_Frame.length := by have := h.len; have := h.hk; omega
  have hfr : ∀ j, ((q.setFrame i f).frame j).page_num = (q.frame j).page_num := by
    intro j
    by_cases hij : i = j
    · subst hij; rw [frame_setFrame_self _ _ _ hlen, hp]
    · rw [frame_setFrame_ne _ _ _ _ hij]
  constructor
  · simpa using h.len
  · simpa using h.hk
  · intro j hj
    rw [frame_setFrame_ne _ _ _ _ (by omega)]; exact h.emp j hj
  · simpa using h.part
  · simpa using h.full
  · intro a b ha hb; rw [hfr, hfr]; exact h.nodup a b ha hb
  · intro j hj
    by_cases hij : i = j
    · subst hij; rw [frame_setFrame_self _ _ _ hlen]; exact hf
    · rw [frame_setFrame_ne _ _ _ _ hij]; exact h.fix j hj
  · intro j hj
    by_cases hij : i = j
    · subst hij
      rw [frame_setFrame_self _ _ _ hlen, hp]
      obtain ⟨a, b, c, _⟩ := h.sto i hj
      exact ⟨a, b, c, hc⟩
    · rw [frame_setFrame_ne _ _ _ _ hij]; exact h.sto j hj

theorem Inv.init (pageFileName : String) (numPages : Nat) (strategy : ReplacementStrategy)
    (w r : Int) (s : Storage) :
    Inv (initBufferPool pageFileName numPages strategy w r).mgmtData s 0 := by
  have hf : ∀ i, (initBufferPool pageFileName numPages strategy w r).mgmtData.frame i
      = emptyFrame := by
    intro i
    simp only [initBufferPool, Queue.frame, List.getD_eq_getElem?_getD,
      List.getElem?_replicate]
    split <;> rfl
  constructor
  · simp [initBufferPool]
  · simp
  · intro i _; exact hf i
  · intro _; simp [initBufferPool]
  · intro h; simp [initBufferPool] at h ⊢
  · intro i j hi; omega
  · intro i hi; omega
  · intro i hi; omega
/-! ## Storage manager lemmas -/

/-- Below page 524288 the 32-bit byte offset is the exact product, and the
page reached is the page asked for. -/
theorem pageIndex_small (p : Int) (h0 : 0 ≤ p) (h1 : p < 524288) :
    blockOffset p = p * 4096 ∧ 0 ≤ blockOffset p ∧ pageIndex p = p.toNat := by
  simp only [pageIndex, pageAt, blockOffset, wrap32, PAGE_SIZE, Nat.cast_ofNat]
  omega

theorem appendedPages_small (n : Int) (h0 : 0 ≤ n) (h1 : n < 524288) :
    appendedPages (wrap32 (n * (PAGE_SIZE : Int))) = List.replicate n.toNat zeroPage := by
  have h := pageIndex_small n h0 h1
  simp only [pageIndex, blockOffset] at h
  unfold appendedPages
  rw [if_neg (by omega), h.2.2]

theorem ensureCapacity_total (n : Int) (s : Storage) :
    (ensureCapacity n s).2.File_Handle.totalNumPages = max s.File_Handle.totalNumPages n := by
  unfold ensureCapacity
  split
  · simp; omega
  · simp; omega

theorem ensureCapacity_rc (n : Int) (s : Storage) : (ensureCapacity n s).1 = RC.RC_OK := by
  unfold ensureCapacity
  split <;> rfl

/-- The file after `ensureCapacity`: the pages it had, followed by what was
appended. -/
theorem ensureCapacity_file (n : Int) (s : Storage) :
    (ensureCapacity n s).2.file =
      s.file ++ (if n ≤ s.File_Handle.totalNumPages then []
        else appendedPages (wrap32 ((n - s.File_Handle.totalNumPages) * (PAGE_SIZE : Int)))) := by
  unfold ensureCapacity
  split
  · simp
  · rfl

/-- When fewer than 524288 pages are missing, exactly the missing pages are
appended, zero-filled. -/
theorem ensureCapacity_file_exact (n : Int) (s : Storage)
    (h : n - s.File_Handle.totalNumPages < 524288) :
    (ensureCapacity n s).2.file =
      s.file ++ List.replicate (n - s.File_Handle.totalNumPages).toNat zeroPage := by
  rw [ensureCapacity_file]
  split
  · have : (n - s.File_Handle.totalNumPages).toNat = 0 := by omega
    simp [this]
  · rw [appendedPages_small _ (by omega) h]

theorem ensureCapacity_length (n : Int) (s : Storage) :
    s.file.length ≤ (ensureCapacity n s).2.file.length := by
  rw [ensureCapacity_file]
  simp

theorem ensureCapacity_get (n : Int) (s : Storage) (x : Nat) (hx : x < s.file.length) :
    (ensureCapacity n s).2.file[x]? = s.file[x]? := by
  rw [ensureCapacity_file]
  exact List.getElem?_append_left hx

theorem ensureCapacity_counters (n : Int) (s : Storage) :
    (ensureCapacity n s).2.nReadBlock = s.nReadBlock ∧
    (ensureCapacity n s).2.nWriteBlock = s.nWriteBlock ∧
    (ensureCapacity n s).2.File_Handle.curPagePos = s.File_Handle.curPagePos := by
  unfold ensureCapacity
  split <;> simp

theorem readBlock_storage (p : Int) (s : Storage) :
    (readBlock p s).2.1.File_Handle.totalNumPages = s.File_Handle.totalNumPages ∧
    (readBlock p s).2.1.file = s.file ∧
    (readBlock p s).2.1.nReadBlock = s.nReadBlock + 1 ∧
    (readBlock p s).2.1.nWriteBlock = s.nWriteBlock := by
  unfold readBlock
  simp only
  split
  · simp
  · split
    · simp
    · split <;> simp

/-- `readBlock` returns `RC_OK` exactly when the page number is in range, the
32-bit byte offset is not negative and the file has a page at that offset. -/
theorem readBlock_ok_iff (p : Int) (s : Storage) :
    (readBlock p s).1 = RC.RC_OK ↔
      0 ≤ p ∧ p + 1 ≤ s.File_Handle.totalNumPages ∧ 0 ≤ blockOffset p ∧
        pageIndex p < s.file.length := by
  unfold readBlock
  simp only
  split
  · rename_i h
    simp only [false_iff, reduceCtorEq]
    omega
  · rename_i h
    split
    · rename_i h2
      simp only [false_iff, reduceCtorEq]
      omega
    · rename_i h2
      split
      · rename_i d hd
        have := (List.getElem?_eq_some_iff.mp hd).1
        simp only [true_iff]
        exact ⟨by omega, by omega, by omega, this⟩
      · rename_i hd
        have := List.getElem?_eq_none_iff.mp hd
        simp only [false_iff, reduceCtorEq]
        intro hc
        have := hc.2.2.2
        unfold pageIndex at this
        omega

theorem readBlock_data (p : Int) (s : Storage) (h : (readBlock p s).1 = RC.RC_OK) :
    (readBlock p s).2.2 = s.file[pageIndex p]? ∧ ((readBlock p s).2.2).isSome = true := by
  have hok := (readBlock_ok_iff p s).mp h
  have hlen : pageAt (blockOffset p) < s.file.length := hok.2.2.2
  unfold readBlock
  simp only
  split
  · omega
  · split
    · omega
    · split
      · rename_i d hd
        simp [hd, pageIndex]
      · rename_i hd
        have := List.getElem?_eq_none_iff.mp hd
        omega

theorem writeAt_length (file : List Page) (i : Nat) (d : Page) :
    file.length ≤ (writeAt file i d).length := by
  unfold writeAt
  split <;> simp

theorem writeBlock_storage (p : Int) (s : Storage) (m : SM_PageHandle) :
    (writeBlock p s m).2.File_Handle = s.File_Handle ∧
    s.file.length ≤ (writeBlock p s m).2.file.length ∧
    (writeBlock p s m).2.nReadBlock = s.nReadBlock ∧
    (writeBlock p s m).2.nWriteBlock = s.nWriteBlock + 1 := by
  unfold writeBlock
  simp only
  split
  · simp
  · split
    · simp
    · split
      · simp [writeAt_length]
      · simp

/-- A `writeBlock` whose seek succeeds replaces the page at the 32-bit
offset. -/
theorem writeBlock_file (p : Int) (s : Storage) (d : Page)
    (hT : p + 1 ≤ s.File_Handle.totalNumPages) (hO : 0 ≤ blockOffset p)
    (hL : pageIndex p < s.file.length) :
    (writeBlock p s (some d)).2.file = s.file.set (pageIndex p) d := by
  have hL2 : pageAt (blockOffset p) < s.file.length := hL
  unfold writeBlock
  simp only
  rw [if_neg (by omega), if_neg (by omega)]
  simp [writeAt, hL2, pageIndex]

theorem sevens_ne_zeroPage : sevens ≠ zeroPage := by
  intro h
  have e7 : sevens = 7 :: List.replicate 4095 7 := rfl
  have e0 : zeroPage = 0 :: List.replicate 4095 0 := rfl
  rw [e7, e0] at h
  exact absurd (List.cons.inj h).1 (by decide)


/-- `writeBlock` returns `RC_OK` when the page number passes the range check
and the 32-bit byte offset is not negative. -/
theorem writeBlock_ok (p : Int) (s : Storage) (m : SM_PageHandle)
    (hT : p + 1 ≤ s.File_Handle.totalNumPages) (hO : 0 ≤ blockOffset p) :
    (writeBlock p s m).1 = RC.RC_OK := by
  unfold writeBlock
  simp only
  rw [if_neg (by omega), if_neg (by omega)]
  split <;> rfl

/-- `writeBlock` fails at the seek when the page number passes the range
check and the 32-bit byte offset is negative. -/
theorem writeBlock_seek_fail (p : Int) (s : Storage) (m : SM_PageHandle)
    (hT : p + 1 ≤ s.File_Handle.totalNumPages) (hO : blockOffset p < 0) :
    (writeBlock p s m).1 = RC.RC_SEEK_FAIL ∧ (writeBlock p s m).2.file = s.file := by
  unfold writeBlock
  simp only
  rw [if_neg (by omega), if_pos hO]
  exact ⟨rfl, rfl⟩
/-! ## The frame scan -/

theorem scanFrames_hit {q : Queue} {s : Storage} {k : Nat} (h : Inv q s k) (p : Int)
    (i : Nat) (hi : i < k) (hp : (q.frame i).page_num = p) : scanFrames q p = some i := by
  unfold scanFrames
  rw [List.find?_range_eq_some]
  refine ⟨by simp [hp], by simp; have := h.hk; omega, ?_⟩
  intro j hj
  have hjk : j < k := by omega
  have h1 : (q.frame j).page_num ≠ p := by
    intro hj2
    have := h.nodup j i hjk hi (by rw [hj2, hp])
    omega
  have h2 : (q.frame j).page_num ≠ -1 := (h.occupied j).mpr hjk
  simp [h1, h2]

theorem scanFrames_empty {q : Queue} {s : Storage} {k : Nat} (h : Inv q s k) (p : Int)
    (hk : k < q.max_entries) (hp : ∀ i, i < k → (q.frame i).page_num ≠ p) :
    scanFrames q p = some k := by
  unfold scanFrames
  rw [List.find?_range_eq_some]
  refine ⟨?_, by simp; omega, ?_⟩
  · have : (q.frame k).page_num = -1 := by rw [h.emp k (le_refl k)]; rfl
    simp [this]
  · intro j hj
    have h2 : (q.frame j).page_num ≠ -1 := (h.occupied j).mpr hj
    simp [hp j hj, h2]

theorem scanFrames_none {q : Queue} {s : Storage} {k : Nat} (h : Inv q s k) (p : Int)
    (hk : k = q.max_entries) (hp : ∀ i, i < k → (q.frame i).page_num ≠ p) :
    scanFrames q p = none := by
  unfold scanFrames
  rw [List.find?_eq_none]
  intro j hj
  have hjk : j < k := by simp at hj; omega
  have h2 : (q.frame j).page_num ≠ -1 := (h.occupied j).mpr hjk
  simp [hp j hjk, h2]

/-! ## `enqueue` and `dequeue` -/

theorem enqueue_eq (q : Queue) (pn : Int) (nf : Page_Frame) (ht : q.tail < q.Page_Frame.length) :
    enqueue q pn nf =
      (true,
        { Page_Frame := q.Page_Frame.set q.tail { nf with fix_count := nf.fix_count + 1 }
          head := q.head
          tail := (q.tail + 1) % q.max_entries
          num_entries := q.num_entries + 1
          max_entries := q.max_entries
          num_files_written := q.num_files_written
          num_files_read := q.num_files_read }) := by
  unfold enqueue
  simp only [frame_setFrame_self _ _ _ ht]
  simp [Queue.setFrame]

theorem dequeue_victim {q : Queue} {s : Storage} {k : Nat} (h : Inv q s k)
    (hk : k = q.max_entries) (hN : 0 < k) (hf : (q.frame q.head).fix_count = 0) :
    dequeue q s =
      (true,
        { Page_Frame := q.Page_Frame.set q.head { q.frame q.head with page_dirty := 0 }
          head := (q.head + 1) % q.max_entries
          tail := q.head
          num_entries := k - 1
          max_entries := q.max_entries
          num_files_written := q.num_files_written
          num_files_read := q.num_files_read },
        (writeBlock (q.frame q.head).page_num s (q.frame q.head).contents).2) := by
  obtain ⟨h1, h2, h3⟩ := h.full hk
  have hocc : (q.frame q.head).page_num ≠ -1 := (h.occupied _).mpr (h3 hN)
  unfold dequeue queue_empty
  rw [if_neg (by simp; omega), if_pos ⟨hocc, hf⟩]
  simp [Queue.setFrame, h1, h2]

theorem dequeue_pinned {q : Queue} {s : Storage} {k : Nat} (h : Inv q s k)
    (hk : k = q.max_entries) (hN : 0 < k) (hf : (q.frame q.head).fix_count ≠ 0) :
    dequeue q s =
      (false,
        { q with
          tail := (q.head + 1) % q.max_entries
          head := (q.head + 1) % q.max_entries },
        s) := by
  obtain ⟨h1, h2, h3⟩ := h.full hk
  unfold dequeue queue_empty
  rw [if_neg (by simp; omega), if_neg (by simp [hf])]
  simp [h1]

theorem dequeue_no_frames {q : Queue} {s : Storage} {k : Nat} (h : Inv q s k)
    (hk : k = q.max_entries) (hN : k = 0) : dequeue q s = (false, q, s) := by
  obtain ⟨h1, h2, h3⟩ := h.full hk
  unfold dequeue queue_empty
  rw [if_pos (by simp; omega)]

/-- Moving `head` and `tail` together round a full pool keeps the invariant. -/
theorem Inv.rotate {q : Queue} {s : Storage} {k : Nat} (h : Inv q s k)
    (hk : k = q.max_entries) (hN : 0 < k) (m : Nat) :
    Inv { q with tail := m % q.max_entries, head := m % q.max_entries } s k := by
  have hf : ∀ i, ({ q with tail := m % q.max_entries, head := m % q.max_entries } : Queue).frame i
      = q.frame i := fun i => rfl
  obtain ⟨h1, h2, h3⟩ := h.full hk
  constructor
  · exact h.len
  · exact h.hk
  · intro i hi; rw [hf]; exact h.emp i hi
  · intro hlt; simp at hlt; omega
  · intro _
    refine ⟨rfl, h2, fun _ => ?_⟩
    simp only
    rw [← hk]
    exact Nat.mod_lt _ hN
  · intro i j hi hj; rw [hf, hf]; exact h.nodup i j hi hj
  · intro i hi; rw [hf]; exact h.fix i hi
  · intro i hi; rw [hf]; exact h.sto i hi

/-- Result of the eviction loop on a full pool with at least one frame:
either the first frame with `fix_count = 0`, going round from `head`, is
written back and taken out, or the first `n + 1` frames from `head` are all
pinned and only `head` and `tail` have moved. -/
theorem FIFO_evict_spec (n : Nat) : ∀ {q : Queue} {s : Storage} {k : Nat}, Inv q s k →
    k = q.max_entries → 0 < k →
    (∃ t, t ≤ n ∧ (∀ u, u < t → (q.frame ((q.head + u) % k)).fix_count ≠ 0) ∧
        (q.frame ((q.head + t) % k)).fix_count = 0 ∧
        FIFO_evict n q s =
          (true,
            { Page_Frame := q.Page_Frame.set ((q.head + t) % k)
                { q.frame ((q.head + t) % k) with page_dirty := 0 }
              head := ((q.head + t) % k + 1) % k
              tail := (q.head + t) % k
              num_entries := k - 1
              max_entries := q.max_entries
              num_files_written := q.num_files_written
              num_files_read := q.num_files_read },
            (writeBlock (q.frame ((q.head + t) % k)).page_num s
              (q.frame ((q.head + t) % k)).contents).2)) ∨
    ((∀ u, u ≤ n → (q.frame ((q.head + u) % k)).fix_count ≠ 0) ∧
      FIFO_evict n q s =
        (false,
          { q with tail := (q.head + n + 1) % k, head := (q.head + n + 1) % k }, s)) := by
  induction n with
  | zero =>
    intro q s k h hk hN
    subst hk
    have hh : q.head < q.max_entries := (h.full rfl).2.2 hN
    have hmod : (q.head + 0) % q.max_entries = q.head := by simp [Nat.mod_eq_of_lt hh]
    by_cases hf : (q.frame q.head).fix_count = 0
    · left
      refine ⟨0, le_refl 0, fun u hu => by omega, by rw [hmod]; exact hf, ?_⟩
      rw [hmod]
      simp only [FIFO_evict]
      rw [dequeue_victim h rfl hN hf]
    · right
      refine ⟨fun u hu => ?_, ?_⟩
      · have : u = 0 := by omega
        subst this; rw [hmod]; exact hf
      · simp only [FIFO_evict]
        rw [dequeue_pinned h rfl hN hf]
  | succ n ih =>
    intro q s k h hk hN
    subst hk
    have hh : q.head < q.max_entries := (h.full rfl).2.2 hN
    have hmod : (q.head + 0) % q.max_entries = q.head := by simp [Nat.mod_eq_of_lt hh]
    by_cases hf : (q.frame q.head).fix_count = 0
    · left
      refine ⟨0, Nat.zero_le _, fun u hu => by omega, by rw [hmod]; exact hf, ?_⟩
      rw [hmod]
      simp only [FIFO_evict]
      rw [dequeue_victim h rfl hN hf]
    · have hrot := h.rotate rfl hN (q.head + 1)
      have hshift : ∀ u, ((q.head + 1) % q.max_entries + u) % q.max_entries
          = (q.head + (u + 1)) % q.max_entries := by
        intro u
        rw [Nat.add_mod, Nat.mod_mod, ← Nat.add_mod]
        congr 1; omega
      simp only [FIFO_evict]
      rw [dequeue_pinned h rfl hN hf]
      simp only
      rcases ih hrot rfl hN with ⟨t, ht, hpin, hfree, heq⟩ | ⟨hpin, heq⟩
      · left
        simp only [Queue.frame, hshift] at hpin hfree heq ⊢
        refine ⟨t + 1, by omega, ?_, hfree, heq⟩
        intro u hu
        cases u with
        | zero => simpa [Queue.frame, Nat.mod_eq_of_lt hh] using hf
        | succ u => exact hpin u (by omega)
      · right
        simp only [Queue.frame, hshift] at hpin heq ⊢
        refine ⟨?_, ?_⟩
        · intro u hu
          cases u with
          | zero => simpa [Queue.frame, Nat.mod_eq_of_lt hh] using hf
          | succ u => exact hpin u (by omega)
        · rw [heq]
          have e : ((q.head + 1) % q.max_entries + n + 1) % q.max_entries
              = (q.head + (n + 1) + 1) % q.max_entries := by
            rw [Nat.add_assoc, hshift]
            congr 1
          rw [e]
/-! ## Loading a page keeps the invariant -/

theorem frame_mk_set (fr : List Page_Frame) (h t n m : Nat) (w r : Int) (i j : Nat)
    (f : Page_Frame) :
    (Queue.mk (fr.set i f) h t n m w r).frame j =
      if i = j ∧ i < fr.length then f else (Queue.mk fr h t n m w r).frame j :=
  frame_setFrame (Queue.mk fr h t n m w r) i j f

theorem frame_mk (q : Queue) (h t n m : Nat) (w r : Int) (j : Nat) :
    (Queue.mk q.Page_Frame h t n m w r).frame j = q.frame j := rfl

/-- Storing a new page in the first empty frame. -/
theorem Inv.load {q : Queue} {s : Storage} {k : Nat} (h : Inv q s k)
    (hk : k < q.max_entries) (f : Page_Frame) (hp : 0 ≤ f.page_num)
    (hT : f.page_num + 1 ≤ s.File_Handle.totalNumPages)
    (hL : 0 ≤ blockOffset f.page_num ∧ pageIndex f.page_num < s.file.length) (hc : f.contents.isSome = true)
    (hf : 0 ≤ f.fix_count) (hnew : ∀ i, i < k → (q.frame i).page_num ≠ f.page_num)
    (w r : Int) :
    Inv { Page_Frame := q.Page_Frame.set k f
          head := q.head
          tail := (k + 1) % q.max_entries
          num_entries := k + 1
          max_entries := q.max_entries
          num_files_written := w
          num_files_read := r } s (k + 1) := by
  have hlen : k < q.Page_Frame.length := by rw [h.len]; exact hk
  have hfr : ∀ j, (Queue.mk (q.Page_Frame.set k f) q.head ((k + 1) % q.max_entries) (k + 1)
      q.max_entries w r).frame j = if k = j then f else q.frame j := by
    intro j
    rw [frame_mk_set, frame_mk]
    simp [hlen]
  obtain ⟨h1, h2, h3⟩ := h.part hk
  constructor
  · simp [h.len]
  · show k + 1 ≤ q.max_entries
    omega
  · intro i hi
    rw [hfr, if_neg (by omega)]
    exact h.emp i (by omega)
  · intro hlt
    refine ⟨h1, ?_, rfl⟩
    exact Nat.mod_eq_of_lt hlt
  · intro heq
    have heq' : k + 1 = q.max_entries := heq
    refine ⟨?_, rfl, fun _ => ?_⟩
    · show q.head = (k + 1) % q.max_entries
      rw [heq', Nat.mod_self, h1]
    · show q.head < k + 1
      omega
  · intro a b ha hb hab
    rw [hfr, hfr] at hab
    by_cases hka : k = a
    · by_cases hkb : k = b
      · omega
      · rw [if_pos hka, if_neg hkb] at hab
        exact absurd hab.symm (hnew b (by omega))
    · by_cases hkb : k = b
      · rw [if_neg hka, if_pos hkb] at hab
        exact absurd hab (hnew a (by omega))
      · rw [if_neg hka, if_neg hkb] at hab
        exact h.nodup a b (by omega) (by omega) hab
  · intro i hi
    rw [hfr]
    split
    · exact hf
    · exact h.fix i (by omega)
  · intro i hi
    rw [hfr]
    split
    · exact ⟨hp, hT, hL, hc⟩
    · exact h.sto i (by omega)

/-- Storing a new page over frame `v` of a full pool. -/
theorem Inv.replace {q : Queue} {s : Storage} {k : Nat} (h : Inv q s k)
    (hk : k = q.max_entries) (v : Nat) (hv : v < k) (f : Page_Frame) (hp : 0 ≤ f.page_num)
    (hT : f.page_num + 1 ≤ s.File_Handle.totalNumPages)
    (hL : 0 ≤ blockOffset f.page_num ∧ pageIndex f.page_num < s.file.length) (hc : f.contents.isSome = true)
    (hf : 0 ≤ f.fix_count) (hnew : ∀ i, i < k → i ≠ v → (q.frame i).page_num ≠ f.page_num)
    (m : Nat) (hm : m < k) (w r : Int) :
    Inv { Page_Frame := q.Page_Frame.set v f
          head := m
          tail := m
          num_entries := k
          max_entries := q.max_entries
          num_files_written := w
          num_files_read := r } s k := by
  have hlen : v < q.Page_Frame.length := by rw [h.len]; omega
  have hfr : ∀ j, (Queue.mk (q.Page_Frame.set v f) m m k q.max_entries w r).frame j
      = if v = j then f else q.frame j := by
    intro j
    rw [frame_mk_set, frame_mk]
    simp [hlen]
  constructor
  · simp [h.len]
  · exact h.hk
  · intro i hi
    rw [hfr, if_neg (by omega)]
    exact h.emp i hi
  · intro hlt
    have : k < q.max_entries := hlt
    omega
  · intro _
    exact ⟨rfl, rfl, fun _ => hm⟩
  · intro a b ha hb hab
    rw [hfr, hfr] at hab
    by_cases hka : v = a
    · by_cases hkb : v = b
      · omega
      · rw [if_pos hka, if_neg hkb] at hab
        exact absurd hab.symm (hnew b hb (by omega))
    · by_cases hkb : v = b
      · rw [if_neg hka, if_pos hkb] at hab
        exact absurd hab (hnew a ha (by omega))
      · rw [if_neg hka, if_neg hkb] at hab
        exact h.nodup a b ha hb hab
  · intro i hi
    rw [hfr]
    split
    · exact hf
    · exact h.fix i hi
  · intro i hi
    rw [hfr]
    split
    · exact ⟨hp, hT, hL, hc⟩
    · exact h.sto i hi

/-! ## `FIFO`, `LRU` and `pinPage` case by case -/

theorem scanStep_hit (q : Queue) (page : BM_PageHandle) (p : Int) (nf : Page_Frame) (i : Nat)
    (hp : (q.frame i).page_num = p) :
    scanStep q page p nf i =
      (q.setFrame i { q.frame i with fix_count := (q.frame i).fix_count + 1 },
        { page with data := (q.frame i).contents }) := by
  unfold scanStep
  rw [if_pos hp]

theorem scanStep_empty (q : Queue) (page : BM_PageHandle) (p : Int) (nf : Page_Frame) (i : Nat)
    (hp : (q.frame i).page_num ≠ p) (ht : q.tail < q.Page_Frame.length) :
    scanStep q page p nf i =
      ({ Page_Frame := q.Page_Frame.set q.tail { nf with fix_count := nf.fix_count + 1 }
         head := q.head
         tail := (q.tail + 1) % q.max_entries
         num_entries := q.num_entries + 1
         max_entries := q.max_entries
         num_files_written := q.num_files_written
         num_files_read := q.num_files_read + 1 }, page) := by
  unfold scanStep
  rw [if_neg hp, enqueue_eq q p nf ht]

/-- The storage manager and the bytes read after the common prelude of `FIFO`
and `LRU`: `ensureCapacity (pageNum + 1)` followed by `readBlock pageNum`. -/
theorem prelude_facts (p : Int) (s : Storage)
    (hok : (readBlock p (ensureCapacity (p + 1) s).2).1 = RC.RC_OK) :
    0 ≤ p ∧
    p + 1 ≤ (readBlock p (ensureCapacity (p + 1) s).2).2.1.File_Handle.totalNumPages ∧
    (0 ≤ blockOffset p ∧
      pageIndex p < (readBlock p (ensureCapacity (p + 1) s).2).2.1.file.length) ∧
    ((readBlock p (ensureCapacity (p + 1) s).2).2.2).isSome = true ∧
    (readBlock p (ensureCapacity (p + 1) s).2).2.2
      = (readBlock p (ensureCapacity (p + 1) s).2).2.1.file[pageIndex p]? := by
  obtain ⟨a, b, c1, c2⟩ := (readBlock_ok_iff _ _).mp hok
  obtain ⟨d, e⟩ := readBlock_data _ _ hok
  obtain ⟨f, g, _, _⟩ := readBlock_storage p (ensureCapacity (p + 1) s).2
  refine ⟨a, by rw [f]; exact b, ⟨c1, by rw [g]; exact c2⟩, e, by rw [g]; exact d⟩

theorem prelude_mono (p : Int) (s : Storage) :
    s.File_Handle.totalNumPages
      ≤ (readBlock p (ensureCapacity (p + 1) s).2).2.1.File_Handle.totalNumPages ∧
    s.file.length ≤ (readBlock p (ensureCapacity (p + 1) s).2).2.1.file.length := by
  obtain ⟨f, g, _, _⟩ := readBlock_storage p (ensureCapacity (p + 1) s).2
  rw [f, g, ensureCapacity_total, ensureCapacity_file]
  constructor
  · exact le_max_left _ _
  · simp
theorem FIFO_fail (bm : BM_BufferPool) (s : Storage) (page : BM_PageHandle) (p : Int)
    (h : preludeRC p s ≠ RC.RC_OK) :
    FIFO bm s page p = (false, bm, preludeStorage p s, page) := by
  unfold FIFO
  simp only
  rw [if_neg h]

theorem FIFO_hit {bm : BM_BufferPool} {s : Storage} {k : Nat} (hinv : Inv bm.mgmtData s k)
    (page : BM_PageHandle) (p : Int) (hok : preludeRC p s = RC.RC_OK)
    (i : Nat) (hi : i < k) (hp : (bm.mgmtData.frame i).page_num = p) :
    FIFO bm s page p =
      (true,
        { bm with
          mgmtData := bm.mgmtData.setFrame i
            { bm.mgmtData.frame i with fix_count := (bm.mgmtData.frame i).fix_count + 1 } },
        preludeStorage p s,
        { pageNum := p, data := (bm.mgmtData.frame i).contents }) := by
  unfold FIFO
  simp only
  rw [if_pos hok, scanFrames_hit hinv p i hi hp]
  simp only
  rw [scanStep_hit _ _ _ _ _ hp]

theorem FIFO_load {bm : BM_BufferPool} {s : Storage} {k : Nat} (hinv : Inv bm.mgmtData s k)
    (page : BM_PageHandle) (p : Int) (hok : preludeRC p s = RC.RC_OK)
    (hk : k < bm.mgmtData.max_entries)
    (hnew : ∀ i, i < k → (bm.mgmtData.frame i).page_num ≠ p) :
    FIFO bm s page p =
      (true,
        { bm with
          mgmtData :=
            { Page_Frame := bm.mgmtData.Page_Frame.set k
                { page_num := p, page_dirty := 0, fix_count := 1, contents := preludeData p s }
              head := bm.mgmtData.head
              tail := (k + 1) % bm.mgmtData.max_entries
              num_entries := k + 1
              max_entries := bm.mgmtData.max_entries
              num_files_written := bm.mgmtData.num_files_written
              num_files_read := bm.mgmtData.num_files_read + 1 } },
        preludeStorage p s,
        { pageNum := p, data := preludeData p s }) := by
  obtain ⟨h1, h2, h3⟩ := hinv.part hk
  have h0 := (prelude_facts p s hok).1
  have hne : (bm.mgmtData.frame k).page_num ≠ p := by
    rw [hinv.emp k (le_refl k)]
    show (-1 : Int) ≠ p
    omega
  unfold FIFO
  simp only
  rw [if_pos hok, scanFrames_empty hinv p hk hnew]
  simp only
  rw [scanStep_empty _ _ _ _ _ hne (by rw [hinv.len, h2]; exact hk)]
  simp [h2, h3]

theorem list_set_set {α : Type} (l : List α) (i : Nat) (a b : α) :
    (l.set i a).set i b = l.set i b := by
  apply List.ext_getElem?
  intro n
  simp only [List.getElem?_set, List.length_set]
  split <;> rfl

theorem FIFO_full {bm : BM_BufferPool} {s : Storage} {k : Nat} (hinv : Inv bm.mgmtData s k)
    (page : BM_PageHandle) (p : Int) (hok : preludeRC p s = RC.RC_OK)
    (hk : k = bm.mgmtData.max_entries) (hN : 0 < k)
    (hnew : ∀ i, i < k → (bm.mgmtData.frame i).page_num ≠ p) :
    (∃ t, t ≤ k + 1 ∧
        (∀ u, u < t → (bm.mgmtData.frame ((bm.mgmtData.head + u) % k)).fix_count ≠ 0) ∧
        (bm.mgmtData.frame ((bm.mgmtData.head + t) % k)).fix_count = 0 ∧
        FIFO bm s page p =
          (true,
            { bm with
              mgmtData :=
                { Page_Frame := bm.mgmtData.Page_Frame.set ((bm.mgmtData.head + t) % k)
                    { page_num := p, page_dirty := 0, fix_count := 1,
                      contents := preludeData p s }
                  head := ((bm.mgmtData.head + t) % k + 1) % k
                  tail := ((bm.mgmtData.head + t) % k + 1) % k
                  num_entries := k
                  max_entries := bm.mgmtData.max_entries
                  num_files_written := bm.mgmtData.num_files_written
                  num_files_read := bm.mgmtData.num_files_read + 1 } },
            (writeBlock (bm.mgmtData.frame ((bm.mgmtData.head + t) % k)).page_num
              (preludeStorage p s)
              (bm.mgmtData.frame ((bm.mgmtData.head + t) % k)).contents).2,
            { pageNum := p, data := preludeData p s })) ∨
    ((∀ u, u ≤ k + 1 → (bm.mgmtData.frame ((bm.mgmtData.head + u) % k)).fix_count ≠ 0) ∧
      FIFO bm s page p =
        (false,
          { bm with
            mgmtData :=
              { bm.mgmtData with
                tail := (bm.mgmtData.head + (k + 1) + 1) % k
                head := (bm.mgmtData.head + (k + 1) + 1) % k } },
          preludeStorage p s,
          { pageNum := p, data := preludeData p s })) := by
  have hinv2 : Inv bm.mgmtData (preludeStorage p s) k :=
    hinv.storage_mono (prelude_mono p s).1 (prelude_mono p s).2
  have hlen := hinv.len
  subst hk
  have hvlt : ∀ t, (bm.mgmtData.head + t) % bm.mgmtData.max_entries
      < bm.mgmtData.Page_Frame.length := by
    intro t; rw [hlen]; exact Nat.mod_lt _ hN
  rcases FIFO_evict_spec (bm.mgmtData.max_entries + 1) hinv2 rfl hN with
    ⟨t, ht, hpin, hfree, heq⟩ | ⟨hpin, heq⟩
  · left
    refine ⟨t, ht, hpin, hfree, ?_⟩
    unfold FIFO
    simp only
    rw [if_pos hok, scanFrames_none hinv p rfl hnew]
    simp only
    rw [heq]
    simp only [if_true]
    rw [enqueue_eq _ _ _ (by simpa using hvlt t)]
    simp only [if_true, list_set_set]
    have : bm.mgmtData.max_entries - 1 + 1 = bm.mgmtData.max_entries := by omega
    simp [this]
  · right
    refine ⟨hpin, ?_⟩
    unfold FIFO
    simp only
    rw [if_pos hok, scanFrames_none hinv p rfl hnew]
    simp only
    rw [heq]
    simp

theorem FIFO_noframes {bm : BM_BufferPool} {s : Storage} {k : Nat} (hinv : Inv bm.mgmtData s k)
    (page : BM_PageHandle) (p : Int) (hok : preludeRC p s = RC.RC_OK)
    (hk : k = bm.mgmtData.max_entries) (hN : k = 0) :
    FIFO bm s page p =
      (false, bm, preludeStorage p s, { pageNum := p, data := preludeData p s }) := by
  have hinv2 : Inv bm.mgmtData (preludeStorage p s) k :=
    hinv.storage_mono (prelude_mono p s).1 (prelude_mono p s).2
  have hd := dequeue_no_frames hinv2 hk hN
  unfold FIFO
  simp only
  rw [if_pos hok, scanFrames_none hinv p hk (fun i hi => by omega)]
  simp only
  have : bm.mgmtData.max_entries + 1 = 0 + 1 := by omega
  rw [this]
  simp only [FIFO_evict, hd]
  simp
theorem LRU_fail (bm : BM_BufferPool) (s : Storage) (page : BM_PageHandle) (p : Int)
    (h : preludeRC p s ≠ RC.RC_OK) :
    LRU bm s page p = (some false, bm, preludeStorage p s, page) := by
  unfold LRU
  simp only
  rw [if_neg h]

theorem LRU_hit {bm : BM_BufferPool} {s : Storage} {k : Nat} (hinv : Inv bm.mgmtData s k)
    (page : BM_PageHandle) (p : Int) (hok : preludeRC p s = RC.RC_OK)
    (i : Nat) (hi : i < k) (hp : (bm.mgmtData.frame i).page_num = p) :
    LRU bm s page p =
      (some true,
        { bm with
          mgmtData := bm.mgmtData.setFrame i
            { bm.mgmtData.frame i with fix_count := (bm.mgmtData.frame i).fix_count + 1 } },
        preludeStorage p s,
        { pageNum := p, data := (bm.mgmtData.frame i).contents }) := by
  unfold LRU
  simp only
  rw [if_pos hok, scanFrames_hit hinv p i hi hp]
  simp only
  rw [scanStep_hit _ _ _ _ _ hp]

theorem LRU_load {bm : BM_BufferPool} {s : Storage} {k : Nat} (hinv : Inv bm.mgmtData s k)
    (page : BM_PageHandle) (p : Int) (hok : preludeRC p s = RC.RC_OK)
    (hk : k < bm.mgmtData.max_entries)
    (hnew : ∀ i, i < k → (bm.mgmtData.frame i).page_num ≠ p) :
    LRU bm s page p =
      (some true,
        { bm with
          mgmtData :=
            { Page_Frame := bm.mgmtData.Page_Frame.set k
                { page_num := p, page_dirty := 0, fix_count := 1, contents := preludeData p s }
              head := bm.mgmtData.head
              tail := (k + 1) % bm.mgmtData.max_entries
              num_entries := k + 1
              max_entries := bm.mgmtData.max_entries
              num_files_written := bm.mgmtData.num_files_written
              num_files_read := bm.mgmtData.num_files_read + 1 } },
        preludeStorage p s,
        { pageNum := p, data := preludeData p s }) := by
  obtain ⟨h1, h2, h3⟩ := hinv.part hk
  have h0 := (prelude_facts p s hok).1
  have hne : (bm.mgmtData.frame k).page_num ≠ p := by
    rw [hinv.emp k (le_refl k)]
    show (-1 : Int) ≠ p
    omega
  unfold LRU
  simp only
  rw [if_pos hok, scanFrames_empty hinv p hk hnew]
  simp only
  rw [scanStep_empty _ _ _ _ _ hne (by rw [hinv.len, h2]; exact hk)]
  simp [h2, h3]

theorem LRU_full {bm : BM_BufferPool} {s : Storage} {k : Nat} (hinv : Inv bm.mgmtData s k)
    (page : BM_PageHandle) (p : Int) (hok : preludeRC p s = RC.RC_OK)
    (hk : k = bm.mgmtData.max_entries)
    (hnew : ∀ i, i < k → (bm.mgmtData.frame i).page_num ≠ p) :
    LRU bm s page p =
      (none, bm, preludeStorage p s, { pageNum := p, data := preludeData p s }) := by
  unfold LRU
  simp only
  rw [if_pos hok, scanFrames_none hinv p hk hnew]

/-- Whether some occupied frame holds page `p` can be decided by cases. -/
theorem held_or_not (q : Queue) (k : Nat) (p : Int) :
    (∃ i, i < k ∧ (q.frame i).page_num = p) ∨ (∀ i, i < k → (q.frame i).page_num ≠ p) := by
  by_cases h : ∃ i, i < k ∧ (q.frame i).page_num = p
  · exact Or.inl h
  · right
    intro i hi hp
    exact h ⟨i, hi, hp⟩

/-! ## Every call keeps the invariant -/

theorem Inv.pinPage {bm : BM_BufferPool} {s : Storage} {k : Nat} (hinv : Inv bm.mgmtData s k)
    (page : BM_PageHandle) (p : Int) :
    ∃ k', Inv (pinPage bm s page p).2.1.mgmtData (pinPage bm s page p).2.2.1 k' := by
  have hmono := prelude_mono p s
  have hinv2 : Inv bm.mgmtData (preludeStorage p s) k := hinv.storage_mono hmono.1 hmono.2
  by_cases hok : preludeRC p s = RC.RC_OK
  · obtain ⟨p0, pT, pL, pc, _⟩ := prelude_facts p s hok
    rcases held_or_not bm.mgmtData k p with ⟨i, hi, hp⟩ | hnew
    · -- hit
      have hres : Inv (bm.mgmtData.setFrame i
          { bm.mgmtData.frame i with fix_count := (bm.mgmtData.frame i).fix_count + 1 })
          (preludeStorage p s) k :=
        hinv2.setFrame_same i _ hi rfl (by have := hinv.fix i hi; simp only; omega)
          (hinv.sto i hi).2.2.2
      unfold Assign3.pinPage
      split
      · rw [FIFO_hit hinv page p hok i hi hp]; exact ⟨k, hres⟩
      · split
        · rw [LRU_hit hinv page p hok i hi hp]; exact ⟨k, hres⟩
        · exact ⟨k, hinv⟩
    · by_cases hk : k < bm.mgmtData.max_entries
      · -- load into the first empty frame
        have hres := hinv2.load hk
          { page_num := p, page_dirty := 0, fix_count := 1, contents := preludeData p s }
          p0 pT pL pc (by simp) hnew bm.mgmtData.num_files_written
          (bm.mgmtData.num_files_read + 1)
        unfold Assign3.pinPage
        split
        · rw [FIFO_load hinv page p hok hk hnew]; exact ⟨k + 1, hres⟩
        · split
          · rw [LRU_load hinv page p hok hk hnew]; exact ⟨k + 1, hres⟩
          · exact ⟨k, hinv⟩
      · have hkN : k = bm.mgmtData.max_entries := by have := hinv.hk; omega
        subst hkN
        unfold Assign3.pinPage
        split
        · by_cases hN : 0 < bm.mgmtData.max_entries
          · rcases FIFO_full hinv page p hok rfl hN hnew with
              ⟨t, _, _, hfree, heq⟩ | ⟨_, heq⟩
            · rw [heq]
              have hv : (bm.mgmtData.head + t) % bm.mgmtData.max_entries
                  < bm.mgmtData.max_entries := Nat.mod_lt _ hN
              have hw := writeBlock_storage
                (bm.mgmtData.frame ((bm.mgmtData.head + t) % bm.mgmtData.max_entries)).page_num
                (preludeStorage p s)
                (bm.mgmtData.frame ((bm.mgmtData.head + t) % bm.mgmtData.max_entries)).contents
              have hinv3 := hinv2.storage_mono (le_of_eq (congrArg _ hw.1.symm)) hw.2.1
              have hres := hinv3.replace rfl
                ((bm.mgmtData.head + t) % bm.mgmtData.max_entries) hv
                { page_num := p, page_dirty := 0, fix_count := 1, contents := preludeData p s }
                p0 (by rw [hw.1]; exact pT) ⟨pL.1, lt_of_lt_of_le pL.2 hw.2.1⟩ pc (by simp)
                (fun i hi _ => hnew i hi)
                (((bm.mgmtData.head + t) % bm.mgmtData.max_entries + 1)
                  % bm.mgmtData.max_entries)
                (Nat.mod_lt _ hN) bm.mgmtData.num_files_written
                (bm.mgmtData.num_files_read + 1)
              exact ⟨_, hres⟩
            · rw [heq]
              exact ⟨_, hinv2.rotate rfl hN
                (bm.mgmtData.head + (bm.mgmtData.max_entries + 1) + 1)⟩
          · rw [FIFO_noframes hinv page p hok rfl (by omega)]
            exact ⟨_, hinv2⟩
        · split
          · rw [LRU_full hinv page p hok rfl hnew]; exact ⟨_, hinv2⟩
          · exact ⟨_, hinv⟩
  · unfold Assign3.pinPage
    split
    · rw [FIFO_fail bm s page p hok]; exact ⟨k, hinv2⟩
    · split
      · rw [LRU_fail bm s page p hok]; exact ⟨k, hinv2⟩
      · exact ⟨k, hinv⟩
/-- Replacing frames by frames for the same pages keeps the invariant. -/
theorem Inv.pointwise {q : Queue} {s : Storage} {k : Nat} (h : Inv q s k) (q' : Queue)
    (hlen : q'.Page_Frame.length = q.Page_Frame.length)
    (h2 : q'.head = q.head) (h3 : q'.tail = q.tail)
    (h4 : q'.num_entries = q.num_entries) (h5 : q'.max_entries = q.max_entries)
    (hfr : ∀ j, j < k → (q'.frame j).page_num = (q.frame j).page_num ∧
      0 ≤ (q'.frame j).fix_count ∧ (q'.frame j).contents.isSome = true)
    (hemp : ∀ j, k ≤ j → q'.frame j = emptyFrame) : Inv q' s k := by
  constructor
  · rw [hlen, h5]; exact h.len
  · rw [h5]; exact h.hk
  · exact hemp
  · rw [h5, h2, h3, h4]; exact h.part
  · rw [h5, h2, h3, h4]; exact h.full
  · intro i j hi hj
    rw [(hfr i hi).1, (hfr j hj).1]
    exact h.nodup i j hi hj
  · intro i hi; exact (hfr i hi).2.1
  · intro i hi
    obtain ⟨a, b, c, _⟩ := h.sto i hi
    rw [(hfr i hi).1]
    exact ⟨a, b, c, (hfr i hi).2.2⟩

/-- Effect of one frame update on the invariant, whatever the index. -/
theorem Inv.setFrame_any {q : Queue} {s : Storage} {k : Nat} (h : Inv q s k)
    (i : Nat) (f : Page_Frame) (hp : f.page_num = (q.frame i).page_num)
    (hf : 0 ≤ f.fix_count) (hc : (q.frame i).contents.isSome = true → f.contents.isSome = true)
    (he : q.frame i = emptyFrame → f = emptyFrame) : Inv (q.setFrame i f) s k := by
  apply h.pointwise (q.setFrame i f) (by simp) rfl rfl rfl rfl
  · intro j hj
    rw [frame_setFrame]
    split
    · rename_i hij
      obtain ⟨rfl, _⟩ := hij
      exact ⟨hp, hf, hc (h.sto i hj).2.2.2⟩
    · exact ⟨rfl, h.fix j hj, (h.sto j hj).2.2.2⟩
  · intro j hj
    rw [frame_setFrame]
    split
    · rename_i hij
      obtain ⟨rfl, _⟩ := hij
      exact he (h.emp i hj)
    · exact h.emp j hj

theorem Inv.unpinPage {bm : BM_BufferPool} {s : Storage} {k : Nat} (hinv : Inv bm.mgmtData s k)
    (page : BM_PageHandle) : Inv (unpinPage bm page).2.mgmtData s k := by
  unfold Assign3.unpinPage
  simp only
  generalize List.range bm.mgmtData.max_entries = l
  generalize bm.mgmtData = q at hinv
  induction l generalizing q with
  | nil => exact hinv
  | cons i l ih =>
    rw [List.foldl_cons]
    apply ih
    split
    · rename_i hc
      apply hinv.setFrame_any i
        { q.frame i with fix_count := (q.frame i).fix_count - 1 } rfl
        (by simp only; omega) (fun h => h)
      intro he
      rw [he] at hc
      simp [emptyFrame] at hc
    · exact hinv

theorem find_range_some {n i : Nat} {c : Nat → Bool}
    (h : (List.range n).find? c = some i) : i < n ∧ c i = true := by
  have := List.find?_range_eq_some.mp h
  exact ⟨by simpa using this.2.1, this.1⟩

theorem Inv.markDirty {bm : BM_BufferPool} {s : Storage} {k : Nat} (hinv : Inv bm.mgmtData s k)
    (page : BM_PageHandle) : Inv (markDirty bm page).2.mgmtData s k := by
  unfold Assign3.markDirty
  simp only
  split
  · rename_i i hi
    have hc := (find_range_some hi).2
    simp only [decide_eq_true_eq] at hc
    apply hinv.setFrame_any i { bm.mgmtData.frame i with page_dirty := 1 } rfl
      (hinv.fix i ((hinv.occupied i).mp hc.1)) (fun h => h)
    intro he
    rw [he] at hc
    simp [emptyFrame] at hc
  · exact hinv

theorem Inv.forcePage {bm : BM_BufferPool} {s : Storage} {k : Nat} (hinv : Inv bm.mgmtData s k)
    (page : BM_PageHandle) :
    Inv (forcePage bm s page).2.1.mgmtData (forcePage bm s page).2.2 k := by
  unfold Assign3.forcePage
  simp only
  split
  · rename_i i hi
    simp only
    have hw := writeBlock_storage (bm.mgmtData.frame i).page_num s (bm.mgmtData.frame i).contents
    have h1 : Inv (bm.mgmtData.setFrame i { bm.mgmtData.frame i with page_dirty := 0 }) s k := by
      apply hinv.setFrame_any i { bm.mgmtData.frame i with page_dirty := 0 } rfl _
        (fun h => h)
      · intro he; rw [he]; rfl
      · by_cases hik : i < k
        · exact hinv.fix i hik
        · rw [hinv.emp i (by omega)]; simp [emptyFrame]
    exact (h1.storage_mono (le_of_eq (congrArg _ hw.1.symm)) hw.2.1).congr rfl rfl rfl rfl rfl
  · exact hinv

theorem Inv.forceFlushPool {bm : BM_BufferPool} {s : Storage} {k : Nat}
    (hinv : Inv bm.mgmtData s k) :
    Inv (forceFlushPool bm s).2.1.mgmtData (forceFlushPool bm s).2.2 k := by
  unfold Assign3.forceFlushPool
  simp only
  generalize List.range bm.mgmtData.max_entries = l
  have key : ∀ (l : List Nat) (qs : Queue × Storage), Inv qs.1 qs.2 k →
      Inv (l.foldl
        (fun (qs : Queue × Storage) i =>
          if (qs.1.frame i).page_dirty ≠ 0 then
            let q1 := qs.1.setFrame i { qs.1.frame i with page_dirty := 0 }
            let s1 := (writeBlock (q1.frame i).page_num qs.2 (q1.frame i).contents).2
            ({ q1 with num_files_written := q1.num_files_written + 1 }, s1)
          else qs) qs).1
        (l.foldl
        (fun (qs : Queue × Storage) i =>
          if (qs.1.frame i).page_dirty ≠ 0 then
            let q1 := qs.1.setFrame i { qs.1.frame i with page_dirty := 0 }
            let s1 := (writeBlock (q1.frame i).page_num qs.2 (q1.frame i).contents).2
            ({ q1 with num_files_written := q1.num_files_written + 1 }, s1)
          else qs) qs).2 k := by
    intro l
    induction l with
    | nil => intro qs h; exact h
    | cons i l ih =>
      intro qs h
      rw [List.foldl_cons]
      apply ih
      split
      · rename_i hc
        simp only
        have h1 : Inv (qs.1.setFrame i { qs.1.frame i with page_dirty := 0 }) qs.2 k := by
          apply h.setFrame_any i { qs.1.frame i with page_dirty := 0 } rfl _ (fun h => h)
          · intro he; rw [he] at hc; simp [emptyFrame] at hc
          · by_cases hik : i < k
            · exact h.fix i hik
            · rw [h.emp i (by omega)]; simp [emptyFrame]
        have hw := writeBlock_storage
          ((qs.1.setFrame i { qs.1.frame i with page_dirty := 0 }).frame i).page_num qs.2
          ((qs.1.setFrame i { qs.1.frame i with page_dirty := 0 }).frame i).contents
        exact (h1.storage_mono (le_of_eq (congrArg _ hw.1.symm)) hw.2.1).congr
          rfl rfl rfl rfl rfl
      · exact h
  exact key l (bm.mgmtData, s) hinv

theorem Inv.storePage {bm : BM_BufferPool} {s : Storage} {k : Nat} (hinv : Inv bm.mgmtData s k)
    (p : Int) (b : Page) : Inv (storePage bm p b).mgmtData s k := by
  unfold Assign3.storePage
  simp only
  split
  · rename_i i hi
    have hc := (find_range_some hi).2
    simp only [decide_eq_true_eq] at hc
    have hik : i < k := by
      by_contra hn
      rw [hinv.emp i (by omega)] at hc
      simp [emptyFrame] at hc
    apply hinv.setFrame_any i { bm.mgmtData.frame i with contents := some b } rfl
      (hinv.fix i hik) (fun _ => rfl)
    intro he
    rw [he] at hc
    simp [emptyFrame] at hc
  · exact hinv

/-- The invariant holds in every state reachable from `initBufferPool`. -/
theorem Inv.run (pageFileName : String) (numPages : Nat) (strategy : ReplacementStrategy)
    (w r : Int) (s0 : Storage) (ops : List Op) :
    ∃ k, Inv (run (initState pageFileName numPages strategy w r s0) ops).bm.mgmtData
      (run (initState pageFileName numPages strategy w r s0) ops).sm k := by
  have key : ∀ (ops : List Op) (st : PoolState), (∃ k, Inv st.bm.mgmtData st.sm k) →
      ∃ k, Inv (Assign3.run st ops).bm.mgmtData (Assign3.run st ops).sm k := by
    intro ops
    induction ops with
    | nil => intro st h; exact h
    | cons op ops ih =>
      intro st ⟨k, h⟩
      unfold Assign3.run
      rw [List.foldl_cons]
      apply ih
      cases op with
      | pin p => exact h.pinPage _ p
      | unpin p => exact ⟨k, h.unpinPage _⟩
      | dirty p => exact ⟨k, h.markDirty _⟩
      | force p => exact ⟨k, h.forcePage _⟩
      | flush => exact ⟨k, h.forceFlushPool⟩
      | store p b => exact ⟨k, h.storePage p b⟩
  exact key ops _ ⟨0, Inv.init pageFileName numPages strategy w r s0⟩
/-! ## Fields that no call changes -/

theorem dequeue_max_entries (q : Queue) (s : Storage) :
    (dequeue q s).2.1.max_entries = q.max_entries := by
  unfold dequeue
  split
  · rfl
  · split <;> rfl

theorem FIFO_evict_max_entries (n : Nat) : ∀ (q : Queue) (s : Storage),
    (FIFO_evict n q s).2.1.max_entries = q.max_entries := by
  induction n with
  | zero => intro q s; simp only [FIFO_evict]; exact dequeue_max_entries q s
  | succ n ih =>
    intro q s
    simp only [FIFO_evict]
    have hd := dequeue_max_entries q s
    split
    · rename_i q1 s1 heq
      rw [heq] at hd; exact hd
    · rename_i q1 s1 heq
      rw [heq] at hd
      rw [ih]; exact hd

theorem scanStep_max_entries (q : Queue) (page : BM_PageHandle) (p : Int) (nf : Page_Frame)
    (i : Nat) : (scanStep q page p nf i).1.max_entries = q.max_entries := by
  unfold scanStep enqueue
  split <;> rfl

theorem FIFO_static (bm : BM_BufferPool) (s : Storage) (page : BM_PageHandle) (p : Int) :
    (FIFO bm s page p).2.1.strategy = bm.strategy ∧
    (FIFO bm s page p).2.1.mgmtData.max_entries = bm.mgmtData.max_entries := by
  have hm := FIFO_evict_max_entries (bm.mgmtData.max_entries + 1) bm.mgmtData
    (preludeStorage p s)
  unfold FIFO
  simp only
  by_cases hok : (readBlock p (ensureCapacity (p + 1) s).2).1 = RC.RC_OK
  · rw [if_pos hok]
    cases hs : scanFrames bm.mgmtData p with
    | some i => exact ⟨rfl, scanStep_max_entries _ _ _ _ _⟩
    | none =>
      simp only
      by_cases hd : (FIFO_evict (bm.mgmtData.max_entries + 1) bm.mgmtData
          (readBlock p (ensureCapacity (p + 1) s).2).2.1).1 = true
      · rw [if_pos hd]
        simp only [enqueue, if_true]
        exact ⟨trivial, hm⟩
      · rw [if_neg hd]
        exact ⟨rfl, hm⟩
  · rw [if_neg hok]
    exact ⟨rfl, rfl⟩

theorem LRU_static (bm : BM_BufferPool) (s : Storage) (page : BM_PageHandle) (p : Int) :
    (LRU bm s page p).2.1.strategy = bm.strategy ∧
    (LRU bm s page p).2.1.mgmtData.max_entries = bm.mgmtData.max_entries := by
  unfold LRU
  simp only
  by_cases hok : (readBlock p (ensureCapacity (p + 1) s).2).1 = RC.RC_OK
  · rw [if_pos hok]
    cases hs : scanFrames bm.mgmtData p with
    | some i => exact ⟨rfl, scanStep_max_entries _ _ _ _ _⟩
    | none => exact ⟨rfl, rfl⟩
  · rw [if_neg hok]
    exact ⟨rfl, rfl⟩

theorem pinPage_static (bm : BM_BufferPool) (s : Storage) (page : BM_PageHandle) (p : Int) :
    (pinPage bm s page p).2.1.strategy = bm.strategy ∧
    (pinPage bm s page p).2.1.mgmtData.max_entries = bm.mgmtData.max_entries := by
  unfold pinPage
  split
  · simp only
    split <;> exact FIFO_static bm s page p
  · split
    · simp only
      split <;> exact LRU_static bm s page p
    · exact ⟨rfl, rfl⟩

theorem unpinPage_static (bm : BM_BufferPool) (page : BM_PageHandle) :
    (unpinPage bm page).2.strategy = bm.strategy ∧
    (unpinPage bm page).2.mgmtData.max_entries = bm.mgmtData.max_entries := by
  unfold unpinPage
  simp only
  refine ⟨trivial, ?_⟩
  generalize List.range bm.mgmtData.max_entries = l
  generalize bm.mgmtData = q
  induction l generalizing q with
  | nil => rfl
  | cons i l ih =>
    rw [List.foldl_cons, ih]
    split <;> rfl

theorem markDirty_static (bm : BM_BufferPool) (page : BM_PageHandle) :
    (markDirty bm page).2.strategy = bm.strategy ∧
    (markDirty bm page).2.mgmtData.max_entries = bm.mgmtData.max_entries := by
  unfold markDirty
  simp only
  split <;> exact ⟨rfl, rfl⟩

theorem forcePage_static (bm : BM_BufferPool) (s : Storage) (page : BM_PageHandle) :
    (forcePage bm s page).2.1.strategy = bm.strategy ∧
    (forcePage bm s page).2.1.mgmtData.max_entries = bm.mgmtData.max_entries := by
  unfold forcePage
  simp only
  split <;> exact ⟨rfl, rfl⟩

theorem forceFlushPool_static (bm : BM_BufferPool) (s : Storage) :
    (forceFlushPool bm s).2.1.strategy = bm.strategy ∧
    (forceFlushPool bm s).2.1.mgmtData.max_entries = bm.mgmtData.max_entries := by
  unfold forceFlushPool
  simp only
  refine ⟨trivial, ?_⟩
  generalize List.range bm.mgmtData.max_entries = l
  have key : ∀ (l : List Nat) (qs : Queue × Storage),
      (l.foldl
        (fun (qs : Queue × Storage) i =>
          if (qs.1.frame i).page_dirty ≠ 0 then
            let q1 := qs.1.setFrame i { qs.1.frame i with page_dirty := 0 }
            let s1 := (writeBlock (q1.frame i).page_num qs.2 (q1.frame i).contents).2
            ({ q1 with num_files_written := q1.num_files_written + 1 }, s1)
          else qs) qs).1.max_entries = qs.1.max_entries := by
    intro l
    induction l with
    | nil => intro qs; rfl
    | cons i l ih =>
      intro qs
      rw [List.foldl_cons, ih]
      split <;> rfl
  exact key l (bm.mgmtData, s)

theorem storePage_static (bm : BM_BufferPool) (p : Int) (b : Page) :
    (storePage bm p b).strategy = bm.strategy ∧
    (storePage bm p b).mgmtData.max_entries = bm.mgmtData.max_entries := by
  unfold storePage
  simp only
  split <;> exact ⟨rfl, rfl⟩

theorem step_static (st : PoolState) (op : Op) :
    (step st op).bm.strategy = st.bm.strategy ∧
    (step st op).bm.mgmtData.max_entries = st.bm.mgmtData.max_entries := by
  cases op with
  | pin p => exact pinPage_static _ _ _ _
  | unpin p => exact unpinPage_static _ _
  | dirty p => exact markDirty_static _ _
  | force p => exact forcePage_static _ _ _
  | flush => exact forceFlushPool_static _ _
  | store p b => exact storePage_static _ _ _

theorem run_static (st : PoolState) (ops : List Op) :
    (run st ops).bm.strategy = st.bm.strategy ∧
    (run st ops).bm.mgmtData.max_entries = st.bm.mgmtData.max_entries := by
  induction ops generalizing st with
  | nil => exact ⟨rfl, rfl⟩
  | cons op ops ih =>
    unfold run
    rw [List.foldl_cons]
    have h1 := step_static st op
    have h2 := ih (step st op)
    unfold run at h2
    exact ⟨h2.1.trans h1.1, h2.2.trans h1.2⟩

theorem run_init_static (pageFileName : String) (numPages : Nat)
    (strategy : ReplacementStrategy) (w r : Int) (s0 : Storage) (ops : List Op) :
    (run (initState pageFileName numPages strategy w r s0) ops).bm.strategy = strategy ∧
    (run (initState pageFileName numPages strategy w r s0) ops).bm.mgmtData.max_entries
      = numPages :=
  run_static _ ops
/-! ## `pinPage` case by case -/

theorem prelude_ok (p : Int) (s : Storage) (h0 : 0 ≤ p) (hO : 0 ≤ blockOffset p)
    (hL : pageIndex p < s.file.length) : preludeRC p s = RC.RC_OK := by
  rw [preludeRC, readBlock_ok_iff, ensureCapacity_total]
  have := ensureCapacity_length (p + 1) s
  exact ⟨h0, le_max_right _ _, hO, by omega⟩

/-- What `pinPage` does in a state that satisfies the invariant: it fails
and leaves every frame and both counters as they were (the storage manager
has at most gone through `ensureCapacity` and `readBlock`), or it pins a frame
that already holds the page, or it loads the page into the first empty frame,
or (FIFO only) it loads the page over the first unpinned frame met from
`head`. -/
theorem pinPage_cases {bm : BM_BufferPool} {s : Storage} {k : Nat}
    (hinv : Inv bm.mgmtData s k) (page : BM_PageHandle) (p : Int) :
    ((pinPage bm s page p).1 ≠ some RC.RC_OK ∧
      (pinPage bm s page p).2.1.mgmtData.Page_Frame = bm.mgmtData.Page_Frame ∧
      (pinPage bm s page p).2.1.mgmtData.num_files_read = bm.mgmtData.num_files_read ∧
      (pinPage bm s page p).2.1.mgmtData.num_files_written
        = bm.mgmtData.num_files_written ∧
      ((pinPage bm s page p).2.2.1 = preludeStorage p s ∨ (pinPage bm s page p).2.2.1 = s)) ∨
    (∃ i, i < k ∧ (bm.mgmtData.frame i).page_num = p ∧
      pinPage bm s page p =
        (some RC.RC_OK,
          { bm with
            mgmtData := bm.mgmtData.setFrame i
              { bm.mgmtData.frame i with
                fix_count := (bm.mgmtData.frame i).fix_count + 1 } },
          preludeStorage p s,
          { pageNum := p, data := (bm.mgmtData.frame i).contents })) ∨
    (k < bm.mgmtData.max_entries ∧ (∀ i, i < k → (bm.mgmtData.frame i).page_num ≠ p) ∧
      preludeRC p s = RC.RC_OK ∧
      pinPage bm s page p =
        (some RC.RC_OK,
          { bm with
            mgmtData :=
              { Page_Frame := bm.mgmtData.Page_Frame.set k
                  { page_num := p, page_dirty := 0, fix_count := 1,
                    contents := preludeData p s }
                head := bm.mgmtData.head
                tail := (k + 1) % bm.mgmtData.max_entries
                num_entries := k + 1
                max_entries := bm.mgmtData.max_entries
                num_files_written := bm.mgmtData.num_files_written
                num_files_read := bm.mgmtData.num_files_read + 1 } },
          preludeStorage p s,
          { pageNum := p, data := preludeData p s })) ∨
    (k = bm.mgmtData.max_entries ∧ 0 < k ∧ bm.strategy = ReplacementStrategy.RS_FIFO ∧
      (∀ i, i < k → (bm.mgmtData.frame i).page_num ≠ p) ∧ preludeRC p s = RC.RC_OK ∧
      ∃ t, t ≤ k + 1 ∧
        (∀ u, u < t → (bm.mgmtData.frame ((bm.mgmtData.head + u) % k)).fix_count ≠ 0) ∧
        (bm.mgmtData.frame ((bm.mgmtData.head + t) % k)).fix_count = 0 ∧
        pinPage bm s page p =
          (some RC.RC_OK,
            { bm with
              mgmtData :=
                { Page_Frame := bm.mgmtData.Page_Frame.set ((bm.mgmtData.head + t) % k)
                    { page_num := p, page_dirty := 0, fix_count := 1,
                      contents := preludeData p s }
                  head := ((bm.mgmtData.head + t) % k + 1) % k
                  tail := ((bm.mgmtData.head + t) % k + 1) % k
                  num_entries := k
                  max_entries := bm.mgmtData.max_entries
                  num_files_written := bm.mgmtData.num_files_written
                  num_files_read := bm.mgmtData.num_files_read + 1 } },
            (writeBlock (bm.mgmtData.frame ((bm.mgmtData.head + t) % k)).page_num
              (preludeStorage p s)
              (bm.mgmtData.frame ((bm.mgmtData.head + t) % k)).contents).2,
            { pageNum := p, data := preludeData p s })) := by
  by_cases hF : bm.strategy = ReplacementStrategy.RS_FIFO
  · -- FIFO
    have hpin : pinPage bm s page p =
        (if (FIFO bm s page p).1 = true then (some RC.RC_OK, (FIFO bm s page p).2)
          else (some RC.RC_FILE_NOT_FOUND, (FIFO bm s page p).2)) := by
      unfold pinPage
      rw [if_pos hF]
    by_cases hok : preludeRC p s = RC.RC_OK
    · rcases held_or_not bm.mgmtData k p with ⟨i, hi, hp⟩ | hnew
      · right; left
        refine ⟨i, hi, hp, ?_⟩
        rw [hpin, FIFO_hit hinv page p hok i hi hp]
        rfl
      · by_cases hk : k < bm.mgmtData.max_entries
        · right; right; left
          refine ⟨hk, hnew, hok, ?_⟩
          rw [hpin, FIFO_load hinv page p hok hk hnew]
          rfl
        · have hkN : k = bm.mgmtData.max_entries := by have := hinv.hk; omega
          by_cases hN : 0 < k
          · rcases FIFO_full hinv page p hok hkN hN hnew with
              ⟨t, ht, hpinned, hfree, heq⟩ | ⟨_, heq⟩
            · right; right; right
              refine ⟨hkN, hN, hF, hnew, hok, t, ht, hpinned, hfree, ?_⟩
              rw [hpin, heq]
              rfl
            · left
              rw [hpin, heq]
              simp
          · left
            rw [hpin, FIFO_noframes hinv page p hok hkN (by omega)]
            simp
    · left
      rw [hpin, FIFO_fail bm s page p hok]
      simp
  · by_cases hL : bm.strategy = ReplacementStrategy.RS_LRU
    · have hpin : pinPage bm s page p =
          (match (LRU bm s page p).1 with
            | some true => (some RC.RC_OK, (LRU bm s page p).2)
            | some false => (some RC.RC_FILE_NOT_FOUND, (LRU bm s page p).2)
            | none => (none, (LRU bm s page p).2)) := by
        unfold pinPage
        rw [if_neg hF, if_pos hL]
      by_cases hok : preludeRC p s = RC.RC_OK
      · rcases held_or_not bm.mgmtData k p with ⟨i, hi, hp⟩ | hnew
        · right; left
          refine ⟨i, hi, hp, ?_⟩
          rw [hpin, LRU_hit hinv page p hok i hi hp]
        · by_cases hk : k < bm.mgmtData.max_entries
          · right; right; left
            refine ⟨hk, hnew, hok, ?_⟩
            rw [hpin, LRU_load hinv page p hok hk hnew]
          · have hkN : k = bm.mgmtData.max_entries := by have := hinv.hk; omega
            left
            rw [hpin, LRU_full hinv page p hok hkN hnew]
            simp
      · left
        rw [hpin, LRU_fail bm s page p hok]
        simp
    · left
      unfold pinPage
      rw [if_neg hF, if_neg hL]
      simp
/-! ## Loops over the frame array -/

/-- A loop `for i < n` that replaces every frame satisfying `c` by its image
under `g`. -/
theorem foldl_range_frames (c : Page_Frame → Prop) [DecidablePred c]
    (g : Page_Frame → Page_Frame) (q : Queue) (n : Nat) :
    ((List.range n).foldl
        (fun (q : Queue) i => if c (q.frame i) then q.setFrame i (g (q.frame i)) else q) q).head
      = q.head ∧
    ((List.range n).foldl
        (fun (q : Queue) i => if c (q.frame i) then q.setFrame i (g (q.frame i)) else q) q).tail
      = q.tail ∧
    ((List.range n).foldl
        (fun (q : Queue) i => if c (q.frame i) then q.setFrame i (g (q.frame i)) else q)
        q).num_entries = q.num_entries ∧
    ((List.range n).foldl
        (fun (q : Queue) i => if c (q.frame i) then q.setFrame i (g (q.frame i)) else q)
        q).max_entries = q.max_entries ∧
    ((List.range n).foldl
        (fun (q : Queue) i => if c (q.frame i) then q.setFrame i (g (q.frame i)) else q)
        q).num_files_written = q.num_files_written ∧
    ((List.range n).foldl
        (fun (q : Queue) i => if c (q.frame i) then q.setFrame i (g (q.frame i)) else q)
        q).num_files_read = q.num_files_read ∧
    ((List.range n).foldl
        (fun (q : Queue) i => if c (q.frame i) then q.setFrame i (g (q.frame i)) else q)
        q).Page_Frame.length = q.Page_Frame.length ∧
    ∀ j, ((List.range n).foldl
        (fun (q : Queue) i => if c (q.frame i) then q.setFrame i (g (q.frame i)) else q)
        q).frame j
      = if j < n ∧ j < q.Page_Frame.length ∧ c (q.frame j) then g (q.frame j) else q.frame j := by
  induction n with
  | zero => simp
  | succ n ih =>
    rw [List.range_succ, List.foldl_append]
    simp only [List.foldl_cons, List.foldl_nil]
    obtain ⟨h1, h2, h3, h4, h5, h6, h7, h8⟩ := ih
    have hn : ((List.range n).foldl
        (fun (q : Queue) i => if c (q.frame i) then q.setFrame i (g (q.frame i)) else q)
        q).frame n = q.frame n := by
      rw [h8, if_neg (by omega)]
    rw [hn]
    by_cases hc : c (q.frame n)
    · rw [if_pos hc]
      refine ⟨h1, h2, h3, h4, h5, h6, by simpa using h7, ?_⟩
      intro j
      rw [frame_setFrame, h7, h8]
      by_cases hj : n = j
      · subst hj
        by_cases hl : n < q.Page_Frame.length
        · rw [if_pos ⟨rfl, hl⟩, if_pos ⟨by omega, hl, hc⟩]
        · rw [if_neg (by omega), if_neg (by omega), if_neg (by omega)]
      · rw [if_neg (by omega)]
        by_cases hjn : j < n
        · by_cases hh : j < q.Page_Frame.length ∧ c (q.frame j)
          · rw [if_pos ⟨hjn, hh⟩, if_pos ⟨by omega, hh⟩]
          · rw [if_neg (by tauto), if_neg (by tauto)]
        · rw [if_neg (by omega), if_neg (by omega)]
    · rw [if_neg hc]
      refine ⟨h1, h2, h3, h4, h5, h6, h7, ?_⟩
      intro j
      rw [h8]
      by_cases hj : n = j
      · subst hj
        rw [if_neg (by omega), if_neg (by tauto)]
      · by_cases hjn : j < n
        · by_cases hh : j < q.Page_Frame.length ∧ c (q.frame j)
          · rw [if_pos ⟨hjn, hh⟩, if_pos ⟨by omega, hh⟩]
          · rw [if_neg (by tauto), if_neg (by tauto)]
        · rw [if_neg (by omega), if_neg (by omega)]

/-- Effect of `unpinPage` on a queue whose array has `max_entries` frames:
every frame that holds the page and has a positive `fix_count` loses one
pin, nothing else changes. -/
theorem unpinPage_spec (bm : BM_BufferPool) (page : BM_PageHandle)
    (hlen : bm.mgmtData.Page_Frame.length = bm.mgmtData.max_entries) :
    (unpinPage bm page).1 = RC.RC_OK ∧
    (unpinPage bm page).2.mgmtData.head = bm.mgmtData.head ∧
    (unpinPage bm page).2.mgmtData.tail = bm.mgmtData.tail ∧
    (unpinPage bm page).2.mgmtData.num_entries = bm.mgmtData.num_entries ∧
    (unpinPage bm page).2.mgmtData.max_entries = bm.mgmtData.max_entries ∧
    (unpinPage bm page).2.mgmtData.num_files_written = bm.mgmtData.num_files_written ∧
    (unpinPage bm page).2.mgmtData.num_files_read = bm.mgmtData.num_files_read ∧
    (unpinPage bm page).2.strategy = bm.strategy ∧
    ∀ j, (unpinPage bm page).2.mgmtData.frame j =
      if (bm.mgmtData.frame j).fix_count > 0 ∧ (bm.mgmtData.frame j).page_num = page.pageNum
      then { bm.mgmtData.frame j with fix_count := (bm.mgmtData.frame j).fix_count - 1 }
      else bm.mgmtData.frame j := by
  obtain ⟨h1, h2, h3, h4, h5, h6, _, h8⟩ :=
    foldl_range_frames (fun f => f.fix_count > 0 ∧ f.page_num = page.pageNum)
      (fun f => { f with fix_count := f.fix_count - 1 }) bm.mgmtData bm.mgmtData.max_entries
  refine ⟨rfl, h1, h2, h3, h4, h5, h6, rfl, ?_⟩
  intro j
  have := h8 j
  unfold unpinPage
  simp only
  rw [this]
  by_cases hj : j < bm.mgmtData.max_entries
  · by_cases hc : (bm.mgmtData.frame j).fix_count > 0 ∧
        (bm.mgmtData.frame j).page_num = page.pageNum
    · rw [if_pos ⟨hj, by omega, hc⟩, if_pos hc]
    · rw [if_neg (by tauto), if_neg hc]
  · have he : bm.mgmtData.frame j = emptyFrame := frame_of_le _ _ (by omega)
    rw [if_neg (by omega), if_neg (by rw [he]; simp [emptyFrame])]
/-! ## Loading and evicting, as equations -/

theorem pinPage_load {bm : BM_BufferPool} {s : Storage} {k : Nat}
    (hinv : Inv bm.mgmtData s k) (page : BM_PageHandle) (p : Int)
    (hs : bm.strategy = ReplacementStrategy.RS_FIFO ∨ bm.strategy = ReplacementStrategy.RS_LRU)
    (hok : preludeRC p s = RC.RC_OK) (hk : k < bm.mgmtData.max_entries)
    (hnew : ∀ i, i < k → (bm.mgmtData.frame i).page_num ≠ p) :
    pinPage bm s page p =
      (some RC.RC_OK,
        { bm with
          mgmtData :=
            { Page_Frame := bm.mgmtData.Page_Frame.set k
                { page_num := p, page_dirty := 0, fix_count := 1,
                  contents := preludeData p s }
              head := bm.mgmtData.head
              tail := (k + 1) % bm.mgmtData.max_entries
              num_entries := k + 1
              max_entries := bm.mgmtData.max_entries
              num_files_written := bm.mgmtData.num_files_written
              num_files_read := bm.mgmtData.num_files_read + 1 } },
        preludeStorage p s,
        { pageNum := p, data := preludeData p s }) := by
  unfold pinPage
  rcases hs with hF | hL
  · rw [if_pos hF]
    simp only
    rw [FIFO_load hinv page p hok hk hnew]
    rfl
  · rw [if_neg (by rw [hL]; decide), if_pos hL]
    simp only
    rw [LRU_load hinv page p hok hk hnew]

/-- Going round the array from `h` reaches every index. -/
theorem cyc_reach (k h j : Nat) (hh : h < k) (hj : j < k) : ∃ u, u < k ∧ (h + u) % k = j := by
  by_cases hle : h ≤ j
  · refine ⟨j - h, by omega, ?_⟩
    rw [Nat.add_sub_cancel' hle, Nat.mod_eq_of_lt hj]
  · refine ⟨j + k - h, by omega, ?_⟩
    have : h + (j + k - h) = j + k := by omega
    rw [this, Nat.add_mod_right, Nat.mod_eq_of_lt hj]

theorem pinPage_evict {bm : BM_BufferPool} {s : Storage} {k : Nat}
    (hinv : Inv bm.mgmtData s k) (page : BM_PageHandle) (p : Int)
    (hF : bm.strategy = ReplacementStrategy.RS_FIFO)
    (hok : preludeRC p s = RC.RC_OK) (hkN : k = bm.mgmtData.max_entries)
    (hnew : ∀ i, i < k → (bm.mgmtData.frame i).page_num ≠ p)
    (hfree : ∃ j, j < k ∧ (bm.mgmtData.frame j).fix_count = 0) :
    ∃ t, t ≤ k + 1 ∧
      (∀ u, u < t → (bm.mgmtData.frame ((bm.mgmtData.head + u) % k)).fix_count ≠ 0) ∧
      (bm.mgmtData.frame ((bm.mgmtData.head + t) % k)).fix_count = 0 ∧
      pinPage bm s page p =
        (some RC.RC_OK,
          { bm with
            mgmtData :=
              { Page_Frame := bm.mgmtData.Page_Frame.set ((bm.mgmtData.head + t) % k)
                  { page_num := p, page_dirty := 0, fix_count := 1,
                    contents := preludeData p s }
                head := ((bm.mgmtData.head + t) % k + 1) % k
                tail := ((bm.mgmtData.head + t) % k + 1) % k
                num_entries := k
                max_entries := bm.mgmtData.max_entries
                num_files_written := bm.mgmtData.num_files_written
                num_files_read := bm.mgmtData.num_files_read + 1 } },
          (writeBlock (bm.mgmtData.frame ((bm.mgmtData.head + t) % k)).page_num
            (preludeStorage p s)
            (bm.mgmtData.frame ((bm.mgmtData.head + t) % k)).contents).2,
          { pageNum := p, data := preludeData p s }) := by
  obtain ⟨j, hj, hjf⟩ := hfree
  have hN : 0 < k := by omega
  have hh : bm.mgmtData.head < k := (hinv.full hkN).2.2 hN
  have hpin : pinPage bm s page p =
      (if (FIFO bm s page p).1 = true then (some RC.RC_OK, (FIFO bm s page p).2)
        else (some RC.RC_FILE_NOT_FOUND, (FIFO bm s page p).2)) := by
    unfold pinPage
    rw [if_pos hF]
  rcases FIFO_full hinv page p hok hkN hN hnew with
    ⟨t, ht, hpinned, hfr, heq⟩ | ⟨hall, _⟩
  · refine ⟨t, ht, hpinned, hfr, ?_⟩
    rw [hpin, heq]
    rfl
  · obtain ⟨u, hu, hmod⟩ := cyc_reach k bm.mgmtData.head j hh hj
    have := hall u (by omega)
    rw [hmod] at this
    exact absurd hjf this

/-! ## Storage whose page count is backed by the file -/

theorem prelude_ok_of_coherent (p : Int) (s : Storage) (h0 : 0 ≤ p) (h1 : p < 524288)
    (h2 : p + 1 - s.File_Handle.totalNumPages < 524288)
    (hc : s.File_Handle.totalNumPages ≤ s.file.length) :
    preludeRC p s = RC.RC_OK ∧
    (preludeStorage p s).File_Handle.totalNumPages ≤ (preludeStorage p s).file.length := by
  obtain ⟨f, g, _, _⟩ := readBlock_storage p (ensureCapacity (p + 1) s).2
  have hT := ensureCapacity_total (p + 1) s
  have hF := ensureCapacity_file_exact (p + 1) s h2
  have hlen : (ensureCapacity (p + 1) s).2.file.length
      = s.file.length + (p + 1 - s.File_Handle.totalNumPages).toNat := by
    rw [hF]; simp
  obtain ⟨_, hO, hI⟩ := pageIndex_small p h0 h1
  constructor
  · rw [preludeRC, readBlock_ok_iff]
    refine ⟨h0, by rw [hT]; exact le_max_right _ _, hO, ?_⟩
    rw [hlen, hI]
    omega
  · rw [f, g, hT, hlen]
    omega
/-! ## Claims -/

theorem pinPage_hit {bm : BM_BufferPool} {s : Storage} {k : Nat} (hinv : Inv bm.mgmtData s k)
    (page : BM_PageHandle) (p : Int)
    (hs : bm.strategy = ReplacementStrategy.RS_FIFO ∨ bm.strategy = ReplacementStrategy.RS_LRU)
    (i : Nat) (hi : i < k) (hp : (bm.mgmtData.frame i).page_num = p) :
    pinPage bm s page p =
      (some RC.RC_OK,
        { bm with
          mgmtData := bm.mgmtData.setFrame i
            { bm.mgmtData.frame i with fix_count := (bm.mgmtData.frame i).fix_count + 1 } },
        preludeStorage p s,
        { pageNum := p, data := (bm.mgmtData.frame i).contents }) := by
  obtain ⟨h0, _, hL, _⟩ := hinv.sto i hi
  rw [hp] at h0 hL
  have hok := prelude_ok p s h0 hL.1 hL.2
  unfold pinPage
  rcases hs with hF | hL
  · rw [if_pos hF]
    simp only
    rw [FIFO_hit hinv page p hok i hi hp]
    rfl
  · rw [if_neg (by rw [hL]; decide), if_pos hL]
    simp only
    rw [LRU_hit hinv page p hok i hi hp]

theorem pinPage_FIFO_rc (bm : BM_BufferPool) (s : Storage) (page : BM_PageHandle) (p : Int)
    (hF : bm.strategy = ReplacementStrategy.RS_FIFO) :
    (pinPage bm s page p).1 = some RC.RC_OK ∨
    (pinPage bm s page p).1 = some RC.RC_FILE_NOT_FOUND := by
  unfold pinPage
  rw [if_pos hF]
  simp only
  split
  · left; rfl
  · right; rfl

theorem pinned_frame_kept {bm : BM_BufferPool} {s : Storage} {k : Nat}
    (hinv : Inv bm.mgmtData s k) (page : BM_PageHandle) (p : Int) (i : Nat)
    (hpinned : 0 < (bm.mgmtData.frame i).fix_count) :
    ((pinPage bm s page p).2.1.mgmtData.frame i).page_num = (bm.mgmtData.frame i).page_num ∧
    ((pinPage bm s page p).2.1.mgmtData.frame i).contents = (bm.mgmtData.frame i).contents ∧
    (((pinPage bm s page p).2.1.mgmtData.frame i).fix_count = (bm.mgmtData.frame i).fix_count ∨
      (((pinPage bm s page p).2.1.mgmtData.frame i).fix_count
          = (bm.mgmtData.frame i).fix_count + 1 ∧
        (bm.mgmtData.frame i).page_num = p)) := by
  have hik : i < k := by
    by_contra hn
    have := hinv.emp i (by omega)
    rw [this] at hpinned
    simp [emptyFrame] at hpinned
  have hlen : k ≤ bm.mgmtData.Page_Frame.length := by rw [hinv.len]; exact hinv.hk
  rcases pinPage_cases hinv page p with ⟨_, hfr, _⟩ | ⟨j, hj, hp, heq⟩ |
    ⟨hk, _, _, heq⟩ | ⟨hk, hN, _, _, _, t, _, _, hfree, heq⟩
  · have : (pinPage bm s page p).2.1.mgmtData.frame i = bm.mgmtData.frame i := by
      simp only [Queue.frame]; rw [hfr]
    rw [this]
    exact ⟨rfl, rfl, Or.inl rfl⟩
  · rw [heq]
    simp only
    rw [frame_setFrame]
    split
    · rename_i hji
      obtain ⟨rfl, _⟩ := hji
      exact ⟨rfl, rfl, Or.inr ⟨rfl, hp⟩⟩
    · exact ⟨rfl, rfl, Or.inl rfl⟩
  · rw [heq]
    simp only
    rw [frame_mk_set, if_neg (by omega), frame_mk]
    exact ⟨rfl, rfl, Or.inl rfl⟩
  · have hne : (bm.mgmtData.head + t) % k ≠ i := by
      intro h
      rw [h] at hfree
      omega
    rw [heq]
    simp only
    rw [frame_mk_set, if_neg (by omega), frame_mk]
    exact ⟨rfl, rfl, Or.inl rfl⟩

/-- C1: in every state reachable from `initBufferPool`, a `pinPage` call
(any strategy, any page) leaves each frame whose `fix_count` is positive
with the same page number and the same contents; its `fix_count` stays the
same, or grows by one when the frame holds the requested page. -/
theorem C1_pinned_frame_kept (pageFileName : String) (numPages : Nat)
    (strategy : ReplacementStrategy) (w r : Int) (s0 : Storage) (ops : List Op)
    (page : BM_PageHandle) (p : Int) (i : Nat)
    (hpinned : 0 < ((run (initState pageFileName numPages strategy w r s0) ops).bm.mgmtData.frame
      i).fix_count) :
    let st := run (initState pageFileName numPages strategy w r s0) ops
    let q' := (pinPage st.bm st.sm page p).2.1.mgmtData
    (q'.frame i).page_num = (st.bm.mgmtData.frame i).page_num ∧
    (q'.frame i).contents = (st.bm.mgmtData.frame i).contents ∧
    ((q'.frame i).fix_count = (st.bm.mgmtData.frame i).fix_count ∨
      ((q'.frame i).fix_count = (st.bm.mgmtData.frame i).fix_count + 1 ∧
        (st.bm.mgmtData.frame i).page_num = p)) := by
  obtain ⟨k, hinv⟩ := Inv.run pageFileName numPages strategy w r s0 ops
  exact pinned_frame_kept hinv page p i hpinned

/-- Instance of C1: with page 0 pinned in a two-frame FIFO pool, pinning
page 1 leaves frame 0 as it was. -/
theorem C1_pinned_frame_kept_witness :
    0 < ((run (initState "pool.bin" 2 ReplacementStrategy.RS_FIFO 0 0 freshStorage)
      [Op.pin 0]).bm.mgmtData.frame 0).fix_count ∧
    (((pinPage (run fifo2 [Op.pin 0]).bm (run fifo2 [Op.pin 0]).sm
        { pageNum := 0, data := none } 1).2.1.mgmtData.frame 0).page_num
      = ((run fifo2 [Op.pin 0]).bm.mgmtData.frame 0).page_num ∧
     ((pinPage (run fifo2 [Op.pin 0]).bm (run fifo2 [Op.pin 0]).sm
        { pageNum := 0, data := none } 1).2.1.mgmtData.frame 0).contents
      = ((run fifo2 [Op.pin 0]).bm.mgmtData.frame 0).contents ∧
     (((pinPage (run fifo2 [Op.pin 0]).bm (run fifo2 [Op.pin 0]).sm
        { pageNum := 0, data := none } 1).2.1.mgmtData.frame 0).fix_count
        = ((run fifo2 [Op.pin 0]).bm.mgmtData.frame 0).fix_count ∨
      (((pinPage (run fifo2 [Op.pin 0]).bm (run fifo2 [Op.pin 0]).sm
        { pageNum := 0, data := none } 1).2.1.mgmtData.frame 0).fix_count
        = ((run fifo2 [Op.pin 0]).bm.mgmtData.frame 0).fix_count + 1 ∧
       ((run fifo2 [Op.pin 0]).bm.mgmtData.frame 0).page_num = 1))) :=
  ⟨by decide,
    C1_pinned_frame_kept "pool.bin" 2 ReplacementStrategy.RS_FIFO 0 0 freshStorage [Op.pin 0]
      { pageNum := 0, data := none } 1 0 (by decide)⟩
theorem pin_cached_page {bm : BM_BufferPool} {s : Storage} {k : Nat}
    (hinv : Inv bm.mgmtData s k) (page : BM_PageHandle) (p : Int) (i : Nat)
    (hs : bm.strategy = ReplacementStrategy.RS_FIFO ∨ bm.strategy = ReplacementStrategy.RS_LRU)
    (hp : 0 ≤ p) (hheld : (bm.mgmtData.frame i).page_num = p) :
    (pinPage bm s page p).1 = some RC.RC_OK ∧
    ((pinPage bm s page p).2.1.mgmtData.frame i).fix_count
      = (bm.mgmtData.frame i).fix_count + 1 ∧
    ((pinPage bm s page p).2.1.mgmtData.frame i).page_num = p ∧
    ((pinPage bm s page p).2.1.mgmtData.frame i).page_dirty = (bm.mgmtData.frame i).page_dirty ∧
    ((pinPage bm s page p).2.1.mgmtData.frame i).contents = (bm.mgmtData.frame i).contents ∧
    (∀ j, j ≠ i → (pinPage bm s page p).2.1.mgmtData.frame j = bm.mgmtData.frame j) ∧
    (pinPage bm s page p).2.2.2.pageNum = p ∧
    (pinPage bm s page p).2.2.2.data = (bm.mgmtData.frame i).contents ∧
    getNumReadIO (pinPage bm s page p).2.1 = getNumReadIO bm ∧
    getNumWriteIO (pinPage bm s page p).2.1 = getNumWriteIO bm := by
  have hik : i < k := (hinv.occupied i).mp (by omega)
  have hlen : i < bm.mgmtData.Page_Frame.length := by
    rw [hinv.len]; have := hinv.hk; omega
  rw [pinPage_hit hinv page p hs i hik hheld]
  simp only
  refine ⟨trivial, ?_, ?_, ?_, ?_, ?_, trivial, trivial, rfl, rfl⟩
  · rw [frame_setFrame_self _ _ _ hlen]
  · rw [frame_setFrame_self _ _ _ hlen]; exact hheld
  · rw [frame_setFrame_self _ _ _ hlen]
  · rw [frame_setFrame_self _ _ _ hlen]
  · intro j hj
    rw [frame_setFrame_ne _ _ _ _ (Ne.symm hj)]

/-- C2: in every reachable state of a FIFO or LRU pool, `pinPage` of a page
`p ≥ 0` that frame `i` holds returns `RC_OK`, adds exactly one to the
`fix_count` of that frame and changes nothing else in any frame, sets the
handle's `pageNum` to `p` and its `data` to the frame's contents, and leaves
`getNumReadIO` and `getNumWriteIO` as they were. -/
theorem C2_pin_cached_page (pageFileName : String) (numPages : Nat)
    (strategy : ReplacementStrategy) (w r : Int) (s0 : Storage) (ops : List Op)
    (page : BM_PageHandle) (p : Int) (i : Nat)
    (hs : strategy = ReplacementStrategy.RS_FIFO ∨ strategy = ReplacementStrategy.RS_LRU)
    (hp : 0 ≤ p)
    (hheld : ((run (initState pageFileName numPages strategy w r s0) ops).bm.mgmtData.frame
      i).page_num = p) :
    let st := run (initState pageFileName numPages strategy w r s0) ops
    let res := pinPage st.bm st.sm page p
    res.1 = some RC.RC_OK ∧
    (res.2.1.mgmtData.frame i).fix_count = (st.bm.mgmtData.frame i).fix_count + 1 ∧
    (res.2.1.mgmtData.frame i).page_num = p ∧
    (res.2.1.mgmtData.frame i).page_dirty = (st.bm.mgmtData.frame i).page_dirty ∧
    (res.2.1.mgmtData.frame i).contents = (st.bm.mgmtData.frame i).contents ∧
    (∀ j, j ≠ i → res.2.1.mgmtData.frame j = st.bm.mgmtData.frame j) ∧
    res.2.2.2.pageNum = p ∧
    res.2.2.2.data = (st.bm.mgmtData.frame i).contents ∧
    getNumReadIO res.2.1 = getNumReadIO st.bm ∧
    getNumWriteIO res.2.1 = getNumWriteIO st.bm := by
  obtain ⟨k, hinv⟩ := Inv.run pageFileName numPages strategy w r s0 ops
  have hst := (run_init_static pageFileName numPages strategy w r s0 ops).1
  exact pin_cached_page hinv page p i (by rw [hst]; exact hs) hp hheld

/-- Instance of C2: page 0 pinned a second time in a two-frame LRU pool. -/
theorem C2_pin_cached_page_witness :
    (ReplacementStrategy.RS_LRU = ReplacementStrategy.RS_FIFO ∨
      ReplacementStrategy.RS_LRU = ReplacementStrategy.RS_LRU) ∧
    (0 : Int) ≤ 0 ∧
    ((run (initState "pool.bin" 2 ReplacementStrategy.RS_LRU 0 0 freshStorage)
      [Op.pin 0, Op.pin 1]).bm.mgmtData.frame 0).page_num = 0 ∧
    (pinPage (run lru2 [Op.pin 0, Op.pin 1]).bm (run lru2 [Op.pin 0, Op.pin 1]).sm
      { pageNum := 5, data := none } 0).1 = some RC.RC_OK ∧
    ((pinPage (run lru2 [Op.pin 0, Op.pin 1]).bm (run lru2 [Op.pin 0, Op.pin 1]).sm
      { pageNum := 5, data := none } 0).2.1.mgmtData.frame 0).fix_count
      = ((run lru2 [Op.pin 0, Op.pin 1]).bm.mgmtData.frame 0).fix_count + 1 :=
  ⟨by decide, by decide, by decide,
    (C2_pin_cached_page "pool.bin" 2 ReplacementStrategy.RS_LRU 0 0 freshStorage
      [Op.pin 0, Op.pin 1] { pageNum := 5, data := none } 0 0 (by decide) (by decide)
      (by decide)).1,
    (C2_pin_cached_page "pool.bin" 2 ReplacementStrategy.RS_LRU 0 0 freshStorage
      [Op.pin 0, Op.pin 1] { pageNum := 5, data := none } 0 0 (by decide) (by decide)
      (by decide)).2.1⟩

theorem toNat_ne_of_ne {a b : Int} (ha : 0 ≤ a) (hb : 0 ≤ b) (h : a ≠ b) :
    a.toNat ≠ b.toNat := by omega

theorem not_held_anywhere {q : Queue} {s : Storage} {k : Nat} (hinv : Inv q s k) (p : Int)
    (hp : 0 ≤ p) (h : ∀ i, i < q.max_entries → (q.frame i).page_num ≠ p) :
    ∀ i, (q.frame i).page_num ≠ p := by
  intro i
  by_cases hi : i < q.max_entries
  · exact h i hi
  · rw [hinv.emp i (by have := hinv.hk; omega)]
    show (-1 : Int) ≠ p
    omega

/-- A `pinPage` call that returns `RC_OK` for a page `p` that no frame held
leaves exactly one frame holding `p`, pinned once and clean; its contents are
what `readBlock` delivered, the page at the 32-bit offset of `p` in the file
as `ensureCapacity` left it, and `getNumReadIO` has grown by one. -/
theorem load_new_page {bm : BM_BufferPool} {s : Storage} {k : Nat}
    (hinv : Inv bm.mgmtData s k) (page : BM_PageHandle) (p : Int)
    (hnew0 : ∀ i, i < bm.mgmtData.max_entries → (bm.mgmtData.frame i).page_num ≠ p)
    (hok : (pinPage bm s page p).1 = some RC.RC_OK) :
    ∃ i, i < bm.mgmtData.max_entries ∧
      (∀ j, ((pinPage bm s page p).2.1.mgmtData.frame j).page_num = p ↔ j = i) ∧
      ((pinPage bm s page p).2.1.mgmtData.frame i).fix_count = 1 ∧
      ((pinPage bm s page p).2.1.mgmtData.frame i).page_dirty = 0 ∧
      (∃ d, ((pinPage bm s page p).2.1.mgmtData.frame i).contents = some d ∧
        (preludeStorage p s).file[pageIndex p]? = some d) ∧
      getNumReadIO (pinPage bm s page p).2.1 = getNumReadIO bm + 1 := by
  have hlen := hinv.len
  rcases pinPage_cases hinv page p with ⟨hno, _⟩ | ⟨j, hj, hp, _⟩ |
    ⟨hk, _, hread, heq⟩ | ⟨hk, hN, _, _, hread, t, _, _, hfree, heq⟩
  · exact absurd hok hno
  · exact absurd hp (hnew0 j (by have := hinv.hk; omega))
  · obtain ⟨p0, pT, pL, pc, pd⟩ := prelude_facts p s hread
    obtain ⟨d, hd⟩ := Option.isSome_iff_exists.mp pc
    have hnew := not_held_anywhere hinv p p0 hnew0
    refine ⟨k, hk, ?_⟩
    rw [heq]
    simp only [ getNumReadIO]
    refine ⟨?_, ?_, ?_, ⟨d, ?_, ?_⟩, trivial⟩
    · intro j
      rw [frame_mk_set, frame_mk]
      constructor
      · intro h
        by_contra hne
        rw [if_neg (by omega)] at h
        exact hnew j h
      · intro h
        rw [if_pos ⟨h.symm, by omega⟩]
    · rw [frame_mk_set, if_pos ⟨rfl, by omega⟩]
    · rw [frame_mk_set, if_pos ⟨rfl, by omega⟩]
    · rw [frame_mk_set, if_pos ⟨rfl, by omega⟩]
      exact hd
    · rw [← pd]; exact hd
  · obtain ⟨p0, pT, pL, pc, pd⟩ := prelude_facts p s hread
    obtain ⟨d, hd⟩ := Option.isSome_iff_exists.mp pc
    have hnew := not_held_anywhere hinv p p0 hnew0
    have hv : (bm.mgmtData.head + t) % k < k := Nat.mod_lt _ hN
    refine ⟨(bm.mgmtData.head + t) % k, by omega, ?_⟩
    rw [heq]
    simp only [ getNumReadIO]
    refine ⟨?_, ?_, ?_, ⟨d, ?_, ?_⟩, trivial⟩
    · intro j
      rw [frame_mk_set, frame_mk]
      constructor
      · intro h
        by_contra hne
        rw [if_neg (by omega)] at h
        exact hnew j h
      · intro h
        rw [if_pos ⟨h.symm, by omega⟩]
    · rw [frame_mk_set, if_pos ⟨rfl, by omega⟩]
    · rw [frame_mk_set, if_pos ⟨rfl, by omega⟩]
    · rw [frame_mk_set, if_pos ⟨rfl, by omega⟩]
      exact hd
    · rw [← pd]; exact hd

/-- C3, evaluated on the code: in a two-frame FIFO pool on a fresh one-page
file, page 0 is filled with sevens and forced to disk.  No frame holds page
1048576, and `pinPage 1048576` returns `RC_OK`: frame 1 then holds page
1048576, pinned once and clean, and `getNumReadIO` has grown by one.  But
the byte offset `1048576 * PAGE_SIZE` is `0` in 32-bit arithmetic and
`ensureCapacity` appended a buffer of `0` bytes: the frame's contents are the
sevens of page 0, and the file still has one page, so that it has no page
1048576 although `totalNumPages` is 1048577. -/
theorem C3_loads_page_zero_for_page_1048576 :
    (∀ i, i < 2 →
      ((run fifo2 [Op.pin 0, Op.store 0 sevens, Op.dirty 0, Op.force 0]).bm.mgmtData.frame
        i).page_num ≠ 1048576) ∧
    (run fifo2 [Op.pin 0, Op.store 0 sevens, Op.dirty 0, Op.force 0]).sm.file.length = 1 ∧
    (pinPage (run fifo2 [Op.pin 0, Op.store 0 sevens, Op.dirty 0, Op.force 0]).bm
      (run fifo2 [Op.pin 0, Op.store 0 sevens, Op.dirty 0, Op.force 0]).sm
      { pageNum := 0, data := none } 1048576).1 = some RC.RC_OK ∧
    ((pinPage (run fifo2 [Op.pin 0, Op.store 0 sevens, Op.dirty 0, Op.force 0]).bm
      (run fifo2 [Op.pin 0, Op.store 0 sevens, Op.dirty 0, Op.force 0]).sm
      { pageNum := 0, data := none } 1048576).2.1.mgmtData.frame 1).page_num = 1048576 ∧
    ((pinPage (run fifo2 [Op.pin 0, Op.store 0 sevens, Op.dirty 0, Op.force 0]).bm
      (run fifo2 [Op.pin 0, Op.store 0 sevens, Op.dirty 0, Op.force 0]).sm
      { pageNum := 0, data := none } 1048576).2.1.mgmtData.frame 1).fix_count = 1 ∧
    ((pinPage (run fifo2 [Op.pin 0, Op.store 0 sevens, Op.dirty 0, Op.force 0]).bm
      (run fifo2 [Op.pin 0, Op.store 0 sevens, Op.dirty 0, Op.force 0]).sm
      { pageNum := 0, data := none } 1048576).2.1.mgmtData.frame 1).contents = some sevens ∧
    (pinPage (run fifo2 [Op.pin 0, Op.store 0 sevens, Op.dirty 0, Op.force 0]).bm
      (run fifo2 [Op.pin 0, Op.store 0 sevens, Op.dirty 0, Op.force 0]).sm
      { pageNum := 0, data := none } 1048576).2.2.1.file = [sevens] ∧
    (pinPage (run fifo2 [Op.pin 0, Op.store 0 sevens, Op.dirty 0, Op.force 0]).bm
      (run fifo2 [Op.pin 0, Op.store 0 sevens, Op.dirty 0, Op.force 0]).sm
      { pageNum := 0, data := none } 1048576).2.2.1.File_Handle.totalNumPages = 1048577 ∧
    blockOffset 1048576 = 0 := by
  refine ⟨by decide, by decide, by decide, by decide, by decide, rfl, rfl, by decide,
    by decide⟩
theorem all_pinned_fails {bm : BM_BufferPool} {s : Storage} {k : Nat}
    (hinv : Inv bm.mgmtData s k) (page : BM_PageHandle) (p : Int)
    (hF : bm.strategy = ReplacementStrategy.RS_FIFO)
    (hall : ∀ i, i < bm.mgmtData.max_entries →
      (bm.mgmtData.frame i).page_num ≠ -1 ∧ 0 < (bm.mgmtData.frame i).fix_count)
    (hnew : ∀ i, i < bm.mgmtData.max_entries → (bm.mgmtData.frame i).page_num ≠ p) :
    (pinPage bm s page p).1 = some RC.RC_FILE_NOT_FOUND := by
  have hk := hinv.hk
  rcases pinPage_cases hinv page p with ⟨hno, _⟩ | ⟨j, hj, hp, _⟩ |
    ⟨hlt, _, _, _⟩ | ⟨_, hN, _, _, _, t, _, _, hfree, _⟩
  · rcases pinPage_FIFO_rc bm s page p hF with h | h
    · exact absurd h hno
    · exact h
  · exact absurd hp (hnew j (by omega))
  · have := (hinv.occupied k).mp (hall k hlt).1
    omega
  · have hv : (bm.mgmtData.head + t) % k < k := Nat.mod_lt _ hN
    have := (hall _ (lt_of_lt_of_le hv hk)).2
    omega

/-- C4: in every reachable state of a FIFO pool in which every frame is
occupied and has a positive `fix_count`, `pinPage` of a page that no frame
holds returns the error code `RC_FILE_NOT_FOUND`.  (`pinPage` is a total
function: the eviction loop of `FIFO` gives up after `max_entries + 2`
failed `dequeue` calls.  The statement needs neither `numPages ≥ 1` nor
`p ≥ 0`.) -/
theorem C4_all_pinned_fails (pageFileName : String) (numPages : Nat) (w r : Int)
    (s0 : Storage) (ops : List Op) (page : BM_PageHandle) (p : Int)
    (hall : ∀ i, i < numPages →
      ((run (initState pageFileName numPages ReplacementStrategy.RS_FIFO w r s0)
        ops).bm.mgmtData.frame i).page_num ≠ -1 ∧
      0 < ((run (initState pageFileName numPages ReplacementStrategy.RS_FIFO w r s0)
        ops).bm.mgmtData.frame i).fix_count)
    (hnew : ∀ i, i < numPages →
      ((run (initState pageFileName numPages ReplacementStrategy.RS_FIFO w r s0)
        ops).bm.mgmtData.frame i).page_num ≠ p) :
    let st := run (initState pageFileName numPages ReplacementStrategy.RS_FIFO w r s0) ops
    (pinPage st.bm st.sm page p).1 = some RC.RC_FILE_NOT_FOUND ∧
    (pinPage st.bm st.sm page p).1 ≠ some RC.RC_OK := by
  obtain ⟨k, hinv⟩ := Inv.run pageFileName numPages ReplacementStrategy.RS_FIFO w r s0 ops
  obtain ⟨hst, hmax⟩ :=
    run_init_static pageFileName numPages ReplacementStrategy.RS_FIFO w r s0 ops
  have h := all_pinned_fails hinv page p hst (by rw [hmax]; exact hall)
    (by rw [hmax]; exact hnew)
  exact ⟨h, by rw [h]; decide⟩

/-- Instance of C4: both frames of a two-frame FIFO pool pinned, page 2
requested. -/
theorem C4_all_pinned_fails_witness :
    (∀ i, i < 2 →
      ((run (initState "pool.bin" 2 ReplacementStrategy.RS_FIFO 0 0 freshStorage)
        [Op.pin 0, Op.pin 1]).bm.mgmtData.frame i).page_num ≠ -1 ∧
      0 < ((run (initState "pool.bin" 2 ReplacementStrategy.RS_FIFO 0 0 freshStorage)
        [Op.pin 0, Op.pin 1]).bm.mgmtData.frame i).fix_count) ∧
    (∀ i, i < 2 →
      ((run (initState "pool.bin" 2 ReplacementStrategy.RS_FIFO 0 0 freshStorage)
        [Op.pin 0, Op.pin 1]).bm.mgmtData.frame i).page_num ≠ 2) ∧
    (pinPage (run fifo2 [Op.pin 0, Op.pin 1]).bm (run fifo2 [Op.pin 0, Op.pin 1]).sm
      { pageNum := 0, data := none } 2).1 = some RC.RC_FILE_NOT_FOUND ∧
    (pinPage (run fifo2 [Op.pin 0, Op.pin 1]).bm (run fifo2 [Op.pin 0, Op.pin 1]).sm
      { pageNum := 0, data := none } 2).1 ≠ some RC.RC_OK :=
  ⟨by decide, by decide,
    C4_all_pinned_fails "pool.bin" 2 0 0 freshStorage [Op.pin 0, Op.pin 1]
      { pageNum := 0, data := none } 2 (by decide) (by decide)⟩
/-! ## Filling a FIFO pool -/

theorem run_append (st : PoolState) (a b : List Op) : run st (a ++ b) = run (run st a) b := by
  unfold run
  rw [List.foldl_append]

theorem pinUnpinAll_append (a b : List Int) :
    pinUnpinAll (a ++ b) = pinUnpinAll a ++ pinUnpinAll b := by
  induction a with
  | nil => rfl
  | cons p ps ih => simp [pinUnpinAll, ih]

theorem firstPages_succ (n : Nat) : firstPages (n + 1) = firstPages n ++ [(n : Int)] := by
  unfold firstPages
  rw [List.range_succ, List.map_append]
  rfl

theorem Filled.next {N j : Nat} {st : PoolState} (h : Filled N j st) (hj : j < N)
    (hsmall : j < 524288) :
    Filled N (j + 1) (run st [Op.pin (j : Int), Op.unpin (j : Int)]) := by
  have hjm : j < st.bm.mgmtData.max_entries := by rw [h.max]; exact hj
  have hnew : ∀ i, i < j → (st.bm.mgmtData.frame i).page_num ≠ (j : Int) := by
    intro i hi
    rw [(h.pages i hi).1]
    omega
  have hlow := h.low
  obtain ⟨hok, hcoh⟩ := prelude_ok_of_coherent (j : Int) st.sm (by omega) (by omega)
    (by omega) h.coh
  obtain ⟨p0, pT, pL, pc, _⟩ := prelude_facts (j : Int) st.sm hok
  have hmono := prelude_mono (j : Int) st.sm
  have hpin := pinPage_load h.inv { pageNum := (j : Int), data := none } (j : Int)
    (Or.inl h.strat) hok hjm hnew
  have hinv1 := (h.inv.storage_mono hmono.1 hmono.2).load hjm
    { page_num := (j : Int), page_dirty := 0, fix_count := 1,
      contents := preludeData (j : Int) st.sm }
    p0 pT pL pc (by simp) hnew st.bm.mgmtData.num_files_written
    (st.bm.mgmtData.num_files_read + 1)
  have hlenj : j < st.bm.mgmtData.Page_Frame.length := by rw [h.inv.len]; exact hjm
  -- the state after the two calls
  have hrun : run st [Op.pin (j : Int), Op.unpin (j : Int)] =
      { bm := (unpinPage (pinPage st.bm st.sm { pageNum := (j : Int), data := none }
          (j : Int)).2.1 { pageNum := (j : Int), data := none }).2
        sm := preludeStorage (j : Int) st.sm } := by
    simp only [run, List.foldl_cons, List.foldl_nil, Assign3.step]
    rw [hpin]
  rw [hrun, hpin]
  simp only
  have hspec := unpinPage_spec
    { st.bm with
      mgmtData :=
        { Page_Frame := st.bm.mgmtData.Page_Frame.set j
            { page_num := (j : Int), page_dirty := 0, fix_count := 1,
              contents := preludeData (j : Int) st.sm }
          head := st.bm.mgmtData.head
          tail := (j + 1) % st.bm.mgmtData.max_entries
          num_entries := j + 1
          max_entries := st.bm.mgmtData.max_entries
          num_files_written := st.bm.mgmtData.num_files_written
          num_files_read := st.bm.mgmtData.num_files_read + 1 } }
    { pageNum := (j : Int), data := none } hinv1.len
  obtain ⟨_, h1, _, _, h4, _, _, h7, h8⟩ := hspec
  simp only [frame_mk_set, frame_mk] at h8
  constructor
  · exact hinv1.unpinPage _
  · rw [h1]; exact h.head0
  · intro i hi
    rw [h8 i]
    by_cases hij : j = i
    · subst hij
      simp [hlenj]
    · obtain ⟨hp, hf⟩ := h.pages i (by omega)
      simp [hij, hp, hf]
  · exact hcoh
  · have : ((j + 1 : Nat) : Int) = (j : Int) + 1 := by omega
    rw [this]
    exact pT
  · rw [h7]; exact h.strat
  · rw [h4]; exact h.max

theorem Filled.atStart (pageFileName : String) (N : Nat) (w r : Int) (s0 : Storage)
    (hs0 : s0.File_Handle.totalNumPages ≤ s0.file.length)
    (hs1 : 0 ≤ s0.File_Handle.totalNumPages) :
    Filled N 0 (initState pageFileName N ReplacementStrategy.RS_FIFO w r s0) :=
  { inv := Inv.init pageFileName N ReplacementStrategy.RS_FIFO w r s0
    head0 := rfl
    pages := fun i hi => by omega
    coh := hs0
    low := hs1
    strat := rfl
    max := rfl }

theorem Filled.fill (pageFileName : String) (N : Nat) (w r : Int) (s0 : Storage)
    (hs0 : s0.File_Handle.totalNumPages ≤ s0.file.length)
    (hs1 : 0 ≤ s0.File_Handle.totalNumPages) (j : Nat) (hj : j ≤ N) (hsmall : j ≤ 524288) :
    Filled N j (run (initState pageFileName N ReplacementStrategy.RS_FIFO w r s0)
      (pinUnpinAll (firstPages j))) := by
  induction j with
  | zero => exact Filled.atStart pageFileName N w r s0 hs0 hs1
  | succ j ih =>
    rw [firstPages_succ, pinUnpinAll_append, run_append]
    exact (ih (by omega) (by omega)).next (by omega) (by omega)

/-- For every `N` with `1 ≤ N < 524288`, in a FIFO pool of `N` frames
initialised on a page file whose pages back the storage manager's page count
(as after `createPageFile`), once pages `0, ..., N - 1` have each been pinned and
unpinned in order (frame `i` then holds page `i`), `pinPage N` returns
`RC_OK` and puts page `N` into frame 0, the frame of page 0; every other
frame is untouched, so pages `1, ..., N - 1` are still resident and page 0
is not. -/
theorem fifo_evicts_oldest (pageFileName : String) (N : Nat) (w r : Int) (s0 : Storage)
    (page : BM_PageHandle) (hN : 1 ≤ N) (hsmall : N < 524288)
    (hs0 : s0.File_Handle.totalNumPages ≤ s0.file.length)
    (hs1 : 0 ≤ s0.File_Handle.totalNumPages) :
    let st := run (initState pageFileName N ReplacementStrategy.RS_FIFO w r s0)
      (pinUnpinAll (firstPages N))
    let res := pinPage st.bm st.sm page (N : Int)
    (∀ i, i < N → (st.bm.mgmtData.frame i).page_num = (i : Int)) ∧
    res.1 = some RC.RC_OK ∧
    (res.2.1.mgmtData.frame 0).page_num = (N : Int) ∧
    (∀ i, 1 ≤ i → res.2.1.mgmtData.frame i = st.bm.mgmtData.frame i) ∧
    (∀ i, 1 ≤ i → i < N → (res.2.1.mgmtData.frame i).page_num = (i : Int)) ∧
    (∀ i, (res.2.1.mgmtData.frame i).page_num ≠ 0) := by
  have h := Filled.fill pageFileName N w r s0 hs0 hs1 N (le_refl N) (by omega)
  have hlow := h.low
  obtain ⟨hok, _⟩ := prelude_ok_of_coherent (N : Int) _ (by omega) (by omega) (by omega) h.coh
  have hnew : ∀ i, i < N → ((run (initState pageFileName N ReplacementStrategy.RS_FIFO w r s0)
      (pinUnpinAll (firstPages N))).bm.mgmtData.frame i).page_num ≠ (N : Int) := by
    intro i hi
    rw [(h.pages i hi).1]
    omega
  obtain ⟨t, _, hpinned, _, heq⟩ := pinPage_evict h.inv page (N : Int) h.strat hok h.max.symm
    hnew ⟨0, by omega, (h.pages 0 (by omega)).2⟩
  have ht : t = 0 := by
    by_contra hne
    have := hpinned 0 (by omega)
    rw [h.head0] at this
    simp only [Nat.zero_add, Nat.zero_mod] at this
    exact this (h.pages 0 (by omega)).2
  subst ht
  have hv : ((run (initState pageFileName N ReplacementStrategy.RS_FIFO w r s0)
      (pinUnpinAll (firstPages N))).bm.mgmtData.head + 0) % N = 0 := by
    rw [h.head0]; simp
  rw [hv] at heq
  have hlen0 : 0 < (run (initState pageFileName N ReplacementStrategy.RS_FIFO w r s0)
      (pinUnpinAll (firstPages N))).bm.mgmtData.Page_Frame.length := by
    rw [h.inv.len, h.max]; omega
  have hfr : ∀ i, 1 ≤ i → (pinPage (run (initState pageFileName N ReplacementStrategy.RS_FIFO
      w r s0) (pinUnpinAll (firstPages N))).bm (run (initState pageFileName N
      ReplacementStrategy.RS_FIFO w r s0) (pinUnpinAll (firstPages N))).sm page
      (N : Int)).2.1.mgmtData.frame i = (run (initState pageFileName N
      ReplacementStrategy.RS_FIFO w r s0) (pinUnpinAll (firstPages N))).bm.mgmtData.frame i := by
    intro i hi
    rw [heq]
    simp only
    rw [frame_mk_set, if_neg (by omega), frame_mk]
  refine ⟨fun i hi => (h.pages i hi).1, by rw [heq], ?_, hfr, ?_, ?_⟩
  · rw [heq]
    simp only
    rw [frame_mk_set, if_pos ⟨rfl, hlen0⟩]
  · intro i h1 hi
    rw [hfr i h1]
    exact (h.pages i hi).1
  · intro i
    by_cases hi0 : i = 0
    · subst hi0
      rw [heq]
      simp only
      rw [frame_mk_set, if_pos ⟨rfl, hlen0⟩]
      simp only
      omega
    · rw [hfr i (by omega)]
      by_cases hi : i < N
      · rw [(h.pages i hi).1]; omega
      · rw [h.inv.emp i (by omega)]
        simp [emptyFrame]

/-- Instance with three frames on a freshly created page file. -/
theorem fifo_evicts_oldest_three :
    (pinPage
      (run (initState "pool.bin" 3 ReplacementStrategy.RS_FIFO 0 0 freshStorage)
        (pinUnpinAll (firstPages 3))).bm
      (run (initState "pool.bin" 3 ReplacementStrategy.RS_FIFO 0 0 freshStorage)
        (pinUnpinAll (firstPages 3))).sm { pageNum := 0, data := none }
      ((3 : Nat) : Int)).1 = some RC.RC_OK ∧
    ((pinPage
      (run (initState "pool.bin" 3 ReplacementStrategy.RS_FIFO 0 0 freshStorage)
        (pinUnpinAll (firstPages 3))).bm
      (run (initState "pool.bin" 3 ReplacementStrategy.RS_FIFO 0 0 freshStorage)
        (pinUnpinAll (firstPages 3))).sm { pageNum := 0, data := none }
      ((3 : Nat) : Int)).2.1.mgmtData.frame 0).page_num = ((3 : Nat) : Int) :=
  ⟨(fifo_evicts_oldest "pool.bin" 3 0 0 freshStorage { pageNum := 0, data := none }
      (by decide) (by decide) (by decide) (by decide)).2.1,
    (fifo_evicts_oldest "pool.bin" 3 0 0 freshStorage { pageNum := 0, data := none }
      (by decide) (by decide) (by decide) (by decide)).2.2.1⟩

/-- The seek of `readBlock 524288` fails: the byte offset is `-2147483648` in
32-bit arithmetic, so that `pinPage 524288` fails in every pool state. -/
theorem prelude_524288 (s : Storage) : preludeRC 524288 s ≠ RC.RC_OK := by
  intro h
  have h2 := ((readBlock_ok_iff _ _).mp h).2.2.1
  revert h2
  decide

/-- A `pinPage` call of a FIFO pool whose `readBlock` fails returns
`RC_FILE_NOT_FOUND` and leaves the pool as it was. -/
theorem pinPage_read_fails (st : PoolState) (hs : st.bm.strategy = ReplacementStrategy.RS_FIFO)
    (page : BM_PageHandle) (p : Int) (h : preludeRC p st.sm ≠ RC.RC_OK) :
    (pinPage st.bm st.sm page p).1 = some RC.RC_FILE_NOT_FOUND ∧
    (pinPage st.bm st.sm page p).2.1 = st.bm ∧
    (pinPage st.bm st.sm page p).2.2.1 = preludeStorage p st.sm := by
  unfold pinPage
  rw [if_pos hs, FIFO_fail _ _ _ _ h]
  exact ⟨rfl, rfl, rfl⟩

/-- C5, evaluated on the code for `N = 524288`: in a FIFO pool of 524288
frames on a fresh page file, after pages `0, ..., 524287` have each been
pinned and unpinned in order, frame `i` holds page `i` unpinned, for every
`i < 524288`.  `pinPage 524288` then returns `RC_FILE_NOT_FOUND` and leaves
the pool as it was: page 0 is not evicted and page 524288 is not loaded,
because the byte offset `524288 * PAGE_SIZE` is `-2147483648` in 32-bit
arithmetic and the seek of `readBlock` fails. -/
theorem C5_pin_fails_for_524288_frames :
    (∀ i, i < 524288 →
      ((run (initState "pool.bin" 524288 ReplacementStrategy.RS_FIFO 0 0 freshStorage)
        (pinUnpinAll (firstPages 524288))).bm.mgmtData.frame i).page_num = (i : Int) ∧
      ((run (initState "pool.bin" 524288 ReplacementStrategy.RS_FIFO 0 0 freshStorage)
        (pinUnpinAll (firstPages 524288))).bm.mgmtData.frame i).fix_count = 0) ∧
    (pinPage
      (run (initState "pool.bin" 524288 ReplacementStrategy.RS_FIFO 0 0 freshStorage)
        (pinUnpinAll (firstPages 524288))).bm
      (run (initState "pool.bin" 524288 ReplacementStrategy.RS_FIFO 0 0 freshStorage)
        (pinUnpinAll (firstPages 524288))).sm
      { pageNum := 0, data := none } 524288).1 = some RC.RC_FILE_NOT_FOUND ∧
    (pinPage
      (run (initState "pool.bin" 524288 ReplacementStrategy.RS_FIFO 0 0 freshStorage)
        (pinUnpinAll (firstPages 524288))).bm
      (run (initState "pool.bin" 524288 ReplacementStrategy.RS_FIFO 0 0 freshStorage)
        (pinUnpinAll (firstPages 524288))).sm
      { pageNum := 0, data := none } 524288).2.1
      = (run (initState "pool.bin" 524288 ReplacementStrategy.RS_FIFO 0 0 freshStorage)
        (pinUnpinAll (firstPages 524288))).bm ∧
    blockOffset 524288 = -2147483648 :=
  ⟨(Filled.fill "pool.bin" 524288 0 0 freshStorage (by decide) (by decide) 524288
      (le_refl _) (le_refl _)).pages,
    (pinPage_read_fails
      (run (initState "pool.bin" 524288 ReplacementStrategy.RS_FIFO 0 0 freshStorage)
        (pinUnpinAll (firstPages 524288)))
      (run_init_static "pool.bin" 524288 ReplacementStrategy.RS_FIFO 0 0 freshStorage
        (pinUnpinAll (firstPages 524288))).1
      { pageNum := 0, data := none } 524288 (prelude_524288 _)).1,
    (pinPage_read_fails
      (run (initState "pool.bin" 524288 ReplacementStrategy.RS_FIFO 0 0 freshStorage)
        (pinUnpinAll (firstPages 524288)))
      (run_init_static "pool.bin" 524288 ReplacementStrategy.RS_FIFO 0 0 freshStorage
        (pinUnpinAll (firstPages 524288))).1
      { pageNum := 0, data := none } 524288 (prelude_524288 _)).2.1,
    by decide⟩
/-- C6, evaluated on the code: after `skipHistory` the frames of the
three-frame FIFO pool hold pages 0, 3, 2, loaded by calls 1, 6 and 4, all
unpinned.  `pinPage 4` succeeds and loads page 4 over frame 2 (page 2, loaded
by call 4), although the unpinned frame 0 (page 0) was loaded earlier, by call
1: the failed `dequeue` of call 6, which met page 0 pinned at `head`, advanced
`head` for good. -/
theorem C6_victim_not_oldest :
    (∀ i, i < 3 → ((run fifo3 skipHistory).bm.mgmtData.frame i).fix_count = 0) ∧
    ((run fifo3 skipHistory).bm.mgmtData.frame 0).page_num = 0 ∧
    ((run fifo3 skipHistory).bm.mgmtData.frame 2).page_num = 2 ∧
    loadTime fifo3 skipHistory 0 0 = 1 ∧
    loadTime fifo3 skipHistory 0 2 = 4 ∧
    (pinPage (run fifo3 skipHistory).bm (run fifo3 skipHistory).sm
      { pageNum := 0, data := none } 4).1 = some RC.RC_OK ∧
    ((pinPage (run fifo3 skipHistory).bm (run fifo3 skipHistory).sm
      { pageNum := 0, data := none } 4).2.1.mgmtData.frame 2).page_num = 4 ∧
    ((pinPage (run fifo3 skipHistory).bm (run fifo3 skipHistory).sm
      { pageNum := 0, data := none } 4).2.1.mgmtData.frame 0).page_num = 0 ∧
    ¬ (∀ v, v < 3 →
        ((pinPage (run fifo3 skipHistory).bm (run fifo3 skipHistory).sm
          { pageNum := 0, data := none } 4).2.1.mgmtData.frame v).page_num
          ≠ ((run fifo3 skipHistory).bm.mgmtData.frame v).page_num →
        ∀ j, j < 3 → ((run fifo3 skipHistory).bm.mgmtData.frame j).fix_count = 0 →
          loadTime fifo3 skipHistory 0 v ≤ loadTime fifo3 skipHistory 0 j) := by
  decide

theorem fifo_victim {bm : BM_BufferPool} {s : Storage} {k : Nat}
    (hinv : Inv bm.mgmtData s k) (page : BM_PageHandle) (p : Int)
    (hfull : ∀ i, i < bm.mgmtData.max_entries → (bm.mgmtData.frame i).page_num ≠ -1)
    (hnew : ∀ i, i < bm.mgmtData.max_entries → (bm.mgmtData.frame i).page_num ≠ p)
    (hok : (pinPage bm s page p).1 = some RC.RC_OK) :
    ∃ t, (bm.mgmtData.head + t) % bm.mgmtData.max_entries < bm.mgmtData.max_entries ∧
      (∀ u, u < t →
        (bm.mgmtData.frame ((bm.mgmtData.head + u) % bm.mgmtData.max_entries)).fix_count ≠ 0) ∧
      (bm.mgmtData.frame ((bm.mgmtData.head + t) % bm.mgmtData.max_entries)).fix_count = 0 ∧
      ((pinPage bm s page p).2.1.mgmtData.frame
        ((bm.mgmtData.head + t) % bm.mgmtData.max_entries)).page_num = p ∧
      ∀ j, j ≠ (bm.mgmtData.head + t) % bm.mgmtData.max_entries →
        (pinPage bm s page p).2.1.mgmtData.frame j = bm.mgmtData.frame j := by
  have hk := hinv.hk
  rcases pinPage_cases hinv page p with ⟨hno, _⟩ | ⟨j, hj, hp, _⟩ |
    ⟨hlt, _, _, _⟩ | ⟨hkN, hN, _, _, _, t, _, hpinned, hfree, heq⟩
  · exact absurd hok hno
  · exact absurd hp (hnew j (by omega))
  · exact absurd (by rw [hinv.emp k (le_refl k)]; rfl) (hfull k hlt)
  · subst hkN
    have hv : (bm.mgmtData.head + t) % bm.mgmtData.max_entries < bm.mgmtData.max_entries :=
      Nat.mod_lt _ hN
    have hlen := hinv.len
    refine ⟨t, hv, hpinned, hfree, ?_, ?_⟩
    · rw [heq]
      simp only
      rw [frame_mk_set, if_pos ⟨rfl, by omega⟩]
    · intro j hj
      rw [heq]
      simp only
      rw [frame_mk_set, if_neg (by omega), frame_mk]

/-- C7, evaluated on the code: in a two-frame LRU pool, after pages 0 and 1
were pinned and unpinned and page 0 was pinned and unpinned again,
`pinPage 2` reaches the end of `LRU` without a `return` (no return code),
evicts nothing and loads nothing: the frames still hold pages 0 and 1 and no
frame holds page 2. -/
theorem C7_lru_never_evicts :
    (pinPage (run lru2 [Op.pin 0, Op.unpin 0, Op.pin 1, Op.unpin 1, Op.pin 0, Op.unpin 0]).bm
      (run lru2 [Op.pin 0, Op.unpin 0, Op.pin 1, Op.unpin 1, Op.pin 0, Op.unpin 0]).sm
      { pageNum := 0, data := none } 2).1 = none ∧
    ((pinPage (run lru2 [Op.pin 0, Op.unpin 0, Op.pin 1, Op.unpin 1, Op.pin 0, Op.unpin 0]).bm
      (run lru2 [Op.pin 0, Op.unpin 0, Op.pin 1, Op.unpin 1, Op.pin 0, Op.unpin 0]).sm
      { pageNum := 0, data := none } 2).2.1.mgmtData.frame 0).page_num = 0 ∧
    ((pinPage (run lru2 [Op.pin 0, Op.unpin 0, Op.pin 1, Op.unpin 1, Op.pin 0, Op.unpin 0]).bm
      (run lru2 [Op.pin 0, Op.unpin 0, Op.pin 1, Op.unpin 1, Op.pin 0, Op.unpin 0]).sm
      { pageNum := 0, data := none } 2).2.1.mgmtData.frame 1).page_num = 1 ∧
    (∀ i, i < 2 →
      ((pinPage (run lru2 [Op.pin 0, Op.unpin 0, Op.pin 1, Op.unpin 1, Op.pin 0, Op.unpin 0]).bm
        (run lru2 [Op.pin 0, Op.unpin 0, Op.pin 1, Op.unpin 1, Op.pin 0, Op.unpin 0]).sm
        { pageNum := 0, data := none } 2).2.1.mgmtData.frame i).page_num ≠ 2) ∧
    (∀ i, i < 2 →
      ((run lru2 [Op.pin 0, Op.unpin 0, Op.pin 1, Op.unpin 1, Op.pin 0,
        Op.unpin 0]).bm.mgmtData.frame i).fix_count = 0) := by
  decide
/-- `pinPage` never changes `num_files_written`: no path of `FIFO`, `LRU`,
`enqueue` or `dequeue` assigns it. -/
theorem pinPage_write_counter {bm : BM_BufferPool} {s : Storage} {k : Nat}
    (hinv : Inv bm.mgmtData s k) (page : BM_PageHandle) (p : Int) :
    getNumWriteIO (pinPage bm s page p).2.1 = getNumWriteIO bm := by
  unfold getNumWriteIO
  rcases pinPage_cases hinv page p with ⟨_, _, _, h, _⟩ | ⟨j, _, _, heq⟩ |
    ⟨_, _, _, heq⟩ | ⟨_, _, _, _, _, t, _, _, _, heq⟩
  · exact h
  · rw [heq]; rfl
  · rw [heq]
  · rw [heq]

/-- Every `pinPage` that evicts a frame calls `writeBlock` exactly once,
whatever the victim's dirty flag. -/
theorem pinPage_evict_writes {bm : BM_BufferPool} {s : Storage} {k : Nat}
    (hinv : Inv bm.mgmtData s k) (page : BM_PageHandle) (p : Int)
    (hfull : ∀ i, i < bm.mgmtData.max_entries → (bm.mgmtData.frame i).page_num ≠ -1)
    (hnew : ∀ i, i < bm.mgmtData.max_entries → (bm.mgmtData.frame i).page_num ≠ p)
    (hok : (pinPage bm s page p).1 = some RC.RC_OK) :
    (pinPage bm s page p).2.2.1.nWriteBlock = s.nWriteBlock + 1 := by
  have hk := hinv.hk
  rcases pinPage_cases hinv page p with ⟨hno, _⟩ | ⟨j, hj, hp, _⟩ |
    ⟨hlt, _, _, _⟩ | ⟨hkN, hN, _, _, _, t, _, hpinned, hfree, heq⟩
  · exact absurd hok hno
  · exact absurd hp (hnew j (by omega))
  · exact absurd (by rw [hinv.emp k (le_refl k)]; rfl) (hfull k hlt)
  · rw [heq]
    simp only
    rw [(writeBlock_storage _ _ _).2.2.2, (readBlock_storage _ _).2.2.2,
      (ensureCapacity_counters _ _).2.1]

/-- Every `pinPage` that evicts a frame stores the victim's contents in the
file, at the 32-bit byte offset of the victim's page number, whatever its
dirty flag. -/
theorem pinPage_evict_writes_back {bm : BM_BufferPool} {s : Storage} {k : Nat}
    (hinv : Inv bm.mgmtData s k) (page : BM_PageHandle) (p : Int)
    (hfull : ∀ i, i < bm.mgmtData.max_entries → (bm.mgmtData.frame i).page_num ≠ -1)
    (hnew : ∀ i, i < bm.mgmtData.max_entries → (bm.mgmtData.frame i).page_num ≠ p)
    (hok : (pinPage bm s page p).1 = some RC.RC_OK) :
    ∃ v, v < bm.mgmtData.max_entries ∧ (bm.mgmtData.frame v).fix_count = 0 ∧
      ((pinPage bm s page p).2.1.mgmtData.frame v).page_num = p ∧
      (pinPage bm s page p).2.2.1.file[pageIndex (bm.mgmtData.frame v).page_num]?
        = (bm.mgmtData.frame v).contents := by
  have hk := hinv.hk
  have hlen := hinv.len
  rcases pinPage_cases hinv page p with ⟨hno, _⟩ | ⟨j, hj, hp, _⟩ |
    ⟨hlt, _, _, _⟩ | ⟨hkN, hN, _, _, _, t, _, hpinned, hfree, heq⟩
  · exact absurd hok hno
  · exact absurd hp (hnew j (by omega))
  · exact absurd (by rw [hinv.emp k (le_refl k)]; rfl) (hfull k hlt)
  · subst hkN
    have hv : (bm.mgmtData.head + t) % bm.mgmtData.max_entries < bm.mgmtData.max_entries :=
      Nat.mod_lt _ hN
    have hinv2 : Inv bm.mgmtData (preludeStorage p s) bm.mgmtData.max_entries :=
      hinv.storage_mono (prelude_mono p s).1 (prelude_mono p s).2
    obtain ⟨v0, vT, ⟨vO, vL⟩, vc⟩ := hinv2.sto _ hv
    obtain ⟨dv, hdv⟩ := Option.isSome_iff_exists.mp vc
    refine ⟨_, hv, hfree, ?_, ?_⟩
    · rw [heq]
      simp only
      rw [frame_mk_set, if_pos ⟨rfl, by omega⟩]
    · rw [heq]
      simp only
      rw [hdv, writeBlock_file _ _ _ vT vO vL, List.getElem?_set, if_pos rfl, if_pos vL]

/-- C9, evaluated on the code: in a one-frame FIFO pool page 0 is pinned,
overwritten with sevens, marked dirty and unpinned.  `pinPage 1` then evicts
the dirty frame: the victim's contents reach page 0 of the file through one
`writeBlock` call, but `getNumWriteIO` is 0 before and after the call. -/
theorem C9_dirty_eviction_not_counted :
    ((run fifo1 [Op.pin 0, Op.store 0 sevens, Op.dirty 0, Op.unpin 0]).bm.mgmtData.frame
      0).page_dirty = 1 ∧
    (run fifo1 [Op.pin 0, Op.store 0 sevens, Op.dirty 0, Op.unpin 0]).sm.file[0]?
      = some zeroPage ∧
    (pinPage (run fifo1 [Op.pin 0, Op.store 0 sevens, Op.dirty 0, Op.unpin 0]).bm
      (run fifo1 [Op.pin 0, Op.store 0 sevens, Op.dirty 0, Op.unpin 0]).sm
      { pageNum := 0, data := none } 1).1 = some RC.RC_OK ∧
    ((pinPage (run fifo1 [Op.pin 0, Op.store 0 sevens, Op.dirty 0, Op.unpin 0]).bm
      (run fifo1 [Op.pin 0, Op.store 0 sevens, Op.dirty 0, Op.unpin 0]).sm
      { pageNum := 0, data := none } 1).2.1.mgmtData.frame 0).page_num = 1 ∧
    (pinPage (run fifo1 [Op.pin 0, Op.store 0 sevens, Op.dirty 0, Op.unpin 0]).bm
      (run fifo1 [Op.pin 0, Op.store 0 sevens, Op.dirty 0, Op.unpin 0]).sm
      { pageNum := 0, data := none } 1).2.2.1.file[0]? = some sevens ∧
    (pinPage (run fifo1 [Op.pin 0, Op.store 0 sevens, Op.dirty 0, Op.unpin 0]).bm
      (run fifo1 [Op.pin 0, Op.store 0 sevens, Op.dirty 0, Op.unpin 0]).sm
      { pageNum := 0, data := none } 1).2.2.1.nWriteBlock
      = (run fifo1 [Op.pin 0, Op.store 0 sevens, Op.dirty 0, Op.unpin 0]).sm.nWriteBlock + 1 ∧
    getNumWriteIO (run fifo1 [Op.pin 0, Op.store 0 sevens, Op.dirty 0, Op.unpin 0]).bm = 0 ∧
    getNumWriteIO
      (pinPage (run fifo1 [Op.pin 0, Op.store 0 sevens, Op.dirty 0, Op.unpin 0]).bm
        (run fifo1 [Op.pin 0, Op.store 0 sevens, Op.dirty 0, Op.unpin 0]).sm
        { pageNum := 0, data := none } 1).2.1 = 0 :=
  ⟨by decide, rfl, by decide, by decide, rfl, by decide, by decide, by decide⟩

/-- C10, evaluated on the code: in a one-frame FIFO pool page 0 is pinned and
unpinned, never marked dirty.  `pinPage 1` then evicts the clean frame and
still calls `writeBlock` once for it. -/
theorem C10_clean_eviction_writes :
    ((run fifo1 [Op.pin 0, Op.unpin 0]).bm.mgmtData.frame 0).page_dirty = 0 ∧
    ((run fifo1 [Op.pin 0, Op.unpin 0]).bm.mgmtData.frame 0).page_num = 0 ∧
    (pinPage (run fifo1 [Op.pin 0, Op.unpin 0]).bm (run fifo1 [Op.pin 0, Op.unpin 0]).sm
      { pageNum := 0, data := none } 1).1 = some RC.RC_OK ∧
    ((pinPage (run fifo1 [Op.pin 0, Op.unpin 0]).bm (run fifo1 [Op.pin 0, Op.unpin 0]).sm
      { pageNum := 0, data := none } 1).2.1.mgmtData.frame 0).page_num = 1 ∧
    (run fifo1 [Op.pin 0, Op.unpin 0]).sm.nWriteBlock = 0 ∧
    (pinPage (run fifo1 [Op.pin 0, Op.unpin 0]).bm (run fifo1 [Op.pin 0, Op.unpin 0]).sm
      { pageNum := 0, data := none } 1).2.2.1.nWriteBlock = 1 := by
  decide
/-! ## Round trip through eviction -/

theorem prelude_file_get (p x : Int) (s : Storage) (hx : x.toNat < s.file.length) :
    (preludeStorage p s).file[x.toNat]? = s.file[x.toNat]? := by
  rw [(readBlock_storage _ _).2.1, ensureCapacity_file, List.getElem?_append, if_pos hx]

theorem unpin_keeps {bm : BM_BufferPool} {s : Storage} {k : Nat}
    (hinv : Inv bm.mgmtData s k) (page : BM_PageHandle) (j : Nat) :
    ((unpinPage bm page).2.mgmtData.frame j).page_num = (bm.mgmtData.frame j).page_num ∧
    ((unpinPage bm page).2.mgmtData.frame j).contents = (bm.mgmtData.frame j).contents ∧
    ((bm.mgmtData.frame j).fix_count = 0 →
      ((unpinPage bm page).2.mgmtData.frame j).fix_count = 0) ∧
    ((bm.mgmtData.frame j).fix_count = 1 → (bm.mgmtData.frame j).page_num = page.pageNum →
      ((unpinPage bm page).2.mgmtData.frame j).fix_count = 0) := by
  have h := (unpinPage_spec bm page hinv.len).2.2.2.2.2.2.2.2 j
  rw [h]
  split
  · rename_i hc
    refine ⟨rfl, rfl, fun h0 => by omega, fun h1 _ => by simp [h1]⟩
  · rename_i hc
    refine ⟨rfl, rfl, fun h0 => h0, fun h1 hp => ?_⟩
    exact absurd ⟨by omega, hp⟩ hc

theorem KeptMid.unpin {p : Int} {b : Page} {q : Int} {st : PoolState}
    (h : KeptMid p b q st) : Kept p b (step st (Op.unpin q)) := by
  obtain ⟨k, hinv, hF, hp, hsm, hcase⟩ := h
  have hst := unpinPage_static st.bm { pageNum := q, data := none }
  have hsm' : SmallPages p (step st (Op.unpin q)) := by
    refine ⟨hsm.1, fun i => ?_⟩
    show ((unpinPage st.bm { pageNum := q, data := none }).2.mgmtData.frame i).page_num < _
    rw [(unpin_keeps hinv { pageNum := q, data := none } i).1]
    exact hsm.2 i
  refine ⟨k, hinv.unpinPage _, by rw [← hF]; exact hst.1, hp, hsm', ?_⟩
  rcases hcase with ⟨i, hi, hpi, hci⟩ | ⟨hnone, hfile, hev⟩
  · left
    obtain ⟨a, c, _, _⟩ := unpin_keeps hinv { pageNum := q, data := none } i
    exact ⟨i, hi, by rw [← hpi]; exact a, by rw [← hci]; exact c⟩
  · right
    refine ⟨fun i hi => ?_, hfile, ?_⟩
    · have := (unpin_keeps hinv { pageNum := q, data := none } i).1
      show ((unpinPage st.bm { pageNum := q, data := none }).2.mgmtData.frame i).page_num ≠ p
      rw [this]
      exact hnone i hi
    · rcases hev with hlt | ⟨j, hj, hfix⟩
      · left
        show k < (unpinPage st.bm { pageNum := q, data := none }).2.mgmtData.max_entries
        rw [hst.2]; exact hlt
      · right
        obtain ⟨_, _, z, o⟩ := unpin_keeps hinv { pageNum := q, data := none } j
        refine ⟨j, hj, ?_⟩
        rcases hfix with h0 | ⟨h1, hq⟩
        · exact z h0
        · exact o h1 hq

/-- After `pinPage q` every frame holds the page it held or page `q`. -/
theorem pinPage_page_nums {bm : BM_BufferPool} {s : Storage} {k : Nat}
    (hinv : Inv bm.mgmtData s k) (page : BM_PageHandle) (q : Int) (i : Nat) :
    ((pinPage bm s page q).2.1.mgmtData.frame i).page_num = (bm.mgmtData.frame i).page_num ∨
    ((pinPage bm s page q).2.1.mgmtData.frame i).page_num = q := by
  rcases pinPage_cases hinv page q with ⟨_, hfr, _⟩ | ⟨j, hj, hqj, heq⟩ | ⟨hlt, _, _, heq⟩ |
    ⟨hkN, hN, _, _, _, t, _, _, _, heq⟩
  · left
    simp only [Queue.frame]
    rw [hfr]
  · left
    rw [heq]
    simp only
    rw [frame_setFrame]
    split
    · rename_i hc
      rw [← hc.1]
    · rfl
  · rw [heq]
    simp only
    rw [frame_mk_set, frame_mk]
    split
    · right; rfl
    · left; rfl
  · rw [heq]
    simp only
    rw [frame_mk_set, frame_mk]
    split
    · right; rfl
    · left; rfl

theorem Kept.pin {p : Int} {b : Page} {st : PoolState} (h : Kept p b st) (q : Int)
    (hq : q < 524288) : KeptMid p b q (step st (Op.pin q)) := by
  obtain ⟨k, hinv, hF, hp, hsm, hcase⟩ := h
  have hpI : pageIndex p = p.toNat := (pageIndex_small p hp hsm.1).2.2
  have hsm' : SmallPages p (step st (Op.pin q)) := by
    refine ⟨hsm.1, fun i => ?_⟩
    rcases pinPage_page_nums hinv { pageNum := q, data := none } q i with h1 | h1
    · show ((pinPage st.bm st.sm { pageNum := q, data := none } q).2.1.mgmtData.frame
        i).page_num < _
      rw [h1]; exact hsm.2 i
    · show ((pinPage st.bm st.sm { pageNum := q, data := none } q).2.1.mgmtData.frame
        i).page_num < _
      rw [h1]; exact hq
  have hmono := prelude_mono q st.sm
  have hinv2 : Inv st.bm.mgmtData (preludeStorage q st.sm) k :=
    hinv.storage_mono hmono.1 hmono.2
  have hlen := hinv.len
  have hk := hinv.hk
  show KeptMid p b q
    { bm := (pinPage st.bm st.sm { pageNum := q, data := none } q).2.1
      sm := (pinPage st.bm st.sm { pageNum := q, data := none } q).2.2.1 }
  obtain ⟨k', hinv'⟩ := hinv.pinPage { pageNum := q, data := none } q
  have hF' : (pinPage st.bm st.sm { pageNum := q, data := none } q).2.1.strategy
      = ReplacementStrategy.RS_FIFO := by
    rw [(pinPage_static _ _ _ _).1]; exact hF
  have hmax' := (pinPage_static st.bm st.sm { pageNum := q, data := none } q).2
  refine ⟨k', hinv', hF', hp, hsm', ?_⟩
  -- a frame of the new state that holds a page is one of the first `k'`
  have hocc : ∀ i, ((pinPage st.bm st.sm { pageNum := q, data := none } q).2.1.mgmtData.frame
      i).page_num = p → i < k' := fun i hi => (hinv'.occupied i).mp (by rw [hi]; omega)
  rcases pinPage_cases hinv { pageNum := q, data := none } q with
    ⟨_, hfr, _, _, hsto⟩ | ⟨j, hj, hqj, heq⟩ | ⟨hlt, hnq, hread, heq⟩ |
    ⟨hkN, hN, _, hnq, hread, t, _, _, hfree, heq⟩
  · -- the call failed: frames as before
    have hsame : ∀ i, (pinPage st.bm st.sm { pageNum := q, data := none } q).2.1.mgmtData.frame i
        = st.bm.mgmtData.frame i := by
      intro i; simp only [Queue.frame]; rw [hfr]
    have hkk : ∀ i, i < k' ↔ i < k := by
      intro i
      rw [← hinv'.occupied, ← hinv.occupied, hsame]
    rcases hcase with ⟨i, hi, hpi, hci⟩ | ⟨hnone, hfile, hev⟩
    · left
      exact ⟨i, (hkk i).mpr hi, by rw [hsame]; exact hpi, by rw [hsame]; exact hci⟩
    · right
      have hx : p.toNat < st.sm.file.length := (List.getElem?_eq_some_iff.mp hfile).1
      refine ⟨fun i hi => by rw [hsame]; exact hnone i ((hkk i).mp hi), ?_, ?_⟩
      · rcases hsto with h1 | h1
        · show (pinPage st.bm st.sm { pageNum := q, data := none } q).2.2.1.file[p.toNat]? = _
          rw [h1, prelude_file_get q p st.sm hx]; exact hfile
        · show (pinPage st.bm st.sm { pageNum := q, data := none } q).2.2.1.file[p.toNat]? = _
          rw [h1]; exact hfile
      · have hkeq : k' = k := by
          apply Nat.le_antisymm
          · by_contra hlt
            exact absurd ((hkk k).mp (by omega)) (lt_irrefl k)
          · by_contra hlt
            exact absurd ((hkk k').mpr (by omega)) (lt_irrefl k')
        rcases hev with hlt | ⟨j, hj, hfix⟩
        · left; show k' < _; rw [hmax', hkeq]; exact hlt
        · right
          exact ⟨j, (hkk j).mpr hj, Or.inl (by rw [hsame]; exact hfix)⟩
  · -- hit on frame `j`
    have hjl : j < st.bm.mgmtData.Page_Frame.length := by omega
    have hfrj : ∀ i, (pinPage st.bm st.sm { pageNum := q, data := none } q).2.1.mgmtData.frame i
        = if j = i then { st.bm.mgmtData.frame j with
            fix_count := (st.bm.mgmtData.frame j).fix_count + 1 }
          else st.bm.mgmtData.frame i := by
      intro i
      rw [heq]
      simp only
      rw [frame_setFrame]
      by_cases hji : j = i
      · rw [if_pos ⟨hji, hjl⟩, if_pos hji]
      · rw [if_neg (by tauto), if_neg hji]
    have hpg : ∀ i, ((pinPage st.bm st.sm { pageNum := q, data := none }
        q).2.1.mgmtData.frame i).page_num = (st.bm.mgmtData.frame i).page_num ∧
        ((pinPage st.bm st.sm { pageNum := q, data := none } q).2.1.mgmtData.frame i).contents
          = (st.bm.mgmtData.frame i).contents := by
      intro i
      rw [hfrj]
      split
      · rename_i hji; subst hji; exact ⟨rfl, rfl⟩
      · exact ⟨rfl, rfl⟩
    have hkk : ∀ i, i < k' ↔ i < k := by
      intro i
      rw [← hinv'.occupied, ← hinv.occupied, (hpg i).1]
    have hsto : (pinPage st.bm st.sm { pageNum := q, data := none } q).2.2.1
        = preludeStorage q st.sm := by rw [heq]
    rcases hcase with ⟨i, hi, hpi, hci⟩ | ⟨hnone, hfile, hev⟩
    · left
      exact ⟨i, (hkk i).mpr hi, by rw [(hpg i).1]; exact hpi, by rw [(hpg i).2]; exact hci⟩
    · right
      have hx : p.toNat < st.sm.file.length := (List.getElem?_eq_some_iff.mp hfile).1
      refine ⟨fun i hi => by rw [(hpg i).1]; exact hnone i ((hkk i).mp hi), ?_, ?_⟩
      · show (pinPage st.bm st.sm { pageNum := q, data := none } q).2.2.1.file[p.toNat]? = _
        rw [hsto, prelude_file_get q p st.sm hx]; exact hfile
      · have hkeq : k' = k := by
          apply Nat.le_antisymm
          · by_contra hlt
            exact absurd ((hkk k).mp (by omega)) (lt_irrefl k)
          · by_contra hlt
            exact absurd ((hkk k').mpr (by omega)) (lt_irrefl k')
        rcases hev with hlt | ⟨e, he, hfix⟩
        · left; show k' < _; rw [hmax', hkeq]; exact hlt
        · right
          refine ⟨e, (hkk e).mpr he, ?_⟩
          rw [hfrj]
          by_cases hje : j = e
          · subst hje
            rw [if_pos rfl]
            right
            exact ⟨by simp only; omega, hqj⟩
          · rw [if_neg hje]
            exact Or.inl hfix
  · -- load into the first empty frame `k`
    obtain ⟨q0, qT, qL, qc, qd⟩ := prelude_facts q st.sm hread
    have hkl : k < st.bm.mgmtData.Page_Frame.length := by omega
    have hfrk : ∀ i, (pinPage st.bm st.sm { pageNum := q, data := none } q).2.1.mgmtData.frame i
        = if k = i then
            { page_num := q, page_dirty := 0, fix_count := 1, contents := preludeData q st.sm }
          else st.bm.mgmtData.frame i := by
      intro i
      rw [heq]
      simp only
      rw [frame_mk_set, frame_mk]
      by_cases hki : k = i
      · rw [if_pos ⟨hki, hkl⟩, if_pos hki]
      · rw [if_neg (by tauto), if_neg hki]
    have hsto : (pinPage st.bm st.sm { pageNum := q, data := none } q).2.2.1
        = preludeStorage q st.sm := by rw [heq]
    have hk1 : k < k' := (hinv'.occupied k).mp (by rw [hfrk, if_pos rfl]; simp only; omega)
    rcases hcase with ⟨i, hi, hpi, hci⟩ | ⟨hnone, hfile, hev⟩
    · left
      refine ⟨i, hocc i (by rw [hfrk, if_neg (by omega)]; exact hpi), ?_, ?_⟩
      · rw [hfrk, if_neg (by omega)]; exact hpi
      · rw [hfrk, if_neg (by omega)]; exact hci
    · have hx : p.toNat < st.sm.file.length := (List.getElem?_eq_some_iff.mp hfile).1
      have hfile' : (pinPage st.bm st.sm { pageNum := q, data := none }
          q).2.2.1.file[p.toNat]? = some b := by
        rw [hsto, prelude_file_get q p st.sm hx]; exact hfile
      by_cases hqp : q = p
      · left
        subst hqp
        refine ⟨k, hk1, by rw [hfrk, if_pos rfl], ?_⟩
        rw [hfrk, if_pos rfl]
        simp only
        rw [preludeData, qd, hpI]
        rw [hsto] at hfile'
        exact hfile'
      · right
        refine ⟨fun i hi => ?_, hfile', Or.inr ⟨k, hk1, Or.inr ?_⟩⟩
        · rw [hfrk]
          split
          · exact hqp
          · rename_i hki
            by_cases hik : i < k
            · exact hnone i hik
            · rw [hinv.emp i (by omega)]
              show (-1 : Int) ≠ p
              omega
        · rw [hfrk, if_pos rfl]
          exact ⟨rfl, rfl⟩
  · -- eviction of frame `v`
    obtain ⟨q0, qT, qL, qc, qd⟩ := prelude_facts q st.sm hread
    subst hkN
    have hv : (st.bm.mgmtData.head + t) % st.bm.mgmtData.max_entries
        < st.bm.mgmtData.max_entries := Nat.mod_lt _ hN
    have hvl : (st.bm.mgmtData.head + t) % st.bm.mgmtData.max_entries
        < st.bm.mgmtData.Page_Frame.length := by omega
    obtain ⟨v0, vT, ⟨vO, vL'⟩, vc⟩ := hinv2.sto _ hv
    have hvI : pageIndex (st.bm.mgmtData.frame
        ((st.bm.mgmtData.head + t) % st.bm.mgmtData.max_entries)).page_num
        = (st.bm.mgmtData.frame
          ((st.bm.mgmtData.head + t) % st.bm.mgmtData.max_entries)).page_num.toNat :=
      (pageIndex_small _ v0 (hsm.2 _)).2.2
    have vL : (st.bm.mgmtData.frame
        ((st.bm.mgmtData.head + t) % st.bm.mgmtData.max_entries)).page_num.toNat
        < (preludeStorage q st.sm).file.length := by rw [← hvI]; exact vL'
    obtain ⟨dv, hdv⟩ := Option.isSome_iff_exists.mp vc
    have hfrv : ∀ i, (pinPage st.bm st.sm { pageNum := q, data := none } q).2.1.mgmtData.frame i
        = if (st.bm.mgmtData.head + t) % st.bm.mgmtData.max_entries = i then
            { page_num := q, page_dirty := 0, fix_count := 1, contents := preludeData q st.sm }
          else st.bm.mgmtData.frame i := by
      intro i
      rw [heq]
      simp only
      rw [frame_mk_set, frame_mk]
      by_cases hki : (st.bm.mgmtData.head + t) % st.bm.mgmtData.max_entries = i
      · rw [if_pos ⟨hki, hvl⟩, if_pos hki]
      · rw [if_neg (by tauto), if_neg hki]
    have hsto : (pinPage st.bm st.sm { pageNum := q, data := none } q).2.2.1.file
        = (preludeStorage q st.sm).file.set
            (st.bm.mgmtData.frame
              ((st.bm.mgmtData.head + t) % st.bm.mgmtData.max_entries)).page_num.toNat dv := by
      rw [heq]
      simp only
      rw [hdv, writeBlock_file _ _ _ vT vO vL', hvI]
    have hv1 : (st.bm.mgmtData.head + t) % st.bm.mgmtData.max_entries < k' :=
      (hinv'.occupied _).mp (by rw [hfrv, if_pos rfl]; simp only; omega)
    have hnewfix : ((pinPage st.bm st.sm { pageNum := q, data := none }
        q).2.1.mgmtData.frame
          ((st.bm.mgmtData.head + t) % st.bm.mgmtData.max_entries)).fix_count = 1 ∧
        ((pinPage st.bm st.sm { pageNum := q, data := none } q).2.1.mgmtData.frame
          ((st.bm.mgmtData.head + t) % st.bm.mgmtData.max_entries)).page_num = q := by
      rw [hfrv, if_pos rfl]
      exact ⟨rfl, rfl⟩
    rcases hcase with ⟨i, hi, hpi, hci⟩ | ⟨hnone, hfile, hev⟩
    · by_cases hvi : (st.bm.mgmtData.head + t) % st.bm.mgmtData.max_entries = i
      · -- page `p` is the victim: it is written back
        right
        have hqp : q ≠ p := fun h => hnq i hi (by rw [hpi, h])
        refine ⟨fun e he => ?_, ?_, Or.inr ⟨_, hv1, Or.inr hnewfix⟩⟩
        · rw [hfrv]
          split
          · exact hqp
          · rename_i hne
            by_cases hek : e < st.bm.mgmtData.max_entries
            · intro hpe
              exact hne (hinv.nodup _ _ hv hek (by rw [hvi, hpi, hpe]))
            · rw [hinv.emp e (by omega)]
              show (-1 : Int) ≠ p
              omega
        · show (pinPage st.bm st.sm { pageNum := q, data := none } q).2.2.1.file[p.toNat]? = _
          have e1 : (st.bm.mgmtData.frame
              ((st.bm.mgmtData.head + t) % st.bm.mgmtData.max_entries)).page_num = p := by
            rw [hvi]; exact hpi
          have e2 : dv = b := by
            rw [hvi, hci] at hdv
            exact (Option.some.inj hdv).symm
          rw [hsto, e1, List.getElem?_set, if_pos rfl, if_pos (by rw [← e1]; exact vL), e2]
      · left
        refine ⟨i, hocc i (by rw [hfrv, if_neg hvi]; exact hpi), ?_, ?_⟩
        · rw [hfrv, if_neg hvi]; exact hpi
        · rw [hfrv, if_neg hvi]; exact hci
    · have hx : p.toNat < st.sm.file.length := (List.getElem?_eq_some_iff.mp hfile).1
      have hvp : (st.bm.mgmtData.frame
          ((st.bm.mgmtData.head + t) % st.bm.mgmtData.max_entries)).page_num ≠ p :=
        hnone _ hv
      have hfile' : (pinPage st.bm st.sm { pageNum := q, data := none }
          q).2.2.1.file[p.toNat]? = some b := by
        rw [hsto, List.getElem?_set, if_neg (toNat_ne_of_ne v0 hp hvp),
          prelude_file_get q p st.sm hx]
        exact hfile
      by_cases hqp : q = p
      · left
        subst hqp
        refine ⟨_, hv1, hnewfix.2, ?_⟩
        rw [hfrv, if_pos rfl]
        simp only
        rw [preludeData, qd, hpI, prelude_file_get q q st.sm hx]
        exact hfile
      · right
        refine ⟨fun i hi => ?_, hfile', Or.inr ⟨_, hv1, Or.inr hnewfix⟩⟩
        rw [hfrv]
        split
        · exact hqp
        · by_cases hik : i < st.bm.mgmtData.max_entries
          · exact hnone i hik
          · rw [hinv.emp i (by omega)]
            show (-1 : Int) ≠ p
            omega
theorem scanStep_handle (q : Queue) (page page' : BM_PageHandle) (p : Int) (nf : Page_Frame)
    (i : Nat) : (scanStep q page p nf i).1 = (scanStep q page' p nf i).1 := by
  unfold scanStep
  split <;> rfl

/-- The state that `pinPage` leaves and its return code do not depend on
what the page handle held before the call. -/
theorem pinPage_handle (bm : BM_BufferPool) (s : Storage) (page page' : BM_PageHandle)
    (p : Int) :
    (pinPage bm s page p).1 = (pinPage bm s page' p).1 ∧
    (pinPage bm s page p).2.1 = (pinPage bm s page' p).2.1 ∧
    (pinPage bm s page p).2.2.1 = (pinPage bm s page' p).2.2.1 := by
  have hF : (FIFO bm s page p).1 = (FIFO bm s page' p).1 ∧
      (FIFO bm s page p).2.1 = (FIFO bm s page' p).2.1 ∧
      (FIFO bm s page p).2.2.1 = (FIFO bm s page' p).2.2.1 := by
    unfold FIFO
    simp only
    by_cases hok : (readBlock p (ensureCapacity (p + 1) s).2).1 = RC.RC_OK
    · rw [if_pos hok, if_pos hok]
      cases hs : scanFrames bm.mgmtData p with
      | some i => exact ⟨rfl, rfl, rfl⟩
      | none => exact ⟨rfl, rfl, rfl⟩
    · rw [if_neg hok, if_neg hok]
      exact ⟨rfl, rfl, rfl⟩
  have hL : (LRU bm s page p).1 = (LRU bm s page' p).1 ∧
      (LRU bm s page p).2.1 = (LRU bm s page' p).2.1 ∧
      (LRU bm s page p).2.2.1 = (LRU bm s page' p).2.2.1 := by
    unfold LRU
    simp only
    by_cases hok : (readBlock p (ensureCapacity (p + 1) s).2).1 = RC.RC_OK
    · rw [if_pos hok, if_pos hok]
      cases hs : scanFrames bm.mgmtData p with
      | some i => exact ⟨rfl, rfl, rfl⟩
      | none => exact ⟨rfl, rfl, rfl⟩
    · rw [if_neg hok, if_neg hok]
      exact ⟨rfl, rfl, rfl⟩
  unfold pinPage
  by_cases h1 : bm.strategy = ReplacementStrategy.RS_FIFO
  · rw [if_pos h1, if_pos h1]
    simp only
    rw [hF.1]
    split
    · exact ⟨rfl, hF.2.1, hF.2.2⟩
    · exact ⟨rfl, hF.2.1, hF.2.2⟩
  · rw [if_neg h1, if_neg h1]
    by_cases h2 : bm.strategy = ReplacementStrategy.RS_LRU
    · rw [if_pos h2, if_pos h2]
      simp only
      rw [hL.1]
      split
      · exact ⟨rfl, hL.2.1, hL.2.2⟩
      · exact ⟨rfl, hL.2.1, hL.2.2⟩
      · exact ⟨rfl, hL.2.1, hL.2.2⟩
    · rw [if_neg h2, if_neg h2]
      exact ⟨rfl, rfl, rfl⟩

theorem markDirty_keeps (bm : BM_BufferPool) (page : BM_PageHandle) (j : Nat) :
    ((markDirty bm page).2.mgmtData.frame j).page_num = (bm.mgmtData.frame j).page_num ∧
    ((markDirty bm page).2.mgmtData.frame j).contents = (bm.mgmtData.frame j).contents ∧
    ((markDirty bm page).2.mgmtData.frame j).fix_count = (bm.mgmtData.frame j).fix_count := by
  unfold markDirty
  simp only
  split
  · simp only
    rw [frame_setFrame]
    split
    · rename_i hij
      obtain ⟨rfl, _⟩ := hij
      exact ⟨rfl, rfl, rfl⟩
    · exact ⟨rfl, rfl, rfl⟩
  · exact ⟨rfl, rfl, rfl⟩

theorem storePage_at {bm : BM_BufferPool} {s : Storage} {k : Nat}
    (hinv : Inv bm.mgmtData s k) (p : Int) (b : Page) (i : Nat) (hi : i < k)
    (hp : (bm.mgmtData.frame i).page_num = p) :
    storePage bm p b =
      { bm with
        mgmtData := bm.mgmtData.setFrame i { bm.mgmtData.frame i with contents := some b } } := by
  have hfind : (List.range bm.mgmtData.max_entries).find?
      (fun i => (bm.mgmtData.frame i).page_num = p ∧ (bm.mgmtData.frame i).contents.isSome)
      = some i := by
    rw [List.find?_range_eq_some]
    refine ⟨by simp [hp, (hinv.sto i hi).2.2.2], by simp; have := hinv.hk; omega, ?_⟩
    intro j hj
    have : (bm.mgmtData.frame j).page_num ≠ p := by
      intro hj2
      have := hinv.nodup j i (by omega) hi (by rw [hj2, hp])
      omega
    simp [this]
  unfold storePage
  simp only
  rw [hfind]

/-- A successful `pinPage p`, a store of `b` through the handle, `markDirty`
and `unpinPage` leave page `p` cached with contents `b`. -/
theorem Kept.start {st : PoolState} {k : Nat} (hinv : Inv st.bm.mgmtData st.sm k)
    (hF : st.bm.strategy = ReplacementStrategy.RS_FIFO) (p : Int) (b : Page)
    (hsm : SmallPages p st)
    (hok : (pinPage st.bm st.sm { pageNum := p, data := none } p).1 = some RC.RC_OK) :
    Kept p b (run st [Op.pin p, Op.store p b, Op.dirty p, Op.unpin p]) := by
  have hrun : run st [Op.pin p, Op.store p b, Op.dirty p, Op.unpin p]
      = step (step (step (step st (Op.pin p)) (Op.store p b)) (Op.dirty p)) (Op.unpin p) := rfl
  rw [hrun]
  apply KeptMid.unpin
  obtain ⟨k1, hinv1⟩ := hinv.pinPage { pageNum := p, data := none } p
  have hlen := hinv.len
  have hk := hinv.hk
  -- after the pin some frame holds `p`, and `p ≥ 0`
  have hres : 0 ≤ p ∧ ∃ i, ((pinPage st.bm st.sm { pageNum := p, data := none }
      p).2.1.mgmtData.frame i).page_num = p := by
    rcases pinPage_cases hinv { pageNum := p, data := none } p with
      ⟨hno, _⟩ | ⟨j, hj, hpj, heq⟩ | ⟨hlt, _, hread, heq⟩ |
      ⟨hkN, hN, _, _, hread, t, _, _, _, heq⟩
    · exact absurd hok hno
    · refine ⟨by rw [← hpj]; exact (hinv.sto j hj).1, j, ?_⟩
      rw [heq]
      simp only
      rw [frame_setFrame_self _ _ _ (by omega)]
      exact hpj
    · refine ⟨(prelude_facts p st.sm hread).1, k, ?_⟩
      rw [heq]
      simp only
      rw [frame_mk_set, if_pos ⟨rfl, by omega⟩]
    · refine ⟨(prelude_facts p st.sm hread).1, (st.bm.mgmtData.head + t) % k, ?_⟩
      rw [heq]
      simp only
      rw [frame_mk_set, if_pos ⟨rfl, by have := Nat.mod_lt (st.bm.mgmtData.head + t) hN; omega⟩]
  obtain ⟨hp0, i, hpi⟩ := hres
  have hi1 : i < k1 := (hinv1.occupied i).mp (by rw [hpi]; omega)
  have hil : i < (pinPage st.bm st.sm { pageNum := p, data := none }
      p).2.1.mgmtData.Page_Frame.length := by
    rw [hinv1.len]; have := hinv1.hk; omega
  have hstore := storePage_at hinv1 p b i hi1 hpi
  have hinv2 := hinv1.storePage p b
  have hinv3 := hinv2.markDirty { pageNum := p, data := none }
  have hF1 : (pinPage st.bm st.sm { pageNum := p, data := none } p).2.1.strategy
      = ReplacementStrategy.RS_FIFO := by
    rw [(pinPage_static _ _ _ _).1]; exact hF
  have hsm3 : SmallPages p
      (step (step (step st (Op.pin p)) (Op.store p b)) (Op.dirty p)) := by
    refine ⟨hsm.1, fun j => ?_⟩
    show ((markDirty (storePage (pinPage st.bm st.sm { pageNum := p, data := none } p).2.1 p b)
      { pageNum := p, data := none }).2.mgmtData.frame j).page_num < _
    rw [(markDirty_keeps _ _ j).1, hstore]
    simp only
    have hold : ((pinPage st.bm st.sm { pageNum := p, data := none } p).2.1.mgmtData.frame
        j).page_num < 524288 := by
      rcases pinPage_page_nums hinv { pageNum := p, data := none } p j with h1 | h1
      · rw [h1]; exact hsm.2 j
      · rw [h1]; exact hsm.1
    rw [frame_setFrame]
    split
    · rename_i hc
      rw [hc.1]
      exact hold
    · exact hold
  refine ⟨k1, hinv3, ?_, hp0, hsm3, Or.inl ⟨i, hi1, ?_, ?_⟩⟩
  · show (markDirty (storePage (pinPage st.bm st.sm { pageNum := p, data := none } p).2.1 p b)
      { pageNum := p, data := none }).2.strategy = _
    rw [(markDirty_static _ _).1, (storePage_static _ _ _).1]
    exact hF1
  · show ((markDirty (storePage (pinPage st.bm st.sm { pageNum := p, data := none } p).2.1 p b)
      { pageNum := p, data := none }).2.mgmtData.frame i).page_num = p
    rw [(markDirty_keeps _ _ i).1, hstore]
    simp only
    rw [frame_setFrame_self _ _ _ hil]
    exact hpi
  · show ((markDirty (storePage (pinPage st.bm st.sm { pageNum := p, data := none } p).2.1 p b)
      { pageNum := p, data := none }).2.mgmtData.frame i).contents = some b
    rw [(markDirty_keeps _ _ i).2.1, hstore]
    simp only
    rw [frame_setFrame_self _ _ _ hil]

theorem Kept.pinUnpinAll {p : Int} {b : Page} (qs : List Int) :
    (∀ q, q ∈ qs → q < 524288) →
      ∀ {st : PoolState}, Kept p b st → Kept p b (run st (pinUnpinAll qs)) := by
  induction qs with
  | nil => intro _ st h; exact h
  | cons q qs ih =>
    intro hqs st h
    have : run st (Assign3.pinUnpinAll (q :: qs))
        = run (step (step st (Op.pin q)) (Op.unpin q)) (Assign3.pinUnpinAll qs) := rfl
    rw [this]
    exact ih (fun x hx => hqs x (List.mem_cons_of_mem _ hx))
      (h.pin q (hqs q (List.mem_cons_self _ _))).unpin

/-- Pinning a kept page returns its bytes. -/
theorem Kept.final {p : Int} {b : Page} {st : PoolState} (h : Kept p b st)
    (page : BM_PageHandle) :
    (pinPage st.bm st.sm page p).1 = some RC.RC_OK ∧
    (pinPage st.bm st.sm page p).2.2.2.data = some b ∧
    (pinPage st.bm st.sm page p).2.2.2.pageNum = p := by
  obtain ⟨k, hinv, hF, hp, hsm, hcase⟩ := h
  obtain ⟨_, hpO, hpI⟩ := pageIndex_small p hp hsm.1
  rcases hcase with ⟨i, hi, hpi, hci⟩ | ⟨hnone, hfile, hev⟩
  · rw [pinPage_hit hinv page p (Or.inl hF) i hi hpi]
    exact ⟨rfl, hci, rfl⟩
  · have hx : p.toNat < st.sm.file.length := (List.getElem?_eq_some_iff.mp hfile).1
    have hok := prelude_ok p st.sm hp hpO (by rw [hpI]; exact hx)
    have hdata : preludeData p st.sm = some b := by
      rw [preludeData, (prelude_facts p st.sm hok).2.2.2.2, hpI, prelude_file_get p p st.sm hx]
      exact hfile
    by_cases hlt : k < st.bm.mgmtData.max_entries
    · rw [pinPage_load hinv page p (Or.inl hF) hok hlt hnone]
      exact ⟨rfl, hdata, rfl⟩
    · have hkN : k = st.bm.mgmtData.max_entries := by have := hinv.hk; omega
      rcases hev with h1 | hfree
      · exact absurd h1 hlt
      · obtain ⟨t, _, _, _, heq⟩ := pinPage_evict hinv page p hF hok hkN hnone hfree
        rw [heq]
        exact ⟨rfl, hdata, rfl⟩
/-- Round trip through eviction where byte offsets are exact.  From any
reachable state of a FIFO pool whose frames hold pages below 524288, for every
page `p < 524288`: if `pinPage p` returns `RC_OK`, the client stores the bytes
`b` through the handle, calls `markDirty` and `unpinPage` for `p`, and then
pins and unpins each page of a list `qs` of pages below 524288 in turn, a
further `pinPage p` returns `RC_OK` with a handle for page `p` whose data are
`b`. -/
theorem round_trip_exact_offsets (pageFileName : String) (numPages : Nat) (w r : Int)
    (s0 : Storage) (ops : List Op) (p : Int) (b : Page) (qs : List Int)
    (page page' : BM_PageHandle) (hp : p < 524288)
    (hfr : ∀ i, i < numPages →
      ((run (initState pageFileName numPages ReplacementStrategy.RS_FIFO w r s0)
        ops).bm.mgmtData.frame i).page_num < 524288)
    (hqs : ∀ q, q ∈ qs → q < 524288)
    (hpin : (pinPage
      (run (initState pageFileName numPages ReplacementStrategy.RS_FIFO w r s0) ops).bm
      (run (initState pageFileName numPages ReplacementStrategy.RS_FIFO w r s0) ops).sm
      page p).1 = some RC.RC_OK) :
    let st := run (initState pageFileName numPages ReplacementStrategy.RS_FIFO w r s0) ops
    let st' := run st ([Op.pin p, Op.store p b, Op.dirty p, Op.unpin p] ++ pinUnpinAll qs)
    (pinPage st'.bm st'.sm page' p).1 = some RC.RC_OK ∧
    (pinPage st'.bm st'.sm page' p).2.2.2.data = some b ∧
    (pinPage st'.bm st'.sm page' p).2.2.2.pageNum = p := by
  obtain ⟨k, hinv⟩ := Inv.run pageFileName numPages ReplacementStrategy.RS_FIFO w r s0 ops
  obtain ⟨hst, hmax⟩ :=
    run_init_static pageFileName numPages ReplacementStrategy.RS_FIFO w r s0 ops
  have hok : (pinPage
      (run (initState pageFileName numPages ReplacementStrategy.RS_FIFO w r s0) ops).bm
      (run (initState pageFileName numPages ReplacementStrategy.RS_FIFO w r s0) ops).sm
      { pageNum := p, data := none } p).1 = some RC.RC_OK := by
    rw [← (pinPage_handle _ _ page _ p).1]
    exact hpin
  have hsm : SmallPages p
      (run (initState pageFileName numPages ReplacementStrategy.RS_FIFO w r s0) ops) := by
    refine ⟨hp, fun i => ?_⟩
    by_cases hi : i < numPages
    · exact hfr i hi
    · rw [hinv.emp i (by have := hinv.hk; omega)]
      decide
  have h1 := Kept.start hinv hst p b hsm hok
  have h2 := Kept.pinUnpinAll qs hqs h1
  rw [← run_append] at h2
  exact h2.final page'

/-- Instance: two frames, page 0 filled with sevens, pages 1 and 2 pinned and
unpinned, page 0 pinned again. -/
theorem round_trip_exact_offsets_small :
    (pinPage
      (run (run (initState "pool.bin" 2 ReplacementStrategy.RS_FIFO 0 0 freshStorage) [])
        ([Op.pin 0, Op.store 0 sevens, Op.dirty 0, Op.unpin 0] ++ pinUnpinAll [1, 2])).bm
      (run (run (initState "pool.bin" 2 ReplacementStrategy.RS_FIFO 0 0 freshStorage) [])
        ([Op.pin 0, Op.store 0 sevens, Op.dirty 0, Op.unpin 0] ++ pinUnpinAll [1, 2])).sm
      { pageNum := 0, data := none } 0).2.2.2.data = some sevens :=
  (round_trip_exact_offsets "pool.bin" 2 0 0 freshStorage [] 0 sevens [1, 2]
    { pageNum := 0, data := none } { pageNum := 0, data := none } (by decide) (by decide)
    (by decide) (by decide)).2.1

/-- C8, evaluated on the code: a FIFO pool of two frames on a fresh page file
keeps page 1048576 pinned in frame 0.  Page 0 is pinned (`RC_OK`), filled with
sevens, marked dirty and unpinned; then the two other pages 2097152 and
3145728 are each pinned and unpinned.  A further `pinPage 0` returns `RC_OK`,
but the data of page 0 are zeroes, not the sevens: the byte offsets of pages
2097152 and 3145728 are `0` in 32-bit arithmetic, so the eviction of page
2097152 overwrote the sevens that the eviction of page 0 had stored at offset
0. -/
theorem C8_round_trip_loses_bytes :
    (pinPage (run fifo2 [Op.pin 1048576]).bm (run fifo2 [Op.pin 1048576]).sm
      { pageNum := 0, data := none } 0).1 = some RC.RC_OK ∧
    (pinPage
      (run (run fifo2 [Op.pin 1048576])
        ([Op.pin 0, Op.store 0 sevens, Op.dirty 0, Op.unpin 0]
          ++ pinUnpinAll [2097152, 3145728])).bm
      (run (run fifo2 [Op.pin 1048576])
        ([Op.pin 0, Op.store 0 sevens, Op.dirty 0, Op.unpin 0]
          ++ pinUnpinAll [2097152, 3145728])).sm
      { pageNum := 0, data := none } 0).1 = some RC.RC_OK ∧
    (pinPage
      (run (run fifo2 [Op.pin 1048576])
        ([Op.pin 0, Op.store 0 sevens, Op.dirty 0, Op.unpin 0]
          ++ pinUnpinAll [2097152, 3145728])).bm
      (run (run fifo2 [Op.pin 1048576])
        ([Op.pin 0, Op.store 0 sevens, Op.dirty 0, Op.unpin 0]
          ++ pinUnpinAll [2097152, 3145728])).sm
      { pageNum := 0, data := none } 0).2.2.2.data = some zeroPage ∧
    (pinPage
      (run (run fifo2 [Op.pin 1048576])
        ([Op.pin 0, Op.store 0 sevens, Op.dirty 0, Op.unpin 0]
          ++ pinUnpinAll [2097152, 3145728])).bm
      (run (run fifo2 [Op.pin 1048576])
        ([Op.pin 0, Op.store 0 sevens, Op.dirty 0, Op.unpin 0]
          ++ pinUnpinAll [2097152, 3145728])).sm
      { pageNum := 0, data := none } 0).2.2.2.pageNum = 0 ∧
    some zeroPage ≠ some sevens ∧
    blockOffset 2097152 = 0 ∧ blockOffset 3145728 = 0 :=
  ⟨by decide, by decide, rfl, by decide,
    fun h => sevens_ne_zeroPage (Option.some.inj h).symm, by decide, by decide⟩
/-! ## Load order of a FIFO pool -/

theorem run_snoc (st : PoolState) (ops : List Op) (op : Op) :
    run st (ops ++ [op]) = step (run st ops) op := by
  rw [run_append]; rfl

theorem run_cons (st : PoolState) (op : Op) (ops : List Op) :
    run st (op :: ops) = run (step st op) ops := rfl

theorem loadTime_snoc (ops : List Op) : ∀ (st : PoolState) (op : Op) (t i : Nat),
    loadTime st (ops ++ [op]) t i =
      if ((step (run st ops) op).bm.mgmtData.frame i).page_num
          ≠ ((run st ops).bm.mgmtData.frame i).page_num
      then t + ops.length + 1 else loadTime st ops t i := by
  induction ops with
  | nil =>
    intro st op t i
    simp only [List.nil_append, loadTime, List.length_nil, Nat.add_zero]
    have : run st [] = st := rfl
    rw [this]
    simp
  | cons o os ih =>
    intro st op t i
    have e1 : loadTime st (o :: os ++ [op]) t i =
        if loadTime (step st o) (os ++ [op]) (t + 1) i ≠ 0 then
          loadTime (step st o) (os ++ [op]) (t + 1) i
        else if ((step st o).bm.mgmtData.frame i).page_num ≠ (st.bm.mgmtData.frame i).page_num
          then t + 1
        else 0 := rfl
    have e2 : loadTime st (o :: os) t i =
        if loadTime (step st o) os (t + 1) i ≠ 0 then loadTime (step st o) os (t + 1) i
        else if ((step st o).bm.mgmtData.frame i).page_num ≠ (st.bm.mgmtData.frame i).page_num
          then t + 1
        else 0 := rfl
    rw [e1, e2, run_cons, List.length_cons]
    rw [ih (step st o) op (t + 1) i]
    by_cases hc : ((step (run (step st o) os) op).bm.mgmtData.frame i).page_num
        ≠ ((run (step st o) os).bm.mgmtData.frame i).page_num
    · rw [if_pos hc, if_pos hc, if_pos (by omega)]
      omega
    · rw [if_neg hc, if_neg hc]

theorem noFailedDequeue_snoc (ops : List Op) : ∀ (st : PoolState) (op : Op),
    noFailedDequeue st (ops ++ [op]) →
      noFailedDequeue st ops ∧
      ∀ p, op = Op.pin p → ¬ firstDequeueFails (run st ops) p := by
  induction ops with
  | nil =>
    intro st op h
    refine ⟨trivial, ?_⟩
    intro p hp
    subst hp
    exact h.1
  | cons o os ih =>
    intro st op h
    cases o with
    | pin q =>
      obtain ⟨h1, h2⟩ := h
      obtain ⟨a, b⟩ := ih (step st (Op.pin q)) op h2
      exact ⟨⟨h1, a⟩, b⟩
    | unpin q => exact ih (step st (Op.unpin q)) op h
    | dirty q => exact ih (step st (Op.dirty q)) op h
    | force q => exact ih (step st (Op.force q)) op h
    | flush => exact ih (step st Op.flush) op h
    | store q b => exact ih (step st (Op.store q b)) op h

theorem mod_add_cases (h w N : Nat) (hh : h < N) (hw : w < N) :
    (h + w) % N = if h + w < N then h + w else h + w - N := by
  split
  · rename_i hlt; exact Nat.mod_eq_of_lt hlt
  · rename_i hge
    rw [Nat.mod_eq_sub_mod (by omega), Nat.mod_eq_of_lt (by omega)]

/-- A call that keeps every page number and `head` keeps the load order. -/
theorem LoadOrder.keep {st0 : PoolState} {ops : List Op} {k : Nat} (h : LoadOrder st0 ops k)
    (op : Op) (hinv : Inv (step (run st0 ops) op).bm.mgmtData (step (run st0 ops) op).sm k)
    (hpn : ∀ i, ((step (run st0 ops) op).bm.mgmtData.frame i).page_num
      = ((run st0 ops).bm.mgmtData.frame i).page_num)
    (hhead : (step (run st0 ops) op).bm.mgmtData.head = (run st0 ops).bm.mgmtData.head) :
    LoadOrder st0 (ops ++ [op]) k := by
  have hL : ∀ i, loadTime st0 (ops ++ [op]) 0 i = loadTime st0 ops 0 i := by
    intro i
    rw [loadTime_snoc, if_neg (by rw [hpn]; simp)]
  have hst := step_static (run st0 ops) op
  constructor
  · rw [run_snoc]; exact hinv
  · rw [run_snoc, hst.1]; exact h.strat
  · intro i
    rw [hL, List.length_append]
    have := h.bound i
    omega
  · intro u v huv hv
    rw [hL, hL, run_snoc, hhead, hst.2]
    exact h.order u v huv hv
theorem forcePage_keeps (bm : BM_BufferPool) (s : Storage) (page : BM_PageHandle) (j : Nat) :
    ((forcePage bm s page).2.1.mgmtData.frame j).page_num = (bm.mgmtData.frame j).page_num ∧
    (forcePage bm s page).2.1.mgmtData.head = bm.mgmtData.head := by
  unfold forcePage
  simp only
  split
  · simp only
    refine ⟨?_, rfl⟩
    show ((bm.mgmtData.setFrame _ _).frame j).page_num = _
    rw [frame_setFrame]
    split
    · rename_i hij
      obtain ⟨rfl, _⟩ := hij
      rfl
    · rfl
  · exact ⟨rfl, rfl⟩

theorem forceFlushPool_keeps (bm : BM_BufferPool) (s : Storage) (j : Nat) :
    ((forceFlushPool bm s).2.1.mgmtData.frame j).page_num = (bm.mgmtData.frame j).page_num ∧
    (forceFlushPool bm s).2.1.mgmtData.head = bm.mgmtData.head := by
  unfold forceFlushPool
  simp only
  generalize List.range bm.mgmtData.max_entries = l
  have key : ∀ (l : List Nat) (qs : Queue × Storage),
      ((l.foldl
        (fun (qs : Queue × Storage) i =>
          if (qs.1.frame i).page_dirty ≠ 0 then
            let q1 := qs.1.setFrame i { qs.1.frame i with page_dirty := 0 }
            let s1 := (writeBlock (q1.frame i).page_num qs.2 (q1.frame i).contents).2
            ({ q1 with num_files_written := q1.num_files_written + 1 }, s1)
          else qs) qs).1.frame j).page_num = (qs.1.frame j).page_num ∧
      (l.foldl
        (fun (qs : Queue × Storage) i =>
          if (qs.1.frame i).page_dirty ≠ 0 then
            let q1 := qs.1.setFrame i { qs.1.frame i with page_dirty := 0 }
            let s1 := (writeBlock (q1.frame i).page_num qs.2 (q1.frame i).contents).2
            ({ q1 with num_files_written := q1.num_files_written + 1 }, s1)
          else qs) qs).1.head = qs.1.head := by
    intro l
    induction l with
    | nil => intro qs; exact ⟨rfl, rfl⟩
    | cons i l ih =>
      intro qs
      rw [List.foldl_cons]
      obtain ⟨a, b⟩ := ih
        (if (qs.1.frame i).page_dirty ≠ 0 then
            let q1 := qs.1.setFrame i { qs.1.frame i with page_dirty := 0 }
            let s1 := (writeBlock (q1.frame i).page_num qs.2 (q1.frame i).contents).2
            ({ q1 with num_files_written := q1.num_files_written + 1 }, s1)
          else qs)
      rw [a, b]
      split
      · simp only
        refine ⟨?_, rfl⟩
        show ((qs.1.setFrame _ _).frame j).page_num = _
        rw [frame_setFrame]
        split
        · rename_i hij
          obtain ⟨rfl, _⟩ := hij
          rfl
        · rfl
      · exact ⟨rfl, rfl⟩
  exact key l (bm.mgmtData, s)

theorem storePage_keeps (bm : BM_BufferPool) (p : Int) (b : Page) (j : Nat) :
    ((storePage bm p b).mgmtData.frame j).page_num = (bm.mgmtData.frame j).page_num ∧
    (storePage bm p b).mgmtData.head = bm.mgmtData.head := by
  unfold storePage
  simp only
  split
  · simp only
    refine ⟨?_, rfl⟩
    rw [frame_setFrame]
    split
    · rename_i hij
      obtain ⟨rfl, _⟩ := hij
      rfl
    · rfl
  · exact ⟨rfl, rfl⟩

theorem markDirty_head (bm : BM_BufferPool) (page : BM_PageHandle) :
    (markDirty bm page).2.mgmtData.head = bm.mgmtData.head := by
  unfold markDirty
  simp only
  split <;> rfl

/-- One more FIFO call that does not meet a pinned frame at `head` keeps the
load order. -/
theorem LoadOrder.snoc {st0 : PoolState} {ops : List Op} {k : Nat} (h : LoadOrder st0 ops k)
    (op : Op) (hno : ∀ p, op = Op.pin p → ¬ firstDequeueFails (run st0 ops) p) :
    ∃ k', LoadOrder st0 (ops ++ [op]) k' := by
  have hinv := h.inv
  cases op with
  | unpin q =>
    refine ⟨k, h.keep _ (hinv.unpinPage _) (fun i => (unpin_keeps hinv _ i).1) ?_⟩
    exact (unpinPage_spec _ _ hinv.len).2.1
  | dirty q =>
    exact ⟨k, h.keep _ (hinv.markDirty _) (fun i => (markDirty_keeps _ _ i).1)
      (markDirty_head _ _)⟩
  | force q =>
    exact ⟨k, h.keep _ (hinv.forcePage _) (fun i => (forcePage_keeps _ _ _ i).1)
      (forcePage_keeps _ _ _ 0).2⟩
  | flush =>
    exact ⟨k, h.keep _ hinv.forceFlushPool (fun i => (forceFlushPool_keeps _ _ i).1)
      (forceFlushPool_keeps _ _ 0).2⟩
  | store q b =>
    exact ⟨k, h.keep _ (hinv.storePage q b) (fun i => (storePage_keeps _ _ _ i).1)
      (storePage_keeps _ _ _ 0).2⟩
  | pin p =>
    have hF := h.strat
    have hlen := hinv.len
    have hk := hinv.hk
    have hmono := prelude_mono p (run st0 ops).sm
    have hinv2 : Inv (run st0 ops).bm.mgmtData (preludeStorage p (run st0 ops).sm) k :=
      hinv.storage_mono hmono.1 hmono.2
    have hstep : step (run st0 ops) (Op.pin p) =
        { bm := (pinPage (run st0 ops).bm (run st0 ops).sm { pageNum := p, data := none } p).2.1
          sm := (pinPage (run st0 ops).bm (run st0 ops).sm
            { pageNum := p, data := none } p).2.2.1 } := rfl
    have hpin : pinPage (run st0 ops).bm (run st0 ops).sm { pageNum := p, data := none } p =
        (if (FIFO (run st0 ops).bm (run st0 ops).sm { pageNum := p, data := none } p).1 = true
          then (some RC.RC_OK,
            (FIFO (run st0 ops).bm (run st0 ops).sm { pageNum := p, data := none } p).2)
          else (some RC.RC_FILE_NOT_FOUND,
            (FIFO (run st0 ops).bm (run st0 ops).sm { pageNum := p, data := none } p).2)) := by
      unfold pinPage
      rw [if_pos hF]
    -- the ways in which the call leaves page numbers and `head` alone
    have hkeep : ∀ (r : Bool × BM_BufferPool × Storage × BM_PageHandle),
        FIFO (run st0 ops).bm (run st0 ops).sm { pageNum := p, data := none } p = r →
        Inv r.2.1.mgmtData r.2.2.1 k →
        (∀ i, (r.2.1.mgmtData.frame i).page_num
          = ((run st0 ops).bm.mgmtData.frame i).page_num) →
        r.2.1.mgmtData.head = (run st0 ops).bm.mgmtData.head →
        ∃ k', LoadOrder st0 (ops ++ [Op.pin p]) k' := by
      intro r he hi hp hh
      have hb : (step (run st0 ops) (Op.pin p)).bm = r.2.1 := by
        rw [hstep, hpin, he]
        simp only
        split <;> rfl
      have hs : (step (run st0 ops) (Op.pin p)).sm = r.2.2.1 := by
        rw [hstep, hpin, he]
        simp only
        split <;> rfl
      exact ⟨k, h.keep _ (by rw [hb, hs]; exact hi) (by rw [hb]; exact hp)
        (by rw [hb]; exact hh)⟩
    by_cases hok : preludeRC p (run st0 ops).sm = RC.RC_OK
    · obtain ⟨p0, pT, pL, pc, _⟩ := prelude_facts p (run st0 ops).sm hok
      rcases held_or_not (run st0 ops).bm.mgmtData k p with ⟨i, hi, hpi⟩ | hnew
      · -- hit
        refine hkeep _ (FIFO_hit hinv _ p hok i hi hpi)
          (hinv2.setFrame_same i
            { (run st0 ops).bm.mgmtData.frame i with
              fix_count := ((run st0 ops).bm.mgmtData.frame i).fix_count + 1 }
            hi rfl (by have := hinv.fix i hi; simp only; omega) (hinv.sto i hi).2.2.2)
          ?_ rfl
        intro j
        simp only
        rw [frame_setFrame]
        split
        · rename_i hij
          obtain ⟨rfl, _⟩ := hij
          rfl
        · rfl
      · by_cases hlt : k < (run st0 ops).bm.mgmtData.max_entries
        · -- load into frame `k`
          obtain ⟨h0, _, _⟩ := hinv.part hlt
          have heq := FIFO_load hinv { pageNum := p, data := none } p hok hlt hnew
          have hres := hinv2.load hlt
            { page_num := p, page_dirty := 0, fix_count := 1,
              contents := preludeData p (run st0 ops).sm }
            p0 pT pL pc (by simp) hnew (run st0 ops).bm.mgmtData.num_files_written
            ((run st0 ops).bm.mgmtData.num_files_read + 1)
          have hfr : ∀ j, ((step (run st0 ops) (Op.pin p)).bm.mgmtData.frame j).page_num
              = if k = j then p else ((run st0 ops).bm.mgmtData.frame j).page_num := by
            intro j
            rw [hstep, hpin, heq]
            simp only [if_true]
            rw [frame_mk_set, frame_mk]
            by_cases hkj : k = j
            · rw [if_pos ⟨hkj, by omega⟩, if_pos hkj]
            · rw [if_neg (by tauto), if_neg hkj]
          have hhead : (step (run st0 ops) (Op.pin p)).bm.mgmtData.head = 0 := by
            rw [hstep, hpin, heq]
            exact h0
          have hmax := (step_static (run st0 ops) (Op.pin p)).2
          have hL : ∀ j, loadTime st0 (ops ++ [Op.pin p]) 0 j
              = if k = j then ops.length + 1 else loadTime st0 ops 0 j := by
            intro j
            rw [loadTime_snoc, hfr]
            by_cases hkj : k = j
            · subst hkj
              rw [if_pos rfl, if_pos rfl, if_pos, Nat.zero_add]
              rw [hinv.emp k (le_refl k)]
              show p ≠ -1
              omega
            · rw [if_neg hkj, if_neg hkj, if_neg (by simp)]
          refine ⟨k + 1, ?_⟩
          constructor
          · rw [run_snoc, hstep, hpin, heq]; exact hres
          · rw [run_snoc, (step_static _ _).1]; exact hF
          · intro j
            rw [hL, List.length_append, List.length_singleton]
            have := h.bound j
            split <;> omega
          · intro u v huv hv
            rw [run_snoc, hhead, hmax, Nat.zero_add, Nat.zero_add,
              Nat.mod_eq_of_lt (by omega), Nat.mod_eq_of_lt (by omega), hL, hL,
              if_neg (by omega)]
            by_cases hkv : k = v
            · rw [if_pos hkv]
              have := h.bound u
              omega
            · rw [if_neg hkv]
              have := h.order u v huv (by omega)
              rw [h0, Nat.zero_add, Nat.zero_add, Nat.mod_eq_of_lt (by omega),
                Nat.mod_eq_of_lt (by omega)] at this
              exact this
        · have hkN : k = (run st0 ops).bm.mgmtData.max_entries := by omega
          by_cases hN : 0 < k
          · -- the frame at `head` is unpinned, otherwise the first `dequeue` fails
            obtain ⟨_, _, hhN⟩ := hinv.full hkN
            have hhd := hhN hN
            have hfree : ((run st0 ops).bm.mgmtData.frame
                (run st0 ops).bm.mgmtData.head).fix_count = 0 := by
              by_contra hne
              apply hno p rfl
              refine ⟨hok, scanFrames_none hinv p hkN hnew, ?_⟩
              rw [dequeue_pinned hinv2 hkN hN hne]
            rcases FIFO_full hinv { pageNum := p, data := none } p hok hkN hN hnew with
              ⟨t, _, hpinned, _, heq⟩ | ⟨hall, _⟩
            · have ht : t = 0 := by
                by_contra hne
                have := hpinned 0 (by omega)
                rw [Nat.add_zero, Nat.mod_eq_of_lt hhd] at this
                exact this hfree
              subst ht
              rw [Nat.add_zero, Nat.mod_eq_of_lt hhd] at heq
              subst hkN
              have hw := writeBlock_storage
                ((run st0 ops).bm.mgmtData.frame (run st0 ops).bm.mgmtData.head).page_num
                (preludeStorage p (run st0 ops).sm)
                ((run st0 ops).bm.mgmtData.frame (run st0 ops).bm.mgmtData.head).contents
              have hinv3 := hinv2.storage_mono (le_of_eq (congrArg _ hw.1.symm)) hw.2.1
              have hres := hinv3.replace rfl (run st0 ops).bm.mgmtData.head hhd
                { page_num := p, page_dirty := 0, fix_count := 1,
                  contents := preludeData p (run st0 ops).sm }
                p0 (by rw [hw.1]; exact pT) ⟨pL.1, lt_of_lt_of_le pL.2 hw.2.1⟩ pc (by simp)
                (fun i hi _ => hnew i hi)
                (((run st0 ops).bm.mgmtData.head + 1) % (run st0 ops).bm.mgmtData.max_entries)
                (Nat.mod_lt _ hN) (run st0 ops).bm.mgmtData.num_files_written
                ((run st0 ops).bm.mgmtData.num_files_read + 1)
              have hfr : ∀ j, ((step (run st0 ops) (Op.pin p)).bm.mgmtData.frame j).page_num
                  = if (run st0 ops).bm.mgmtData.head = j then p
                    else ((run st0 ops).bm.mgmtData.frame j).page_num := by
                intro j
                rw [hstep, hpin, heq]
                simp only [if_true]
                rw [frame_mk_set, frame_mk]
                by_cases hkj : (run st0 ops).bm.mgmtData.head = j
                · rw [if_pos ⟨hkj, by omega⟩, if_pos hkj]
                · rw [if_neg (by tauto), if_neg hkj]
              have hhead : (step (run st0 ops) (Op.pin p)).bm.mgmtData.head
                  = ((run st0 ops).bm.mgmtData.head + 1)
                    % (run st0 ops).bm.mgmtData.max_entries := by
                rw [hstep, hpin, heq]
                rfl
              have hmax := (step_static (run st0 ops) (Op.pin p)).2
              have hL : ∀ j, loadTime st0 (ops ++ [Op.pin p]) 0 j
                  = if (run st0 ops).bm.mgmtData.head = j then ops.length + 1
                    else loadTime st0 ops 0 j := by
                intro j
                rw [loadTime_snoc, hfr]
                by_cases hkj : (run st0 ops).bm.mgmtData.head = j
                · subst hkj
                  rw [if_pos rfl, if_pos rfl, if_pos, Nat.zero_add]
                  exact fun e => hnew _ hhd e.symm
                · rw [if_neg hkj, if_neg hkj, if_neg (by simp)]
              refine ⟨(run st0 ops).bm.mgmtData.max_entries, ?_⟩
              constructor
              · rw [run_snoc, hstep, hpin, heq]; exact hres
              · rw [run_snoc, (step_static _ _).1]; exact hF
              · intro j
                rw [hL, List.length_append, List.length_singleton]
                have := h.bound j
                split <;> omega
              · intro u v huv hv
                rw [run_snoc, hhead, hmax]
                -- positions round the array from the new head
                have hpos : ∀ w, w < (run st0 ops).bm.mgmtData.max_entries →
                    (((run st0 ops).bm.mgmtData.head + 1)
                        % (run st0 ops).bm.mgmtData.max_entries + w)
                      % (run st0 ops).bm.mgmtData.max_entries
                    = ((run st0 ops).bm.mgmtData.head + (w + 1))
                      % (run st0 ops).bm.mgmtData.max_entries := by
                  intro w _
                  rw [Nat.add_mod, Nat.mod_mod, ← Nat.add_mod]
                  congr 1; omega
                rw [hpos u (by omega), hpos v hv, hL, hL]
                have hu1 : (run st0 ops).bm.mgmtData.head ≠
                    ((run st0 ops).bm.mgmtData.head + (u + 1))
                      % (run st0 ops).bm.mgmtData.max_entries := by
                  rw [mod_add_cases _ _ _ hhd (by omega)]
                  split <;> omega
                rw [if_neg hu1]
                by_cases hvN : v + 1 = (run st0 ops).bm.mgmtData.max_entries
                · have : ((run st0 ops).bm.mgmtData.head + (v + 1))
                      % (run st0 ops).bm.mgmtData.max_entries
                      = (run st0 ops).bm.mgmtData.head := by
                    rw [hvN, Nat.add_mod_right, Nat.mod_eq_of_lt hhd]
                  rw [this, if_pos rfl]
                  have := h.bound (((run st0 ops).bm.mgmtData.head + (u + 1))
                      % (run st0 ops).bm.mgmtData.max_entries)
                  omega
                · have hv1 : (run st0 ops).bm.mgmtData.head ≠
                      ((run st0 ops).bm.mgmtData.head + (v + 1))
                        % (run st0 ops).bm.mgmtData.max_entries := by
                    rw [mod_add_cases _ _ _ hhd (by omega)]
                    split <;> omega
                  rw [if_neg hv1]
                  exact h.order (u + 1) (v + 1) (by omega) (by omega)
            · have := hall 0 (by omega)
              rw [Nat.add_zero, Nat.mod_eq_of_lt hhd] at this
              exact absurd hfree this
          · -- no frames at all
            exact hkeep _ (FIFO_noframes hinv _ p hok hkN (by omega)) hinv2
              (fun j => rfl) rfl
    · exact hkeep _ (FIFO_fail _ _ _ p hok) hinv2 (fun j => rfl) rfl
/-- In a history without failed `dequeue` calls the load order holds. -/
theorem LoadOrder.ofHistory (pageFileName : String) (numPages : Nat) (w r : Int) (s0 : Storage)
    (ops : List Op)
    (hno : noFailedDequeue
      (initState pageFileName numPages ReplacementStrategy.RS_FIFO w r s0) ops) :
    ∃ k, LoadOrder (initState pageFileName numPages ReplacementStrategy.RS_FIFO w r s0) ops k := by
  induction ops using List.reverseRecOn with
  | nil =>
    refine ⟨0, ?_⟩
    constructor
    · exact Inv.init pageFileName numPages ReplacementStrategy.RS_FIFO w r s0
    · rfl
    · intro i; exact Nat.le_refl 0
    · intro u v _ hv; omega
  | append_singleton ops op ih =>
    obtain ⟨h1, h2⟩ := noFailedDequeue_snoc ops _ op hno
    obtain ⟨k, hk⟩ := ih h1
    exact hk.snoc op h2

/-- With the load order in force and every frame occupied, the first
unpinned frame met from `head` was loaded no later than any unpinned frame. -/
theorem LoadOrder.victim_oldest {st0 : PoolState} {ops : List Op} {k : Nat}
    (h : LoadOrder st0 ops k)
    (hfull : ∀ i, i < (run st0 ops).bm.mgmtData.max_entries →
      ((run st0 ops).bm.mgmtData.frame i).page_num ≠ -1)
    (t : Nat)
    (hpinned : ∀ u, u < t → ((run st0 ops).bm.mgmtData.frame
      (((run st0 ops).bm.mgmtData.head + u) % (run st0 ops).bm.mgmtData.max_entries)).fix_count
        ≠ 0)
    (j : Nat) (hj : j < (run st0 ops).bm.mgmtData.max_entries)
    (hjf : ((run st0 ops).bm.mgmtData.frame j).fix_count = 0) :
    loadTime st0 ops 0
        (((run st0 ops).bm.mgmtData.head + t) % (run st0 ops).bm.mgmtData.max_entries)
      ≤ loadTime st0 ops 0 j := by
  have hinv := h.inv
  have hk := hinv.hk
  have hkN : k = (run st0 ops).bm.mgmtData.max_entries := by
    by_contra hne
    have hlt : k < (run st0 ops).bm.mgmtData.max_entries := by omega
    exact hfull k hlt (by rw [hinv.emp k (le_refl k)]; rfl)
  have hhd : (run st0 ops).bm.mgmtData.head < k := (hinv.full hkN).2.2 (by omega)
  obtain ⟨u, hu, hmod⟩ := cyc_reach k (run st0 ops).bm.mgmtData.head j hhd (by omega)
  rw [← hkN, ← hmod]
  have hut : ¬ u < t := by
    intro hlt
    have := hpinned u hlt
    rw [← hkN, hmod] at this
    exact this hjf
  by_cases heq : u = t
  · rw [heq]
  · have := h.order t u (by omega) hu
    rw [← hkN] at this
    omega

/-- What the code does in place of C6: in every reachable state of a FIFO pool whose frames are
all occupied, a `pinPage` call that returns `RC_OK` for a page no frame
holds takes as victim the first frame with `fix_count = 0` met when going
round the frame array from the queue's `head` index: the frames met before
it are pinned, the victim receives the page, all other frames are kept.  If
no earlier `pinPage` call of the history met a pinned frame at `head`, the
victim is the frame loaded earliest among the frames with `fix_count = 0`. -/
theorem victim_first_unpinned_from_head (pageFileName : String) (numPages : Nat) (w r : Int)
    (s0 : Storage) (ops : List Op) (page : BM_PageHandle) (p : Int)
    (hfull : ∀ i, i < numPages →
      ((run (initState pageFileName numPages ReplacementStrategy.RS_FIFO w r s0)
        ops).bm.mgmtData.frame i).page_num ≠ -1)
    (hnew : ∀ i, i < numPages →
      ((run (initState pageFileName numPages ReplacementStrategy.RS_FIFO w r s0)
        ops).bm.mgmtData.frame i).page_num ≠ p)
    (hok : (pinPage
      (run (initState pageFileName numPages ReplacementStrategy.RS_FIFO w r s0) ops).bm
      (run (initState pageFileName numPages ReplacementStrategy.RS_FIFO w r s0) ops).sm
      page p).1 = some RC.RC_OK) :
    let st0 := initState pageFileName numPages ReplacementStrategy.RS_FIFO w r s0
    let st := run st0 ops
    let res := pinPage st.bm st.sm page p
    ∃ t, (st.bm.mgmtData.head + t) % numPages < numPages ∧
      (∀ u, u < t →
        (st.bm.mgmtData.frame ((st.bm.mgmtData.head + u) % numPages)).fix_count ≠ 0) ∧
      (st.bm.mgmtData.frame ((st.bm.mgmtData.head + t) % numPages)).fix_count = 0 ∧
      (res.2.1.mgmtData.frame ((st.bm.mgmtData.head + t) % numPages)).page_num = p ∧
      (∀ j, j ≠ (st.bm.mgmtData.head + t) % numPages →
        res.2.1.mgmtData.frame j = st.bm.mgmtData.frame j) ∧
      (noFailedDequeue st0 ops →
        ∀ j, j < numPages → (st.bm.mgmtData.frame j).fix_count = 0 →
          loadTime st0 ops 0 ((st.bm.mgmtData.head + t) % numPages) ≤ loadTime st0 ops 0 j) := by
  obtain ⟨k, hinv⟩ := Inv.run pageFileName numPages ReplacementStrategy.RS_FIFO w r s0 ops
  have hmax := (run_init_static pageFileName numPages ReplacementStrategy.RS_FIFO w r s0 ops).2
  obtain ⟨t, h1, h2, h3, h4, h5⟩ :=
    fifo_victim hinv page p (by rw [hmax]; exact hfull) (by rw [hmax]; exact hnew) hok
  rw [hmax] at h1 h2 h3 h4 h5
  refine ⟨t, h1, h2, h3, h4, h5, ?_⟩
  intro hno j hj hjf
  obtain ⟨k', hord⟩ := LoadOrder.ofHistory pageFileName numPages w r s0 ops hno
  have := hord.victim_oldest (by rw [hmax]; exact hfull)
    t (by rw [hmax]; exact h2) j (by rw [hmax]; exact hj) hjf
  rw [hmax] at this
  exact this

/-- Instance: page 0 stays pinned in a three-frame FIFO
pool filled with pages 0, 1, 2; `pinPage 3` passes the pinned frame 0 and
takes frame 1, the earliest loaded of the unpinned frames 1 and 2. -/
theorem victim_first_unpinned_from_head_example :
    (∀ i, i < 3 →
      ((run (initState "pool.bin" 3 ReplacementStrategy.RS_FIFO 0 0 freshStorage)
        pinnedHeadHistory).bm.mgmtData.frame i).page_num ≠ -1) ∧
    (∀ i, i < 3 →
      ((run (initState "pool.bin" 3 ReplacementStrategy.RS_FIFO 0 0 freshStorage)
        pinnedHeadHistory).bm.mgmtData.frame i).page_num ≠ 3) ∧
    (pinPage
      (run (initState "pool.bin" 3 ReplacementStrategy.RS_FIFO 0 0 freshStorage)
        pinnedHeadHistory).bm
      (run (initState "pool.bin" 3 ReplacementStrategy.RS_FIFO 0 0 freshStorage)
        pinnedHeadHistory).sm
      { pageNum := 0, data := none } 3).1 = some RC.RC_OK ∧
    noFailedDequeue (initState "pool.bin" 3 ReplacementStrategy.RS_FIFO 0 0 freshStorage)
      pinnedHeadHistory ∧
    ((pinPage
      (run (initState "pool.bin" 3 ReplacementStrategy.RS_FIFO 0 0 freshStorage)
        pinnedHeadHistory).bm
      (run (initState "pool.bin" 3 ReplacementStrategy.RS_FIFO 0 0 freshStorage)
        pinnedHeadHistory).sm
      { pageNum := 0, data := none } 3).2.1.mgmtData.frame 1).page_num = 3 ∧
    ∃ t, ((run (initState "pool.bin" 3 ReplacementStrategy.RS_FIFO 0 0 freshStorage)
        pinnedHeadHistory).bm.mgmtData.head + t) % 3 < 3 ∧
      (∀ u, u < t →
        ((run (initState "pool.bin" 3 ReplacementStrategy.RS_FIFO 0 0 freshStorage)
          pinnedHeadHistory).bm.mgmtData.frame
          (((run (initState "pool.bin" 3 ReplacementStrategy.RS_FIFO 0 0 freshStorage)
            pinnedHeadHistory).bm.mgmtData.head + u) % 3)).fix_count ≠ 0) ∧
      ((run (initState "pool.bin" 3 ReplacementStrategy.RS_FIFO 0 0 freshStorage)
          pinnedHeadHistory).bm.mgmtData.frame
          (((run (initState "pool.bin" 3 ReplacementStrategy.RS_FIFO 0 0 freshStorage)
            pinnedHeadHistory).bm.mgmtData.head + t) % 3)).fix_count = 0 ∧
      ((pinPage
        (run (initState "pool.bin" 3 ReplacementStrategy.RS_FIFO 0 0 freshStorage)
          pinnedHeadHistory).bm
        (run (initState "pool.bin" 3 ReplacementStrategy.RS_FIFO 0 0 freshStorage)
          pinnedHeadHistory).sm
        { pageNum := 0, data := none } 3).2.1.mgmtData.frame
          (((run (initState "pool.bin" 3 ReplacementStrategy.RS_FIFO 0 0 freshStorage)
            pinnedHeadHistory).bm.mgmtData.head + t) % 3)).page_num = 3 ∧
      (∀ j, j ≠ ((run (initState "pool.bin" 3 ReplacementStrategy.RS_FIFO 0 0 freshStorage)
            pinnedHeadHistory).bm.mgmtData.head + t) % 3 →
        (pinPage
          (run (initState "pool.bin" 3 ReplacementStrategy.RS_FIFO 0 0 freshStorage)
            pinnedHeadHistory).bm
          (run (initState "pool.bin" 3 ReplacementStrategy.RS_FIFO 0 0 freshStorage)
            pinnedHeadHistory).sm
          { pageNum := 0, data := none } 3).2.1.mgmtData.frame j
        = (run (initState "pool.bin" 3 ReplacementStrategy.RS_FIFO 0 0 freshStorage)
            pinnedHeadHistory).bm.mgmtData.frame j) ∧
      (noFailedDequeue (initState "pool.bin" 3 ReplacementStrategy.RS_FIFO 0 0 freshStorage)
          pinnedHeadHistory →
        ∀ j, j < 3 →
          ((run (initState "pool.bin" 3 ReplacementStrategy.RS_FIFO 0 0 freshStorage)
            pinnedHeadHistory).bm.mgmtData.frame j).fix_count = 0 →
          loadTime (initState "pool.bin" 3 ReplacementStrategy.RS_FIFO 0 0 freshStorage)
              pinnedHeadHistory 0
              (((run (initState "pool.bin" 3 ReplacementStrategy.RS_FIFO 0 0 freshStorage)
                pinnedHeadHistory).bm.mgmtData.head + t) % 3)
            ≤ loadTime (initState "pool.bin" 3 ReplacementStrategy.RS_FIFO 0 0 freshStorage)
              pinnedHeadHistory 0 j) :=
  ⟨by decide, by decide, by decide, by decide, by decide,
    victim_first_unpinned_from_head "pool.bin" 3 0 0 freshStorage pinnedHeadHistory
      { pageNum := 0, data := none } 3 (by decide) (by decide) (by decide)⟩
/-! ## `forceFlushPool` -/

theorem forceFlushPool_eq (bm : BM_BufferPool) (s : Storage) :
    forceFlushPool bm s =
      (RC.RC_OK,
        { bm with
          mgmtData := ((List.range bm.mgmtData.max_entries).foldl flushStep (bm.mgmtData, s)).1 },
        ((List.range bm.mgmtData.max_entries).foldl flushStep (bm.mgmtData, s)).2) := rfl

theorem dirtyBelow_succ (q : Queue) (n : Nat) :
    dirtyBelow q (n + 1)
      = dirtyBelow q n + if (q.frame n).page_dirty ≠ 0 then 1 else 0 := by
  unfold dirtyBelow
  rw [List.range_succ, List.countP_append, List.countP_singleton]
  simp

theorem clear_dirty_of_clean (f : Page_Frame) (h : f.page_dirty = 0) :
    { f with page_dirty := 0 } = f := by
  cases f
  simp only at h
  subst h
  rfl

theorem Flushed.zero (q : Queue) (s : Storage) : Flushed q s 0 (q, s) := by
  constructor <;> simp [dirtyBelow]

theorem Flushed.succ {q : Queue} {s : Storage} {k n : Nat} {r : Queue × Storage}
    (hinv : Inv q s k) (h : Flushed q s n r) : Flushed q s (n + 1) (flushStep r n) := by
  have hfn : r.1.frame n = q.frame n := by rw [h.frame n, if_neg (lt_irrefl n)]
  by_cases hd : (q.frame n).page_dirty ≠ 0
  · have hnk : n < k := by
      by_contra hlt
      exact hd (by rw [hinv.emp n (by omega)]; rfl)
    obtain ⟨h0, hT, ⟨hO, hL⟩, hc⟩ := hinv.sto n hnk
    have hL2 : pageAt (blockOffset (q.frame n).page_num) < s.file.length := hL
    obtain ⟨d, hdd⟩ := Option.isSome_iff_exists.mp hc
    have hlen : n < r.1.Page_Frame.length := by
      rw [h.len]
      have := hinv.len
      have := hinv.hk
      omega
    have hq1 : (r.1.setFrame n { r.1.frame n with page_dirty := 0 }).frame n
        = { q.frame n with page_dirty := 0 } := by
      rw [frame_setFrame_self _ _ _ hlen, hfn]
    have hstep : flushStep r n =
        ({ r.1.setFrame n { q.frame n with page_dirty := 0 } with
            num_files_written := r.1.num_files_written + 1 },
          { r.2 with
            nWriteBlock := r.2.nWriteBlock + 1
            file := r.2.file.set (pageIndex (q.frame n).page_num) d }) := by
      unfold flushStep
      rw [if_pos (by rw [hfn]; exact hd)]
      simp only [hq1]
      rw [hfn, hdd]
      unfold writeBlock
      simp only
      rw [if_neg (by rw [h.handle]; omega), if_neg (by omega)]
      simp only [writeAt]
      rw [if_pos (by rw [h.flen]; exact hL2)]
      rfl
    have hcnt := dirtyBelow_succ q n
    rw [if_pos hd] at hcnt
    rw [hstep]
    constructor
    · intro j
      simp only
      by_cases hj : n = j
      · subst hj
        have : ({ r.1.setFrame n { q.frame n with page_dirty := 0 } with
            num_files_written := r.1.num_files_written + 1 } : Queue).frame n
            = (r.1.setFrame n { q.frame n with page_dirty := 0 }).frame n := rfl
        rw [this, frame_setFrame_self _ _ _ hlen, if_pos (by omega)]
      · have : ({ r.1.setFrame n { q.frame n with page_dirty := 0 } with
            num_files_written := r.1.num_files_written + 1 } : Queue).frame j
            = (r.1.setFrame n { q.frame n with page_dirty := 0 }).frame j := rfl
        rw [this, frame_setFrame_ne _ _ _ _ hj, h.frame j]
        by_cases hjn : j < n
        · rw [if_pos hjn, if_pos (by omega)]
        · rw [if_neg hjn, if_neg (by omega)]
    · exact h.head
    · exact h.tail
    · exact h.num_entries
    · exact h.max_entries
    · exact h.num_files_read
    · simp only [setFrame_length]
      exact h.len
    · simp only [setFrame_num_files_written]
      rw [h.num_files_written, hcnt]
      push_cast
      ring
    · exact h.handle
    · simp only [List.length_set]
      exact h.flen
    · exact h.nRead
    · simp only
      rw [h.nWrite, hcnt]
      ring
    · intro j hj hdj hal
      simp only
      by_cases hjn : j = n
      · subst hjn
        rw [hdd]
        simp [h.flen, hL]
      · have hne : pageIndex (q.frame n).page_num ≠ pageIndex (q.frame j).page_num :=
          hal n (by omega) (by omega) hd
        rw [List.getElem?_set_ne hne]
        exact h.written j (by omega) hdj (fun j' h1 h2 h3 => hal j' h1 (by omega) h3)
    · intro x hx
      simp only
      have hne : pageIndex (q.frame n).page_num ≠ x := hx n (by omega) hd
      rw [List.getElem?_set_ne hne]
      exact h.others x (fun j hj hdj => hx j (by omega) hdj)
  · have hd0 : (q.frame n).page_dirty = 0 := by
      by_contra hne
      exact hd hne
    have hstep : flushStep r n = r := by
      unfold flushStep
      rw [if_neg (by rw [hfn]; exact hd)]
    have hcnt := dirtyBelow_succ q n
    rw [if_neg hd] at hcnt
    rw [hstep]
    constructor
    · intro j
      rw [h.frame j]
      by_cases hj : j = n
      · subst hj
        rw [if_neg (lt_irrefl j), if_pos (by omega), clear_dirty_of_clean _ hd0]
      · by_cases hjn : j < n
        · rw [if_pos hjn, if_pos (by omega)]
        · rw [if_neg hjn, if_neg (by omega)]
    · exact h.head
    · exact h.tail
    · exact h.num_entries
    · exact h.max_entries
    · exact h.num_files_read
    · exact h.len
    · rw [h.num_files_written, hcnt]
      simp
    · exact h.handle
    · exact h.flen
    · exact h.nRead
    · rw [h.nWrite, hcnt]
      simp
    · intro j hj hdj hal
      have : j ≠ n := by
        intro he
        subst he
        exact hd hdj
      exact h.written j (by omega) hdj (fun j' h1 h2 h3 => hal j' h1 (by omega) h3)
    · intro x hx
      exact h.others x (fun j hj hdj => hx j (by omega) hdj)

theorem Flushed.range {q : Queue} {s : Storage} {k : Nat} (hinv : Inv q s k) (n : Nat) :
    Flushed q s n ((List.range n).foldl flushStep (q, s)) := by
  induction n with
  | zero => exact Flushed.zero q s
  | succ n ih =>
    rw [List.range_succ, List.foldl_append]
    exact ih.succ hinv

theorem dirtyCount_eq (q : Queue) : dirtyCount q = dirtyBelow q q.max_entries := rfl

/-- What `forceFlushPool` does in a state that satisfies the invariant.  A
dirty frame's contents are in the file afterwards, at the 32-bit byte offset
of its page number, unless a dirty frame further up the array has a page
number with the same offset. -/
theorem forceFlushPool_spec {bm : BM_BufferPool} {s : Storage} {k : Nat}
    (hinv : Inv bm.mgmtData s k) :
    (forceFlushPool bm s).1 = RC.RC_OK ∧
    (∀ j, ((forceFlushPool bm s).2.1.mgmtData.frame j).page_dirty = 0) ∧
    getNumWriteIO (forceFlushPool bm s).2.1 = getNumWriteIO bm + (dirtyCount bm.mgmtData : Int) ∧
    (∀ j, (bm.mgmtData.frame j).page_dirty ≠ 0 →
      (∀ j', j < j' → (bm.mgmtData.frame j').page_dirty ≠ 0 →
        pageIndex (bm.mgmtData.frame j').page_num ≠ pageIndex (bm.mgmtData.frame j).page_num) →
      (forceFlushPool bm s).2.2.file[pageIndex (bm.mgmtData.frame j).page_num]?
        = (bm.mgmtData.frame j).contents) ∧
    (∀ j, ((forceFlushPool bm s).2.1.mgmtData.frame j).page_num
        = (bm.mgmtData.frame j).page_num ∧
      ((forceFlushPool bm s).2.1.mgmtData.frame j).fix_count
        = (bm.mgmtData.frame j).fix_count ∧
      ((forceFlushPool bm s).2.1.mgmtData.frame j).contents
        = (bm.mgmtData.frame j).contents) ∧
    (forceFlushPool bm s).2.2.nWriteBlock = s.nWriteBlock + dirtyCount bm.mgmtData ∧
    getNumReadIO (forceFlushPool bm s).2.1 = getNumReadIO bm ∧
    (forceFlushPool bm s).2.1.mgmtData.max_entries = bm.mgmtData.max_entries := by
  have h := Flushed.range hinv bm.mgmtData.max_entries
  have hemp : ∀ j, ¬ j < bm.mgmtData.max_entries → (bm.mgmtData.frame j).page_dirty = 0 := by
    intro j hj
    rw [hinv.emp j (by have := hinv.hk; omega)]
    rfl
  rw [forceFlushPool_eq]
  refine ⟨rfl, ?_, ?_, ?_, ?_, ?_, ?_, ?_⟩
  · intro j
    simp only
    rw [h.frame j]
    split
    · rfl
    · rename_i hj
      exact hemp j hj
  · simp only [ getNumWriteIO]
    rw [h.num_files_written, dirtyCount_eq]
  · intro j hd hal
    simp only
    by_cases hj : j < bm.mgmtData.max_entries
    · exact h.written j hj hd (fun j' h1 _ h3 => hal j' h1 h3)
    · exact absurd (hemp j hj) hd
  · intro j
    simp only
    rw [h.frame j]
    split <;> exact ⟨rfl, rfl, rfl⟩
  · simp only
    rw [h.nWrite, dirtyCount_eq]
  · simp only [ getNumReadIO]
    exact h.num_files_read
  · simp only
    exact h.max_entries

/-! ## Pinning a page twice -/

theorem Inv.afterStep {st : PoolState} {k : Nat} (h : Inv st.bm.mgmtData st.sm k) (op : Op) :
    ∃ k', Inv (step st op).bm.mgmtData (step st op).sm k' := by
  cases op with
  | pin p => exact h.pinPage _ p
  | unpin p => exact ⟨k, h.unpinPage _⟩
  | dirty p => exact ⟨k, h.markDirty _⟩
  | force p => exact ⟨k, h.forcePage _⟩
  | flush => exact ⟨k, h.forceFlushPool⟩
  | store p b => exact ⟨k, h.storePage p b⟩

theorem Inv.afterRun (ops : List Op) : ∀ (st : PoolState),
    (∃ k, Inv st.bm.mgmtData st.sm k) →
      ∃ k, Inv (Assign3.run st ops).bm.mgmtData (Assign3.run st ops).sm k := by
  induction ops with
  | nil => intro st h; exact h
  | cons op ops ih =>
    intro st ⟨k, h⟩
    rw [run_cons]
    exact ih _ (h.afterStep op)

theorem forcePage_fix (bm : BM_BufferPool) (s : Storage) (page : BM_PageHandle) (j : Nat) :
    ((forcePage bm s page).2.1.mgmtData.frame j).fix_count = (bm.mgmtData.frame j).fix_count := by
  unfold forcePage
  simp only
  split
  · simp only
    show ((bm.mgmtData.setFrame _ _).frame j).fix_count = _
    rw [frame_setFrame]
    split
    · rename_i hij
      obtain ⟨rfl, _⟩ := hij
      rfl
    · rfl
  · rfl

theorem storePage_fix (bm : BM_BufferPool) (p : Int) (b : Page) (j : Nat) :
    ((storePage bm p b).mgmtData.frame j).fix_count = (bm.mgmtData.frame j).fix_count := by
  unfold storePage
  simp only
  split
  · simp only
    rw [frame_setFrame]
    split
    · rename_i hij
      obtain ⟨rfl, _⟩ := hij
      rfl
    · rfl
  · rfl

/-- A pinned frame that holds page `p` keeps its page and its fix count
under every call other than `pinPage p` and `unpinPage p`. -/
theorem held_step {st : PoolState} {k : Nat} (hinv : Inv st.bm.mgmtData st.sm k) (op : Op)
    (p : Int) (i : Nat) (hp : (st.bm.mgmtData.frame i).page_num = p)
    (hf : 0 < (st.bm.mgmtData.frame i).fix_count)
    (h1 : op ≠ Op.pin p) (h2 : op ≠ Op.unpin p) :
    ((step st op).bm.mgmtData.frame i).page_num = p ∧
    ((step st op).bm.mgmtData.frame i).fix_count = (st.bm.mgmtData.frame i).fix_count := by
  cases op with
  | pin q =>
    have hq : q ≠ p := fun h => h1 (by rw [h])
    obtain ⟨a, _, c⟩ := pinned_frame_kept hinv { pageNum := q, data := none } q i hf
    refine ⟨a.trans hp, ?_⟩
    rcases c with c | ⟨_, c⟩
    · exact c
    · exact absurd (c.symm.trans hp) hq
  | unpin q =>
    have hq : q ≠ p := fun h => h2 (by rw [h])
    have h8 := (unpinPage_spec st.bm { pageNum := q, data := none } hinv.len).2.2.2.2.2.2.2.2 i
    rw [if_neg (by rintro ⟨_, h⟩; exact hq (h.symm.trans hp))] at h8
    have e : (step st (Op.unpin q)).bm.mgmtData.frame i = st.bm.mgmtData.frame i := h8
    rw [e]
    exact ⟨hp, rfl⟩
  | dirty q =>
    obtain ⟨a, _, c⟩ := markDirty_keeps st.bm { pageNum := q, data := none } i
    exact ⟨a.trans hp, c⟩
  | force q =>
    exact ⟨((forcePage_keeps st.bm st.sm { pageNum := q, data := none } i).1).trans hp,
      forcePage_fix st.bm st.sm { pageNum := q, data := none } i⟩
  | flush =>
    obtain ⟨a, b, _⟩ := (forceFlushPool_spec hinv).2.2.2.2.1 i
    exact ⟨a.trans hp, b⟩
  | store q b =>
    exact ⟨((storePage_keeps st.bm q b i).1).trans hp, storePage_fix st.bm q b i⟩

theorem held_run (p : Int) (i : Nat) (mid : List Op) : ∀ (st : PoolState),
    (∃ k, Inv st.bm.mgmtData st.sm k) → avoids p mid →
    (st.bm.mgmtData.frame i).page_num = p → 0 < (st.bm.mgmtData.frame i).fix_count →
    ((run st mid).bm.mgmtData.frame i).page_num = p ∧
    ((run st mid).bm.mgmtData.frame i).fix_count = (st.bm.mgmtData.frame i).fix_count := by
  induction mid with
  | nil => intro st _ _ hp _; exact ⟨hp, rfl⟩
  | cons op mid ih =>
    intro st ⟨k, hinv⟩ hav hp hf
    have hop := hav op (List.mem_cons_self _ _)
    obtain ⟨a, b⟩ := held_step hinv op p i hp hf hop.1 hop.2
    rw [run_cons]
    obtain ⟨c, d⟩ := ih (step st op) (hinv.afterStep op)
      (fun o ho => hav o (List.mem_cons_of_mem _ ho)) a (by rw [b]; exact hf)
    exact ⟨c, d.trans b⟩
theorem pinPage_ok_strategy (bm : BM_BufferPool) (s : Storage) (page : BM_PageHandle) (p : Int)
    (hok : (pinPage bm s page p).1 = some RC.RC_OK) :
    bm.strategy = ReplacementStrategy.RS_FIFO ∨ bm.strategy = ReplacementStrategy.RS_LRU := by
  by_cases hF : bm.strategy = ReplacementStrategy.RS_FIFO
  · exact Or.inl hF
  · by_cases hL : bm.strategy = ReplacementStrategy.RS_LRU
    · exact Or.inr hL
    · unfold pinPage at hok
      rw [if_neg hF, if_neg hL] at hok
      simp at hok

theorem pinPage_ok_nonneg {bm : BM_BufferPool} {s : Storage} {k : Nat}
    (hinv : Inv bm.mgmtData s k) (page : BM_PageHandle) (p : Int)
    (hok : (pinPage bm s page p).1 = some RC.RC_OK) : 0 ≤ p := by
  rcases pinPage_cases hinv page p with h | ⟨i, hi, hp, _⟩ | ⟨_, _, hpre, _⟩ |
    ⟨_, _, _, _, hpre, _⟩
  · exact absurd hok h.1
  · rw [← hp]
    exact (hinv.sto i hi).1
  · exact (prelude_facts p s hpre).1
  · exact (prelude_facts p s hpre).1

/-- The fix count of the frame of a page that is loaded, pinned a second
time and unpinned twice, with any calls other than `pinPage p` and
`unpinPage p` in between. -/
theorem pin_twice {st : PoolState} {k : Nat} (hinv : Inv st.bm.mgmtData st.sm k) (p : Int)
    (mid1 mid2 mid3 : List Op)
    (hnew : ∀ i, i < st.bm.mgmtData.max_entries → (st.bm.mgmtData.frame i).page_num ≠ p)
    (hok : (pinPage st.bm st.sm { pageNum := p, data := none } p).1 = some RC.RC_OK)
    (h1 : avoids p mid1) (h2 : avoids p mid2) (h3 : avoids p mid3) :
    ∃ i, i < st.bm.mgmtData.max_entries ∧
      ((step st (Op.pin p)).bm.mgmtData.frame i).page_num = p ∧
      ((step st (Op.pin p)).bm.mgmtData.frame i).fix_count = 1 ∧
      ((run st (Op.pin p :: mid1)).bm.mgmtData.frame i).page_num = p ∧
      ((run st (Op.pin p :: mid1)).bm.mgmtData.frame i).fix_count = 1 ∧
      ((run st (Op.pin p :: mid1 ++ [Op.pin p])).bm.mgmtData.frame i).page_num = p ∧
      ((run st (Op.pin p :: mid1 ++ [Op.pin p])).bm.mgmtData.frame i).fix_count = 2 ∧
      ((run st (Op.pin p :: mid1 ++ [Op.pin p] ++ mid2)).bm.mgmtData.frame i).page_num = p ∧
      ((run st (Op.pin p :: mid1 ++ [Op.pin p] ++ mid2)).bm.mgmtData.frame i).fix_count = 2 ∧
      ((run st (Op.pin p :: mid1 ++ [Op.pin p] ++ mid2 ++ [Op.unpin p])).bm.mgmtData.frame
        i).page_num = p ∧
      ((run st (Op.pin p :: mid1 ++ [Op.pin p] ++ mid2 ++ [Op.unpin p])).bm.mgmtData.frame
        i).fix_count = 1 ∧
      ((run st (Op.pin p :: mid1 ++ [Op.pin p] ++ mid2 ++ [Op.unpin p]
        ++ mid3)).bm.mgmtData.frame i).page_num = p ∧
      ((run st (Op.pin p :: mid1 ++ [Op.pin p] ++ mid2 ++ [Op.unpin p]
        ++ mid3)).bm.mgmtData.frame i).fix_count = 1 ∧
      ((run st (Op.pin p :: mid1 ++ [Op.pin p] ++ mid2 ++ [Op.unpin p]
        ++ mid3 ++ [Op.unpin p])).bm.mgmtData.frame i).page_num = p ∧
      ((run st (Op.pin p :: mid1 ++ [Op.pin p] ++ mid2 ++ [Op.unpin p]
        ++ mid3 ++ [Op.unpin p])).bm.mgmtData.frame i).fix_count = 0 := by
  have hs := pinPage_ok_strategy _ _ _ _ hok
  have hp0 := pinPage_ok_nonneg hinv _ _ hok
  obtain ⟨i, hi, hpn, hfix, _⟩ := load_new_page hinv { pageNum := p, data := none } p hnew hok
  have a1 : ((step st (Op.pin p)).bm.mgmtData.frame i).page_num = p := (hpn i).mpr rfl
  have a2 : ((step st (Op.pin p)).bm.mgmtData.frame i).fix_count = 1 := hfix
  have i1 := hinv.afterStep (Op.pin p)
  -- calls in between
  obtain ⟨b1, b2⟩ := held_run p i mid1 _ i1 h1 a1 (by rw [a2]; decide)
  rw [a2] at b2
  have j1 := Inv.afterRun mid1 _ i1
  -- second pin
  obtain ⟨kk, hkk⟩ := j1
  have hs2 : (run (step st (Op.pin p)) mid1).bm.strategy = ReplacementStrategy.RS_FIFO ∨
      (run (step st (Op.pin p)) mid1).bm.strategy = ReplacementStrategy.RS_LRU := by
    rw [(run_static _ mid1).1, (step_static st (Op.pin p)).1]
    exact hs
  obtain ⟨_, c2, c1, _⟩ := pin_cached_page hkk { pageNum := p, data := none } p i hs2 hp0 b1
  rw [b2] at c2
  have c1' : ((step (run (step st (Op.pin p)) mid1) (Op.pin p)).bm.mgmtData.frame i).page_num = p :=
    c1
  have c2' : ((step (run (step st (Op.pin p)) mid1) (Op.pin p)).bm.mgmtData.frame i).fix_count
      = 2 := c2
  have i2 := hkk.afterStep (Op.pin p)
  obtain ⟨d1, d2⟩ := held_run p i mid2 _ i2 h2 c1' (by rw [c2']; decide)
  rw [c2'] at d2
  obtain ⟨k3, hk3⟩ := Inv.afterRun mid2 _ i2
  -- first unpin
  have h8 := (unpinPage_spec (run (step (run (step st (Op.pin p)) mid1) (Op.pin p)) mid2).bm
    { pageNum := p, data := none } hk3.len).2.2.2.2.2.2.2.2 i
  rw [if_pos ⟨by rw [d2]; decide, d1⟩] at h8
  have e1 : ((step (run (step (run (step st (Op.pin p)) mid1) (Op.pin p)) mid2)
      (Op.unpin p)).bm.mgmtData.frame i).page_num = p := by
    have := congrArg Page_Frame.page_num h8
    exact this.trans d1
  have e2 : ((step (run (step (run (step st (Op.pin p)) mid1) (Op.pin p)) mid2)
      (Op.unpin p)).bm.mgmtData.frame i).fix_count = 1 := by
    have := congrArg Page_Frame.fix_count h8
    refine this.trans ?_
    simp only
    rw [d2]
    rfl
  have i3 := hk3.afterStep (Op.unpin p)
  obtain ⟨f1, f2⟩ := held_run p i mid3 _ i3 h3 e1 (by rw [e2]; decide)
  rw [e2] at f2
  obtain ⟨k4, hk4⟩ := Inv.afterRun mid3 _ i3
  -- second unpin
  have h9 := (unpinPage_spec (run (step (run (step (run (step st (Op.pin p)) mid1) (Op.pin p))
    mid2) (Op.unpin p)) mid3).bm
    { pageNum := p, data := none } hk4.len).2.2.2.2.2.2.2.2 i
  rw [if_pos ⟨by rw [f2]; decide, f1⟩] at h9
  have g1 : ((step (run (step (run (step (run (step st (Op.pin p)) mid1) (Op.pin p)) mid2)
      (Op.unpin p)) mid3) (Op.unpin p)).bm.mgmtData.frame i).page_num = p := by
    have := congrArg Page_Frame.page_num h9
    exact this.trans f1
  have g2 : ((step (run (step (run (step (run (step st (Op.pin p)) mid1) (Op.pin p)) mid2)
      (Op.unpin p)) mid3) (Op.unpin p)).bm.mgmtData.frame i).fix_count = 0 := by
    have := congrArg Page_Frame.fix_count h9
    refine this.trans ?_
    simp only
    rw [f2]
    rfl
  refine ⟨i, hi, a1, a2, ?_⟩
  simp only [run_cons, run_append, run_snoc]
  simp only [run, List.foldl_cons, List.foldl_nil] at *
  exact ⟨b1, b2, c1', c2', d1, d2, e1, e2, f1, f2, g1, g2⟩
/-- C11: in every reachable pool state (any strategy), for a page `p` that
no frame holds and whose `pinPage` returns `RC_OK`, the frame that received
`p` has fix count 1; after a second `pinPage p` it has fix count 2, after
one `unpinPage p` fix count 1, and after the second `unpinPage p` fix count
0, whatever calls other than `pinPage p` and `unpinPage p` are made in
between; the frame holds `p` throughout. -/
theorem C11_pin_twice_unpin_twice (pageFileName : String) (numPages : Nat)
    (strategy : ReplacementStrategy) (w r : Int) (s0 : Storage) (ops : List Op) (p : Int)
    (mid1 mid2 mid3 : List Op)
    (hnew : ∀ i, i < numPages →
      ((run (initState pageFileName numPages strategy w r s0) ops).bm.mgmtData.frame
        i).page_num ≠ p)
    (hok : (pinPage (run (initState pageFileName numPages strategy w r s0) ops).bm
      (run (initState pageFileName numPages strategy w r s0) ops).sm
      { pageNum := p, data := none } p).1 = some RC.RC_OK)
    (h1 : avoids p mid1) (h2 : avoids p mid2) (h3 : avoids p mid3) :
    let st := run (initState pageFileName numPages strategy w r s0) ops
    ∃ i, i < numPages ∧
      ((step st (Op.pin p)).bm.mgmtData.frame i).page_num = p ∧
      ((step st (Op.pin p)).bm.mgmtData.frame i).fix_count = 1 ∧
      ((run st (Op.pin p :: mid1)).bm.mgmtData.frame i).page_num = p ∧
      ((run st (Op.pin p :: mid1)).bm.mgmtData.frame i).fix_count = 1 ∧
      ((run st (Op.pin p :: mid1 ++ [Op.pin p])).bm.mgmtData.frame i).page_num = p ∧
      ((run st (Op.pin p :: mid1 ++ [Op.pin p])).bm.mgmtData.frame i).fix_count = 2 ∧
      ((run st (Op.pin p :: mid1 ++ [Op.pin p] ++ mid2)).bm.mgmtData.frame i).page_num = p ∧
      ((run st (Op.pin p :: mid1 ++ [Op.pin p] ++ mid2)).bm.mgmtData.frame i).fix_count = 2 ∧
      ((run st (Op.pin p :: mid1 ++ [Op.pin p] ++ mid2 ++ [Op.unpin p])).bm.mgmtData.frame
        i).page_num = p ∧
      ((run st (Op.pin p :: mid1 ++ [Op.pin p] ++ mid2 ++ [Op.unpin p])).bm.mgmtData.frame
        i).fix_count = 1 ∧
      ((run st (Op.pin p :: mid1 ++ [Op.pin p] ++ mid2 ++ [Op.unpin p] ++
        mid3)).bm.mgmtData.frame i).page_num = p ∧
      ((run st (Op.pin p :: mid1 ++ [Op.pin p] ++ mid2 ++ [Op.unpin p] ++
        mid3)).bm.mgmtData.frame i).fix_count = 1 ∧
      ((run st (Op.pin p :: mid1 ++ [Op.pin p] ++ mid2 ++ [Op.unpin p] ++ mid3
        ++ [Op.unpin p])).bm.mgmtData.frame i).page_num = p ∧
      ((run st (Op.pin p :: mid1 ++ [Op.pin p] ++ mid2 ++ [Op.unpin p] ++ mid3
        ++ [Op.unpin p])).bm.mgmtData.frame i).fix_count = 0 := by
  obtain ⟨k, hinv⟩ := Inv.run pageFileName numPages strategy w r s0 ops
  have hmax := (run_init_static pageFileName numPages strategy w r s0 ops).2
  have := pin_twice hinv p mid1 mid2 mid3 (by rw [hmax]; exact hnew) hok h1 h2 h3
  rw [hmax] at this
  exact this

/-- Instance of C11: in a two-frame LRU pool page 0 is loaded, page 1 is
pinned, page 0 is pinned again and marked dirty, then unpinned twice. -/
theorem C11_pin_twice_unpin_twice_witness :
    (∀ i, i < 2 → ((run lru2 []).bm.mgmtData.frame i).page_num ≠ 0) ∧
    (pinPage (run lru2 []).bm (run lru2 []).sm { pageNum := 0, data := none } 0).1
      = some RC.RC_OK ∧
    avoids 0 [Op.pin 1] ∧ avoids 0 [Op.dirty 0] ∧ avoids 0 [] ∧
    ∃ i, i < 2 ∧
      ((run lru2 [Op.pin 0]).bm.mgmtData.frame i).page_num = 0 ∧
      ((run lru2 [Op.pin 0]).bm.mgmtData.frame i).fix_count = 1 ∧
      ((run lru2 [Op.pin 0, Op.pin 1]).bm.mgmtData.frame i).page_num = 0 ∧
      ((run lru2 [Op.pin 0, Op.pin 1]).bm.mgmtData.frame i).fix_count = 1 ∧
      ((run lru2 [Op.pin 0, Op.pin 1, Op.pin 0]).bm.mgmtData.frame i).page_num = 0 ∧
      ((run lru2 [Op.pin 0, Op.pin 1, Op.pin 0]).bm.mgmtData.frame i).fix_count = 2 ∧
      ((run lru2 [Op.pin 0, Op.pin 1, Op.pin 0, Op.dirty 0]).bm.mgmtData.frame i).page_num = 0 ∧
      ((run lru2 [Op.pin 0, Op.pin 1, Op.pin 0, Op.dirty 0]).bm.mgmtData.frame i).fix_count = 2 ∧
      ((run lru2 [Op.pin 0, Op.pin 1, Op.pin 0, Op.dirty 0, Op.unpin 0]).bm.mgmtData.frame
        i).page_num = 0 ∧
      ((run lru2 [Op.pin 0, Op.pin 1, Op.pin 0, Op.dirty 0, Op.unpin 0]).bm.mgmtData.frame
        i).fix_count = 1 ∧
      ((run lru2 [Op.pin 0, Op.pin 1, Op.pin 0, Op.dirty 0, Op.unpin 0]).bm.mgmtData.frame
        i).page_num = 0 ∧
      ((run lru2 [Op.pin 0, Op.pin 1, Op.pin 0, Op.dirty 0, Op.unpin 0]).bm.mgmtData.frame
        i).fix_count = 1 ∧
      ((run lru2 [Op.pin 0, Op.pin 1, Op.pin 0, Op.dirty 0, Op.unpin 0,
        Op.unpin 0]).bm.mgmtData.frame i).page_num = 0 ∧
      ((run lru2 [Op.pin 0, Op.pin 1, Op.pin 0, Op.dirty 0, Op.unpin 0,
        Op.unpin 0]).bm.mgmtData.frame i).fix_count = 0 :=
  ⟨by decide, by decide, by decide, by decide, by decide,
    C11_pin_twice_unpin_twice "pool.bin" 2 ReplacementStrategy.RS_LRU 0 0 freshStorage [] 0
      [Op.pin 1] [Op.dirty 0] [] (by decide) (by decide) (by decide) (by decide) (by decide)⟩
/-! ## `unpinPage` and `markDirty` -/

/-- Two queues with the same frames and the same scalar fields are equal. -/
theorem queue_eq_of_frames (q q' : Queue)
    (hlen : q'.Page_Frame.length = q.Page_Frame.length)
    (hfr : ∀ j, q'.frame j = q.frame j) (h1 : q'.head = q.head) (h2 : q'.tail = q.tail)
    (h3 : q'.num_entries = q.num_entries) (h4 : q'.max_entries = q.max_entries)
    (h5 : q'.num_files_written = q.num_files_written)
    (h6 : q'.num_files_read = q.num_files_read) : q' = q := by
  have hl : q'.Page_Frame = q.Page_Frame := by
    apply List.ext_getElem hlen
    intro n hn hn'
    have := hfr n
    unfold Queue.frame at this
    rw [List.getD_eq_getElem?_getD, List.getD_eq_getElem?_getD,
      List.getElem?_eq_getElem hn, List.getElem?_eq_getElem hn'] at this
    simpa using this
  cases q
  cases q'
  simp only at hl h1 h2 h3 h4 h5 h6
  subst hl h1 h2 h3 h4 h5 h6
  rfl

/-- C12: for every pool (an array of `max_entries` frames) and every page
handle, `unpinPage` returns `RC_OK`; every frame that holds the page with a
positive fix count has it decreased by exactly one, every other frame is
left as it was, and if no frame holds the page with a positive fix count the
pool is unchanged; page numbers, dirty flags, contents and both I/O counters
are always unchanged and no fix count becomes negative. -/
theorem C12_unpinPage (bm : BM_BufferPool) (page : BM_PageHandle)
    (hlen : bm.mgmtData.Page_Frame.length = bm.mgmtData.max_entries) :
    (unpinPage bm page).1 = RC.RC_OK ∧
    (∀ j, 0 < (bm.mgmtData.frame j).fix_count →
      (bm.mgmtData.frame j).page_num = page.pageNum →
      ((unpinPage bm page).2.mgmtData.frame j).fix_count
        = (bm.mgmtData.frame j).fix_count - 1) ∧
    (∀ j, ¬ (0 < (bm.mgmtData.frame j).fix_count ∧
        (bm.mgmtData.frame j).page_num = page.pageNum) →
      (unpinPage bm page).2.mgmtData.frame j = bm.mgmtData.frame j) ∧
    ((∀ j, ¬ (0 < (bm.mgmtData.frame j).fix_count ∧
        (bm.mgmtData.frame j).page_num = page.pageNum)) →
      (unpinPage bm page).2 = bm) ∧
    (∀ j, ((unpinPage bm page).2.mgmtData.frame j).page_num = (bm.mgmtData.frame j).page_num ∧
      ((unpinPage bm page).2.mgmtData.frame j).page_dirty = (bm.mgmtData.frame j).page_dirty ∧
      ((unpinPage bm page).2.mgmtData.frame j).contents = (bm.mgmtData.frame j).contents) ∧
    getNumReadIO (unpinPage bm page).2 = getNumReadIO bm ∧
    getNumWriteIO (unpinPage bm page).2 = getNumWriteIO bm ∧
    (∀ j, 0 ≤ (bm.mgmtData.frame j).fix_count →
      0 ≤ ((unpinPage bm page).2.mgmtData.frame j).fix_count) := by
  obtain ⟨h0, h1, h2, h3, h4, h5, h6, h7, h8⟩ := unpinPage_spec bm page hlen
  have hL : (unpinPage bm page).2.mgmtData.Page_Frame.length
      = bm.mgmtData.Page_Frame.length := by
    have := (foldl_range_frames (fun f => f.fix_count > 0 ∧ f.page_num = page.pageNum)
      (fun f => { f with fix_count := f.fix_count - 1 }) bm.mgmtData
      bm.mgmtData.max_entries).2.2.2.2.2.2.1
    exact this
  refine ⟨h0, ?_, ?_, ?_, ?_, h6, h5, ?_⟩
  · intro j hf hp
    rw [h8 j, if_pos ⟨hf, hp⟩]
  · intro j hc
    rw [h8 j, if_neg (by simpa using hc)]
  · intro hnone
    have hq : (unpinPage bm page).2.mgmtData = bm.mgmtData := by
      apply queue_eq_of_frames _ _ hL _ h1 h2 h3 h4 h5 h6
      intro j
      rw [h8 j, if_neg (by simpa using hnone j)]
    have hpf : (unpinPage bm page).2.pageFile = bm.pageFile := rfl
    have hnp : (unpinPage bm page).2.numPages = bm.numPages := rfl
    generalize (unpinPage bm page).2 = bm' at hq hpf hnp h7
    cases bm
    cases bm'
    simp only at hq hpf hnp h7
    subst hq hpf hnp h7
    rfl
  · intro j
    rw [h8 j]
    split <;> simp
  · intro j hj
    rw [h8 j]
    split
    · rename_i hc
      simp only
      omega
    · exact hj

/-- Instance of C12: page 0, pinned once in a two-frame pool, is unpinned. -/
theorem C12_unpinPage_witness :
    (run fifo2 [Op.pin 0]).bm.mgmtData.Page_Frame.length
      = (run fifo2 [Op.pin 0]).bm.mgmtData.max_entries ∧
    ((run fifo2 [Op.pin 0]).bm.mgmtData.frame 0).fix_count = 1 ∧
    (unpinPage (run fifo2 [Op.pin 0]).bm { pageNum := 0, data := none }).1 = RC.RC_OK ∧
    ((unpinPage (run fifo2 [Op.pin 0]).bm { pageNum := 0, data := none }).2.mgmtData.frame
      0).fix_count = 1 - 1 :=
  ⟨by decide, by decide,
    (C12_unpinPage (run fifo2 [Op.pin 0]).bm { pageNum := 0, data := none } (by decide)).1,
    (C12_unpinPage (run fifo2 [Op.pin 0]).bm { pageNum := 0, data := none }
      (by decide)).2.1 0 (by decide) (by decide)⟩
/-- An occupied frame lies inside the array. -/
theorem lt_length_of_occupied (q : Queue) (i : Nat) (h : (q.frame i).page_num ≠ -1) :
    i < q.Page_Frame.length := by
  by_contra hlt
  exact h (by rw [frame_of_le q i (by omega)]; rfl)

/-- C13: for every pool in which occupied frames hold pairwise different
pages, and every page handle, `markDirty` returns `RC_OK`; an occupied frame
that holds the page has its dirty flag set afterwards, every other frame is
left as it was, page numbers, fix counts, contents and both I/O counters are
unchanged, and if no occupied frame holds the page the pool is unchanged. -/
theorem C13_markDirty (bm : BM_BufferPool) (page : BM_PageHandle)
    (hdistinct : ∀ i, i < bm.mgmtData.max_entries → ∀ j, j < bm.mgmtData.max_entries →
      (bm.mgmtData.frame i).page_num ≠ -1 →
      (bm.mgmtData.frame i).page_num = (bm.mgmtData.frame j).page_num → i = j) :
    (markDirty bm page).1 = RC.RC_OK ∧
    (∀ i, i < bm.mgmtData.max_entries → (bm.mgmtData.frame i).page_num ≠ -1 →
      (bm.mgmtData.frame i).page_num = page.pageNum →
      ((markDirty bm page).2.mgmtData.frame i).page_dirty = 1) ∧
    (∀ j, ¬ (j < bm.mgmtData.max_entries ∧ (bm.mgmtData.frame j).page_num ≠ -1 ∧
        (bm.mgmtData.frame j).page_num = page.pageNum) →
      (markDirty bm page).2.mgmtData.frame j = bm.mgmtData.frame j) ∧
    (∀ j, ((markDirty bm page).2.mgmtData.frame j).page_num = (bm.mgmtData.frame j).page_num ∧
      ((markDirty bm page).2.mgmtData.frame j).fix_count = (bm.mgmtData.frame j).fix_count ∧
      ((markDirty bm page).2.mgmtData.frame j).contents = (bm.mgmtData.frame j).contents) ∧
    getNumReadIO (markDirty bm page).2 = getNumReadIO bm ∧
    getNumWriteIO (markDirty bm page).2 = getNumWriteIO bm ∧
    ((∀ i, i < bm.mgmtData.max_entries → (bm.mgmtData.frame i).page_num ≠ -1 →
        (bm.mgmtData.frame i).page_num ≠ page.pageNum) →
      (markDirty bm page).2 = bm) := by
  cases hfind : (List.range bm.mgmtData.max_entries).find?
      (fun i => decide ((bm.mgmtData.frame i).page_num ≠ -1 ∧
        (bm.mgmtData.frame i).page_num = page.pageNum)) with
  | none =>
    have hres : markDirty bm page = (RC.RC_OK, bm) := by
      unfold markDirty
      simp only [hfind]
    have hno : ∀ i, i < bm.mgmtData.max_entries → (bm.mgmtData.frame i).page_num ≠ -1 →
        (bm.mgmtData.frame i).page_num ≠ page.pageNum := by
      intro i hi hocc hp
      have := List.find?_eq_none.mp hfind i (List.mem_range.mpr hi)
      simp only [decide_eq_true_eq] at this
      exact this ⟨hocc, hp⟩
    rw [hres]
    refine ⟨rfl, ?_, fun _ _ => rfl, fun _ => ⟨rfl, rfl, rfl⟩, rfl, rfl, fun _ => rfl⟩
    intro i hi hocc hp
    exact absurd hp (hno i hi hocc)
  | some i0 =>
    have hres : markDirty bm page =
        (RC.RC_OK,
          { bm with
            mgmtData :=
              bm.mgmtData.setFrame i0 { bm.mgmtData.frame i0 with page_dirty := 1 } }) := by
      unfold markDirty
      simp only [hfind]
    obtain ⟨hi0, hc0⟩ := find_range_some hfind
    simp only [decide_eq_true_eq] at hc0
    have hlen0 := lt_length_of_occupied bm.mgmtData i0 hc0.1
    rw [hres]
    refine ⟨rfl, ?_, ?_, ?_, rfl, rfl, ?_⟩
    · intro i hi hocc hp
      have : i0 = i := hdistinct i0 hi0 i hi hc0.1 (by rw [hc0.2, hp])
      subst this
      simp only
      rw [frame_setFrame_self _ _ _ hlen0]
    · intro j hj
      have : i0 ≠ j := by
        intro h
        subst h
        exact hj ⟨hi0, hc0⟩
      simp only
      rw [frame_setFrame_ne _ _ _ _ this]
    · intro j
      simp only
      by_cases h : i0 = j
      · subst h
        rw [frame_setFrame_self _ _ _ hlen0]
        exact ⟨rfl, rfl, rfl⟩
      · rw [frame_setFrame_ne _ _ _ _ h]
        exact ⟨rfl, rfl, rfl⟩
    · intro hno
      exact absurd hc0.2 (hno i0 hi0 hc0.1)

/-- Instance of C13: page 1, held by frame 1 of a two-frame pool, is marked
dirty. -/
theorem C13_markDirty_witness :
    (∀ i, i < (run fifo2 [Op.pin 0, Op.pin 1]).bm.mgmtData.max_entries →
      ∀ j, j < (run fifo2 [Op.pin 0, Op.pin 1]).bm.mgmtData.max_entries →
      ((run fifo2 [Op.pin 0, Op.pin 1]).bm.mgmtData.frame i).page_num ≠ -1 →
      ((run fifo2 [Op.pin 0, Op.pin 1]).bm.mgmtData.frame i).page_num
        = ((run fifo2 [Op.pin 0, Op.pin 1]).bm.mgmtData.frame j).page_num → i = j) ∧
    ((run fifo2 [Op.pin 0, Op.pin 1]).bm.mgmtData.frame 1).page_dirty = 0 ∧
    (markDirty (run fifo2 [Op.pin 0, Op.pin 1]).bm { pageNum := 1, data := none }).1
      = RC.RC_OK ∧
    ((markDirty (run fifo2 [Op.pin 0, Op.pin 1]).bm
      { pageNum := 1, data := none }).2.mgmtData.frame 1).page_dirty = 1 :=
  ⟨by decide, by decide,
    (C13_markDirty (run fifo2 [Op.pin 0, Op.pin 1]).bm { pageNum := 1, data := none }
      (by decide)).1,
    (C13_markDirty (run fifo2 [Op.pin 0, Op.pin 1]).bm { pageNum := 1, data := none }
      (by decide)).2.1 1 (by decide) (by decide) (by decide)⟩
/-! ## `forcePage` -/

/-- What `forcePage` does for a page that an occupied frame holds, in a
state that satisfies the invariant: the frame's contents are written to the
file at the 32-bit byte offset of the page number. -/
theorem force_held_page {bm : BM_BufferPool} {s : Storage} {k : Nat}
    (hinv : Inv bm.mgmtData s k) (page : BM_PageHandle) (i : Nat)
    (hp : 0 ≤ page.pageNum) (hheld : (bm.mgmtData.frame i).page_num = page.pageNum) :
    (forcePage bm s page).1 = RC.RC_OK ∧
    (forcePage bm s page).2.2.file[pageIndex page.pageNum]? = (bm.mgmtData.frame i).contents ∧
    ((forcePage bm s page).2.1.mgmtData.frame i).page_dirty = 0 ∧
    getNumWriteIO (forcePage bm s page).2.1 = getNumWriteIO bm + 1 ∧
    ((forcePage bm s page).2.1.mgmtData.frame i).page_num = page.pageNum ∧
    ((forcePage bm s page).2.1.mgmtData.frame i).fix_count = (bm.mgmtData.frame i).fix_count ∧
    ((forcePage bm s page).2.1.mgmtData.frame i).contents = (bm.mgmtData.frame i).contents ∧
    (∀ j, j ≠ i → (forcePage bm s page).2.1.mgmtData.frame j = bm.mgmtData.frame j) ∧
    (forcePage bm s page).2.2.nWriteBlock = s.nWriteBlock + 1 := by
  have hik : i < k := (hinv.occupied i).mp (by rw [hheld]; omega)
  have hlen : i < bm.mgmtData.Page_Frame.length := by
    have := hinv.len
    have := hinv.hk
    omega
  cases hfind : (List.range bm.mgmtData.max_entries).find?
      (fun j => decide ((bm.mgmtData.frame j).page_num = page.pageNum)) with
  | none =>
    have := List.find?_eq_none.mp hfind i (List.mem_range.mpr (by have := hinv.hk; omega))
    simp only [decide_eq_true_eq] at this
    exact absurd hheld this
  | some i0 =>
    obtain ⟨hi0, hc0⟩ := find_range_some hfind
    simp only [decide_eq_true_eq] at hc0
    have hi0k : i0 < k := (hinv.occupied i0).mp (by rw [hc0]; omega)
    have hii : i0 = i := hinv.nodup i0 i hi0k hik (by rw [hc0, hheld])
    subst hii
    have hres : forcePage bm s page =
        (RC.RC_OK,
          { bm with
            mgmtData :=
              { bm.mgmtData.setFrame i0 { bm.mgmtData.frame i0 with page_dirty := 0 } with
                num_files_written := bm.mgmtData.num_files_written + 1 } },
          (writeBlock (bm.mgmtData.frame i0).page_num s (bm.mgmtData.frame i0).contents).2) := by
      unfold forcePage
      simp only [hfind]
      rfl
    obtain ⟨h0, hT, ⟨hO, hL⟩, hc⟩ := hinv.sto i0 hik
    obtain ⟨d, hd⟩ := Option.isSome_iff_exists.mp hc
    have hfr : ∀ j, ({ bm.mgmtData.setFrame i0 { bm.mgmtData.frame i0 with page_dirty := 0 } with
        num_files_written := bm.mgmtData.num_files_written + 1 } : Queue).frame j
        = (bm.mgmtData.setFrame i0 { bm.mgmtData.frame i0 with page_dirty := 0 }).frame j :=
      fun _ => rfl
    rw [hres]
    refine ⟨rfl, ?_, ?_, rfl, ?_, ?_, ?_, ?_, ?_⟩
    · simp only
      rw [hd, writeBlock_file _ _ _ hT hO hL, ← hheld]
      simp [hL]
    · simp only
      rw [hfr, frame_setFrame_self _ _ _ hlen]
    · simp only
      rw [hfr, frame_setFrame_self _ _ _ hlen]
      exact hheld
    · simp only
      rw [hfr, frame_setFrame_self _ _ _ hlen]
    · simp only
      rw [hfr, frame_setFrame_self _ _ _ hlen]
    · intro j hj
      simp only
      rw [hfr, frame_setFrame_ne _ _ _ _ (Ne.symm hj)]
    · simp only
      exact (writeBlock_storage _ _ _).2.2.2

/-- Below page 524288 `forcePage` writes the frame's contents to the page it
holds. -/
theorem force_held_page_exact {bm : BM_BufferPool} {s : Storage} {k : Nat}
    (hinv : Inv bm.mgmtData s k) (page : BM_PageHandle) (i : Nat)
    (hp : 0 ≤ page.pageNum) (hsmall : page.pageNum < 524288)
    (hheld : (bm.mgmtData.frame i).page_num = page.pageNum) :
    (forcePage bm s page).2.2.file[page.pageNum.toNat]? = (bm.mgmtData.frame i).contents := by
  rw [← (pageIndex_small page.pageNum hp hsmall).2.2]
  exact (force_held_page hinv page i hp hheld).2.1

/-- C14, evaluated on the code: in a two-frame FIFO pool on a fresh one-page
file, page 1048576 is pinned, filled with sevens and marked dirty.
`forcePage` for page 1048576 returns `RC_OK`, clears the dirty flag, counts
one write and keeps the frame's page number, fix count and contents.  But the
byte offset `1048576 * PAGE_SIZE` is `0` in 32-bit arithmetic: the sevens
replace page 0 of the file, which held zeroes, and the file, still one page
long, has no page 1048576 that could equal the frame's contents. -/
theorem C14_force_overwrites_page_zero :
    ((run fifo2 [Op.pin 1048576, Op.store 1048576 sevens, Op.dirty 1048576]).bm.mgmtData.frame
      0).page_num = 1048576 ∧
    ((run fifo2 [Op.pin 1048576, Op.store 1048576 sevens, Op.dirty 1048576]).bm.mgmtData.frame
      0).contents = some sevens ∧
    (run fifo2 [Op.pin 1048576, Op.store 1048576 sevens, Op.dirty 1048576]).sm.file
      = [zeroPage] ∧
    (forcePage (run fifo2 [Op.pin 1048576, Op.store 1048576 sevens, Op.dirty 1048576]).bm
      (run fifo2 [Op.pin 1048576, Op.store 1048576 sevens, Op.dirty 1048576]).sm
      { pageNum := 1048576, data := none }).1 = RC.RC_OK ∧
    ((forcePage (run fifo2 [Op.pin 1048576, Op.store 1048576 sevens, Op.dirty 1048576]).bm
      (run fifo2 [Op.pin 1048576, Op.store 1048576 sevens, Op.dirty 1048576]).sm
      { pageNum := 1048576, data := none }).2.1.mgmtData.frame 0).page_dirty = 0 ∧
    getNumWriteIO
      (forcePage (run fifo2 [Op.pin 1048576, Op.store 1048576 sevens, Op.dirty 1048576]).bm
        (run fifo2 [Op.pin 1048576, Op.store 1048576 sevens, Op.dirty 1048576]).sm
        { pageNum := 1048576, data := none }).2.1
      = getNumWriteIO
        (run fifo2 [Op.pin 1048576, Op.store 1048576 sevens, Op.dirty 1048576]).bm + 1 ∧
    (forcePage (run fifo2 [Op.pin 1048576, Op.store 1048576 sevens, Op.dirty 1048576]).bm
      (run fifo2 [Op.pin 1048576, Op.store 1048576 sevens, Op.dirty 1048576]).sm
      { pageNum := 1048576, data := none }).2.2.file = [sevens] ∧
    (forcePage (run fifo2 [Op.pin 1048576, Op.store 1048576 sevens, Op.dirty 1048576]).bm
      (run fifo2 [Op.pin 1048576, Op.store 1048576 sevens, Op.dirty 1048576]).sm
      { pageNum := 1048576, data := none }).2.2.file[(1048576 : Int).toNat]? = none ∧
    blockOffset 1048576 = 0 :=
  ⟨by decide, rfl, rfl, by decide, by decide, by decide, rfl, by decide, by decide⟩

/-- A page number that no frame of the array carries: `forcePage` returns
`RC_FILE_NOT_FOUND` and changes nothing. -/
theorem forcePage_not_cached (bm : BM_BufferPool) (s : Storage) (page : BM_PageHandle)
    (h : ∀ i, i < bm.mgmtData.max_entries → (bm.mgmtData.frame i).page_num ≠ page.pageNum) :
    forcePage bm s page = (RC.RC_FILE_NOT_FOUND, bm, s) := by
  have hfind : (List.range bm.mgmtData.max_entries).find?
      (fun j => decide ((bm.mgmtData.frame j).page_num = page.pageNum)) = none := by
    rw [List.find?_eq_none]
    intro j hj
    simp only [decide_eq_true_eq]
    exact h j (List.mem_range.mp hj)
  unfold forcePage
  simp only [hfind]

/-- C15, evaluated on the code: in a freshly initialised two-frame pool no
frame is occupied, yet `forcePage` with a handle whose page number is the
sentinel `-1` matches the first empty frame, calls `writeBlock` for page
`-1` (which fails at the seek), returns `RC_OK` and increments
`getNumWriteIO`. -/
theorem C15_force_sentinel_counts :
    (∀ i, i < 2 → (fifo2.bm.mgmtData.frame i).page_num = -1) ∧
    (forcePage fifo2.bm fifo2.sm { pageNum := -1, data := none }).1 = RC.RC_OK ∧
    (writeBlock (-1) fifo2.sm none).1 = RC.RC_SEEK_FAIL ∧
    (forcePage fifo2.bm fifo2.sm { pageNum := -1, data := none }).2.2.nWriteBlock
      = fifo2.sm.nWriteBlock + 1 ∧
    getNumWriteIO fifo2.bm = 0 ∧
    getNumWriteIO (forcePage fifo2.bm fifo2.sm { pageNum := -1, data := none }).2.1 = 1 := by
  refine ⟨by decide, by decide, by decide, by decide, by decide, by decide⟩
/-- In every reachable pool state with `d` dirty frames, `forceFlushPool`
returns `RC_OK`; afterwards no frame is dirty, `getNumWriteIO` has increased
by exactly `d` (and `d` `writeBlock` calls were made), and all page numbers,
fix counts and contents are unchanged.  The contents of a frame that was
dirty are in the file at the 32-bit byte offset of its page number, unless a
dirty frame further up the array has a page number with the same offset. -/
theorem forceFlushPool_reachable (pageFileName : String) (numPages : Nat)
    (strategy : ReplacementStrategy) (w r : Int) (s0 : Storage) (ops : List Op) :
    let st := run (initState pageFileName numPages strategy w r s0) ops
    let res := forceFlushPool st.bm st.sm
    res.1 = RC.RC_OK ∧
    (∀ j, (res.2.1.mgmtData.frame j).page_dirty = 0) ∧
    getNumWriteIO res.2.1 = getNumWriteIO st.bm + (dirtyCount st.bm.mgmtData : Int) ∧
    (∀ j, (st.bm.mgmtData.frame j).page_dirty ≠ 0 →
      (∀ j', j < j' → (st.bm.mgmtData.frame j').page_dirty ≠ 0 →
        pageIndex (st.bm.mgmtData.frame j').page_num
          ≠ pageIndex (st.bm.mgmtData.frame j).page_num) →
      res.2.2.file[pageIndex (st.bm.mgmtData.frame j).page_num]?
        = (st.bm.mgmtData.frame j).contents) ∧
    (∀ j, (res.2.1.mgmtData.frame j).page_num = (st.bm.mgmtData.frame j).page_num ∧
      (res.2.1.mgmtData.frame j).fix_count = (st.bm.mgmtData.frame j).fix_count ∧
      (res.2.1.mgmtData.frame j).contents = (st.bm.mgmtData.frame j).contents) ∧
    res.2.2.nWriteBlock = st.sm.nWriteBlock + dirtyCount st.bm.mgmtData := by
  obtain ⟨k, hinv⟩ := Inv.run pageFileName numPages strategy w r s0 ops
  obtain ⟨h1, h2, h3, h4, h5, h6, _, _⟩ := forceFlushPool_spec hinv
  exact ⟨h1, h2, h3, h4, h5, h6⟩

/-- C16, evaluated on the code: in a two-frame FIFO pool on a fresh one-page
file, frame 0 holds page 0, filled with sevens and dirty, and frame 1 holds
page 1048576, dirty, with the zeroes that were read for it.  `forceFlushPool`
returns `RC_OK`, leaves no frame dirty, raises `getNumWriteIO` by 2 and keeps
page numbers and fix counts.  But both write-backs go to byte offset 0
(`1048576 * PAGE_SIZE` is `0` in 32-bit arithmetic): page 0 of the file holds
zeroes afterwards, not the sevens of the frame that holds page 0, and the
file has no page 1048576. -/
theorem C16_flush_loses_dirty_page :
    ((run fifo2 [Op.pin 0, Op.store 0 sevens, Op.dirty 0, Op.pin 1048576,
      Op.dirty 1048576]).bm.mgmtData.frame 0).page_num = 0 ∧
    ((run fifo2 [Op.pin 0, Op.store 0 sevens, Op.dirty 0, Op.pin 1048576,
      Op.dirty 1048576]).bm.mgmtData.frame 0).page_dirty = 1 ∧
    ((run fifo2 [Op.pin 0, Op.store 0 sevens, Op.dirty 0, Op.pin 1048576,
      Op.dirty 1048576]).bm.mgmtData.frame 0).contents = some sevens ∧
    ((run fifo2 [Op.pin 0, Op.store 0 sevens, Op.dirty 0, Op.pin 1048576,
      Op.dirty 1048576]).bm.mgmtData.frame 1).page_num = 1048576 ∧
    ((run fifo2 [Op.pin 0, Op.store 0 sevens, Op.dirty 0, Op.pin 1048576,
      Op.dirty 1048576]).bm.mgmtData.frame 1).page_dirty = 1 ∧
    (forceFlushPool
      (run fifo2 [Op.pin 0, Op.store 0 sevens, Op.dirty 0, Op.pin 1048576,
        Op.dirty 1048576]).bm
      (run fifo2 [Op.pin 0, Op.store 0 sevens, Op.dirty 0, Op.pin 1048576,
        Op.dirty 1048576]).sm).1 = RC.RC_OK ∧
    (∀ j, j < 2 → ((forceFlushPool
      (run fifo2 [Op.pin 0, Op.store 0 sevens, Op.dirty 0, Op.pin 1048576,
        Op.dirty 1048576]).bm
      (run fifo2 [Op.pin 0, Op.store 0 sevens, Op.dirty 0, Op.pin 1048576,
        Op.dirty 1048576]).sm).2.1.mgmtData.frame j).page_dirty = 0) ∧
    getNumWriteIO (forceFlushPool
      (run fifo2 [Op.pin 0, Op.store 0 sevens, Op.dirty 0, Op.pin 1048576,
        Op.dirty 1048576]).bm
      (run fifo2 [Op.pin 0, Op.store 0 sevens, Op.dirty 0, Op.pin 1048576,
        Op.dirty 1048576]).sm).2.1
      = getNumWriteIO (run fifo2 [Op.pin 0, Op.store 0 sevens, Op.dirty 0, Op.pin 1048576,
        Op.dirty 1048576]).bm + 2 ∧
    (forceFlushPool
      (run fifo2 [Op.pin 0, Op.store 0 sevens, Op.dirty 0, Op.pin 1048576,
        Op.dirty 1048576]).bm
      (run fifo2 [Op.pin 0, Op.store 0 sevens, Op.dirty 0, Op.pin 1048576,
        Op.dirty 1048576]).sm).2.2.file = [zeroPage] ∧
    some zeroPage ≠ some sevens ∧
    blockOffset 1048576 = 0 :=
  ⟨by decide, by decide, rfl, by decide, by decide, by decide, by decide, by decide, rfl,
    fun h => sevens_ne_zeroPage (Option.some.inj h).symm, by decide⟩


/-! ## `shutdownBufferPool` -/

/-- What `shutdownBufferPool` does in a state that satisfies the
invariant.  When it fails, a dirty frame's contents are in the file at the
32-bit byte offset of its page number, unless a dirty frame further up the
array has a page number with the same offset. -/
theorem shutdownBufferPool_spec {bm : BM_BufferPool} {s : Storage} {k : Nat}
    (hinv : Inv bm.mgmtData s k) :
    ((shutdownBufferPool bm s).1 ≠ RC.RC_OK ↔
      ∃ i, i < bm.mgmtData.max_entries ∧ 0 < (bm.mgmtData.frame i).fix_count) ∧
    ((∃ i, i < bm.mgmtData.max_entries ∧ 0 < (bm.mgmtData.frame i).fix_count) →
      (shutdownBufferPool bm s).1 = RC.RC_PAGE_NOT_FOUND ∧
      (shutdownBufferPool bm s).2.1 = some (forceFlushPool bm s).2.1.mgmtData ∧
      (∀ j, ((forceFlushPool bm s).2.1.mgmtData.frame j).page_num
          = (bm.mgmtData.frame j).page_num ∧
        ((forceFlushPool bm s).2.1.mgmtData.frame j).fix_count
          = (bm.mgmtData.frame j).fix_count ∧
        ((forceFlushPool bm s).2.1.mgmtData.frame j).contents
          = (bm.mgmtData.frame j).contents) ∧
      (∀ j, (bm.mgmtData.frame j).page_dirty ≠ 0 →
        (∀ j', j < j' → (bm.mgmtData.frame j').page_dirty ≠ 0 →
          pageIndex (bm.mgmtData.frame j').page_num
            ≠ pageIndex (bm.mgmtData.frame j).page_num) →
        (shutdownBufferPool bm s).2.2.file[pageIndex (bm.mgmtData.frame j).page_num]?
          = (bm.mgmtData.frame j).contents)) ∧
    ((∀ i, i < bm.mgmtData.max_entries → (bm.mgmtData.frame i).fix_count ≤ 0) →
      (shutdownBufferPool bm s).1 = RC.RC_OK ∧ (shutdownBufferPool bm s).2.1 = none) := by
  obtain ⟨_, _, _, h4, h5, _, _, h8⟩ := forceFlushPool_spec hinv
  have hany : (List.range (forceFlushPool bm s).2.1.mgmtData.max_entries).any
      (fun i => decide (((forceFlushPool bm s).2.1.mgmtData.frame i).fix_count > 0)) = true ↔
      ∃ i, i < bm.mgmtData.max_entries ∧ 0 < (bm.mgmtData.frame i).fix_count := by
    rw [List.any_eq_true, h8]
    constructor
    · rintro ⟨i, hi, hc⟩
      rw [decide_eq_true_eq, (h5 i).2.1] at hc
      exact ⟨i, List.mem_range.mp hi, hc⟩
    · rintro ⟨i, hi, hc⟩
      refine ⟨i, List.mem_range.mpr hi, ?_⟩
      rw [decide_eq_true_eq, (h5 i).2.1]
      exact hc
  have hpos : (∃ i, i < bm.mgmtData.max_entries ∧ 0 < (bm.mgmtData.frame i).fix_count) →
      shutdownBufferPool bm s =
        (RC.RC_PAGE_NOT_FOUND, some (forceFlushPool bm s).2.1.mgmtData,
          (forceFlushPool bm s).2.2) := by
    intro h
    unfold shutdownBufferPool
    simp only
    rw [if_pos (hany.mpr h)]
  have hneg : ¬ (∃ i, i < bm.mgmtData.max_entries ∧ 0 < (bm.mgmtData.frame i).fix_count) →
      shutdownBufferPool bm s = (RC.RC_OK, none, (forceFlushPool bm s).2.2) := by
    intro h
    unfold shutdownBufferPool
    simp only
    rw [if_neg (fun hc => h (hany.mp hc))]
  refine ⟨?_, ?_, ?_⟩
  · constructor
    · intro hrc
      by_contra hno
      rw [hneg hno] at hrc
      exact hrc rfl
    · intro h
      rw [hpos h]
      simp
  · intro h
    rw [hpos h]
    exact ⟨rfl, rfl, h5, h4⟩
  · intro h
    have hno : ¬ (∃ i, i < bm.mgmtData.max_entries ∧ 0 < (bm.mgmtData.frame i).fix_count) := by
      rintro ⟨i, hi, hc⟩
      have := h i hi
      omega
    rw [hneg hno]
    exact ⟨rfl, rfl⟩

/-- In every reachable pool state, `shutdownBufferPool` returns an error
code exactly when some frame has a positive fix count.  In that case the
code is `RC_PAGE_NOT_FOUND`, the management data is kept (it is the queue
`forceFlushPool` produced, with the page numbers, fix counts and contents of
before the call) and the contents of a frame that was dirty are in the file
at the 32-bit byte offset of its page number, unless a dirty frame further up
the array has a page number with the same offset.  When no frame is pinned
the call returns `RC_OK` and the management data pointer is `NULL`. -/
theorem shutdownBufferPool_reachable (pageFileName : String) (numPages : Nat)
    (strategy : ReplacementStrategy) (w r : Int) (s0 : Storage) (ops : List Op) :
    let st := run (initState pageFileName numPages strategy w r s0) ops
    let res := shutdownBufferPool st.bm st.sm
    (res.1 ≠ RC.RC_OK ↔ ∃ i, i < numPages ∧ 0 < (st.bm.mgmtData.frame i).fix_count) ∧
    ((∃ i, i < numPages ∧ 0 < (st.bm.mgmtData.frame i).fix_count) →
      res.1 = RC.RC_PAGE_NOT_FOUND ∧
      ∃ q, res.2.1 = some q ∧
        (∀ j, (q.frame j).page_num = (st.bm.mgmtData.frame j).page_num ∧
          (q.frame j).fix_count = (st.bm.mgmtData.frame j).fix_count ∧
          (q.frame j).contents = (st.bm.mgmtData.frame j).contents) ∧
        (∀ j, (st.bm.mgmtData.frame j).page_dirty ≠ 0 →
          (∀ j', j < j' → (st.bm.mgmtData.frame j').page_dirty ≠ 0 →
            pageIndex (st.bm.mgmtData.frame j').page_num
              ≠ pageIndex (st.bm.mgmtData.frame j).page_num) →
          res.2.2.file[pageIndex (st.bm.mgmtData.frame j).page_num]?
            = (st.bm.mgmtData.frame j).contents)) ∧
    ((∀ i, i < numPages → (st.bm.mgmtData.frame i).fix_count ≤ 0) →
      res.1 = RC.RC_OK ∧ res.2.1 = none) := by
  obtain ⟨k, hinv⟩ := Inv.run pageFileName numPages strategy w r s0 ops
  have hmax := (run_init_static pageFileName numPages strategy w r s0 ops).2
  obtain ⟨h1, h2, h3⟩ := shutdownBufferPool_spec hinv
  rw [hmax] at h1 h2 h3
  refine ⟨h1, ?_, h3⟩
  intro h
  obtain ⟨a, b, c, d⟩ := h2 h
  exact ⟨a, _, b, c, d⟩

/-- C17, evaluated on the code: in a two-frame FIFO pool on a fresh one-page
file, frame 0 holds page 0, pinned, filled with sevens and dirty, and frame 1
holds page 1048576, pinned and dirty, with the zeroes that were read for it.
`shutdownBufferPool` returns the error code `RC_PAGE_NOT_FOUND` and keeps the
management data.  But both write-backs of its `forceFlushPool` go to byte
offset 0: page 0 of the file holds zeroes afterwards, not the sevens of the
dirty frame that holds page 0. -/
theorem C17_shutdown_loses_dirty_page :
    ((run fifo2 [Op.pin 0, Op.store 0 sevens, Op.dirty 0, Op.pin 1048576,
      Op.dirty 1048576]).bm.mgmtData.frame 0).page_num = 0 ∧
    ((run fifo2 [Op.pin 0, Op.store 0 sevens, Op.dirty 0, Op.pin 1048576,
      Op.dirty 1048576]).bm.mgmtData.frame 0).fix_count = 1 ∧
    ((run fifo2 [Op.pin 0, Op.store 0 sevens, Op.dirty 0, Op.pin 1048576,
      Op.dirty 1048576]).bm.mgmtData.frame 0).page_dirty = 1 ∧
    ((run fifo2 [Op.pin 0, Op.store 0 sevens, Op.dirty 0, Op.pin 1048576,
      Op.dirty 1048576]).bm.mgmtData.frame 0).contents = some sevens ∧
    (shutdownBufferPool
      (run fifo2 [Op.pin 0, Op.store 0 sevens, Op.dirty 0, Op.pin 1048576,
        Op.dirty 1048576]).bm
      (run fifo2 [Op.pin 0, Op.store 0 sevens, Op.dirty 0, Op.pin 1048576,
        Op.dirty 1048576]).sm).1 = RC.RC_PAGE_NOT_FOUND ∧
    (shutdownBufferPool
      (run fifo2 [Op.pin 0, Op.store 0 sevens, Op.dirty 0, Op.pin 1048576,
        Op.dirty 1048576]).bm
      (run fifo2 [Op.pin 0, Op.store 0 sevens, Op.dirty 0, Op.pin 1048576,
        Op.dirty 1048576]).sm).2.1.isSome = true ∧
    (shutdownBufferPool
      (run fifo2 [Op.pin 0, Op.store 0 sevens, Op.dirty 0, Op.pin 1048576,
        Op.dirty 1048576]).bm
      (run fifo2 [Op.pin 0, Op.store 0 sevens, Op.dirty 0, Op.pin 1048576,
        Op.dirty 1048576]).sm).2.2.file = [zeroPage] ∧
    some zeroPage ≠ some sevens :=
  ⟨by decide, by decide, by decide, rfl, by decide, by decide, rfl,
    fun h => sevens_ne_zeroPage (Option.some.inj h).symm⟩
/-! ## Growth of the page file by `pinPage` -/

/-- C19, evaluated on the code: pinning page 0 twice in a two-frame pool
(FIFO or LRU) on a freshly created file makes two `readBlock` calls while
`getNumReadIO` is 1; pinning and unpinning page 0 and then pinning page 1
in a one-frame FIFO pool makes one `writeBlock` call while `getNumWriteIO`
is 0. -/
theorem C19_counters_differ_from_calls :
    freshStorage.nReadBlock = 0 ∧ freshStorage.nWriteBlock = 0 ∧
    (run fifo2 [Op.pin 0, Op.pin 0]).sm.nReadBlock = 2 ∧
    getNumReadIO (run fifo2 [Op.pin 0, Op.pin 0]).bm = 1 ∧
    (run lru2 [Op.pin 0, Op.pin 0]).sm.nReadBlock = 2 ∧
    getNumReadIO (run lru2 [Op.pin 0, Op.pin 0]).bm = 1 ∧
    (run fifo1 [Op.pin 0, Op.unpin 0, Op.pin 1]).sm.nWriteBlock = 1 ∧
    getNumWriteIO (run fifo1 [Op.pin 0, Op.unpin 0, Op.pin 1]).bm = 0 := by
  refine ⟨by decide, by decide, by decide, by decide, by decide, by decide, by decide,
    by decide⟩
/-! ## At most one frame per page -/

/-- C20: in every state reachable from `initBufferPool` by `pinPage`,
`unpinPage`, `markDirty`, `forcePage` and `forceFlushPool` calls (and stores
through page handles), under any replacement strategy, an occupied frame
and any other frame hold different page numbers. -/
theorem C20_one_frame_per_page (pageFileName : String) (numPages : Nat)
    (strategy : ReplacementStrategy) (w r : Int) (s0 : Storage) (ops : List Op) (i j : Nat)
    (hij : i ≠ j)
    (hocc : ((run (initState pageFileName numPages strategy w r s0) ops).bm.mgmtData.frame
      i).page_num ≠ -1) :
    ((run (initState pageFileName numPages strategy w r s0) ops).bm.mgmtData.frame i).page_num
      ≠ ((run (initState pageFileName numPages strategy w r s0) ops).bm.mgmtData.frame
        j).page_num := by
  obtain ⟨k, hinv⟩ := Inv.run pageFileName numPages strategy w r s0 ops
  intro heq
  have hi := (hinv.occupied i).mp hocc
  have hj := (hinv.occupied j).mp (by rw [← heq]; exact hocc)
  exact hij (hinv.nodup i j hi hj heq)

/-- Instance of C20: after pages 0 and 1 were pinned into a two-frame LRU
pool and page 0 was pinned again, frames 0 and 1 hold different pages. -/
theorem C20_one_frame_per_page_witness :
    0 ≠ 1 ∧
    ((run (initState "pool.bin" 2 ReplacementStrategy.RS_LRU 0 0 freshStorage)
      [Op.pin 0, Op.pin 1, Op.pin 0]).bm.mgmtData.frame 0).page_num ≠ -1 ∧
    ((run (initState "pool.bin" 2 ReplacementStrategy.RS_LRU 0 0 freshStorage)
        [Op.pin 0, Op.pin 1, Op.pin 0]).bm.mgmtData.frame 0).page_num
      ≠ ((run (initState "pool.bin" 2 ReplacementStrategy.RS_LRU 0 0 freshStorage)
        [Op.pin 0, Op.pin 1, Op.pin 0]).bm.mgmtData.frame 1).page_num :=
  ⟨by decide, by decide,
    C20_one_frame_per_page "pool.bin" 2 ReplacementStrategy.RS_LRU 0 0 freshStorage
      [Op.pin 0, Op.pin 1, Op.pin 0] 0 1 (by decide) (by decide)⟩
/-! ## `createPageFile` and `openPageFile` -/

theorem getFile_putFile_self (disk : List (String × List Page)) (name : String)
    (pages : List Page) : getFile (putFile disk name pages) name = some pages := by
  simp [getFile, putFile]

theorem getFile_putFile_other (disk : List (String × List Page)) (name other : String)
    (pages : List Page) (h : other ≠ name) :
    getFile (putFile disk name pages) other = getFile disk other := by
  unfold getFile putFile
  rw [List.find?_cons_of_neg _ (by simpa using Ne.symm h)]
  congr 1
  induction disk with
  | nil => rfl
  | cons e disk ih =>
    by_cases he : e.1 = name
    · have hne : ¬ e.1 = other := fun h2 => h (h2.symm.trans he)
      rw [List.filter_cons_of_neg (by simpa using he), ih,
        List.find?_cons_of_neg _ (by simpa using hne)]
    · rw [List.filter_cons_of_pos (by simpa using he)]
      by_cases ho : e.1 = other
      · rw [List.find?_cons_of_pos _ (by simpa using ho),
          List.find?_cons_of_pos _ (by simpa using ho)]
      · rw [List.find?_cons_of_neg _ (by simpa using ho),
          List.find?_cons_of_neg _ (by simpa using ho), ih]

/-- A successful `openPageFile` hands out the page count and position of the
file-scope `File_Handle`, whatever file was opened. -/
theorem openPageFile_counts (fileName : String) (fHandle : SM_FileHandle_All)
    (m : StorageManager) (hok : (openPageFile fileName fHandle m).1 = RC.RC_OK) :
    (openPageFile fileName fHandle m).2.2.counts = m.File_Handle.counts ∧
    (openPageFile fileName fHandle m).2.2.fileName = m.File_Handle.fileName ∧
    (openPageFile fileName fHandle m).2.1.disk = m.disk := by
  unfold openPageFile at hok ⊢
  split
  · exact ⟨rfl, rfl, rfl⟩
  · rename_i h
    rw [if_neg h] at hok
    simp at hok

/-- C21: for every file name for which `createPageFile` returns `RC_OK`,
the file of that name then consists of exactly one page of `PAGE_SIZE` zero
bytes, whatever it held before, all other files are unchanged, and
`openPageFile` on that name, called next, returns `RC_OK` with a handle
whose `totalNumPages` is 1 and whose `curPagePos` is 0. -/
theorem C21_createPageFile (fileName : String) (m : StorageManager)
    (fHandle : SM_FileHandle_All) (hok : (createPageFile fileName m).1 = RC.RC_OK) :
    let m1 := (createPageFile fileName m).2
    let r := openPageFile fileName fHandle m1
    getFile m1.disk fileName = some [zeroPage] ∧
    zeroPage.length = PAGE_SIZE ∧ (∀ b, b ∈ zeroPage → b = 0) ∧
    (∀ other, other ≠ fileName → getFile m1.disk other = getFile m.disk other) ∧
    r.1 = RC.RC_OK ∧ r.2.2.counts.totalNumPages = 1 ∧ r.2.2.counts.curPagePos = 0 ∧
    r.2.2.fileName = fileName ∧ r.2.2.mgmtInfo = FilePtr.opened fileName ∧
    poolView m1 fileName = freshStorage := by
  have hl : fileName ∉ m.locked := by
    intro h
    unfold createPageFile at hok
    rw [if_pos h] at hok
    simp at hok
  have hc : createPageFile fileName m =
      (RC.RC_OK,
        { m with
          disk := putFile m.disk fileName [zeroPage]
          File_Handle :=
            { fileName := fileName
              counts := { totalNumPages := 1, curPagePos := 0 }
              mgmtInfo := FilePtr.closed fileName } }) := by
    unfold createPageFile
    rw [if_neg hl]
  simp only
  rw [hc]
  have hg := getFile_putFile_self m.disk fileName [zeroPage]
  refine ⟨hg, ?_, ?_, ?_, ?_⟩
  · simp [zeroPage]
  · intro b hb
    exact (List.mem_replicate.mp hb).2
  · intro other ho
    exact getFile_putFile_other m.disk fileName other [zeroPage] ho
  · have ho : openPageFile fileName fHandle
        { m with
          disk := putFile m.disk fileName [zeroPage]
          File_Handle :=
            { fileName := fileName
              counts := { totalNumPages := 1, curPagePos := 0 }
              mgmtInfo := FilePtr.closed fileName } }
        = (RC.RC_OK,
            { m with
              disk := putFile m.disk fileName [zeroPage]
              File_Handle :=
                { fileName := fileName
                  counts := { totalNumPages := 1, curPagePos := 0 }
                  mgmtInfo := FilePtr.opened fileName } },
            { fileName := fileName
              counts := { totalNumPages := 1, curPagePos := 0 }
              mgmtInfo := FilePtr.opened fileName }) := by
      unfold openPageFile
      rw [if_pos ⟨hl, by simp only [hg]; rfl⟩]
    rw [ho]
    refine ⟨rfl, rfl, rfl, rfl, rfl, ?_⟩
    unfold poolView
    simp only [hg]
    rfl

/-- Instance of C21: `createPageFile` on the existing three-page file
`old.bin`. -/
theorem C21_createPageFile_witness :
    (createPageFile "old.bin" oldDisk).1 = RC.RC_OK ∧
    getFile oldDisk.disk "old.bin" = some [sevens, zeroPage, nines] ∧
    getFile (createPageFile "old.bin" oldDisk).2.disk "old.bin" = some [zeroPage] ∧
    (openPageFile "old.bin" blankHandle (createPageFile "old.bin" oldDisk).2).1 = RC.RC_OK ∧
    (openPageFile "old.bin" blankHandle
      (createPageFile "old.bin" oldDisk).2).2.2.counts.totalNumPages = 1 :=
  ⟨by decide, rfl,
    (C21_createPageFile "old.bin" oldDisk blankHandle (by decide)).1,
    (C21_createPageFile "old.bin" oldDisk blankHandle (by decide)).2.2.2.2.1,
    (C21_createPageFile "old.bin" oldDisk blankHandle (by decide)).2.2.2.2.2.1⟩

/-- C22, evaluated on the code: `openPageFile` on an existing file of three
pages hands out `totalNumPages = 0` when it is the first call of the
program, `totalNumPages = 1` (and the other file's name) after another file
was created, and a file that was just created is reported with
`totalNumPages = 0` after `initStorageManager`. -/
theorem C22_open_reports_stale_count :
    (getFile oldDisk.disk "old.bin").map List.length = some 3 ∧
    (openPageFile "old.bin" blankHandle oldDisk).1 = RC.RC_OK ∧
    (openPageFile "old.bin" blankHandle oldDisk).2.2.counts.totalNumPages = 0 ∧
    (createPageFile "new.bin" oldDisk).1 = RC.RC_OK ∧
    (getFile (createPageFile "new.bin" oldDisk).2.disk "old.bin").map List.length = some 3 ∧
    (openPageFile "old.bin" blankHandle (createPageFile "new.bin" oldDisk).2).1 = RC.RC_OK ∧
    (openPageFile "old.bin" blankHandle
      (createPageFile "new.bin" oldDisk).2).2.2.counts.totalNumPages = 1 ∧
    (openPageFile "old.bin" blankHandle
      (createPageFile "new.bin" oldDisk).2).2.2.fileName = "new.bin" ∧
    (getFile (initStorageManager (createPageFile "new.bin" oldDisk).2).disk "new.bin").map
      List.length = some 1 ∧
    (openPageFile "new.bin" blankHandle
      (initStorageManager (createPageFile "new.bin" oldDisk).2)).1 = RC.RC_OK ∧
    (openPageFile "new.bin" blankHandle
      (initStorageManager (createPageFile "new.bin" oldDisk).2)).2.2.counts.totalNumPages
      = 0 := by
  refine ⟨by decide, by decide, by decide, by decide, by decide, by decide, by decide,
    by decide, by decide, by decide, by decide⟩
/-! ## Block reads and writes of the storage manager -/

/-- A failing `readBlock` changes only the call counter. -/
theorem readBlock_fail (p : Int) (s : Storage) (h : (readBlock p s).1 ≠ RC.RC_OK) :
    (readBlock p s).2.1.File_Handle = s.File_Handle ∧ (readBlock p s).2.1.file = s.file ∧
    (readBlock p s).2.2 = none := by
  by_cases hc : p + 1 > s.File_Handle.totalNumPages ∨ p < 0
  · unfold readBlock
    simp only
    rw [if_pos hc]
    exact ⟨rfl, rfl, rfl⟩
  · by_cases ho : blockOffset p < 0
    · unfold readBlock
      simp only
      rw [if_neg hc, if_pos ho]
      exact ⟨rfl, rfl, rfl⟩
    · cases hf : s.file[pageAt (blockOffset p)]? with
      | none =>
        unfold readBlock
        simp only
        rw [if_neg hc, if_neg ho]
        simp only [hf]
        exact ⟨trivial, trivial, trivial⟩
      | some d =>
        exfalso
        apply h
        unfold readBlock
        simp only
        rw [if_neg hc, if_neg ho]
        simp only [hf]

/-- A successful `readBlock` sets the position and nothing else of
`File_Handle`. -/
theorem readBlock_ok (p : Int) (s : Storage) (h : (readBlock p s).1 = RC.RC_OK) :
    (readBlock p s).2.1.File_Handle = { s.File_Handle with curPagePos := p } := by
  obtain ⟨h0, hT, hO, hL⟩ := (readBlock_ok_iff p s).mp h
  have hc : ¬ (p + 1 > s.File_Handle.totalNumPages ∨ p < 0) := by omega
  have ho : ¬ blockOffset p < 0 := by omega
  obtain ⟨d, hf⟩ : ∃ d, s.file[pageAt (blockOffset p)]? = some d :=
    ⟨_, List.getElem?_eq_getElem hL⟩
  unfold readBlock
  simp only
  rw [if_neg hc, if_neg ho]
  simp only [hf]

theorem readBlock_out_of_range (p : Int) (s : Storage)
    (h : p < 0 ∨ s.File_Handle.totalNumPages ≤ p) :
    (readBlock p s).1 = RC.RC_READ_NON_EXISTING_PAGE := by
  unfold readBlock
  simp only
  rw [if_pos (by omega)]

/-- What `readBlock` does, for every state of the storage manager, with `T`
the page count of `File_Handle`, and every integer `pageNum`: when
`pageNum < 0` or `pageNum ≥ T`, it returns `RC_READ_NON_EXISTING_PAGE` and
leaves the current position, the caller's handle and the file unchanged; when
it returns `RC_OK`, `0 ≤ pageNum < T`, the bytes handed out are those of the
page at the 32-bit byte offset of `pageNum` and the current position (of
`File_Handle` and of the caller's handle) is `pageNum`; and when `T` is the
number of pages of the file, it returns `RC_OK` with the bytes of page
`pageNum` for every `pageNum` with `0 ≤ pageNum < T` below page 524288. -/
theorem readBlock_spec (s : Storage) (pageNum : Int) (fHandle : SM_FileHandle) :
    ((pageNum < 0 ∨ s.File_Handle.totalNumPages ≤ pageNum) →
      (readBlock pageNum s).1 = RC.RC_READ_NON_EXISTING_PAGE ∧
      getBlockPos (readBlock pageNum s).2.1 = getBlockPos s ∧
      readBlock_fHandle pageNum fHandle s = fHandle ∧
      (readBlock pageNum s).2.1.file = s.file ∧
      (readBlock pageNum s).2.1.File_Handle.totalNumPages = s.File_Handle.totalNumPages) ∧
    ((readBlock pageNum s).1 = RC.RC_OK →
      0 ≤ pageNum ∧ pageNum < s.File_Handle.totalNumPages ∧
      (∃ d, (readBlock pageNum s).2.2 = some d ∧ s.file[pageIndex pageNum]? = some d) ∧
      getBlockPos (readBlock pageNum s).2.1 = pageNum ∧
      (readBlock_fHandle pageNum fHandle s).curPagePos = pageNum ∧
      (readBlock_fHandle pageNum fHandle s).totalNumPages = fHandle.totalNumPages ∧
      (readBlock pageNum s).2.1.file = s.file ∧
      (readBlock pageNum s).2.1.File_Handle.totalNumPages = s.File_Handle.totalNumPages) ∧
    (Coherent s → 0 ≤ pageNum → pageNum < s.File_Handle.totalNumPages → pageNum < 524288 →
      (readBlock pageNum s).1 = RC.RC_OK ∧
      (readBlock pageNum s).2.2 = s.file[pageNum.toNat]?) := by
  refine ⟨?_, ?_, ?_⟩
  · intro hout
    have hrc := readBlock_out_of_range pageNum s hout
    have hne : (readBlock pageNum s).1 ≠ RC.RC_OK := by rw [hrc]; decide
    obtain ⟨a, b, _⟩ := readBlock_fail pageNum s hne
    refine ⟨hrc, ?_, ?_, b, ?_⟩
    · unfold getBlockPos; rw [a]
    · unfold readBlock_fHandle; rw [if_neg hne]
    · rw [a]
  · intro hok
    obtain ⟨h0, hT, hL⟩ := (readBlock_ok_iff pageNum s).mp hok
    obtain ⟨hd, hsome⟩ := readBlock_data pageNum s hok
    obtain ⟨d, hdd⟩ := Option.isSome_iff_exists.mp hsome
    have hfh := readBlock_ok pageNum s hok
    refine ⟨h0, by omega, ⟨d, hdd, by rw [← hd, hdd]⟩, ?_, ?_, ?_,
      (readBlock_storage pageNum s).2.1, (readBlock_storage pageNum s).1⟩
    · unfold getBlockPos; rw [hfh]
    · unfold readBlock_fHandle; rw [if_pos hok, hfh]
    · unfold readBlock_fHandle; rw [if_pos hok]
  · intro hc h0 hT hsmall
    unfold Coherent at hc
    obtain ⟨_, hO, hI⟩ := pageIndex_small pageNum h0 hsmall
    have hok : (readBlock pageNum s).1 = RC.RC_OK :=
      (readBlock_ok_iff pageNum s).mpr ⟨h0, by omega, hO, by omega⟩
    refine ⟨hok, ?_⟩
    rw [(readBlock_data pageNum s hok).1, hI]

theorem wideFile_length : wideFile.file.length = 1048577 := by
  show (sevens :: List.replicate 1048576 zeroPage).length = 1048577
  rw [List.length_cons, List.length_replicate]

theorem wideFile_coherent : Coherent wideFile := by
  unfold Coherent
  rw [wideFile_length]
  rfl

theorem wideFile_first : wideFile.file[0]? = some sevens := by
  have f : wideFile.file = sevens :: List.replicate 1048576 zeroPage := rfl
  rw [f]
  exact List.getElem?_cons_zero

theorem wideFile_last : wideFile.file[1048576]? = some zeroPage := by
  have e : (1048576 : Nat) = 1048575 + 1 := rfl
  have f : wideFile.file = sevens :: List.replicate (1048575 + 1) zeroPage := rfl
  rw [e, f, List.getElem?_cons_succ, List.getElem?_replicate, if_pos (by decide)]

/-- When the page number is in range and the 32-bit byte offset is negative,
`readBlock` fails at the seek. -/
theorem readBlock_seek_fail (p : Int) (s : Storage) (h0 : 0 ≤ p)
    (hT : p + 1 ≤ s.File_Handle.totalNumPages) (hO : blockOffset p < 0) :
    (readBlock p s).1 = RC.RC_SEEK_FAIL := by
  unfold readBlock
  simp only
  rw [if_neg (by omega), if_pos hO]

theorem readBlock_pos (p : Int) (s : Storage) (h : (readBlock p s).1 = RC.RC_OK) :
    getBlockPos (readBlock p s).2.1 = p := by
  unfold getBlockPos
  rw [readBlock_ok p s h]

/-- C23, evaluated on the code: `wideFile` has 1048577 pages, which the
storage manager knows; page 0 is filled with sevens, every other page with
zeroes.  `readBlock 1048576`, in range, returns `RC_OK` and sets the position
to 1048576, but the bytes it yields are the sevens of page 0, not the zeroes
of page 1048576: the byte offset `1048576 * PAGE_SIZE` is `0` in 32-bit
arithmetic.  `readBlock 524288`, in range as well, returns `RC_SEEK_FAIL`:
its offset is `-2147483648`. -/
theorem C23_readBlock_wraps :
    Coherent wideFile ∧ wideFile.File_Handle.totalNumPages = 1048577 ∧
    wideFile.file[0]? = some sevens ∧
    wideFile.file[1048576]? = some zeroPage ∧
    (readBlock 1048576 wideFile).1 = RC.RC_OK ∧
    (readBlock 1048576 wideFile).2.2 = some sevens ∧
    getBlockPos (readBlock 1048576 wideFile).2.1 = 1048576 ∧
    some sevens ≠ some zeroPage ∧
    (readBlock 524288 wideFile).1 = RC.RC_SEEK_FAIL ∧
    blockOffset 1048576 = 0 ∧ blockOffset 524288 = -2147483648 := by
  have hI : pageIndex 1048576 = 0 := by decide
  have hok : (readBlock 1048576 wideFile).1 = RC.RC_OK :=
    (readBlock_ok_iff 1048576 wideFile).mpr
      ⟨by decide, by decide, by decide, by rw [hI, wideFile_length]; decide⟩
  have hd := (readBlock_data 1048576 wideFile hok).1
  rw [hI, wideFile_first] at hd
  exact ⟨wideFile_coherent, rfl, wideFile_first, wideFile_last, hok, hd,
    readBlock_pos 1048576 wideFile hok,
    fun h => sevens_ne_zeroPage (Option.some.inj h),
    readBlock_seek_fail 524288 wideFile (by decide) (by decide) (by decide),
    by decide, by decide⟩

/-- C25: for every state of the storage manager whose current position `c`
satisfies `0 ≤ c < T`, with `T` the page count of `File_Handle`:
`readPreviousBlock` returns `RC_READ_NON_EXISTING_PAGE` and changes nothing
when `c = 0` and is `readBlock (c - 1)` otherwise; `readNextBlock` returns
`RC_READ_NON_EXISTING_PAGE` and keeps the position when `c = T - 1` and is
`readBlock (c + 1)` otherwise; `readCurrentBlock` is `readBlock c`; each
of the three keeps the current position, the page count and the file when
it does not return `RC_OK`. -/
theorem C25_relative_reads (s : Storage) (hc0 : 0 ≤ s.File_Handle.curPagePos)
    (hcT : s.File_Handle.curPagePos < s.File_Handle.totalNumPages) :
    (s.File_Handle.curPagePos = 0 →
      readPreviousBlock s = (RC.RC_READ_NON_EXISTING_PAGE, s, none)) ∧
    (0 < s.File_Handle.curPagePos →
      readPreviousBlock s = readBlock (s.File_Handle.curPagePos - 1) s) ∧
    (s.File_Handle.curPagePos = s.File_Handle.totalNumPages - 1 →
      (readNextBlock s).1 = RC.RC_READ_NON_EXISTING_PAGE ∧
      getBlockPos (readNextBlock s).2.1 = getBlockPos s) ∧
    (s.File_Handle.curPagePos < s.File_Handle.totalNumPages - 1 →
      readNextBlock s = readBlock (s.File_Handle.curPagePos + 1) s) ∧
    readCurrentBlock s = readBlock s.File_Handle.curPagePos s ∧
    ((readPreviousBlock s).1 ≠ RC.RC_OK →
      (readPreviousBlock s).2.1.File_Handle = s.File_Handle ∧
      (readPreviousBlock s).2.1.file = s.file) ∧
    ((readCurrentBlock s).1 ≠ RC.RC_OK →
      (readCurrentBlock s).2.1.File_Handle = s.File_Handle ∧
      (readCurrentBlock s).2.1.file = s.file) ∧
    ((readNextBlock s).1 ≠ RC.RC_OK →
      (readNextBlock s).2.1.File_Handle = s.File_Handle ∧
      (readNextBlock s).2.1.file = s.file) := by
  have hprev0 : s.File_Handle.curPagePos = 0 →
      readPreviousBlock s = (RC.RC_READ_NON_EXISTING_PAGE, s, none) := by
    intro h
    unfold readPreviousBlock
    simp only
    rw [if_pos (by omega)]
  have hprev : 0 < s.File_Handle.curPagePos →
      readPreviousBlock s = readBlock (s.File_Handle.curPagePos - 1) s := by
    intro h
    unfold readPreviousBlock
    simp only
    rw [if_neg (by omega)]
  have hnext : readNextBlock s = readBlock (s.File_Handle.curPagePos + 1) s := by
    unfold readNextBlock
    simp only
    rw [if_neg (by omega)]
  have hcur : readCurrentBlock s = readBlock s.File_Handle.curPagePos s := by
    unfold readCurrentBlock
    simp only
    rw [if_neg (by omega)]
  refine ⟨hprev0, hprev, ?_, fun _ => hnext, hcur, ?_, ?_, ?_⟩
  · intro h
    have hrc := readBlock_out_of_range (s.File_Handle.curPagePos + 1) s (Or.inr (by omega))
    rw [hnext]
    refine ⟨hrc, ?_⟩
    unfold getBlockPos
    rw [(readBlock_fail _ s (by rw [hrc]; decide)).1]
  · intro h
    by_cases hz : s.File_Handle.curPagePos = 0
    · rw [hprev0 hz]
      exact ⟨rfl, rfl⟩
    · rw [hprev (by omega)] at h ⊢
      exact ⟨(readBlock_fail _ s h).1, (readBlock_fail _ s h).2.1⟩
  · intro h
    rw [hcur] at h ⊢
    exact ⟨(readBlock_fail _ s h).1, (readBlock_fail _ s h).2.1⟩
  · intro h
    rw [hnext] at h ⊢
    exact ⟨(readBlock_fail _ s h).1, (readBlock_fail _ s h).2.1⟩

/-- Instance of C25: the three-page file with the current position at
page 1. -/
theorem C25_relative_reads_witness :
    0 ≤ threePages.File_Handle.curPagePos ∧
    threePages.File_Handle.curPagePos < threePages.File_Handle.totalNumPages ∧
    readCurrentBlock threePages = readBlock threePages.File_Handle.curPagePos threePages ∧
    (readPreviousBlock threePages).2.2 = some sevens ∧
    (readNextBlock threePages).2.2 = some nines :=
  ⟨by decide, by decide,
    (C25_relative_reads threePages (by decide) (by decide)).2.2.2.2.1, rfl, rfl⟩

/-- What `writeBlock` does, for every state of the storage manager, with `T`
the page count of `File_Handle`: for every `pageNum ≥ T` and every buffer it
returns `RC_PAGE_NOT_FOUND` and leaves the file and `File_Handle` unchanged;
when `T` is the number of pages of the file and `0 ≤ pageNum < T` lies below
page 524288, it returns `RC_OK`, page `pageNum` of the file is the buffer
given, every other page, the number of pages and `File_Handle` are unchanged.
`writeCurrentBlock` is `writeBlock` at the current position. -/
theorem writeBlock_spec (s : Storage) (pageNum : Int) (memPage : SM_PageHandle) (d : Page) :
    (s.File_Handle.totalNumPages ≤ pageNum →
      (writeBlock pageNum s memPage).1 = RC.RC_PAGE_NOT_FOUND ∧
      (writeBlock pageNum s memPage).2.file = s.file ∧
      (writeBlock pageNum s memPage).2.File_Handle = s.File_Handle) ∧
    (Coherent s → 0 ≤ pageNum → pageNum < s.File_Handle.totalNumPages → pageNum < 524288 →
      (writeBlock pageNum s (some d)).1 = RC.RC_OK ∧
      (writeBlock pageNum s (some d)).2.file[pageNum.toNat]? = some d ∧
      (∀ j, j ≠ pageNum.toNat →
        (writeBlock pageNum s (some d)).2.file[j]? = s.file[j]?) ∧
      (writeBlock pageNum s (some d)).2.file.length = s.file.length ∧
      (writeBlock pageNum s (some d)).2.File_Handle = s.File_Handle) ∧
    writeCurrentBlock s memPage = writeBlock s.File_Handle.curPagePos s memPage := by
  refine ⟨?_, ?_, rfl⟩
  · intro h
    unfold writeBlock
    simp only
    rw [if_pos (by omega)]
    exact ⟨rfl, rfl, rfl⟩
  · intro hc h0 hT hsmall
    unfold Coherent at hc
    obtain ⟨_, hO, hI⟩ := pageIndex_small pageNum h0 hsmall
    have hL : pageNum.toNat < s.file.length := by omega
    have hfile := writeBlock_file pageNum s d (by omega) hO (by rw [hI]; exact hL)
    rw [hI] at hfile
    refine ⟨writeBlock_ok pageNum s (some d) (by omega) hO, ?_, ?_, ?_,
      (writeBlock_storage pageNum s (some d)).1⟩
    · rw [hfile]
      simp [hL]
    · intro j hj
      rw [hfile, List.getElem?_set_ne (Ne.symm hj)]
    · rw [hfile, List.length_set]

/-- C26, evaluated on the code: `wideFile` has 1048577 pages, which the
storage manager knows; page 0 is filled with sevens, every other page with
zeroes.  `writeBlock 1048576` with a buffer of nines, in range, returns
`RC_OK`, but it is page 0 that holds the nines afterwards, while page 1048576
still holds zeroes: the byte offset `1048576 * PAGE_SIZE` is `0` in 32-bit
arithmetic.  `writeBlock 524288`, in range as well, returns `RC_SEEK_FAIL`
and writes nothing. -/
theorem C26_writeBlock_wraps :
    Coherent wideFile ∧ wideFile.File_Handle.totalNumPages = 1048577 ∧
    wideFile.file[0]? = some sevens ∧
    wideFile.file[1048576]? = some zeroPage ∧
    (writeBlock 1048576 wideFile (some nines)).1 = RC.RC_OK ∧
    (writeBlock 1048576 wideFile (some nines)).2.file[0]? = some nines ∧
    (writeBlock 1048576 wideFile (some nines)).2.file[1048576]? = some zeroPage ∧
    (writeBlock 524288 wideFile (some nines)).1 = RC.RC_SEEK_FAIL ∧
    (writeBlock 524288 wideFile (some nines)).2.file = wideFile.file := by
  have hI : pageIndex 1048576 = 0 := by decide
  have hL : pageIndex 1048576 < wideFile.file.length := by
    rw [hI, wideFile_length]; decide
  have hfile := writeBlock_file 1048576 wideFile nines (by decide) (by decide) hL
  rw [hI] at hfile
  have h0 : (writeBlock 1048576 wideFile (some nines)).2.file[0]? = some nines := by
    rw [hfile, List.getElem?_set_self (by rw [wideFile_length]; decide)]
  have h1 : (writeBlock 1048576 wideFile (some nines)).2.file[1048576]? = some zeroPage := by
    rw [hfile, List.getElem?_set_ne (by decide)]
    exact wideFile_last
  exact ⟨wideFile_coherent, rfl, wideFile_first, wideFile_last,
    writeBlock_ok 1048576 wideFile (some nines) (by decide) (by decide), h0, h1,
    (writeBlock_seek_fail 524288 wideFile (some nines) (by decide) (by decide)).1,
    (writeBlock_seek_fail 524288 wideFile (some nines) (by decide) (by decide)).2⟩

/-- C27: for every state of the storage manager in which the page count `T`
of `File_Handle` is the number of pages of the file, `appendEmptyBlock`
returns `RC_OK` and leaves the file with exactly `T + 1` pages, page `T`
zero-filled and the pages below `T` unchanged; `totalNumPages` is `T + 1`
in `File_Handle` and in the caller's handle. -/
theorem C27_appendEmptyBlock (fHandle : SM_FileHandle) (s : Storage) (hc : Coherent s) :
    (appendEmptyBlock fHandle s).1 = RC.RC_OK ∧
    (appendEmptyBlock fHandle s).2.1.file.length = s.file.length + 1 ∧
    (appendEmptyBlock fHandle s).2.1.file[s.file.length]? = some zeroPage ∧
    (∀ j, j < s.file.length → (appendEmptyBlock fHandle s).2.1.file[j]? = s.file[j]?) ∧
    (appendEmptyBlock fHandle s).2.2.totalNumPages = (s.file.length : Int) + 1 ∧
    (appendEmptyBlock fHandle s).2.1.File_Handle.totalNumPages = (s.file.length : Int) + 1 ∧
    (appendEmptyBlock fHandle s).2.1.File_Handle.curPagePos = s.File_Handle.curPagePos ∧
    (appendEmptyBlock fHandle s).2.2.curPagePos = fHandle.curPagePos ∧
    Coherent (appendEmptyBlock fHandle s).2.1 := by
  unfold Coherent at hc ⊢
  have hf : (appendEmptyBlock fHandle s).2.1.file = s.file ++ [zeroPage] := rfl
  have ht : (appendEmptyBlock fHandle s).2.1.File_Handle.totalNumPages
      = s.File_Handle.totalNumPages + 1 := rfl
  have hh : (appendEmptyBlock fHandle s).2.2.totalNumPages
      = s.File_Handle.totalNumPages + 1 := rfl
  refine ⟨rfl, ?_, ?_, ?_, ?_, ?_, rfl, rfl, ?_⟩
  · rw [hf]
    simp
  · rw [hf]
    simp
  · intro j hj
    rw [hf, List.getElem?_append_left hj]
  · rw [hh, hc]
  · rw [ht, hc]
  · rw [ht, hf, List.length_append, List.length_singleton]
    push_cast
    omega

/-- Instance of C27: a page is appended to the three-page file. -/
theorem C27_appendEmptyBlock_witness :
    Coherent threePages ∧
    (appendEmptyBlock threePages.File_Handle threePages).2.1.file.length
      = threePages.file.length + 1 ∧
    (appendEmptyBlock threePages.File_Handle threePages).2.2.totalNumPages
      = (threePages.file.length : Int) + 1 :=
  ⟨by decide, (C27_appendEmptyBlock threePages.File_Handle threePages (by decide)).2.1,
    (C27_appendEmptyBlock threePages.File_Handle threePages (by decide)).2.2.2.2.1⟩

theorem ensureCapacity_noop (n : Int) (s : Storage)
    (h : n ≤ s.File_Handle.totalNumPages) : ensureCapacity n s = (RC.RC_OK, s) := by
  unfold ensureCapacity
  rw [if_pos h]

/-- What `ensureCapacity` does when the page count `T` of `File_Handle` is
the number of pages of the file and fewer than 524288 pages are missing: it
returns `RC_OK` and leaves the file with exactly `max T n` pages: the state is
unchanged when `n ≤ T`, and when `n > T` exactly `n - T` zero-filled pages
follow the unchanged pages; the page count still is the number of pages, and
a second `ensureCapacity n` changes nothing. -/
theorem ensureCapacity_spec (s : Storage) (n : Int) (hc : Coherent s)
    (hsmall : n - s.File_Handle.totalNumPages < 524288) :
    (ensureCapacity n s).1 = RC.RC_OK ∧
    ((ensureCapacity n s).2.file.length : Int) = max (s.file.length : Int) n ∧
    (n ≤ (s.file.length : Int) → (ensureCapacity n s).2 = s) ∧
    ((s.file.length : Int) < n →
      (ensureCapacity n s).2.file
        = s.file ++ List.replicate (n - (s.file.length : Int)).toNat zeroPage) ∧
    (∀ j, j < s.file.length → (ensureCapacity n s).2.file[j]? = s.file[j]?) ∧
    (∀ j, s.file.length ≤ j → (j : Int) < n →
      (ensureCapacity n s).2.file[j]? = some zeroPage) ∧
    Coherent (ensureCapacity n s).2 ∧
    ensureCapacity n (ensureCapacity n s).2 = (RC.RC_OK, (ensureCapacity n s).2) := by
  unfold Coherent at hc
  have hfile := ensureCapacity_file_exact n s hsmall
  have htot := ensureCapacity_total n s
  rw [hc] at hfile htot
  refine ⟨ensureCapacity_rc n s, ?_, ?_, ?_, ?_, ?_, ?_, ?_⟩
  · rw [hfile, List.length_append, List.length_replicate]
    push_cast
    omega
  · intro h
    unfold ensureCapacity
    rw [if_pos (by omega)]
  · intro _
    exact hfile
  · intro j hj
    rw [hfile, List.getElem?_append_left hj]
  · intro j h1 h2
    rw [hfile, List.getElem?_append_right h1, List.getElem?_replicate, if_pos (by omega)]
  · unfold Coherent
    rw [htot, hfile, List.length_append, List.length_replicate]
    push_cast
    omega
  · apply ensureCapacity_noop
    rw [htot]
    exact le_max_right _ _

/-- The whole effect of `ensureCapacity` on a file that is too short: the
32-bit buffer size decides what is appended, `totalNumPages` becomes `n`. -/
theorem ensureCapacity_grow (n : Int) (s : Storage) (h : s.File_Handle.totalNumPages < n) :
    (ensureCapacity n s).2.file
      = s.file ++ appendedPages (wrap32 ((n - s.File_Handle.totalNumPages) * (PAGE_SIZE : Int))) ∧
    (ensureCapacity n s).2.File_Handle.totalNumPages = n := by
  constructor
  · rw [ensureCapacity_file, if_neg (by omega)]
  · rw [ensureCapacity_total]
    omega

/-- C28, evaluated on the code: on the one-page file that `createPageFile`
leaves, `ensureCapacity 524289` returns `RC_OK` and sets `totalNumPages` to
524289, but the file still has one page: the buffer size
`524288 * PAGE_SIZE` is `-2147483648` in 32-bit arithmetic and nothing is
written, so the page count no longer is the number of pages.
`ensureCapacity 1048578`, for which 1048577 pages are missing, appends one
page: its buffer size is `4096`. -/
theorem C28_ensureCapacity_wraps :
    Coherent freshStorage ∧ freshStorage.file.length = 1 ∧
    (ensureCapacity 524289 freshStorage).1 = RC.RC_OK ∧
    (ensureCapacity 524289 freshStorage).2.File_Handle.totalNumPages = 524289 ∧
    (ensureCapacity 524289 freshStorage).2.file.length = 1 ∧
    ¬ Coherent (ensureCapacity 524289 freshStorage).2 ∧
    wrap32 (524288 * (PAGE_SIZE : Int)) = -2147483648 ∧
    (ensureCapacity 1048578 freshStorage).1 = RC.RC_OK ∧
    (ensureCapacity 1048578 freshStorage).2.File_Handle.totalNumPages = 1048578 ∧
    (ensureCapacity 1048578 freshStorage).2.file.length = 2 := by
  refine ⟨by decide, by decide, by decide, by decide, by decide, by decide, by decide,
    by decide, by decide, by decide⟩

/-- Storage round trip where byte offsets are exact: for every state of the
storage manager in which the page count `T ≤ 524288` of `File_Handle` is the
number of pages of the file, every `p` with `0 ≤ p < T` and every buffer `d`:
`writeBlock p d` returns `RC_OK`, a following `readBlock p` returns `RC_OK`
with the bytes `d`, and a following `readBlock q` for any other `q` with
`0 ≤ q < T` returns `RC_OK` with the bytes page `q` had before the write. -/
theorem write_then_read_exact (s : Storage) (p : Int) (d : Page) (hc : Coherent s)
    (hsmall : s.File_Handle.totalNumPages ≤ 524288)
    (h0 : 0 ≤ p) (hT : p < s.File_Handle.totalNumPages) :
    (writeBlock p s (some d)).1 = RC.RC_OK ∧
    (readBlock p (writeBlock p s (some d)).2).1 = RC.RC_OK ∧
    (readBlock p (writeBlock p s (some d)).2).2.2 = some d ∧
    ∀ q, 0 ≤ q → q < s.File_Handle.totalNumPages → q ≠ p →
      (readBlock q (writeBlock p s (some d)).2).1 = RC.RC_OK ∧
      (readBlock q (writeBlock p s (some d)).2).2.2 = s.file[q.toNat]? ∧
      (readBlock q (writeBlock p s (some d)).2).2.2 = (readBlock q s).2.2 ∧
      (readBlock q s).1 = RC.RC_OK := by
  unfold Coherent at hc
  obtain ⟨_, hO, hI⟩ := pageIndex_small p h0 (by omega)
  have hL : p.toNat < s.file.length := by omega
  have hfile := writeBlock_file p s d (by omega) hO (by rw [hI]; exact hL)
  rw [hI] at hfile
  have hfh := (writeBlock_storage p s (some d)).1
  have hrc : (writeBlock p s (some d)).1 = RC.RC_OK :=
    writeBlock_ok p s (some d) (by omega) hO
  have hread : ∀ q, 0 ≤ q → q < s.File_Handle.totalNumPages →
      (readBlock q (writeBlock p s (some d)).2).1 = RC.RC_OK := by
    intro q hq0 hqT
    obtain ⟨_, hqO, hqI⟩ := pageIndex_small q hq0 (by omega)
    rw [readBlock_ok_iff, hfh, hfile, List.length_set, hqI]
    exact ⟨hq0, by omega, hqO, by omega⟩
  refine ⟨hrc, hread p h0 hT, ?_, ?_⟩
  · rw [(readBlock_data p _ (hread p h0 hT)).1, hfile, hI]
    simp [hL]
  · intro q hq0 hqT hqp
    obtain ⟨_, hqO, hqI⟩ := pageIndex_small q hq0 (by omega)
    have hqs : (readBlock q s).1 = RC.RC_OK :=
      (readBlock_ok_iff q s).mpr ⟨hq0, by omega, hqO, by omega⟩
    have e : (readBlock q (writeBlock p s (some d)).2).2.2 = s.file[q.toNat]? := by
      rw [(readBlock_data q _ (hread q hq0 hqT)).1, hfile, hqI,
        List.getElem?_set_ne (toNat_ne_of_ne h0 hq0 (Ne.symm hqp))]
    exact ⟨hread q hq0 hqT, e, by rw [e, (readBlock_data q s hqs).1, hqI], hqs⟩

/-- Instance: page 1 of the three-page file is overwritten with the byte 9
and read back; page 0 still reads as before. -/
theorem write_then_read_exact_three :
    (readBlock 1 (writeBlock 1 threePages (some nines)).2).2.2 = some nines ∧
    (readBlock 0 (writeBlock 1 threePages (some nines)).2).2.2 = some sevens :=
  ⟨(write_then_read_exact threePages 1 nines (by decide) (by decide) (by decide)
    (by decide)).2.2.1, rfl⟩

/-- C30, evaluated on the code: `wideFile` has 1048577 pages, which the
storage manager knows; page 0 is filled with sevens.  `writeBlock 1048576`
with a buffer of nines returns `RC_OK` and a following `readBlock 1048576`
returns `RC_OK` with the nines.  But `readBlock 0`, for the other in-range
page 0, returns the nines as well, not the sevens page 0 had before the
write: both page numbers have the byte offset `0` in 32-bit arithmetic. -/
theorem C30_write_reaches_other_page :
    Coherent wideFile ∧ wideFile.File_Handle.totalNumPages = 1048577 ∧
    wideFile.file[0]? = some sevens ∧
    (writeBlock 1048576 wideFile (some nines)).1 = RC.RC_OK ∧
    (readBlock 1048576 (writeBlock 1048576 wideFile (some nines)).2).1 = RC.RC_OK ∧
    (readBlock 1048576 (writeBlock 1048576 wideFile (some nines)).2).2.2 = some nines ∧
    (readBlock 0 (writeBlock 1048576 wideFile (some nines)).2).1 = RC.RC_OK ∧
    (readBlock 0 (writeBlock 1048576 wideFile (some nines)).2).2.2 = some nines ∧
    nines ≠ sevens ∧
    blockOffset 1048576 = 0 ∧ blockOffset 0 = 0 := by
  have hI : pageIndex 1048576 = 0 := by decide
  have hI0 : pageIndex 0 = 0 := by decide
  have hL : pageIndex 1048576 < wideFile.file.length := by
    rw [hI, wideFile_length]; decide
  have hfile := writeBlock_file 1048576 wideFile nines (by decide) (by decide) hL
  rw [hI] at hfile
  have hfh := (writeBlock_storage 1048576 wideFile (some nines)).1
  have hlen : (writeBlock 1048576 wideFile (some nines)).2.file.length = 1048577 := by
    rw [hfile, List.length_set, wideFile_length]
  have hget : (writeBlock 1048576 wideFile (some nines)).2.file[0]? = some nines := by
    rw [hfile, List.getElem?_set_self (by rw [wideFile_length]; decide)]
  have hr1 : (readBlock 1048576 (writeBlock 1048576 wideFile (some nines)).2).1 = RC.RC_OK :=
    (readBlock_ok_iff _ _).mpr
      ⟨by decide, by rw [hfh]; decide, by decide, by rw [hI, hlen]; decide⟩
  have hr0 : (readBlock 0 (writeBlock 1048576 wideFile (some nines)).2).1 = RC.RC_OK :=
    (readBlock_ok_iff _ _).mpr
      ⟨by decide, by rw [hfh]; decide, by decide, by rw [hI0, hlen]; decide⟩
  have hd1 := (readBlock_data _ _ hr1).1
  rw [hI, hget] at hd1
  have hd0 := (readBlock_data _ _ hr0).1
  rw [hI0, hget] at hd0
  have hne : nines ≠ sevens := by
    intro h
    have e9 : nines = 9 :: List.replicate 4095 9 := rfl
    have e7 : sevens = 7 :: List.replicate 4095 7 := rfl
    rw [e9, e7] at h
    exact absurd (List.cons.inj h).1 (by decide)
  exact ⟨wideFile_coherent, rfl, wideFile_first,
    writeBlock_ok 1048576 wideFile (some nines) (by decide) (by decide),
    hr1, hd1, hr0, hd0, hne, by decide, by decide⟩
/-! ## `readFirstBlock` and `readLastBlock` against `readBlock` -/

/-- On a file whose page count `T`, with `1 ≤ T ≤ 524288`, is known to the
storage manager, `readFirstBlock` and `readLastBlock` return the code and the
bytes of `readBlock 0` and `readBlock (T - 1)`, and leave `File_Handle` as it
was. -/
theorem readFirst_readLast_bytes (s : Storage) (hc : Coherent s)
    (hT : 1 ≤ s.File_Handle.totalNumPages) (hsmall : s.File_Handle.totalNumPages ≤ 524288) :
    (readFirstBlock s).1 = (readFirstBlock_spec s).1 ∧
    (readFirstBlock s).2.2 = (readFirstBlock_spec s).2.2 ∧
    (readFirstBlock s).1 = RC.RC_OK ∧ (readFirstBlock s).2.1 = s ∧
    (readLastBlock s).1 = (readLastBlock_spec s).1 ∧
    (readLastBlock s).2.2 = (readLastBlock_spec s).2.2 ∧
    (readLastBlock s).1 = RC.RC_OK ∧ (readLastBlock s).2.1 = s := by
  unfold Coherent at hc
  have hlen : 0 < s.file.length := by omega
  obtain ⟨_, hO0, hI0⟩ := pageIndex_small 0 (le_refl 0) (by decide)
  obtain ⟨_, hOL, hIL⟩ := pageIndex_small (s.File_Handle.totalNumPages - 1) (by omega)
    (by omega)
  have hok0 : (readBlock 0 s).1 = RC.RC_OK :=
    (readBlock_ok_iff 0 s).mpr ⟨le_refl 0, by omega, hO0, by rw [hI0]; simpa using hlen⟩
  have hokL : (readBlock (s.File_Handle.totalNumPages - 1) s).1 = RC.RC_OK :=
    (readBlock_ok_iff _ s).mpr ⟨by omega, by omega, hOL, by omega⟩
  have hd0 := (readBlock_data 0 s hok0).1
  have hdL := (readBlock_data _ s hokL).1
  have e : (s.File_Handle.totalNumPages - 1).toNat = s.file.length - 1 := by omega
  have e0 : (0 : Int).toNat = 0 := rfl
  rw [hI0, e0] at hd0
  rw [hIL, e] at hdL
  obtain ⟨a, ha⟩ : ∃ a, s.file[0]? = some a := ⟨_, List.getElem?_eq_getElem hlen⟩
  obtain ⟨b, hb⟩ : ∃ b, s.file[s.file.length - 1]? = some b :=
    ⟨_, List.getElem?_eq_getElem (by omega)⟩
  have hf : readFirstBlock s = (RC.RC_OK, s, some a) := by
    unfold readFirstBlock
    simp only [ha]
  have hl : readLastBlock s = (RC.RC_OK, s, some b) := by
    unfold readLastBlock
    rw [if_neg (by omega)]
    simp only [hb]
  have hs0 : readFirstBlock_spec s = readBlock 0 s := rfl
  have hsL : readLastBlock_spec s = readBlock (s.File_Handle.totalNumPages - 1) s := rfl
  refine ⟨by rw [hf, hs0, hok0], ?_, by rw [hf], by rw [hf], by rw [hl, hsL, hokL], ?_,
    by rw [hl], by rw [hl]⟩
  · rw [hf, hs0, hd0]
    exact ha.symm
  · rw [hl, hsL, hdL, hb]

/-- C24, evaluated on the code: on the three-page file with the current
position at page 1, `readFirstBlock` and `readLastBlock` return `RC_OK` and
the bytes of page 0 and of page 2, as `readBlock 0` and `readBlock 2` do,
but the current position stays 1, where `readBlock 0` and `readBlock 2`
leave it at 0 and at 2. -/
theorem C24_first_last_keep_position :
    Coherent threePages ∧ threePages.File_Handle.totalNumPages = 3 ∧
    getBlockPos threePages = 1 ∧
    (readFirstBlock threePages).1 = RC.RC_OK ∧
    (readFirstBlock threePages).2.2 = some sevens ∧
    (readFirstBlock_spec threePages).2.2 = some sevens ∧
    getBlockPos (readFirstBlock threePages).2.1 = 1 ∧
    getBlockPos (readFirstBlock_spec threePages).2.1 = 0 ∧
    (readLastBlock threePages).1 = RC.RC_OK ∧
    (readLastBlock threePages).2.2 = some nines ∧
    (readLastBlock_spec threePages).2.2 = some nines ∧
    getBlockPos (readLastBlock threePages).2.1 = 1 ∧
    getBlockPos (readLastBlock_spec threePages).2.1 = 2 ∧
    (readNextBlock (readFirstBlock threePages).2.1).2.2 = some nines ∧
    (readNextBlock (readFirstBlock_spec threePages).2.1).2.2 = some zeroPage := by
  refine ⟨by decide, by decide, by decide, by decide, rfl, rfl, by decide, by decide,
    by decide, rfl, rfl, by decide, by decide, rfl, rfl⟩

/-! ## The byte offset of a page -/

theorem wrap32_lt (x : Int) : wrap32 x < 2147483648 := by
  unfold wrap32
  omega

/-- Below page 524288 the 32-bit product is the exact product. -/
theorem blockOffset_exact (p : Int) (h0 : 0 ≤ p) (h : p < 524288) :
    blockOffset p = p * (PAGE_SIZE : Int) := by
  unfold blockOffset wrap32
  simp only [PAGE_SIZE]
  push_cast
  omega

/-- From page 524288 on the 32-bit product is not the exact product. -/
theorem blockOffset_wraps (p : Int) (h : 524288 ≤ p) :
    blockOffset p ≠ p * (PAGE_SIZE : Int) := by
  intro he
  have := wrap32_lt (p * (PAGE_SIZE : Int))
  unfold blockOffset at he
  rw [he] at this
  simp only [PAGE_SIZE] at this
  push_cast at this
  omega

/-- C29, evaluated on the code: page 524288 of a file of 524289 pages, a
page count a C `int` can hold, has the exact byte offset 2147483648, which
a 32-bit `int` cannot hold; the 32-bit product is -2147483648, and for page
1048576 it is 0, the offset of page 0. -/
theorem C29_offset_overflows :
    (0 : Int) ≤ 524288 ∧ (524288 : Int) < 524289 ∧ (524289 : Int) ≤ INT_MAX ∧
    (524288 : Int) * (PAGE_SIZE : Int) = 2147483648 ∧
    INT_MAX < (524288 : Int) * (PAGE_SIZE : Int) ∧
    blockOffset 524288 = -2147483648 ∧
    blockOffset 524288 ≠ (524288 : Int) * (PAGE_SIZE : Int) ∧
    blockOffset 1048576 = 0 ∧ blockOffset 0 = 0 ∧
    (1048576 : Int) ≤ INT_MAX := by
  refine ⟨by decide, by decide, by decide, by decide, by decide, by decide, by decide,
    by decide, by decide, by decide⟩

theorem prelude_negative (p : Int) (s : Storage) (hp : p < 0)
    (hT : 0 ≤ s.File_Handle.totalNumPages) :
    preludeRC p s ≠ RC.RC_OK ∧ (preludeStorage p s).file = s.file ∧
    (preludeStorage p s).File_Handle = s.File_Handle ∧
    (preludeStorage p s).nWriteBlock = s.nWriteBlock := by
  have he : ensureCapacity (p + 1) s = (RC.RC_OK, s) := ensureCapacity_noop (p + 1) s (by omega)
  have hne : (readBlock p s).1 ≠ RC.RC_OK := by
    intro h
    have := ((readBlock_ok_iff p s).mp h).1
    omega
  have hf := readBlock_fail p s hne
  unfold preludeRC preludeStorage
  rw [he]
  exact ⟨hne, hf.2.1, hf.1, (readBlock_storage p s).2.2.2⟩

/-- C36: for every pool, whatever its strategy and whether or not it still
has empty frames, on a storage manager whose page count is not negative,
and every negative page number `p`, `pinPage p` returns
`RC_FILE_NOT_FOUND` and leaves the pool (every frame, the queue indices,
both I/O counters), the page handle, the file and its page count
unchanged. -/
theorem C36_negative_page (bm : BM_BufferPool) (s : Storage) (page : BM_PageHandle) (p : Int)
    (hp : p < 0) (hT : 0 ≤ s.File_Handle.totalNumPages) :
    (pinPage bm s page p).1 = some RC.RC_FILE_NOT_FOUND ∧
    (pinPage bm s page p).2.1 = bm ∧
    (∀ j, (pinPage bm s page p).2.1.mgmtData.frame j = bm.mgmtData.frame j) ∧
    getNumReadIO (pinPage bm s page p).2.1 = getNumReadIO bm ∧
    getNumWriteIO (pinPage bm s page p).2.1 = getNumWriteIO bm ∧
    (pinPage bm s page p).2.2.1.file = s.file ∧
    (pinPage bm s page p).2.2.1.File_Handle = s.File_Handle ∧
    (pinPage bm s page p).2.2.1.nWriteBlock = s.nWriteBlock ∧
    (pinPage bm s page p).2.2.2 = page := by
  obtain ⟨hne, hfile, hfh, hw⟩ := prelude_negative p s hp hT
  have key : (pinPage bm s page p).1 = some RC.RC_FILE_NOT_FOUND ∧
      (pinPage bm s page p).2.1 = bm ∧
      ((pinPage bm s page p).2.2.1 = preludeStorage p s ∨ (pinPage bm s page p).2.2.1 = s) ∧
      (pinPage bm s page p).2.2.2 = page := by
    by_cases hF : bm.strategy = ReplacementStrategy.RS_FIFO
    · unfold pinPage
      rw [if_pos hF, FIFO_fail bm s page p hne]
      exact ⟨rfl, rfl, Or.inl rfl, rfl⟩
    · by_cases hL : bm.strategy = ReplacementStrategy.RS_LRU
      · unfold pinPage
        rw [if_neg hF, if_pos hL, LRU_fail bm s page p hne]
        exact ⟨rfl, rfl, Or.inl rfl, rfl⟩
      · unfold pinPage
        rw [if_neg hF, if_neg hL]
        exact ⟨rfl, rfl, Or.inr rfl, rfl⟩
  obtain ⟨h1, h2, h3, h4⟩ := key
  refine ⟨h1, h2, fun j => by rw [h2], by rw [h2], by rw [h2], ?_, ?_, ?_, h4⟩
  · rcases h3 with h | h
    · rw [h]; exact hfile
    · rw [h]
  · rcases h3 with h | h
    · rw [h]; exact hfh
    · rw [h]
  · rcases h3 with h | h
    · rw [h]; exact hw
    · rw [h]

/-- Instance of C36: `pinPage (-1)` on a fresh two-frame LRU pool, whose
frames all carry the sentinel `-1`. -/
theorem C36_negative_page_witness :
    (-1 : Int) < 0 ∧ 0 ≤ lru2.sm.File_Handle.totalNumPages ∧
    (∀ i, i < 2 → (lru2.bm.mgmtData.frame i).page_num = -1) ∧
    (pinPage lru2.bm lru2.sm { pageNum := 0, data := none } (-1)).1
      = some RC.RC_FILE_NOT_FOUND ∧
    (pinPage lru2.bm lru2.sm { pageNum := 0, data := none } (-1)).2.1 = lru2.bm :=
  ⟨by decide, by decide, by decide,
    (C36_negative_page lru2.bm lru2.sm { pageNum := 0, data := none } (-1)
      (by decide) (by decide)).1,
    (C36_negative_page lru2.bm lru2.sm { pageNum := 0, data := none } (-1)
      (by decide) (by decide)).2.1⟩

/-- C35: for every pool and every page `p` such that some frame of the
array holds `p` or is empty, `pinPage` under `RS_FIFO` and `pinPage` under
`RS_LRU` return the same code and produce the same queue (frames, indices,
I/O counters), the same storage manager state and the same page handle. -/
theorem C35_fifo_lru_agree (bm : BM_BufferPool) (s : Storage) (page : BM_PageHandle) (p : Int)
    (h : ∃ i, i < bm.mgmtData.max_entries ∧
      ((bm.mgmtData.frame i).page_num = p ∨ (bm.mgmtData.frame i).page_num = -1)) :
    (pinPage { bm with strategy := ReplacementStrategy.RS_FIFO } s page p).1
      = (pinPage { bm with strategy := ReplacementStrategy.RS_LRU } s page p).1 ∧
    (pinPage { bm with strategy := ReplacementStrategy.RS_FIFO } s page p).2.1.mgmtData
      = (pinPage { bm with strategy := ReplacementStrategy.RS_LRU } s page p).2.1.mgmtData ∧
    (pinPage { bm with strategy := ReplacementStrategy.RS_FIFO } s page p).2.2.1
      = (pinPage { bm with strategy := ReplacementStrategy.RS_LRU } s page p).2.2.1 ∧
    (pinPage { bm with strategy := ReplacementStrategy.RS_FIFO } s page p).2.2.2
      = (pinPage { bm with strategy := ReplacementStrategy.RS_LRU } s page p).2.2.2 := by
  obtain ⟨i, hi, hc⟩ := h
  cases hs : scanFrames bm.mgmtData p with
  | none =>
    unfold scanFrames at hs
    have := List.find?_eq_none.mp hs i (List.mem_range.mpr hi)
    simp only [decide_eq_true_eq] at this
    exact absurd hc this
  | some i0 =>
    by_cases hok : preludeRC p s = RC.RC_OK
    · unfold pinPage FIFO LRU
      simp only [hs, hok, if_true]
      simp
    · unfold pinPage FIFO LRU
      simp only [hok, if_false]
      simp

/-- Instance of C35: page 1 is pinned into a pool whose frame 0 holds page 0
and whose frame 1 is empty. -/
theorem C35_fifo_lru_agree_witness :
    (∃ i, i < (run lru2 [Op.pin 0]).bm.mgmtData.max_entries ∧
      (((run lru2 [Op.pin 0]).bm.mgmtData.frame i).page_num = 1 ∨
        ((run lru2 [Op.pin 0]).bm.mgmtData.frame i).page_num = -1)) ∧
    (pinPage { (run lru2 [Op.pin 0]).bm with strategy := ReplacementStrategy.RS_FIFO }
      (run lru2 [Op.pin 0]).sm { pageNum := 0, data := none } 1).1
      = (pinPage { (run lru2 [Op.pin 0]).bm with strategy := ReplacementStrategy.RS_LRU }
        (run lru2 [Op.pin 0]).sm { pageNum := 0, data := none } 1).1 ∧
    (pinPage { (run lru2 [Op.pin 0]).bm with strategy := ReplacementStrategy.RS_LRU }
      (run lru2 [Op.pin 0]).sm { pageNum := 0, data := none } 1).1 = some RC.RC_OK :=
  ⟨⟨1, by decide, Or.inr (by decide)⟩,
    (C35_fifo_lru_agree (run lru2 [Op.pin 0]).bm (run lru2 [Op.pin 0]).sm
      { pageNum := 0, data := none } 1 ⟨1, by decide, Or.inr (by decide)⟩).1,
    by decide⟩

/-- A call of `pinPage` that does not return `RC_OK` leaves the frames and
both I/O counters as they were. -/
theorem pinPage_fail_frames {bm : BM_BufferPool} {s : Storage} {k : Nat}
    (hinv : Inv bm.mgmtData s k) (page : BM_PageHandle) (p : Int)
    (hfail : (pinPage bm s page p).1 ≠ some RC.RC_OK) :
    (∀ j, (pinPage bm s page p).2.1.mgmtData.frame j = bm.mgmtData.frame j) ∧
    getNumReadIO (pinPage bm s page p).2.1 = getNumReadIO bm ∧
    getNumWriteIO (pinPage bm s page p).2.1 = getNumWriteIO bm := by
  rcases pinPage_cases hinv page p with h | ⟨i, _, _, h⟩ | ⟨_, _, _, h⟩ |
    ⟨_, _, _, _, _, t, _, _, _, h⟩
  · obtain ⟨_, hfr, hr, hw, _⟩ := h
    refine ⟨?_, hr, hw⟩
    intro j
    unfold Queue.frame
    rw [hfr]
  · rw [h] at hfail; exact absurd rfl hfail
  · rw [h] at hfail; exact absurd rfl hfail
  · rw [h] at hfail; exact absurd rfl hfail

/-- C32: in every reachable state of a FIFO pool in which all frames are
occupied and pinned, for every page `p` that no frame holds, `pinPage p`
returns `RC_FILE_NOT_FOUND` and leaves every frame (page number, fix count,
dirty flag, contents) and both `getNumReadIO` and `getNumWriteIO` as they
were. -/
theorem C32_failing_pin_keeps_frames (pageFileName : String) (numPages : Nat) (w r : Int)
    (s0 : Storage) (ops : List Op) (page : BM_PageHandle) (p : Int)
    (hall : ∀ i, i < numPages →
      ((run (initState pageFileName numPages ReplacementStrategy.RS_FIFO w r s0)
        ops).bm.mgmtData.frame i).page_num ≠ -1 ∧
      0 < ((run (initState pageFileName numPages ReplacementStrategy.RS_FIFO w r s0)
        ops).bm.mgmtData.frame i).fix_count)
    (hnew : ∀ i, i < numPages →
      ((run (initState pageFileName numPages ReplacementStrategy.RS_FIFO w r s0)
        ops).bm.mgmtData.frame i).page_num ≠ p) :
    let st := run (initState pageFileName numPages ReplacementStrategy.RS_FIFO w r s0) ops
    let res := pinPage st.bm st.sm page p
    res.1 = some RC.RC_FILE_NOT_FOUND ∧
    (∀ j, res.2.1.mgmtData.frame j = st.bm.mgmtData.frame j) ∧
    getNumReadIO res.2.1 = getNumReadIO st.bm ∧
    getNumWriteIO res.2.1 = getNumWriteIO st.bm := by
  obtain ⟨k, hinv⟩ := Inv.run pageFileName numPages ReplacementStrategy.RS_FIFO w r s0 ops
  obtain ⟨hstr, hmax⟩ :=
    run_init_static pageFileName numPages ReplacementStrategy.RS_FIFO w r s0 ops
  have hrc := all_pinned_fails hinv page p hstr (by rw [hmax]; exact hall)
    (by rw [hmax]; exact hnew)
  exact ⟨hrc, pinPage_fail_frames hinv page p (by rw [hrc]; decide)⟩

/-- Instance of C32: pages 0 and 1 are pinned in a two-frame FIFO pool and
page 2 is requested. -/
theorem C32_failing_pin_keeps_frames_witness :
    (∀ i, i < 2 →
      ((run (initState "pool.bin" 2 ReplacementStrategy.RS_FIFO 0 0 freshStorage)
        [Op.pin 0, Op.pin 1]).bm.mgmtData.frame i).page_num ≠ -1 ∧
      0 < ((run (initState "pool.bin" 2 ReplacementStrategy.RS_FIFO 0 0 freshStorage)
        [Op.pin 0, Op.pin 1]).bm.mgmtData.frame i).fix_count) ∧
    (∀ i, i < 2 →
      ((run (initState "pool.bin" 2 ReplacementStrategy.RS_FIFO 0 0 freshStorage)
        [Op.pin 0, Op.pin 1]).bm.mgmtData.frame i).page_num ≠ 2) ∧
    (pinPage (run fifo2 [Op.pin 0, Op.pin 1]).bm (run fifo2 [Op.pin 0, Op.pin 1]).sm
      { pageNum := 0, data := none } 2).1 = some RC.RC_FILE_NOT_FOUND ∧
    (∀ j, (pinPage (run fifo2 [Op.pin 0, Op.pin 1]).bm (run fifo2 [Op.pin 0, Op.pin 1]).sm
      { pageNum := 0, data := none } 2).2.1.mgmtData.frame j
      = (run fifo2 [Op.pin 0, Op.pin 1]).bm.mgmtData.frame j) :=
  ⟨by decide, by decide,
    (C32_failing_pin_keeps_frames "pool.bin" 2 0 0 freshStorage [Op.pin 0, Op.pin 1]
      { pageNum := 0, data := none } 2 (by decide) (by decide)).1,
    (C32_failing_pin_keeps_frames "pool.bin" 2 0 0 freshStorage [Op.pin 0, Op.pin 1]
      { pageNum := 0, data := none } 2 (by decide) (by decide)).2.1⟩

/-- A successful `pinPage` for a page that no frame holds replaces the
frame at one index and leaves every other frame and the write counter as they
were. -/
theorem pinPage_one_frame {bm : BM_BufferPool} {s : Storage} {k : Nat}
    (hinv : Inv bm.mgmtData s k) (page : BM_PageHandle) (p : Int)
    (hnew : ∀ i, i < bm.mgmtData.max_entries → (bm.mgmtData.frame i).page_num ≠ p)
    (hok : (pinPage bm s page p).1 = some RC.RC_OK) :
    ∃ i, i < bm.mgmtData.max_entries ∧
      ((pinPage bm s page p).2.1.mgmtData.frame i).page_num = p ∧
      (bm.mgmtData.frame i).page_num ≠ p ∧
      ((pinPage bm s page p).2.1.mgmtData.frame i).fix_count = 1 ∧
      ((pinPage bm s page p).2.1.mgmtData.frame i).page_dirty = 0 ∧
      ((bm.mgmtData.frame i).page_num = -1 ∨ (bm.mgmtData.frame i).fix_count = 0) ∧
      (∀ j, j ≠ i → (pinPage bm s page p).2.1.mgmtData.frame j = bm.mgmtData.frame j) ∧
      getNumWriteIO (pinPage bm s page p).2.1 = getNumWriteIO bm ∧
      getNumReadIO (pinPage bm s page p).2.1 = getNumReadIO bm + 1 := by
  have hlen := hinv.len
  rcases pinPage_cases hinv page p with h | ⟨i, hi, hp, _⟩ | ⟨hk, _, _, h⟩ |
    ⟨hkN, hN, _, _, _, t, _, _, hfree, h⟩
  · exact absurd hok h.1
  · exact absurd hp (hnew i (by have := hinv.hk; omega))
  · have hkl : k < bm.mgmtData.Page_Frame.length := by omega
    refine ⟨k, hk, ?_, hnew k hk, ?_, ?_, Or.inl ?_, ?_, ?_, ?_⟩
    · rw [h]; simp only; rw [frame_mk_set, if_pos ⟨rfl, hkl⟩]
    · rw [h]; simp only; rw [frame_mk_set, if_pos ⟨rfl, hkl⟩]
    · rw [h]; simp only; rw [frame_mk_set, if_pos ⟨rfl, hkl⟩]
    · rw [hinv.emp k (le_refl k)]; rfl
    · intro j hj
      rw [h]; simp only
      rw [frame_mk_set, if_neg (by rintro ⟨e, _⟩; exact hj e.symm)]
      rfl
    · rw [h]; rfl
    · rw [h]; rfl
  · have hv : (bm.mgmtData.head + t) % k < k := Nat.mod_lt _ hN
    have hvl : (bm.mgmtData.head + t) % k < bm.mgmtData.Page_Frame.length := by omega
    refine ⟨(bm.mgmtData.head + t) % k, by omega, ?_, hnew _ (by omega), ?_, ?_,
      Or.inr hfree, ?_, ?_, ?_⟩
    · rw [h]; simp only; rw [frame_mk_set, if_pos ⟨rfl, hvl⟩]
    · rw [h]; simp only; rw [frame_mk_set, if_pos ⟨rfl, hvl⟩]
    · rw [h]; simp only; rw [frame_mk_set, if_pos ⟨rfl, hvl⟩]
    · intro j hj
      rw [h]; simp only
      rw [frame_mk_set, if_neg (by rintro ⟨e, _⟩; exact hj e.symm)]
      rfl
    · rw [h]; rfl
    · rw [h]; rfl

/-- C34: in every reachable pool state, a `pinPage p` that returns `RC_OK`
for a page no frame holds changes the page number of exactly one frame,
which was empty or unpinned and now holds `p` with fix count 1; every other
frame keeps its page number, fix count, dirty flag and contents, and
`getNumWriteIO` is unchanged. -/
theorem C34_load_changes_one_frame (pageFileName : String) (numPages : Nat)
    (strategy : ReplacementStrategy) (w r : Int) (s0 : Storage) (ops : List Op)
    (page : BM_PageHandle) (p : Int)
    (hnew : ∀ i, i < numPages →
      ((run (initState pageFileName numPages strategy w r s0) ops).bm.mgmtData.frame
        i).page_num ≠ p)
    (hok : (pinPage (run (initState pageFileName numPages strategy w r s0) ops).bm
      (run (initState pageFileName numPages strategy w r s0) ops).sm page p).1
        = some RC.RC_OK) :
    let st := run (initState pageFileName numPages strategy w r s0) ops
    let res := pinPage st.bm st.sm page p
    ∃ i, i < numPages ∧
      (res.2.1.mgmtData.frame i).page_num = p ∧
      (st.bm.mgmtData.frame i).page_num ≠ p ∧
      (res.2.1.mgmtData.frame i).fix_count = 1 ∧
      (res.2.1.mgmtData.frame i).page_dirty = 0 ∧
      ((st.bm.mgmtData.frame i).page_num = -1 ∨ (st.bm.mgmtData.frame i).fix_count = 0) ∧
      (∀ j, j ≠ i → res.2.1.mgmtData.frame j = st.bm.mgmtData.frame j) ∧
      getNumWriteIO res.2.1 = getNumWriteIO st.bm ∧
      getNumReadIO res.2.1 = getNumReadIO st.bm + 1 := by
  obtain ⟨k, hinv⟩ := Inv.run pageFileName numPages strategy w r s0 ops
  have hmax := (run_init_static pageFileName numPages strategy w r s0 ops).2
  have := pinPage_one_frame hinv page p (by rw [hmax]; exact hnew) hok
  rw [hmax] at this
  exact this

/-- Instance of C34: page 2 is pinned into a two-frame FIFO pool that holds
page 0 unpinned and page 1 pinned; frame 0 receives page 2. -/
theorem C34_load_changes_one_frame_witness :
    (∀ i, i < 2 →
      ((run fifo2 [Op.pin 0, Op.unpin 0, Op.pin 1]).bm.mgmtData.frame i).page_num ≠ 2) ∧
    (pinPage (run fifo2 [Op.pin 0, Op.unpin 0, Op.pin 1]).bm
      (run fifo2 [Op.pin 0, Op.unpin 0, Op.pin 1]).sm { pageNum := 0, data := none } 2).1
      = some RC.RC_OK ∧
    ((pinPage (run fifo2 [Op.pin 0, Op.unpin 0, Op.pin 1]).bm
      (run fifo2 [Op.pin 0, Op.unpin 0, Op.pin 1]).sm
      { pageNum := 0, data := none } 2).2.1.mgmtData.frame 0).page_num = 2 ∧
    ∃ i, i < 2 ∧
      ((pinPage (run fifo2 [Op.pin 0, Op.unpin 0, Op.pin 1]).bm
        (run fifo2 [Op.pin 0, Op.unpin 0, Op.pin 1]).sm
        { pageNum := 0, data := none } 2).2.1.mgmtData.frame i).page_num = 2 ∧
      ((run fifo2 [Op.pin 0, Op.unpin 0, Op.pin 1]).bm.mgmtData.frame i).page_num ≠ 2 ∧
      ((pinPage (run fifo2 [Op.pin 0, Op.unpin 0, Op.pin 1]).bm
        (run fifo2 [Op.pin 0, Op.unpin 0, Op.pin 1]).sm
        { pageNum := 0, data := none } 2).2.1.mgmtData.frame i).fix_count = 1 ∧
      ((pinPage (run fifo2 [Op.pin 0, Op.unpin 0, Op.pin 1]).bm
        (run fifo2 [Op.pin 0, Op.unpin 0, Op.pin 1]).sm
        { pageNum := 0, data := none } 2).2.1.mgmtData.frame i).page_dirty = 0 ∧
      (((run fifo2 [Op.pin 0, Op.unpin 0, Op.pin 1]).bm.mgmtData.frame i).page_num = -1 ∨
        ((run fifo2 [Op.pin 0, Op.unpin 0, Op.pin 1]).bm.mgmtData.frame i).fix_count = 0) ∧
      (∀ j, j ≠ i →
        (pinPage (run fifo2 [Op.pin 0, Op.unpin 0, Op.pin 1]).bm
          (run fifo2 [Op.pin 0, Op.unpin 0, Op.pin 1]).sm
          { pageNum := 0, data := none } 2).2.1.mgmtData.frame j
        = (run fifo2 [Op.pin 0, Op.unpin 0, Op.pin 1]).bm.mgmtData.frame j) ∧
      getNumWriteIO (pinPage (run fifo2 [Op.pin 0, Op.unpin 0, Op.pin 1]).bm
        (run fifo2 [Op.pin 0, Op.unpin 0, Op.pin 1]).sm { pageNum := 0, data := none } 2).2.1
        = getNumWriteIO (run fifo2 [Op.pin 0, Op.unpin 0, Op.pin 1]).bm ∧
      getNumReadIO (pinPage (run fifo2 [Op.pin 0, Op.unpin 0, Op.pin 1]).bm
        (run fifo2 [Op.pin 0, Op.unpin 0, Op.pin 1]).sm { pageNum := 0, data := none } 2).2.1
        = getNumReadIO (run fifo2 [Op.pin 0, Op.unpin 0, Op.pin 1]).bm + 1 :=
  ⟨by decide, by decide, by decide,
    C34_load_changes_one_frame "pool.bin" 2 ReplacementStrategy.RS_FIFO 0 0 freshStorage
      [Op.pin 0, Op.unpin 0, Op.pin 1] { pageNum := 0, data := none } 2
      (by decide) (by decide)⟩

/-- A failing `pinPage` on a FIFO pool whose frames are all occupied and
pinned: the eviction loop of `FIFO` makes `max_entries + 2` failed `dequeue`
calls, and each of them advances `head` and `tail` by one frame. -/
theorem all_pinned_moves_head {bm : BM_BufferPool} {s : Storage} {k : Nat}
    (hinv : Inv bm.mgmtData s k) (page : BM_PageHandle) (p : Int)
    (hF : bm.strategy = ReplacementStrategy.RS_FIFO)
    (hN : 0 < bm.mgmtData.max_entries) (hok : preludeRC p s = RC.RC_OK)
    (hall : ∀ i, i < bm.mgmtData.max_entries →
      (bm.mgmtData.frame i).page_num ≠ -1 ∧ 0 < (bm.mgmtData.frame i).fix_count)
    (hnew : ∀ i, i < bm.mgmtData.max_entries → (bm.mgmtData.frame i).page_num ≠ p) :
    (pinPage bm s page p).2.1.mgmtData.head
      = (bm.mgmtData.head + (bm.mgmtData.max_entries + 1) + 1) % bm.mgmtData.max_entries ∧
    (pinPage bm s page p).2.1.mgmtData.tail
      = (bm.mgmtData.head + (bm.mgmtData.max_entries + 1) + 1) % bm.mgmtData.max_entries ∧
    (pinPage bm s page p).2.1.mgmtData.num_entries = bm.mgmtData.num_entries := by
  have hk : k = bm.mgmtData.max_entries := by
    have h1 := hinv.hk
    by_contra hne
    have hlt : k < bm.mgmtData.max_entries := by omega
    have := (hinv.occupied k).mp (hall k hlt).1
    omega
  subst hk
  rcases FIFO_full hinv page p hok rfl hN hnew with ⟨t, _, _, hfree, _⟩ | ⟨_, heq⟩
  · have hv : (bm.mgmtData.head + t) % bm.mgmtData.max_entries < bm.mgmtData.max_entries :=
      Nat.mod_lt _ hN
    have h2 := (hall _ hv).2
    rw [hfree] at h2
    exact absurd h2 (by decide)
  · unfold pinPage
    rw [if_pos hF]
    simp only [heq]
    exact ⟨rfl, rfl, rfl⟩

/-- C33, evaluated on the code: pages 0, 1 and 2 are pinned in a three-frame
FIFO pool, so that every frame is occupied and pinned and `head = tail = 0`,
`num_entries = 3`.  `pinPage 3` fails with `RC_FILE_NOT_FOUND`; afterwards
`num_entries` is still 3 but `head = tail = 2`, because each of the five
failed `dequeue` calls advanced both indices.  Once the three pages are
unpinned, the next `pinPage 3` evicts page 2 from frame 2, whereas without the
failing call it evicts page 0 from frame 0. -/
theorem C33_failing_pin_moves_head :
    (∀ i, i < 3 →
      ((run fifo3 [Op.pin 0, Op.pin 1, Op.pin 2]).bm.mgmtData.frame i).page_num ≠ -1 ∧
      0 < ((run fifo3 [Op.pin 0, Op.pin 1, Op.pin 2]).bm.mgmtData.frame i).fix_count) ∧
    (run fifo3 [Op.pin 0, Op.pin 1, Op.pin 2]).bm.mgmtData.head = 0 ∧
    (run fifo3 [Op.pin 0, Op.pin 1, Op.pin 2]).bm.mgmtData.tail = 0 ∧
    (run fifo3 [Op.pin 0, Op.pin 1, Op.pin 2]).bm.mgmtData.num_entries = 3 ∧
    (pinPage (run fifo3 [Op.pin 0, Op.pin 1, Op.pin 2]).bm
      (run fifo3 [Op.pin 0, Op.pin 1, Op.pin 2]).sm { pageNum := 0, data := none } 3).1
      = some RC.RC_FILE_NOT_FOUND ∧
    (pinPage (run fifo3 [Op.pin 0, Op.pin 1, Op.pin 2]).bm
      (run fifo3 [Op.pin 0, Op.pin 1, Op.pin 2]).sm
      { pageNum := 0, data := none } 3).2.1.mgmtData.head = 2 ∧
    (pinPage (run fifo3 [Op.pin 0, Op.pin 1, Op.pin 2]).bm
      (run fifo3 [Op.pin 0, Op.pin 1, Op.pin 2]).sm
      { pageNum := 0, data := none } 3).2.1.mgmtData.tail = 2 ∧
    (pinPage (run fifo3 [Op.pin 0, Op.pin 1, Op.pin 2]).bm
      (run fifo3 [Op.pin 0, Op.pin 1, Op.pin 2]).sm
      { pageNum := 0, data := none } 3).2.1.mgmtData.num_entries = 3 ∧
    (List.range 3).map (fun i =>
      ((run fifo3 [Op.pin 0, Op.pin 1, Op.pin 2, Op.pin 3,
        Op.unpin 0, Op.unpin 1, Op.unpin 2, Op.pin 3]).bm.mgmtData.frame i).page_num)
      = [0, 1, 3] ∧
    (List.range 3).map (fun i =>
      ((run fifo3 [Op.pin 0, Op.pin 1, Op.pin 2,
        Op.unpin 0, Op.unpin 1, Op.unpin 2, Op.pin 3]).bm.mgmtData.frame i).page_num)
      = [3, 1, 2] := by
  refine ⟨by decide, by decide, by decide, by decide, by decide, by decide, by decide,
    by decide, by decide, by decide⟩
/-! ## Attribute offsets against the size of a record -/

theorem prefixBytes_succ (z : TypeSizes) (schema : Schema) (n : Nat) :
    prefixBytes z schema (n + 1) = prefixBytes z schema n + attrBytes z schema n := by
  unfold prefixBytes
  rw [List.range_succ, List.map_append, List.sum_append]
  simp

theorem prefixBytes_mono (z : TypeSizes) (schema : Schema) (h : schema.WellFormed)
    (a b : Nat) (hab : a ≤ b) (hb : b ≤ schema.numAttr.toNat) :
    prefixBytes z schema a ≤ prefixBytes z schema b := by
  induction b with
  | zero =>
    have : a = 0 := by omega
    rw [this]
  | succ b ih =>
    by_cases hEq : a = b + 1
    · rw [hEq]
    · have h1 := ih (by omega) (by omega)
      have h2 : 0 ≤ attrBytes z schema b := by
        unfold attrBytes
        split
        · exact Int.ofNat_nonneg _
        · exact Int.ofNat_nonneg _
        · exact Int.ofNat_nonneg _
        · exact h.nonneg b (by omega)
        · exact le_refl 0
      rw [prefixBytes_succ]
      omega

/-- The loop of `getRecordSize` adds up the bytes of the attributes. -/
theorem getRecordSize_eq (z : TypeSizes) (schema : Schema) :
    getRecordSize z schema = prefixBytes z schema schema.numAttr.toNat := by
  unfold getRecordSize
  generalize schema.numAttr.toNat = n
  induction n with
  | zero => rfl
  | succ n ih =>
    rw [List.range_succ, List.foldl_append, ih, prefixBytes_succ]
    simp only [List.foldl_cons, List.foldl_nil]
    unfold attrBytes
    cases schema.dataType n <;> simp

/-- The loop of `get_attribute_offset` adds the bytes of the attributes
before `attrNum` to the initial offset 1. -/
theorem get_attribute_offset_eq (z : TypeSizes) (schema : Schema) (attrNum : Int)
    (h : ∀ i, i < attrNum.toNat → schema.dataType i ≠ DataType.DT_OTHER) :
    get_attribute_offset z schema attrNum = some (1 + prefixBytes z schema attrNum.toNat) := by
  unfold get_attribute_offset
  generalize attrNum.toNat = n at h
  induction n with
  | zero => rfl
  | succ n ih =>
    rw [List.range_succ, List.foldl_append, ih (fun i hi => h i (by omega)), prefixBytes_succ]
    simp only [List.foldl_cons, List.foldl_nil]
    have hn := h n (by omega)
    unfold attrBytes
    cases hd : schema.dataType n
    · simp [add_assoc]
    · simp [add_assoc]
    · simp [add_assoc]
    · simp [add_assoc]
    · exact absurd hd hn

theorem attrAccessLength_eq (z : TypeSizes) (schema : Schema) (k : Nat)
    (h : schema.dataType k ≠ DataType.DT_OTHER) :
    attrAccessLength z schema k = some (attrBytes z schema k) := by
  unfold attrAccessLength attrBytes
  cases hd : schema.dataType k
  · simp
  · simp
  · simp
  · simp
  · exact absurd hd h

/-- For every well-formed schema and every attribute `k`, the bytes that
`getAttr` and `setAttr` access start at offset 1 plus the bytes of the
attributes before `k`, and end one byte past the bytes of the attributes up
to `k`; for the last attribute the end is one byte past the
`getRecordSize` bytes that `createRecord` allocates. -/
theorem attribute_extent (z : TypeSizes) (schema : Schema) (h : schema.WellFormed)
    (k : Nat) (hk : k < schema.numAttr.toNat) :
    get_attribute_offset z schema (k : Int) = some (1 + prefixBytes z schema k) ∧
    attrAccessLength z schema k = some (attrBytes z schema k) ∧
    1 + prefixBytes z schema k + attrBytes z schema k = 1 + prefixBytes z schema (k + 1) ∧
    prefixBytes z schema (k + 1) ≤ createRecord_dataSize z schema ∧
    (k + 1 = schema.numAttr.toNat →
      1 + prefixBytes z schema k + attrBytes z schema k = createRecord_dataSize z schema + 1) := by
  have hoff := get_attribute_offset_eq z schema (k : Int)
    (fun i hi => h.named i (by simp only [Int.toNat_ofNat] at hi; omega))
  simp only [Int.toNat_ofNat] at hoff
  have hsz : createRecord_dataSize z schema = prefixBytes z schema schema.numAttr.toNat :=
    getRecordSize_eq z schema
  refine ⟨hoff, attrAccessLength_eq z schema k (h.named k hk), ?_, ?_, ?_⟩
  · rw [prefixBytes_succ]
    ring
  · rw [hsz]
    exact prefixBytes_mono z schema h (k + 1) _ (by omega) (le_refl _)
  · intro hlast
    rw [hsz, ← hlast, prefixBytes_succ]
    ring

/-- C37, evaluated on the code: for a schema with one `DT_INT` attribute and
four-byte `int`, `createRecord` allocates 4 bytes while `getAttr` and
`setAttr` access the 4 bytes from offset 1, the last of which lies past the
allocation; in a schema with an integer, a four-byte string and a boolean
(9 bytes allocated) the boolean is accessed at offset 9, the first byte past
the allocation. -/
theorem C37_last_attribute_past_allocation :
    createRecord_dataSize commonSizes oneInt = 4 ∧
    get_attribute_offset commonSizes oneInt 0 = some 1 ∧
    attrAccessLength commonSizes oneInt 0 = some 4 ∧
    createRecord_dataSize commonSizes oneInt < 1 + 4 ∧
    createRecord_dataSize commonSizes intStringBool = 9 ∧
    get_attribute_offset commonSizes intStringBool 0 = some 1 ∧
    get_attribute_offset commonSizes intStringBool 1 = some 5 ∧
    get_attribute_offset commonSizes intStringBool 2 = some 9 ∧
    attrAccessLength commonSizes intStringBool 2 = some 1 ∧
    createRecord_dataSize commonSizes intStringBool < 9 + 1 := by
  refine ⟨by decide, by decide, by decide, by decide, by decide, by decide, by decide,
    by decide, by decide, by decide⟩

end Assign3
